import Mathlib

/-!
# pgvertica: a verification development

A shallow embedding of the query classifier / rewriter (`query_utils.go`), the
prepared statements (`prepared_statement.go`), the command tags (`utils.go`),
the cursors (`cursor.go`) and the cursor part of the query executor
(`query_executor.go`).

Go strings are modelled as lists of characters (`Str`).  Substring search on
the bytes of valid UTF-8 text agrees with substring search on its code
points, so `strings.Contains`, `strings.HasPrefix`, `strings.Split` and
`strings.Replace` are modelled on `List Char`.  Case mapping (`toUpper`,
`toLower`, `foldEq`) is the ASCII part of `unicode.ToUpper`,
`unicode.ToLower` and of the case folding of `regexp`; where a result hangs
on the case of characters outside ASCII (`isDataQuery`, `rewriteQueryBy`),
the mapping is a parameter of the model.
-/

namespace PgVertica

/-- A Go string, as the list of its characters. -/
abbrev Str := List Char

/-! ## The `strings` package -/

/-- ASCII part of `unicode.ToUpper`. -/
def upperChar (c : Char) : Char :=
  if 'a' ≤ c ∧ c ≤ 'z' then Char.ofNat (c.toNat - 32) else c

/-- ASCII part of `unicode.ToLower`, and the Kelvin sign U+212A, which it
maps to `k`: the one character outside ASCII that a class of ASCII letters
matches under `(?i)` and that `ToLower` changes. -/
def lowerChar (c : Char) : Char :=
  if 'A' ≤ c ∧ c ≤ 'Z' then Char.ofNat (c.toNat + 32)
  else if c.toNat = 0x212A then 'k' else c

/-- Model of `strings.ToUpper`. -/
def toUpper (s : Str) : Str := s.map upperChar

/-- Model of `strings.ToLower`. -/
def toLower (s : Str) : Str := s.map lowerChar

/-- Model of `unicode.IsSpace` (the Unicode White_Space property). -/
def isSpace (c : Char) : Bool :=
  let n := c.toNat
  n == 0x20 || (0x09 ≤ n && n ≤ 0x0D) || n == 0x85 || n == 0xA0 || n == 0x1680 ||
  (0x2000 ≤ n && n ≤ 0x200A) || n == 0x2028 || n == 0x2029 || n == 0x202F ||
  n == 0x205F || n == 0x3000

/-- Drop the trailing characters that satisfy `p`. -/
def trimRightFunc (p : Char → Bool) (s : Str) : Str :=
  (s.reverse.dropWhile p).reverse

/-- Model of `strings.TrimSpace`. -/
def trimSpace (s : Str) : Str :=
  trimRightFunc isSpace (s.dropWhile isSpace)

/-- Model of `strings.Trim(s, cutset)`. -/
def trim (s cutset : Str) : Str :=
  trimRightFunc (fun c => cutset.contains c) (s.dropWhile (fun c => cutset.contains c))

/-- Model of `strings.HasPrefix(s, p)`. -/
def hasPrefix (s p : Str) : Bool := p.isPrefixOf s

/-- Model of `strings.Cut(s, sep)`: the text before and after the first
occurrence of `sep`, when there is one. -/
def cut (sep : Str) : Str → Option (Str × Str)
  | [] => if sep.isEmpty then some ([], []) else none
  | c :: t =>
    if sep.isPrefixOf (c :: t) then some ([], (c :: t).drop sep.length)
    else (cut sep t).map (fun r => (c :: r.1, r.2))

/-- Model of `strings.Contains(s, sub)`. -/
def contains (s sub : Str) : Bool := (cut sub s).isSome

/-- Model of `strings.Replace(s, old, new, 1)`. -/
def replaceFirst (s old new : Str) : Str :=
  match cut old s with
  | none => s
  | some (b, a) => b ++ new ++ a

/-! ## `query_utils.go`: the classifier -/

/-- The denylist `postgresTechnicalTables`. -/
def postgresTechnicalTables : List Str :=
  [ "PG_AGGREGATE".toList, "PG_AM".toList, "PG_AMOP".toList, "PG_AMPROC".toList,
    "PG_ATTRDEF".toList, "PG_ATTRIBUTE".toList, "PG_AUTH_MEMBERS".toList,
    "PG_AUTHID".toList, "PG_CAST".toList, "PG_CLASS".toList, "PG_COLLATION".toList,
    "PG_CONSTRAINT".toList, "PG_CONVERSION".toList, "PG_DATABASE".toList,
    "PG_ENUM".toList, "PG_FOREIGN_DATA_WRAPPER".toList, "PG_FOREIGN_SERVER".toList,
    "PG_FOREIGN_TABLE".toList, "PG_INDEX".toList, "PG_INHERITS".toList,
    "PG_LANGUAGE".toList, "PG_LARGEOBJECT".toList, "PG_LARGEOBJECT_METADATA".toList,
    "PG_NAMESPACE".toList, "PG_OPCLASS".toList, "PG_OPERATOR".toList,
    "PG_OPFAMILY".toList, "PG_PLTEMPLATE".toList, "PG_PROC".toList,
    "PG_REWRITE".toList, "PG_SHDEPEND".toList, "PG_SHDESCRIPTION".toList,
    "PG_STATISTIC".toList, "PG_TABLESPACE".toList, "PG_TRIGGER".toList,
    "PG_TS_CONFIG".toList, "PG_TS_CONFIG_MAP".toList, "PG_TS_DICT".toList,
    "PG_TS_PARSER".toList, "PG_TS_TEMPLATE".toList, "PG_TYPE".toList,
    "PG_USER_MAPPING".toList, "PG_DIST_NODE".toList, "INFORMATION_SCHEMA".toList ]

/-- The loop over `postgresTechnicalTables` of `isDataQuery`: true when the
loop reaches a name contained in the text (the early `return false`). -/
def hitsTechnicalTable (normalizedQuery : Str) : List Str → Bool
  | [] => false
  | tableName :: rest =>
    if contains normalizedQuery tableName then true
    else hitsTechnicalTable normalizedQuery rest

/-- Model of `strings.ToUpper` with the mapping `unicode.ToUpper` of single
characters given: `strings.ToUpper` maps every character of the text by it. -/
def toUpperBy (toUpperRune : Char → Char) (s : Str) : Str := s.map toUpperRune

/-- The loop over the synchronized schemas of `isDataQuery`, threading the
flag `containsSynchronizedSchema`. -/
def schemaLoop (toUpperRune : Char → Char) (normalizedQuery : Str) : Bool → List Str → Bool
  | flag, [] => flag
  | flag, schema :: rest =>
    let schemaUpper := toUpperBy toUpperRune schema
    if contains normalizedQuery schemaUpper then schemaLoop toUpperRune normalizedQuery true rest
    else schemaLoop toUpperRune normalizedQuery flag rest

/-- Model of `QueryUtil.isDataQuery`.  The mapping `unicode.ToUpper` of the
characters is a parameter of the model (`toUpperRune`); `upperChar` is its
ASCII part. -/
def isDataQuery (toUpperRune : Char → Char) (query : Str) (synchronizedSchemas : List Str) :
    Bool :=
  let normalizedQuery := trimSpace (toUpperBy toUpperRune query)
  if hitsTechnicalTable normalizedQuery postgresTechnicalTables then false
  else if hasPrefix normalizedQuery "SELECT".toList then
    let containsSynchronizedSchema :=
      schemaLoop toUpperRune normalizedQuery false synchronizedSchemas
    containsSynchronizedSchema && contains normalizedQuery "FROM".toList
  else false

/-! ## More of the `strings`, `fmt` and `strconv` packages -/

/-- The `%d` verb of `fmt` on a natural number. -/
def fmtNat (n : Nat) : Str := Nat.toDigits 10 n

/-- The `%d` verb of `fmt` on an integer. -/
def fmtInt : Int → Str
  | Int.ofNat n => fmtNat n
  | Int.negSucc n => '-' :: fmtNat (n + 1)

/-- Worker of `split`: at most `fuel` cuts. -/
def splitFuel (sep : Str) : Nat → Str → List Str
  | 0, s => [s]
  | fuel + 1, s =>
    match cut sep s with
    | none => [s]
    | some (b, a) => b :: splitFuel sep fuel a

/-- Model of `strings.Split(s, sep)` for a non-empty separator (all call
sites pass a literal one).  A text of length `n` holds at most `n`
separators, so the fuel is never exhausted. -/
def split (s sep : Str) : List Str := splitFuel sep s.length s

/-- Model of `strings.Join(elems, sep)`. -/
def join : List Str → Str → Str
  | [], _ => []
  | [a], _ => a
  | a :: b :: rest, sep => a ++ sep ++ join (b :: rest) sep

/-- Value of a decimal digit character. -/
def digitVal (c : Char) : Option Nat :=
  if '0' ≤ c ∧ c ≤ '9' then some (c.toNat - 48) else none

/-- Worker of `atoi`: accumulate decimal digits. -/
def atoiDigits : Nat → Str → Option Nat
  | acc, [] => some acc
  | acc, c :: t =>
    match digitVal c with
    | none => none
    | some d => atoiDigits (acc * 10 + d) t

/-- Largest value of the Go type `int` on a 64-bit platform. -/
def maxInt : Nat := 2 ^ 63 - 1

/-- Model of `strconv.Atoi` on an unsigned numeral (the only input it gets
here, from the `\d+` group): syntax error on a non-digit or on the empty
text, range error above `maxInt`. -/
def atoi (s : Str) : Option Nat :=
  if s.isEmpty then none
  else match atoiDigits 0 s with
    | none => none
    | some n => if n ≤ maxInt then some n else none

/-! ## The `regexp` package: a backtracking matcher with captures

Go's `regexp` returns the leftmost match and, among the matches that start
there, the one a backtracking search finds first.  The matcher below is that
search, written in continuation-passing style. -/

/-- Regular expressions (the constructs that occur in `query_utils.go`). -/
inductive Regex where
  | eps : Regex
  | chr (p : Char → Bool) : Regex
  | seq (a b : Regex) : Regex
  | alt (a b : Regex) : Regex
  | star (greedy : Bool) (a : Regex) : Regex
  | group (i : Nat) (a : Regex) : Regex

/-- The capture groups set so far: index and captured text, latest first. -/
abbrev Caps := List (Nat × Str)

/-- Continuations and results of the matcher: remaining input and captures. -/
abbrev MatchCont := Str → Caps → Option (Str × Caps)

/-- First alternative if it succeeds, else the second. -/
def firstOf (x y : Option (Str × Caps)) : Option (Str × Caps) :=
  match x with
  | some r => some r
  | none => y

/-- The loop of a starred expression; `step` matches the body once.  Each
round must consume input, so `fuel` = length of the input suffices. -/
def starLoop (step : MatchCont → MatchCont) (greedy : Bool) (k : MatchCont) :
    Nat → MatchCont
  | 0, s, c => k s c
  | fuel + 1, s, c =>
    let more := step (fun s1 c1 =>
      if s1.length < s.length then starLoop step greedy k fuel s1 c1 else none) s c
    if greedy then firstOf more (k s c) else firstOf (k s c) more

/-- Backtracking match of `r` at the head of the input, then `k`. -/
def matchRe : Regex → MatchCont → MatchCont
  | Regex.eps, k => fun s c => k s c
  | Regex.chr p, k => fun s c =>
    match s with
    | [] => none
    | x :: t => if p x then k t c else none
  | Regex.seq a b, k => matchRe a (matchRe b k)
  | Regex.alt a b, k => fun s c => firstOf (matchRe a k s c) (matchRe b k s c)
  | Regex.star greedy a, k => fun s c => starLoop (matchRe a) greedy k s.length s c
  | Regex.group i a, k => fun s c =>
    matchRe a (fun s1 c1 => k s1 ((i, s.take (s.length - s1.length)) :: c1)) s c

/-- Match at the head of the input: the rest of the input and the groups. -/
def matchHere (r : Regex) (s : Str) : Option (Str × Caps) :=
  matchRe r (fun s1 c1 => some (s1, c1)) s []

/-- Leftmost match: the text before it, the matched text, the text after it
and the groups. -/
def findFirst (r : Regex) : Str → Option (Str × Str × Str × Caps)
  | [] =>
    match matchHere r [] with
    | some (rest, c) => some ([], [], rest, c)
    | none => none
  | x :: t =>
    match matchHere r (x :: t) with
    | some (rest, c) => some ([], (x :: t).take ((x :: t).length - rest.length), rest, c)
    | none =>
      match findFirst r t with
      | some (pre, m, rest, c) => some (x :: pre, m, rest, c)
      | none => none

/-- Model of `Regexp.MatchString`. -/
def matchString (r : Regex) (s : Str) : Bool := (findFirst r s).isSome

/-- Text of group `i`, the empty text when the group did not take part. -/
def capture (c : Caps) (i : Nat) : Str :=
  match c.find? (fun e => e.1 == i) with
  | some e => e.2
  | none => []

/-- Model of `Regexp.FindStringSubmatch` for an expression with `n` groups:
the match and the `n` group texts, or `none` (Go: `nil`) without a match. -/
def findStringSubmatch (r : Regex) (n : Nat) (s : Str) : Option (List Str) :=
  match findFirst r s with
  | none => none
  | some (_, m, _, c) => some (m :: (List.range n).map (fun i => capture c (i + 1)))

/-- One or more, greedy: `a+`. -/
def Regex.plus (a : Regex) : Regex := Regex.seq a (Regex.star true a)

/-- Zero or one, preferring one: `a?`. -/
def Regex.opt (a : Regex) : Regex := Regex.alt a Regex.eps

/-- A literal text. -/
def Regex.lit : Str → Regex
  | [] => Regex.eps
  | [x] => Regex.chr (fun c => c == x)
  | x :: t => Regex.seq (Regex.chr (fun c => c == x)) (Regex.lit t)

/-- Case-insensitive match of one letter under the flag `(?i)`: the ASCII
letter in either case, and the two non-ASCII characters that fold to an
ASCII letter (U+017F to `s`, U+212A to `k`). -/
def foldEq (x c : Char) : Bool :=
  upperChar c == upperChar x ||
  (upperChar x == 'S' && c.toNat == 0x17F) ||
  (upperChar x == 'K' && c.toNat == 0x212A)

/-- A literal text under the flag `(?i)`. -/
def Regex.litFold : Str → Regex
  | [] => Regex.eps
  | [x] => Regex.chr (foldEq x)
  | x :: t => Regex.seq (Regex.chr (foldEq x)) (Regex.litFold t)

/-- The class `\d`. -/
def isDigitClass (c : Char) : Bool := decide ('0' ≤ c ∧ c ≤ '9')

/-- The class `\w` under the flag `(?i)`, under which every expression of
the source that holds it is compiled: digits, ASCII letters, `_`, and the two
non-ASCII characters that fold to an ASCII letter (U+017F, U+212A). -/
def isWordClass (c : Char) : Bool :=
  decide ('0' ≤ c ∧ c ≤ '9') || decide ('a' ≤ c ∧ c ≤ 'z') ||
  decide ('A' ≤ c ∧ c ≤ 'Z') || c == '_' || c.toNat == 0x17F || c.toNat == 0x212A

/-- The class `\s`. -/
def isSpaceClass (c : Char) : Bool :=
  c == '\t' || c == '\n' || c.toNat == 0x0C || c == '\r' || c == ' '

/-- The expression `limitRegexp`: `LIMIT (0|[1-9][0-9]*)`. -/
def limitRegexp : Regex :=
  Regex.seq (Regex.lit "LIMIT ".toList)
    (Regex.group 1
      (Regex.alt (Regex.chr (fun c => c == '0'))
        (Regex.seq (Regex.chr (fun c => decide ('1' ≤ c ∧ c ≤ '9')))
          (Regex.star true (Regex.chr isDigitClass)))))

/-- The expression `fetchQueryRegexp`:
`(?i)FETCH\s+(?P<Direction>\w+)?\s*(?P<Count>\d+)?\s*(FROM|IN)?\s*(?P<CursorName>\w+)?`. -/
def fetchQueryRegexp : Regex :=
  Regex.seq (Regex.litFold "FETCH".toList) <|
  Regex.seq (Regex.plus (Regex.chr isSpaceClass)) <|
  Regex.seq (Regex.opt (Regex.group 1 (Regex.plus (Regex.chr isWordClass)))) <|
  Regex.seq (Regex.star true (Regex.chr isSpaceClass)) <|
  Regex.seq (Regex.opt (Regex.group 2 (Regex.plus (Regex.chr isDigitClass)))) <|
  Regex.seq (Regex.star true (Regex.chr isSpaceClass)) <|
  Regex.seq (Regex.opt (Regex.group 3
    (Regex.alt (Regex.litFold "FROM".toList) (Regex.litFold "IN".toList)))) <|
  Regex.seq (Regex.star true (Regex.chr isSpaceClass)) <|
  Regex.opt (Regex.group 4 (Regex.plus (Regex.chr isWordClass)))

/-- The names of the groups of `fetchQueryRegexp` (`SubexpNames`). -/
def fetchSubexpNames : List Str :=
  [[], "Direction".toList, "Count".toList, [], "CursorName".toList]

/-! ## `query_utils.go`: normalisation, LIMIT injection, FETCH parsing -/

/-- The filter loop of `normalizeQuery`.  The source calls
`strings.HasPrefix("--", strings.TrimSpace(line))`, with the arguments in
this order. -/
def filterLines : List Str → List Str
  | [] => []
  | line :: rest =>
    if !hasPrefix "--".toList (trimSpace line) then line :: filterLines rest
    else filterLines rest

/-- Model of `QueryUtil.normalizeQuery`. -/
def normalizeQuery (query : Str) : Str :=
  let normalizedQuery := trimSpace (toUpper query)
  let lines := split normalizedQuery "\n".toList
  join (filterLines lines) "\n".toList

/-- Model of `QueryUtil.limitQuery`. -/
def limitQuery (query : Str) (limit : Int) : Str :=
  let normalizedQuery := normalizeQuery query
  if matchString limitRegexp normalizedQuery then query
  else
    let query1 := trim (trimSpace query) ";".toList
    query1 ++ " LIMIT ".toList ++ fmtInt limit

/-- The Go struct `FetchQuery`. -/
structure FetchQuery where
  Direction : Str
  Count : Nat
  CursorName : Str
deriving DecidableEq, Repr

/-- Failure of a call: an `error` value returned to the caller, or a run-time
panic (index out of range, nil dereference). -/
inductive Fault where
  | error (msg : Str) : Fault
  | panic (msg : Str) : Fault
deriving DecidableEq, Repr

/-- Read a key of a Go `map[string]string`: the empty text when absent. -/
def mapGet (m : List (Str × Str)) (key : Str) : Str :=
  match m.lookup key with
  | some v => v
  | none => []

/-- The loop of `parseFetchQuery` over `SubexpNames()`, filling `paramsMap`
(`matched` is the Go variable `match`, `i` the index of the next name). -/
def fillParamsMap (matched : List Str) : Nat → List Str → List (Str × Str) → List (Str × Str)
  | _, [], m => m
  | i, name :: rest, m =>
    if 0 < i ∧ i ≤ matched.length then
      fillParamsMap matched (i + 1) rest ((name, matched.getD i []) :: m)
    else fillParamsMap matched (i + 1) rest m

/-- Model of `QueryUtil.parseFetchQuery`. -/
def parseFetchQuery (query : Str) : Except Fault FetchQuery :=
  let matched : List Str := (findStringSubmatch fetchQueryRegexp 4 query).getD []
  let paramsMap := fillParamsMap matched 0 fetchSubexpNames []
  let countText := mapGet paramsMap "Count".toList
  let count : Except Fault Nat :=
    if countText ≠ [] then
      match atoi countText with
      | some n => Except.ok n
      | none => Except.error (Fault.error
          ("strconv.Atoi: parsing \"".toList ++ countText ++ "\": value out of range".toList))
    else Except.ok 0
  match count with
  | Except.error e => Except.error e
  | Except.ok n =>
    Except.ok
      { Direction := toUpper (mapGet paramsMap "Direction".toList)
        Count := n
        CursorName := mapGet paramsMap "CursorName".toList }

/-- Model of `QueryUtil.isFetchQuery`. -/
def isFetchQuery (query : Str) : Bool := matchString fetchQueryRegexp query

/-! ## `utils.go`: command tags -/

/-- Model of `getCommandTag`. -/
def getCommandTag (query : Str) : Str :=
  let query1 := toLower (trimSpace query)
  let command := (split query1 " ".toList).headD []
  if command = "insert".toList then "INSERT 0 1".toList
  else if command = "delete".toList then "DELETE 1".toList
  else if command = "update".toList then "UPDATE 1".toList
  else if command = "select".toList then "SELECT 1".toList
  else toUpper command

/-! ## `prepared_statement.go` -/

/-- A Go byte slice: a list of numbers below 256. -/
abbrev Bytes := List Nat

/-- The text of a payload of ASCII characters: one character per byte. -/
def bytesToStr (b : Bytes) : Str := b.map Char.ofNat

/-- The Go struct `PreparedStatement`.  A `nil` pointer is `none`; an element
of `binds` is an `interface{}`, `none` when it is `nil`. -/
structure PreparedStatement where
  name : Str
  query : Str
  parameterOIDs : List Nat
  parameters : Option (List Str)
  binds : Option (List (Option Str))
deriving DecidableEq, Repr

/-- Model of `PreparedStatement.getBinds`. -/
def PreparedStatement.getBinds (ps : PreparedStatement) : List (Option Str) :=
  match ps.binds with
  | none => List.replicate ps.parameterOIDs.length none
  | some b => b

/-- First loop of the mismatch branch of `getQuery`: for `i` from `i` to
`n - 1` replace the first `$<i+1>` by `null` (`todo` = rounds left). -/
def nullDollarLoop : Nat → Nat → Str → Str
  | 0, _, q => q
  | todo + 1, i, q =>
    nullDollarLoop todo (i + 1) (replaceFirst q ('$' :: fmtNat (i + 1)) "null".toList)

/-- Second loop of the mismatch branch of `getQuery`: `todo` times replace the
first `?` by `null`. -/
def nullQuestionLoop : Nat → Str → Str
  | 0, q => q
  | todo + 1, q => nullQuestionLoop todo (replaceFirst q "?".toList "null".toList)

/-- The loop of the matching branch of `getQuery` over the parameters, `i`
being the index of the first one left. -/
def substLoop : Nat → Str → List Str → Str
  | _, q, [] => q
  | i, q, arg :: rest =>
    let q1 := replaceFirst q "?".toList arg
    let q2 := replaceFirst q1 ('$' :: fmtNat (i + 1)) "null".toList
    substLoop (i + 1) q2 rest

/-- Model of `PreparedStatement.getQuery`. -/
def PreparedStatement.getQuery (ps : PreparedStatement) : Str :=
  if ps.parameterOIDs.length = 0 then ps.query
  else
    match ps.parameters with
    | none =>
      nullQuestionLoop ps.parameterOIDs.length
        (nullDollarLoop ps.parameterOIDs.length 0 ps.query)
    | some params =>
      if params.length ≠ ps.parameterOIDs.length then
        nullQuestionLoop ps.parameterOIDs.length
          (nullDollarLoop ps.parameterOIDs.length 0 ps.query)
      else substLoop 0 ps.query params

/-- Type OIDs of `pgtype` used by the source. -/
def BoolOID : Nat := 16
/-- Type OID of `bytea`. -/
def ByteaOID : Nat := 17
/-- Type OID of `int8`. -/
def Int8OID : Nat := 20
/-- Type OID of `int2`. -/
def Int2OID : Nat := 21
/-- Type OID of `int4`. -/
def Int4OID : Nat := 23
/-- Type OID of `text`. -/
def TextOID : Nat := 25
/-- Type OID of `float4`. -/
def Float4OID : Nat := 700
/-- Type OID of `float8`. -/
def Float8OID : Nat := 701
/-- Type OID of `bpchar`. -/
def BPCharOID : Nat := 1042
/-- Type OID of `varchar`. -/
def VarcharOID : Nat := 1043
/-- Type OID of `date`. -/
def DateOID : Nat := 1082
/-- Type OID of `time`. -/
def TimeOID : Nat := 1083
/-- Type OID of `timestamp`. -/
def TimestampOID : Nat := 1114

/-- Big-endian value of a byte slice (`binary.BigEndian.UintN`). -/
def bigEndian (b : Bytes) : Nat := b.foldl (fun acc x => acc * 256 + x) 0

/-- The conversion `int64(x)` of a `uint64`. -/
def toInt64 (x : Nat) : Int :=
  if x % 2 ^ 64 < 2 ^ 63 then Int.ofNat (x % 2 ^ 64) else Int.ofNat (x % 2 ^ 64) - 2 ^ 64

/-- What `parseParameter` takes from outside the embedding, as parameters of
the model: the rendering of floating-point numbers by `fmt.Sprint`, from the
bits of a `float32` and of a `float64`, and the conversion `string(param)` of
a payload to text, which reads the payload as UTF-8 (`text`; on a payload of
ASCII characters it is `bytesToStr`, the value given here). -/
structure FloatFmt where
  sprint32 : Nat → Str
  sprint64 : Nat → Str
  text : Bytes → Str := bytesToStr

/-- The error text of `parseParameter`. -/
def unsupportedMsg (format_code : Int) (parameterOID : Nat) : Str :=
  "unsupported format code or data type OID: format_code=".toList ++ fmtInt format_code ++
    ", dataTypeOID=".toList ++ fmtNat parameterOID

/-- Model of `parseParameter`.  `param[0]` on an empty slice panics. -/
def parseParameter (ff : FloatFmt) (format_code : Int) (parameterOID : Nat) (param : Bytes) :
    Except Fault Str :=
  let unsupported : Except Fault Str :=
    Except.error (Fault.error (unsupportedMsg format_code parameterOID))
  if format_code = 0 then Except.ok (ff.text param)
  else if format_code = 1 then
    if parameterOID = BoolOID then
      match param with
      | [] => Except.error (Fault.panic "index out of range [0] with length 0".toList)
      | b :: _ => if b = 0 then Except.ok "false".toList else Except.ok "true".toList
    else if parameterOID = Int2OID ∨ parameterOID = Int4OID ∨ parameterOID = Int8OID then
      if param.length = 2 then Except.ok (fmtNat (bigEndian param))
      else if param.length = 4 then Except.ok (fmtNat (bigEndian param))
      else if param.length = 8 then Except.ok (fmtInt (toInt64 (bigEndian param)))
      else unsupported
    else if parameterOID = Float4OID ∨ parameterOID = Float8OID then
      if param.length = 4 then Except.ok (ff.sprint32 (bigEndian param))
      else if param.length = 8 then Except.ok (ff.sprint64 (bigEndian param))
      else unsupported
    else if parameterOID = BPCharOID ∨ parameterOID = VarcharOID ∨ parameterOID = TextOID then
      Except.ok (ff.text param)
    else Except.ok (ff.text param)
  else unsupported

/-- The fields of `pgproto3.Bind` that the source reads. -/
structure Bind where
  PreparedStatement : Str
  ParameterFormatCodes : List Int
  Parameters : List Bytes
deriving DecidableEq, Repr

/-- The loop of `addParameters` from index `i` on; `todo` are the parameters
from `i` on, `params` the parsed texts so far.  The two index expressions
`msg.ParameterFormatCodes[i]` and `ps.parameterOIDs[i]` panic past the end. -/
def addParametersLoop (ff : FloatFmt) (codes : List Int) (oids : List Nat) :
    Nat → List Bytes → List Str → Except Fault (List Str)
  | _, [], params => Except.ok params
  | i, p :: todo, params =>
    match codes.get? i with
    | none => Except.error (Fault.panic "index out of range (ParameterFormatCodes)".toList)
    | some code =>
      match oids.get? i with
      | none => Except.error (Fault.panic "index out of range (parameterOIDs)".toList)
      | some oid =>
        match parseParameter ff code oid p with
        | Except.error e => Except.error e
        | Except.ok parsed => addParametersLoop ff codes oids (i + 1) todo (params ++ [parsed])

/-- Model of `PreparedStatement.addParameters`: the statement after the call,
or the fault (the statement is then as before). -/
def PreparedStatement.addParameters (ff : FloatFmt) (ps : PreparedStatement) (msg : Bind) :
    Except Fault PreparedStatement :=
  match addParametersLoop ff msg.ParameterFormatCodes ps.parameterOIDs 0 msg.Parameters [] with
  | Except.error e => Except.error e
  | Except.ok params =>
    Except.ok { ps with parameters := some params, binds := some (params.map some) }

/-! ## Protocol messages -/

/-- The fields of `pgproto3.FieldDescription` that vary (the others are the
constants 0, 0, -1, -1, 0 of `toRowDescription`). -/
structure FieldDescription where
  Name : Str
  DataTypeOID : Nat
deriving DecidableEq, Repr

/-- The backend messages the proxy sends (`pgproto3.Message`).  A `DataRow`
value is `none` for SQL NULL. -/
inductive Message where
  | RowDescription (fields : List FieldDescription) : Message
  | DataRow (values : List (Option Bytes)) : Message
  | CommandComplete (commandTag : Str) : Message
  | ReadyForQuery (txStatus : Char) : Message
  | ErrorResponse (severity code message : Str) : Message
  | EmptyQueryResponse : Message
  | ParseComplete : Message
  | BindComplete : Message
  | CloseComplete : Message
  | NoData : Message
  | ParameterDescription (oids : List Nat) : Message
  | ParameterStatus (name value : Str) : Message
deriving DecidableEq, Repr

/-- A column of a result set (`sql.ColumnType`): name and database type name. -/
structure ColumnType where
  Name : Str
  DatabaseTypeName : Str
deriving DecidableEq, Repr

/-- Model of `getTypeOID`. -/
def getTypeOID (databaseType : Str) : Nat :=
  if databaseType = "BOOL".toList then BoolOID
  else if databaseType ∈ ["INT4".toList, "INT8".toList, "BIGINT".toList, "INT32".toList,
      "INT2".toList, "INT".toList] then Int8OID
  else if databaseType ∈ ["OID".toList, "XID".toList, "INT2VECTOR".toList, "OIDVECTOR".toList,
      "_OID".toList, "_INT2".toList, "NAME".toList, "_ACLITEM".toList, "_TEXT".toList,
      "REGPROC".toList, "PG_NODE_TREE".toList] then TextOID
  else if databaseType ∈ ["FLOAT4".toList, "FLOAT8".toList, "DECIMAL".toList, "NUMERIC".toList,
      "FLOAT".toList] then Float8OID
  else if databaseType = "TIMESTAMP".toList then TimestampOID
  else if databaseType = "DATE".toList then DateOID
  else if databaseType = "TIME".toList then TimeOID
  else if databaseType ∈ ["VARCHAR".toList, "TEXT".toList, "CHAR".toList] then TextOID
  else if databaseType = "BYTEA".toList then ByteaOID
  else TextOID

/-- Model of `toRowDescription`. -/
def toRowDescription (cols : List ColumnType) : Message :=
  Message.RowDescription
    (cols.map (fun col => { Name := col.Name, DataTypeOID := getTypeOID col.DatabaseTypeName }))

/-! ## `cursor.go` -/

/-- The Go struct `Cursor` over backend rows of type `ρ`.  The iterator
`rows` is the list of the rows not yet read, `none` while the cursor is not
open (`nil`).  `scanFunc` encodes the current row or fails.

`allocLimit` is no field of the Go struct: it is the largest `n` for which
the Go runtime allocates the two slices of `fetch`,
`make([]pgproto3.Message, 0, n)` and `make([]int, n)`.  It belongs to the
platform the cursor lives on: at most `2 ^ 44` where an interface value takes
16 bytes and the heap is addressed by 48 bits (the value given here), less
when memory is short. -/
structure Cursor (ρ : Type) where
  name : Str
  query : Str
  scanFunc : ρ → List ColumnType → Except Str (List (Option Bytes))
  rows : Option (List ρ)
  columnTypes : List ColumnType
  allocLimit : Nat := 17592186044416

/-- The loop of `Cursor.fetch`: up to `n` rounds of `Next` and `scanFunc`.
Gives the scan result (the rows read, or the error) and the rows left in the
iterator. -/
def fetchLoop {ρ : Type} (scanFunc : ρ → List ColumnType → Except Str (List (Option Bytes)))
    (cols : List ColumnType) : Nat → List ρ → List Message → Except Str (List Message) × List ρ
  | 0, it, rows => (Except.ok rows, it)
  | _ + 1, [], rows => (Except.ok rows, [])
  | n + 1, r :: it, rows =>
    match scanFunc r cols with
    | Except.error e => (Except.error e, it)
    | Except.ok row => fetchLoop scanFunc cols n it (rows ++ [Message.DataRow row])

/-- Model of `Cursor.fetch`: the returned pair (messages or error) and the
cursor afterwards.  The two `make` calls come first: beyond what the runtime
allocates they do not return (`makeslice: cap out of range`, or the runtime
gives up for lack of memory), and no row is read.  On a cursor that is not
open, `c.rows.Next()` panics as soon as it is called (`n > 0`). -/
def Cursor.fetch {ρ : Type} (c : Cursor ρ) (n : Nat) :
    Except Fault (List Message) × Cursor ρ :=
  if c.allocLimit < n then
    (Except.error (Fault.panic "makeslice: cap out of range".toList), c)
  else
    match c.rows with
    | none =>
      if n = 0 then (Except.ok [toRowDescription c.columnTypes], c)
      else (Except.error (Fault.panic "nil pointer dereference (rows)".toList), c)
    | some it =>
      match fetchLoop c.scanFunc c.columnTypes n it [] with
      | (Except.error e, it1) => (Except.error (Fault.error e), { c with rows := some it1 })
      | (Except.ok rows, it1) =>
        let messages := [toRowDescription c.columnTypes]
        if rows.length = 0 then (Except.ok messages, { c with rows := some it1 })
        else (Except.ok (messages ++ rows), { c with rows := some it1 })

/-! ## `query_executor.go`: the cursor part -/

/-- The client socket (`net.Conn`) as the message buffer sees it: the byte
slices written so far, one per successful `Write`, and the outcomes of the
writes to come (`none`: the write succeeds, `some err`: it fails with `err`;
past the end of the script every write succeeds). -/
structure Socket where
  written : List Bytes := []
  script : List (Option Str) := []
deriving DecidableEq, Repr

/-- The frontend messages that `handlePreparedStatement` tells apart: Bind,
Describe (object type and name), Execute, Sync, Close, and any other message,
with its rendering by the verb `%#v`. -/
inductive Frontend where
  | Bind (msg : Bind) : Frontend
  | Describe (objectType : Char) (name : Str) : Frontend
  | Execute : Frontend
  | Sync : Frontend
  | Close : Frontend
  | Other (rendering : Str) : Frontend
deriving DecidableEq, Repr

/-- The session state of `QueryExecutor`: the queue `mb` of the message
buffer, the cursor map, the transaction flag, the socket of the message
buffer, `maxBufferSize`, the prepared-statement map, the current prepared
statement, and what `conn.receiver.Receive()` will give: the messages and
errors to come, in order (after them the connection is at its end). -/
structure QueryExecutor (ρ : Type) where
  mb : List Message
  cursors : List (Str × Cursor ρ)
  inTransaction : Bool
  conn : Socket := {}
  maxBufferSize : Nat := 16
  preparedStatements : List (Str × PreparedStatement) := []
  currPreparedStatement : Option PreparedStatement := none
  inbox : List (Except Str Frontend) := []

/-- How a handler without result ends: it returns, or it panics; either way
with the session state reached. -/
inductive Outcome (σ : Type) where
  | returns (s : σ) : Outcome σ
  | panics (s : σ) (msg : Str) : Outcome σ

/-- Model of `QueryExecutor.getTransactionStatus`. -/
def QueryExecutor.getTransactionStatus {ρ : Type} (qe : QueryExecutor ρ) : Char :=
  if qe.inTransaction then 'T' else 'I'

/-- Model of `MessageBuffer.queueMessages` on the executor's buffer. -/
def QueryExecutor.queueMessages {ρ : Type} (qe : QueryExecutor ρ) (messages : List Message) :
    QueryExecutor ρ :=
  { qe with mb := qe.mb ++ messages }

/-- Model of `QueryExecutor.getErrorResponse` on an error that comes from
neither backend driver. -/
def getErrorResponse (errText : Str) : Message :=
  Message.ErrorResponse "ERROR".toList "0A000".toList errText

/-- Store a cursor under its name (the map holds a pointer to the cursor, so
a fetch is seen through the map). -/
def setCursor {ρ : Type} (m : List (Str × Cursor ρ)) (name : Str) (c : Cursor ρ) :
    List (Str × Cursor ρ) :=
  m.map (fun e => if e.1 = name then (name, c) else e)

/-- Model of `QueryExecutor.fetchFromCursor`.  None of the three error
branches returns: after a parse error `fetchQuery` is `nil` and
`fetchQuery.CursorName` panics; for a missing cursor `cursor` is `nil` and
`cursor.fetch` panics at `c.name`. -/
def QueryExecutor.fetchFromCursor {ρ : Type} (qe : QueryExecutor ρ) (fetchQueryStr : Str) :
    Outcome (QueryExecutor ρ) :=
  let commandTag := getCommandTag fetchQueryStr
  let ready := Message.ReadyForQuery qe.getTransactionStatus
  match parseFetchQuery fetchQueryStr with
  | Except.error (Fault.panic msg) => Outcome.panics qe msg
  | Except.error (Fault.error err) =>
    Outcome.panics (qe.queueMessages [getErrorResponse err, ready])
      "nil pointer dereference (fetchQuery)".toList
  | Except.ok fetchQuery =>
    match qe.cursors.lookup fetchQuery.CursorName with
    | none =>
      Outcome.panics
        (qe.queueMessages [getErrorResponse
          ("cursor ".toList ++ fetchQuery.CursorName ++ " does not exist".toList), ready])
        "nil pointer dereference (cursor)".toList
    | some cursor =>
      match cursor.fetch fetchQuery.Count with
      | (Except.error (Fault.panic msg), _) => Outcome.panics qe msg
      | (Except.error (Fault.error err), cursor1) =>
        let qe1 := { qe with cursors := setCursor qe.cursors fetchQuery.CursorName cursor1 }
        let qe2 := qe1.queueMessages [getErrorResponse err, ready]
        Outcome.returns (qe2.queueMessages [Message.CommandComplete commandTag, ready])
      | (Except.ok messages, cursor1) =>
        let qe1 := { qe with cursors := setCursor qe.cursors fetchQuery.CursorName cursor1 }
        let qe2 := qe1.queueMessages messages
        Outcome.returns (qe2.queueMessages [Message.CommandComplete commandTag, ready])

/-! ## More of the `strings` and `regexp` packages: replacing -/

/-- At most `n` replacements of `old` by `new`, left to right, without
overlap (`old` non-empty). -/
def replaceN (old new : Str) : Nat → Str → Str
  | 0, s => s
  | n + 1, s =>
    match cut old s with
    | none => s
    | some (b, a) => b ++ new ++ replaceN old new n a

/-- Model of `strings.Replace(s, old, new, n)` for a non-empty `old`: the text
itself when `old == new` or `n == 0`, every occurrence when `n < 0` (a text of
length `k` holds at most `k` of them), else the first `n` occurrences. -/
def replace (s old new : Str) (n : Int) : Str :=
  if old = new ∨ n = 0 then s
  else if n < 0 then replaceN old new s.length s
  else replaceN old new n.toNat s

/-- Model of `strings.ReplaceAll(s, old, new)`. -/
def replaceAll (s old new : Str) : Str := replace s old new (-1)

/-- Worker of `regexReplaceAllFunc`: at most `fuel` replacements. -/
def regexReplaceFuel (r : Regex) (repl : Str → Str) : Nat → Str → Str
  | 0, s => s
  | fuel + 1, s =>
    match findFirst r s with
    | none => s
    | some (pre, m, rest, _) => pre ++ repl m ++ regexReplaceFuel r repl fuel rest

/-- Model of `Regexp.ReplaceAllStringFunc(s, repl)` for an expression that
never matches the empty text (none of the source does): each leftmost match,
searched after the previous one, is replaced by `repl` of the matched text. -/
def regexReplaceAllFunc (r : Regex) (s : Str) (repl : Str → Str) : Str :=
  regexReplaceFuel r repl s.length s

/-- Model of `Regexp.ReplaceAllString(s, repl)` for a template `repl` without
`$` (all templates of the source). -/
def regexReplaceAllString (r : Regex) (s repl : Str) : Str :=
  regexReplaceAllFunc r s (fun _ => repl)

/-- The class `.`: any character but the newline. -/
def isAnyClass (c : Char) : Bool := c != '\n'

/-- The class `[a-zA-Z0-9]` under the flag `(?i)`: letters and digits, and the
two non-ASCII characters that fold to an ASCII letter. -/
def isAlnumFold (c : Char) : Bool :=
  decide ('a' ≤ c ∧ c ≤ 'z') || decide ('A' ≤ c ∧ c ≤ 'Z') || decide ('0' ≤ c ∧ c ≤ '9') ||
  c.toNat == 0x17F || c.toNat == 0x212A

/-- The class `["']`. -/
def isQuoteClass (c : Char) : Bool := c == '"' || c == '\''

/-- The expression `typeRegex`: `(?i)::([a-zA-Z0-9]+)`. -/
def typeRegex : Regex :=
  Regex.seq (Regex.lit "::".toList) (Regex.group 1 (Regex.plus (Regex.chr isAlnumFold)))

/-- The expression `typeCastRegex`: `(?i)AS (([a-zA-Z0-9]+))\)`. -/
def typeCastRegex : Regex :=
  Regex.seq (Regex.litFold "AS ".toList) <|
  Regex.seq (Regex.group 1 (Regex.group 2 (Regex.plus (Regex.chr isAlnumFold))))
    (Regex.chr (fun c => c == ')'))

/-- The expression `closeQueryRegexp`: `(?i)CLOSE\s+(.*)`. -/
def closeQueryRegexp : Regex :=
  Regex.seq (Regex.litFold "CLOSE".toList) <|
  Regex.seq (Regex.plus (Regex.chr isSpaceClass))
    (Regex.group 1 (Regex.star true (Regex.chr isAnyClass)))

/-- The expression `declareCursorRegexp`:
`(?i)DECLARE\s+(\w+)\s+(.*) CURSOR .*? FOR\s+(.*)`. -/
def declareCursorRegexp : Regex :=
  Regex.seq (Regex.litFold "DECLARE".toList) <|
  Regex.seq (Regex.plus (Regex.chr isSpaceClass)) <|
  Regex.seq (Regex.group 1 (Regex.plus (Regex.chr isWordClass))) <|
  Regex.seq (Regex.plus (Regex.chr isSpaceClass)) <|
  Regex.seq (Regex.group 2 (Regex.star true (Regex.chr isAnyClass))) <|
  Regex.seq (Regex.litFold " CURSOR ".toList) <|
  Regex.seq (Regex.star false (Regex.chr isAnyClass)) <|
  Regex.seq (Regex.litFold " FOR".toList) <|
  Regex.seq (Regex.plus (Regex.chr isSpaceClass))
    (Regex.group 3 (Regex.star true (Regex.chr isAnyClass)))

/-- A literal text under the flag `(?i)`, the case folding of its characters
given: `fold x c` says that the character `c` matches the character `x` of
the literal. -/
def Regex.litFoldBy (fold : Char → Char → Bool) : Str → Regex
  | [] => Regex.eps
  | [x] => Regex.chr (fold x)
  | x :: t => Regex.seq (Regex.chr (fold x)) (Regex.litFoldBy fold t)

/-- The expression that `newQueryUtil(pgDBName)` compiles:
`(?i)FROM\s+(["']?<name>["']?\.)`, the name quoted by `regexp.QuoteMeta`, so
that it stands for itself.  A name can hold any letter: the case folding of
its characters under `(?i)` is a parameter of the model (`fold`). -/
def fromDBRegexpBy (fold : Char → Char → Bool) (pgDBName : Str) : Regex :=
  Regex.seq (Regex.litFold "FROM".toList) <|
  Regex.seq (Regex.plus (Regex.chr isSpaceClass)) <|
  Regex.group 1 <|
    Regex.seq (Regex.opt (Regex.chr isQuoteClass)) <|
    Regex.seq (Regex.litFoldBy fold pgDBName) <|
    Regex.seq (Regex.opt (Regex.chr isQuoteClass)) (Regex.chr (fun c => c == '.'))

/-- The expression `fromDBRegexpBy` with the case folding of the ASCII
letters. -/
def fromDBRegexp (pgDBName : Str) : Regex := fromDBRegexpBy foldEq pgDBName

/-! ## `query_utils.go`: statement kinds and rewriting -/

/-- The table `POSTGRES_TO_VERTICA_TYPE_MAPPING`. -/
def POSTGRES_TO_VERTICA_TYPE_MAPPING : List (Str × Str) :=
  [ ("boolean".toList, "boolean".toList), ("smallint".toList, "int".toList),
    ("integer".toList, "int".toList), ("bigint".toList, "int".toList),
    ("real".toList, "float".toList), ("numeric".toList, "numeric".toList),
    ("decimal".toList, "numeric".toList), ("date".toList, "date".toList),
    ("timestamp".toList, "timestamp".toList), ("timestamptz".toList, "timestamptz".toList),
    ("time".toList, "time".toList), ("interval".toList, "interval".toList),
    ("varchar".toList, "varchar".toList), ("text".toList, "varchar".toList),
    ("bytea".toList, "varbinary".toList), ("json".toList, "long varchar".toList),
    ("jsonb".toList, "long varchar".toList), ("uuid".toList, "varchar(50)".toList),
    ("inet".toList, "varchar(39)".toList), ("cidr".toList, "varchar(43)".toList) ]

/-- The table `VERTICA_TO_POSTGRES_TYPE_MAPPING`, in the order of the source
text (a Go map has no order of its own). -/
def VERTICA_TO_POSTGRES_TYPE_MAPPING : List (Str × Str) :=
  [ ("boolean".toList, "boolean".toList), ("int".toList, "bigint".toList),
    ("float".toList, "double precision".toList), ("numeric".toList, "numeric".toList),
    ("date".toList, "date".toList), ("timestamp".toList, "timestamp".toList),
    ("timestamptz".toList, "timestamptz".toList), ("time".toList, "time".toList),
    ("timetz".toList, "timetz".toList), ("interval".toList, "interval".toList) ]

/-- Model of `QueryUtil.isDeallocateQuery`. -/
def isDeallocateQuery (query : Str) : Bool :=
  hasPrefix (normalizeQuery query) "DEALLOCATE".toList

/-- Model of `QueryUtil.isCloseQuery`. -/
def isCloseQuery (query : Str) : Bool := matchString closeQueryRegexp query

/-- Model of `QueryUtil.parseCloseQuery`: the cursor name, or `none` for the
error. -/
def parseCloseQuery (query : Str) : Option Str :=
  match findStringSubmatch closeQueryRegexp 1 query with
  | none => none
  | some matched => if matched.length ≠ 2 then none else some (matched.getD 1 [])

/-- Model of `QueryUtil.queryReturnsNoRows`. -/
def queryReturnsNoRows (query : Str) : Bool :=
  let normalizedQuery := normalizeQuery query
  hasPrefix normalizedQuery "BEGIN".toList || hasPrefix normalizedQuery "SET".toList ||
  hasPrefix normalizedQuery "COMMIT".toList || hasPrefix normalizedQuery "ROLLBACK".toList ||
  hasPrefix normalizedQuery "DISCARD".toList

/-- Model of `QueryUtil.isBeginQuery`. -/
def isBeginQuery (query : Str) : Bool :=
  hasPrefix (normalizeQuery query) "BEGIN".toList

/-- Model of `QueryUtil.queryDiscardsTransaction`. -/
def queryDiscardsTransaction (query : Str) : Bool :=
  let normalizedQuery := normalizeQuery query
  hasPrefix normalizedQuery "COMMIT".toList || hasPrefix normalizedQuery "ROLLBACK".toList ||
  hasPrefix normalizedQuery "DISCARD".toList

/-- Model of `QueryUtil.queryShouldReturnEmptyResponse`. -/
def queryShouldReturnEmptyResponse (query : Str) : Bool :=
  hasPrefix (normalizeQuery query) "BEGIN".toList || decide (query = [])

/-- Model of `QueryUtil.isSetQuery`. -/
def isSetQuery (query : Str) : Bool :=
  hasPrefix (normalizeQuery query) "SET".toList

/-- Model of `QueryUtil.mapPostgresToVerticaType`: the table entry of the
lower-cased name, else the lower-cased name. -/
def mapPostgresToVerticaType (dataType : Str) : Str :=
  let dataType1 := toLower dataType
  match POSTGRES_TO_VERTICA_TYPE_MAPPING.lookup dataType1 with
  | some verticaType => verticaType
  | none => dataType1

/-- The function that `replacePostgresDataTypes` passes for `typeRegex`. -/
def typeRepl (matched : Str) : Str :=
  match findStringSubmatch typeRegex 1 matched with
  | none => matched
  | some parts =>
    if parts.length = 2 then
      let verticaType := mapPostgresToVerticaType (trimSpace (parts.getD 1 []))
      if verticaType = [] then matched else "::".toList ++ verticaType
    else matched

/-- The function that `replacePostgresDataTypes` passes for `typeCastRegex`. -/
def typeCastRepl (matched : Str) : Str :=
  match findStringSubmatch typeCastRegex 2 matched with
  | none => matched
  | some parts =>
    if parts.length = 3 then
      let verticaType := mapPostgresToVerticaType (trimSpace (parts.getD 1 []))
      if verticaType = [] then matched else "AS ".toList ++ verticaType ++ ")".toList
    else matched

/-- Model of `QueryUtil.replacePostgresDataTypes`. -/
def replacePostgresDataTypes (query : Str) : Str :=
  let replaced := regexReplaceAllFunc typeRegex query typeRepl
  regexReplaceAllFunc typeCastRegex replaced typeCastRepl

/-- Model of `QueryUtil.rewriteQuery`, for the utility built by
`newQueryUtil(pgDBName)`; `fold` is the case folding of the characters of the
name under `(?i)`. -/
def rewriteQueryBy (fold : Char → Char → Bool) (pgDBName : Str) (query : Str) : Str :=
  let query1 := replacePostgresDataTypes query
  regexReplaceAllString (fromDBRegexpBy fold pgDBName) query1 "FROM ".toList

/-- The function `rewriteQueryBy` with the case folding of the ASCII letters. -/
def rewriteQuery (pgDBName : Str) (query : Str) : Str :=
  rewriteQueryBy foldEq pgDBName query

/-- Model of `strings.TrimPrefix`. -/
def trimPrefix (s p : Str) : Str :=
  if hasPrefix s p then s.drop p.length else s

/-- The loop of `parseSetQuery` over the separators. -/
def findSetParts (expression : Str) : List Str → Option (List Str)
  | [] => none
  | separator :: rest =>
    let parts := split expression separator
    if parts.length = 2 then some parts else findSetParts expression rest

/-- Model of `parseSetQuery`: parameter name and value, or the error text. -/
def parseSetQuery (expression : Str) : Except Str (Str × Str) :=
  let expression1 := trimSpace expression
  if !hasPrefix expression1 "SET ".toList then
    Except.error "expression must start with 'SET '".toList
  else
    let expression2 := trimPrefix expression1 "SET ".toList
    match findSetParts expression2 ["TO".toList, "=".toList] with
    | none => Except.error "can't parse expression, must contain 'TO' or '='".toList
    | some parts =>
      let paramName := trimSpace (parts.getD 0 [])
      let paramValue := trim (parts.getD 1 []) " '\"".toList
      Except.ok (paramName, paramValue)

/-- The Go struct `DeclareCursorQuery`. -/
structure DeclareCursorQuery where
  name : Str
  query : Str
  cursorType : Str
deriving DecidableEq, Repr

/-- Model of `QueryUtil.isDeclareCursorQuery`. -/
def isDeclareCursorQuery (query : Str) : Bool := matchString declareCursorRegexp query

/-- Model of `QueryUtil.parseDeclareCursorQuery`: `none` for the `nil` result
that comes with the error. -/
def parseDeclareCursorQuery (query : Str) : Option DeclareCursorQuery :=
  match findStringSubmatch declareCursorRegexp 3 query with
  | none => none
  | some matched =>
    if matched.length ≠ 4 then none
    else some { name := matched.getD 1 [], query := matched.getD 3 [],
                cursorType := matched.getD 2 [] }

/-! ## `db_schema_sync.go`: translation of `CREATE TABLE` statements -/

/-- The expression `replaceTextRegex`: `text\(\d*?\)`. -/
def replaceTextRegex : Regex :=
  Regex.seq (Regex.lit "text(".toList) <|
  Regex.seq (Regex.star false (Regex.chr isDigitClass)) (Regex.chr (fun c => c == ')'))

/-- The expression `partitionByRegex`: `PARTITION BY \(.*\)`. -/
def partitionByRegex : Regex :=
  Regex.seq (Regex.lit "PARTITION BY (".toList) <|
  Regex.seq (Regex.star true (Regex.chr isAnyClass)) (Regex.chr (fun c => c == ')'))

/-- The loop of `translateCreateTableToPostgres` over the type map, the
entries taken in the given order. -/
def typeLoop : List (Str × Str) → Str → Str
  | [], s => s
  | (verticaType, postgresType) :: rest, s =>
    typeLoop rest (replaceAll s verticaType postgresType)

/-- Model of `translateCreateTableToPostgres`.  Go iterates over a map in an
unspecified order: `order` lists the entries of
`VERTICA_TO_POSTGRES_TYPE_MAPPING` in the order of the run. -/
def translateCreateTableToPostgres (order : List (Str × Str)) (createTableStatement : Str) :
    Str :=
  let s1 := replace createTableStatement "CREATE TABLE".toList
    "CREATE TABLE IF NOT EXISTS".toList 15
  let s2 := typeLoop order s1
  let s3 := regexReplaceAllString replaceTextRegex s2 "text".toList
  regexReplaceAllString partitionByRegex s3 []

/-! ## `message_buffer.go` -/

/-- Model of `net.Conn.Write` on the scripted socket. -/
def Socket.write (c : Socket) (buf : Bytes) : Option Str × Socket :=
  match c.script with
  | [] => (none, { c with written := c.written ++ [buf] })
  | none :: rest => (none, { written := c.written ++ [buf], script := rest })
  | some err :: rest => (some err, { c with script := rest })

/-- The loop of `writeMessages`: `buf = msg.Encode(buf)` for each message;
`encode` gives the bytes that `Encode` appends. -/
def encodeLoop (encode : Message → Bytes) : List Message → Bytes → Bytes
  | [], buf => buf
  | msg :: rest, buf => encodeLoop encode rest (buf ++ encode msg)

/-- Model of `writeMessages`: the error of the one `Write`, and the socket. -/
def writeMessages (encode : Message → Bytes) (w : Socket) (msgs : List Message) :
    Option Str × Socket :=
  w.write (encodeLoop encode msgs [])

/-- Model of `MessageBuffer.sendQueuedMessages` on the executor's buffer: the
state afterwards and the returned error. -/
def QueryExecutor.sendQueuedMessages {ρ : Type} (encode : Message → Bytes)
    (qe : QueryExecutor ρ) : QueryExecutor ρ × Option Str :=
  match writeMessages encode qe.conn qe.mb with
  | (some err, conn1) => ({ qe with conn := conn1 }, some err)
  | (none, conn1) => ({ qe with conn := conn1, mb := [] }, none)

/-- Model of `MessageBuffer.buffSize`. -/
def QueryExecutor.buffSize {ρ : Type} (qe : QueryExecutor ρ) : Nat := qe.mb.length

/-! ## The back ends -/

/-- An error of a back end, by the driver it comes from (`*pq.Error`,
`*vertigo.VError`) or from elsewhere, with the fields that the model of
`ErrorResponse` keeps. -/
inductive DriverError where
  | pq (severity code message : Str) : DriverError
  | vertica (severity code message : Str) : DriverError
  | other (text : Str) : DriverError
deriving DecidableEq, Repr

/-- The text `err.Error()`. -/
def DriverError.text : DriverError → Str
  | DriverError.pq _ _ message => message
  | DriverError.vertica _ _ message => message
  | DriverError.other text => text

/-- Model of `QueryExecutor.getErrorResponse` on an error of a back end. -/
def errorResponseOf : DriverError → Message
  | DriverError.pq severity code message => Message.ErrorResponse severity code message
  | DriverError.vertica severity code message => Message.ErrorResponse severity code message
  | DriverError.other text => getErrorResponse text

/-- A result set (`*sql.Rows`): what `ColumnTypes()` gives, the rows that
`Next()` will yield, and what `Err()` gives. -/
structure Rows (ρ : Type) where
  columnTypes : Except DriverError (List ColumnType)
  rows : List ρ
  err : Option DriverError

/-- What a session is given from outside: the encoding of `pgproto3`, the
configuration, the two back ends (VDB and PGDB; a prepared statement is the
function from its bind values to the result), and the row encoders of
`utils.go`, whose renderings of floats and times are outside the embedding. -/
structure Env (ρ : Type) where
  encode : Message → Bytes
  pgDBName : Str
  synchronizedSchemas : List Str
  vdbQuery : Str → Except DriverError (Rows ρ)
  pgdbQuery : Str → Except DriverError (Rows ρ)
  vdbPrepare : Str → Except DriverError (List (Option Str) → Except DriverError (Rows ρ))
  pgdbPrepare : Str → Except DriverError (List (Option Str) → Except DriverError (Rows ρ))
  scanRowToText : ρ → List ColumnType → Except Str (List (Option Bytes))
  scanRowToBinary : ρ → List ColumnType → Except Str (List (Option Bytes))

/-! ## `cursor.go`: creating, opening, closing -/

/-- Model of `newCursor`; an unknown cursor type panics. -/
def newCursor {ρ : Type} (env : Env ρ) (name query ctype : Str) : Except Fault (Cursor ρ) :=
  if ctype = "BINARY".toList then
    Except.ok { name := name, query := query, scanFunc := env.scanRowToBinary,
                rows := none, columnTypes := [] }
  else if ctype = "TEXT".toList then
    Except.ok { name := name, query := query, scanFunc := env.scanRowToText,
                rows := none, columnTypes := [] }
  else Except.error (Fault.panic "Unknown cursor type".toList)

/-- Model of `Cursor.open(db)`: the returned error and the cursor afterwards. -/
def Cursor.open {ρ : Type} (c : Cursor ρ)
    (prepare : Str → Except DriverError (List (Option Str) → Except DriverError (Rows ρ))) :
    Option DriverError × Cursor ρ :=
  match prepare c.query with
  | Except.error err => (some err, c)
  | Except.ok stmt =>
    match stmt [] with
    | Except.error err => (some err, c)
    | Except.ok result =>
      match result.columnTypes with
      | Except.error err => (some err, c)
      | Except.ok cTypes => (none, { c with rows := some result.rows, columnTypes := cTypes })

/-- Model of `Cursor.close`: a closed iterator yields no further row. -/
def Cursor.close {ρ : Type} (c : Cursor ρ) : Cursor ρ :=
  match c.rows with
  | none => c
  | some _ => { c with rows := some [] }

/-! ## `query_executor.go`: the handlers -/

/-- The assignment `qe.cursors[name] = cursor`. -/
def putCursor {ρ : Type} (m : List (Str × Cursor ρ)) (name : Str) (c : Cursor ρ) :
    List (Str × Cursor ρ) :=
  match m.lookup name with
  | some _ => setCursor m name c
  | none => m ++ [(name, c)]

/-- Model of `QueryExecutor.closeCursor`: the cursor stays in the map. -/
def QueryExecutor.closeCursor {ρ : Type} (qe : QueryExecutor ρ) (closeQuery : Str) :
    QueryExecutor ρ :=
  match parseCloseQuery closeQuery with
  | none => qe
  | some cursorName =>
    match qe.cursors.lookup cursorName with
    | none => qe
    | some cursor => { qe with cursors := setCursor qe.cursors cursorName cursor.close }

/-- Model of `QueryExecutor.declareCursor`.  `parsedQuery.query` is read
before the parse error is looked at, and neither error branch returns. -/
def QueryExecutor.declareCursor {ρ : Type} (env : Env ρ) (qe : QueryExecutor ρ)
    (declareQuery : Str) : Outcome (QueryExecutor ρ) :=
  let commandTag := getCommandTag declareQuery
  let ready := Message.ReadyForQuery qe.getTransactionStatus
  match parseDeclareCursorQuery declareQuery with
  | none => Outcome.panics qe "nil pointer dereference (parsedQuery)".toList
  | some parsedQuery =>
    let query := rewriteQuery env.pgDBName parsedQuery.query
    match newCursor env parsedQuery.name query parsedQuery.cursorType with
    | Except.error _ => Outcome.panics qe "Unknown cursor type".toList
    | Except.ok cursor =>
      match cursor.open env.vdbPrepare with
      | (some err, cursor1) =>
        let qe1 := qe.queueMessages [errorResponseOf err, ready]
        let qe2 := { qe1 with cursors := putCursor qe1.cursors cursor1.name cursor1 }
        Outcome.returns (qe2.queueMessages [Message.CommandComplete commandTag, ready])
      | (none, cursor1) =>
        let qe2 := { qe with cursors := putCursor qe.cursors cursor1.name cursor1 }
        Outcome.returns (qe2.queueMessages [Message.CommandComplete commandTag, ready])

/-- Model of `QueryExecutor.executeQuery`. -/
def QueryExecutor.executeQuery {ρ : Type} (env : Env ρ) (query : Str) :
    Except DriverError (Rows ρ) :=
  let isData := isDataQuery upperChar query env.synchronizedSchemas
  if isData then
    let rewrittenQuery := rewriteQuery env.pgDBName query
    env.vdbQuery rewrittenQuery
  else env.pgdbQuery query

/-- The loop `for rows.Next()` of `writeRowsInChunks`. -/
def writeRowsLoop {ρ : Type} (env : Env ρ) (cols : List ColumnType) :
    List ρ → QueryExecutor ρ → QueryExecutor ρ × Option Str
  | [], qe => (qe, none)
  | r :: rest, qe =>
    match env.scanRowToText r cols with
    | Except.error e => (qe, some ("scan: ".toList ++ e))
    | Except.ok row =>
      let qe1 := qe.queueMessages [Message.DataRow row]
      if qe1.buffSize ≥ qe1.maxBufferSize then
        match qe1.sendQueuedMessages env.encode with
        | (qe2, some err) => (qe2, some err)
        | (qe2, none) => writeRowsLoop env cols rest qe2
      else writeRowsLoop env cols rest qe1

/-- Model of `QueryExecutor.writeRowsInChunks`. -/
def QueryExecutor.writeRowsInChunks {ρ : Type} (env : Env ρ) (qe : QueryExecutor ρ)
    (rows : Rows ρ) (cols : List ColumnType) : QueryExecutor ρ × Option Str :=
  match qe.sendQueuedMessages env.encode with
  | (qe1, some err) => (qe1, some err)
  | (qe1, none) =>
    match rows.err with
    | some err => (qe1, some ("rows: ".toList ++ err.text))
    | none =>
      match writeRowsLoop env cols rows.rows qe1 with
      | (qe2, some err) => (qe2, some err)
      | (qe2, none) =>
        if qe2.buffSize > 0 then qe2.sendQueuedMessages env.encode else (qe2, none)

/-- The two assignments to `inTransaction` after a successful back-end call. -/
def QueryExecutor.noteTransaction {ρ : Type} (qe : QueryExecutor ρ) (query : Str) :
    QueryExecutor ρ :=
  let qe1 := if isBeginQuery query then { qe with inTransaction := true } else qe
  if queryDiscardsTransaction query then { qe1 with inTransaction := false } else qe1

/-- Model of `QueryExecutor.handleQueryMessage`: the state afterwards and the
returned error, unless a cursor handler panics. -/
def QueryExecutor.handleQueryMessage {ρ : Type} (env : Env ρ) (qe : QueryExecutor ρ)
    (query : Str) : Outcome (QueryExecutor ρ × Option Str) :=
  let commandTag := getCommandTag query
  if isDeallocateQuery query then
    Outcome.returns ((qe.queueMessages [Message.CommandComplete commandTag,
      Message.ReadyForQuery qe.getTransactionStatus]).sendQueuedMessages env.encode)
  else if isCloseQuery query then
    let qe1 := qe.closeCursor query
    Outcome.returns ((qe1.queueMessages [Message.CommandComplete commandTag,
      Message.ReadyForQuery qe1.getTransactionStatus]).sendQueuedMessages env.encode)
  else if isDeclareCursorQuery query then
    match qe.declareCursor env query with
    | Outcome.panics qe1 msg => Outcome.panics (qe1, none) msg
    | Outcome.returns qe1 => Outcome.returns (qe1.sendQueuedMessages env.encode)
  else if isFetchQuery query then
    match qe.fetchFromCursor query with
    | Outcome.panics qe1 msg => Outcome.panics (qe1, none) msg
    | Outcome.returns qe1 => Outcome.returns (qe1.sendQueuedMessages env.encode)
  else
    match QueryExecutor.executeQuery env query with
    | Except.error dberr =>
      let qe1 := qe.queueMessages [errorResponseOf dberr,
        Message.ReadyForQuery qe.getTransactionStatus]
      match qe1.sendQueuedMessages env.encode with
      | (qe2, some err) => Outcome.returns (qe2, some err)
      | (qe2, none) => Outcome.returns (qe2, some dberr.text)
    | Except.ok rows =>
      let qe1 := qe.noteTransaction query
      if queryReturnsNoRows query then
        Outcome.returns ((qe1.queueMessages [Message.CommandComplete commandTag,
          Message.ReadyForQuery qe1.getTransactionStatus]).sendQueuedMessages env.encode)
      else if queryShouldReturnEmptyResponse query then
        Outcome.returns ((qe1.queueMessages [Message.EmptyQueryResponse,
          Message.CommandComplete commandTag,
          Message.ReadyForQuery qe1.getTransactionStatus]).sendQueuedMessages env.encode)
      else
        match rows.columnTypes with
        | Except.error err => Outcome.returns (qe1, some ("column types: ".toList ++ err.text))
        | Except.ok cols =>
          let qe2 := qe1.queueMessages [toRowDescription cols]
          match qe2.writeRowsInChunks env rows cols with
          | (qe3, some err) => Outcome.returns (qe3, some err)
          | (qe3, none) =>
            Outcome.returns ((qe3.queueMessages [Message.CommandComplete commandTag,
              Message.ReadyForQuery qe3.getTransactionStatus]).sendQueuedMessages env.encode)

/-- Model of `QueryExecutor.prepareStatement`: the prepared statement of the
back end that the query is routed to. -/
def QueryExecutor.prepareStatement {ρ : Type} (env : Env ρ)
    (preparedStatement : PreparedStatement) (describe : Bool) :
    Except DriverError (List (Option Str) → Except DriverError (Rows ρ)) :=
  let isData := isDataQuery upperChar preparedStatement.getQuery env.synchronizedSchemas
  if isData then
    let query := if describe then limitQuery preparedStatement.query 1
      else preparedStatement.query
    let rewrittenQuery := rewriteQuery env.pgDBName query
    env.vdbPrepare rewrittenQuery
  else env.pgdbPrepare preparedStatement.query

/-- Model of `QueryExecutor.executePreparedStatement` (with `queryStatement`):
the rows and their column types. -/
def QueryExecutor.executePreparedStatement {ρ : Type} (env : Env ρ)
    (preparedStatement : PreparedStatement) (describe : Bool) :
    Except DriverError (Rows ρ × List ColumnType) :=
  match QueryExecutor.prepareStatement env preparedStatement describe with
  | Except.error err => Except.error err
  | Except.ok stmt =>
    match stmt preparedStatement.getBinds with
    | Except.error err => Except.error err
    | Except.ok rows =>
      match rows.columnTypes with
      | Except.error err => Except.error err
      | Except.ok cols => Except.ok (rows, cols)

/-- Model of `QueryExecutor.handleExecute`. -/
def QueryExecutor.handleExecute {ρ : Type} (env : Env ρ) (qe : QueryExecutor ρ)
    (preparedStatement : PreparedStatement) : Outcome (QueryExecutor ρ × Option Str) :=
  let query := preparedStatement.getQuery
  let commandTag := getCommandTag query
  if isDeallocateQuery query then
    Outcome.returns (qe.queueMessages [Message.CommandComplete commandTag,
      Message.ReadyForQuery qe.getTransactionStatus], none)
  else if isCloseQuery query then
    let qe1 := qe.closeCursor query
    Outcome.returns (qe1.queueMessages [Message.CommandComplete commandTag,
      Message.ReadyForQuery qe1.getTransactionStatus], none)
  else if isDeclareCursorQuery query then
    match qe.declareCursor env query with
    | Outcome.panics qe1 msg => Outcome.panics (qe1, none) msg
    | Outcome.returns qe1 => Outcome.returns (qe1, none)
  else if isFetchQuery query then
    match qe.fetchFromCursor query with
    | Outcome.panics qe1 msg => Outcome.panics (qe1, none) msg
    | Outcome.returns qe1 => Outcome.returns (qe1, none)
  else
    match QueryExecutor.executePreparedStatement env preparedStatement false with
    | Except.error err =>
      let qe1 := qe.queueMessages [errorResponseOf err]
      Outcome.returns ((qe1.sendQueuedMessages env.encode).1, some err.text)
    | Except.ok (rows, cols) =>
      let qe1 := qe.noteTransaction query
      if isSetQuery query then
        match parseSetQuery query with
        | Except.error _ =>
          Outcome.returns (qe1.queueMessages [Message.CommandComplete commandTag], none)
        | Except.ok (param, value) =>
          Outcome.returns (qe1.queueMessages [Message.ParameterStatus param value,
            Message.CommandComplete commandTag], none)
      else if queryReturnsNoRows query then
        Outcome.returns (qe1.queueMessages [Message.CommandComplete commandTag], none)
      else if queryShouldReturnEmptyResponse query then
        Outcome.returns (qe1.queueMessages [Message.EmptyQueryResponse,
          Message.CommandComplete commandTag], none)
      else
        match qe1.writeRowsInChunks env rows cols with
        | (qe2, some err) => Outcome.returns (qe2, some err)
        | (qe2, none) =>
          Outcome.returns (qe2.queueMessages [Message.CommandComplete commandTag], none)

/-- The case `*pgproto3.Sync` of `Server.serveConn`. -/
def QueryExecutor.handleSync {ρ : Type} (env : Env ρ) (qe : QueryExecutor ρ) :
    QueryExecutor ρ × Option Str :=
  (qe.queueMessages [Message.ReadyForQuery qe.getTransactionStatus]).sendQueuedMessages
    env.encode

/-! ## `db_schema_sync.go`: tables that are gone from the VDB -/

/-- A database handle (`*sql.DB`) as the synchronizer uses it: `queryIds` is
what `listIds` reads for a query (the names, or the error of `Query`, `Scan`
or `Err`), `executed` the statements given to `Exec` so far, `script` the
errors of the calls of `Exec` to come (`none`: the call succeeds; no entry
left: it succeeds). -/
structure SqlDB where
  queryIds : Str → Except Str (List Str)
  executed : List Str := []
  script : List (Option Str) := []

/-- Model of `(*sql.DB).Exec`: the statement is recorded, and the error of
the call is the next entry of the script. -/
def SqlDB.exec (db : SqlDB) (query : Str) : Option Str × SqlDB :=
  match db.script with
  | [] => (none, { db with executed := db.executed ++ [query] })
  | o :: rest => (o, { db with executed := db.executed ++ [query], script := rest })

/-- The Go struct `SchemasSynchronizator`: the two database handles. -/
structure SchemasSynchronizator where
  vdb : SqlDB
  pgdb : SqlDB

/-- Model of `SchemasSynchronizator.listIds`. -/
def listIds (db : SqlDB) (query : Str) : Except Str (List Str) := db.queryIds query

/-- Model of `SchemasSynchronizator.listTablesInSchemaVertica`. -/
def SchemasSynchronizator.listTablesInSchemaVertica (s : SchemasSynchronizator)
    (schema : Str) : Except Str (List Str) :=
  listIds s.vdb
    ("SELECT table_name FROM v_catalog.tables WHERE table_schema='".toList ++ schema ++
      "';".toList)

/-- Model of `SchemasSynchronizator.listTablesInSchemaPostgres`. -/
def SchemasSynchronizator.listTablesInSchemaPostgres (s : SchemasSynchronizator)
    (schema : Str) : Except Str (List Str) :=
  listIds s.pgdb
    ("SELECT tablename FROM pg_catalog.pg_tables WHERE schemaname = '".toList ++ schema ++
      "';".toList)

/-- Model of `SchemasSynchronizator.dropTablePostgres`. -/
def SchemasSynchronizator.dropTablePostgres (s : SchemasSynchronizator) (schema table : Str) :
    Option Str × SchemasSynchronizator :=
  let query := "DROP TABLE IF EXISTS ".toList ++ schema ++ ".".toList ++ table ++ ";".toList
  match s.pgdb.exec query with
  | (err, db) => (err, { s with pgdb := db })

/-- Model of the function `contains` of `db_schema_sync.go` (the name
`contains` stands for `strings.Contains` here). -/
def sliceContains : List Str → Str → Bool
  | [], _ => false
  | a :: rest, item => if a = item then true else sliceContains rest item

/-- The loop of `deleteNonExistentTablesInPG` over the tables of the PGDB. -/
def dropLoop (schema : Str) (verticaTables : List Str) :
    List Str → SchemasSynchronizator → Option Str × SchemasSynchronizator
  | [], s => (none, s)
  | tableName :: rest, s =>
    if !sliceContains verticaTables tableName then
      match s.dropTablePostgres schema tableName with
      | (some err, s1) => (some err, s1)
      | (none, s1) => dropLoop schema verticaTables rest s1
    else dropLoop schema verticaTables rest s

/-- Model of `SchemasSynchronizator.deleteNonExistentTablesInPG`: the returned
error and the synchronizer afterwards. -/
def SchemasSynchronizator.deleteNonExistentTablesInPG (s : SchemasSynchronizator)
    (schema : Str) : Option Str × SchemasSynchronizator :=
  match s.listTablesInSchemaVertica schema with
  | Except.error err => (some err, s)
  | Except.ok verticaTables =>
    match s.listTablesInSchemaPostgres schema with
    | Except.error err => (some err, s)
    | Except.ok postgresTables => dropLoop schema verticaTables postgresTables s

/-! ## `query_executor.go`: Bind, Describe and the loop of a prepared statement -/

/-- Model of `QueryExecutor.handleDescribe`: the state afterwards and the
returned error. -/
def QueryExecutor.handleDescribe {ρ : Type} (env : Env ρ) (qe : QueryExecutor ρ)
    (objectType : Char) (name : Str) : QueryExecutor ρ × Option Str :=
  let found : Option PreparedStatement :=
    match qe.currPreparedStatement with
    | none => qe.preparedStatements.lookup name
    | some ps => some ps
  match found with
  | none => (qe, some ("unknown prepared statement: ".toList ++ name))
  | some preparedStatement =>
    let query := preparedStatement.getQuery
    if queryReturnsNoRows query || queryShouldReturnEmptyResponse query ||
        isDeclareCursorQuery query then
      if objectType = 'S' then
        (qe.queueMessages [Message.ParameterDescription [], Message.NoData], none)
      else if objectType = 'P' then (qe.queueMessages [Message.NoData], none)
      else (qe, some ("unexpected object type: ".toList ++ [objectType]))
    else
      match QueryExecutor.executePreparedStatement env preparedStatement true with
      | Except.error err =>
        let qe1 := qe.queueMessages [errorResponseOf err]
        ((qe1.sendQueuedMessages env.encode).1, some ("exec: ".toList ++ err.text))
      | Except.ok (_, cols) =>
        if objectType = 'S' then
          (qe.queueMessages [Message.ParameterDescription preparedStatement.parameterOIDs,
            toRowDescription cols], none)
        else if objectType = 'P' then (qe.queueMessages [toRowDescription cols], none)
        else (qe, some ("unexpected object type: ".toList ++ [objectType]))

/-- Write a statement through the pointer that the map holds under `key`
(`none`: the statement is in no entry of the map). -/
def storeStatement (m : List (Str × PreparedStatement)) (key : Option Str)
    (ps : PreparedStatement) : List (Str × PreparedStatement) :=
  match key with
  | none => m
  | some name => m.map (fun e => if e.1 = name then (name, ps) else e)

/-- The loop `for` of `handlePreparedStatement` over the messages that
`Receive` gives.  The statement is reached through a pointer, which the map
holds too when the statement is stored under `key`: what `handleBind` changes
is seen through `qe.currPreparedStatement` and through the map. -/
def handlePreparedStatementLoop {ρ : Type} (env : Env ρ) (ff : FloatFmt) (key : Option Str) :
    List (Except Str Frontend) → QueryExecutor ρ → PreparedStatement →
      Outcome (QueryExecutor ρ × Option Str)
  | [], qe, _ =>
    Outcome.returns ({ qe with inbox := [] },
      some "receive message during parse: EOF".toList)
  | Except.error err :: rest, qe, _ =>
    Outcome.returns ({ qe with inbox := rest },
      some ("receive message during parse: ".toList ++ err))
  | Except.ok (Frontend.Bind msg) :: rest, qe, preparedStatement =>
    match preparedStatement.addParameters ff msg with
    | Except.error (Fault.panic text) => Outcome.panics ({ qe with inbox := rest }, none) text
    | Except.error (Fault.error _) =>
      handlePreparedStatementLoop env ff key rest { qe with inbox := rest } preparedStatement
    | Except.ok ps1 =>
      let qe1 := { qe with
        inbox := rest
        currPreparedStatement := some ps1
        preparedStatements := storeStatement qe.preparedStatements key ps1 }
      handlePreparedStatementLoop env ff key rest (qe1.queueMessages [Message.BindComplete]) ps1
  | Except.ok (Frontend.Describe objectType name) :: rest, qe, preparedStatement =>
    let qe1 := (QueryExecutor.handleDescribe env { qe with inbox := rest } objectType name).1
    handlePreparedStatementLoop env ff key rest qe1 preparedStatement
  | Except.ok Frontend.Execute :: rest, qe, preparedStatement =>
    QueryExecutor.handleExecute env { qe with inbox := rest, currPreparedStatement := none }
      preparedStatement
  | Except.ok Frontend.Sync :: rest, qe, _ =>
    let qe1 := { qe with inbox := rest, currPreparedStatement := none }
    Outcome.returns
      ((qe1.queueMessages [Message.ReadyForQuery qe1.getTransactionStatus]).sendQueuedMessages
        env.encode)
  | Except.ok Frontend.Close :: rest, qe, _ =>
    let qe1 := { qe with inbox := rest, currPreparedStatement := none }
    Outcome.returns (qe1.queueMessages [Message.CloseComplete], none)
  | Except.ok (Frontend.Other rendering) :: rest, qe, _ =>
    Outcome.returns ({ qe with inbox := rest },
      some ("unexpected message type during parse: ".toList ++ rendering))

/-- Model of `QueryExecutor.handlePreparedStatement`. -/
def QueryExecutor.handlePreparedStatement {ρ : Type} (env : Env ρ) (ff : FloatFmt)
    (qe : QueryExecutor ρ) (key : Option Str) (preparedStatement : PreparedStatement) :
    Outcome (QueryExecutor ρ × Option Str) :=
  handlePreparedStatementLoop env ff key qe.inbox
    { qe with currPreparedStatement := some preparedStatement } preparedStatement

/-- Model of `QueryExecutor.handleBindMessage`. -/
def QueryExecutor.handleBindMessage {ρ : Type} (env : Env ρ) (ff : FloatFmt)
    (qe : QueryExecutor ρ) (bmsg : Bind) : Outcome (QueryExecutor ρ × Option Str) :=
  match qe.preparedStatements.lookup bmsg.PreparedStatement with
  | none =>
    let text := "prepared statement \"".toList ++ bmsg.PreparedStatement ++
      "\" does not exist".toList
    Outcome.returns
      (qe.queueMessages [Message.ErrorResponse "ERROR".toList "26000".toList text], some text)
  | some stmt =>
    match stmt.addParameters ff bmsg with
    | Except.error (Fault.panic text) => Outcome.panics (qe, none) text
    | Except.error (Fault.error err) =>
      Outcome.returns
        (qe.queueMessages [Message.ErrorResponse "ERROR".toList "22023".toList
          "invalid parameter value".toList], some ("add parameters: ".toList ++ err))
    | Except.ok stmt1 =>
      let qe1 := { qe with
        preparedStatements :=
          storeStatement qe.preparedStatements (some bmsg.PreparedStatement) stmt1 }
      (qe1.queueMessages [Message.BindComplete]).handlePreparedStatement env ff
        (some bmsg.PreparedStatement) stmt1

/-! ## Specification-side definitions and concrete inputs -/

/-- In the words of the spec: the text with the i-th `?` replaced by the i-th
of the given texts, as far as they reach. -/
def substQuestion : Str → List Str → Str
  | [], _ => []
  | c :: t, [] => c :: t
  | c :: t, p :: ps =>
    if c = '?' then p ++ substQuestion t ps else c :: substQuestion t (p :: ps)

/-- A rendering of floats for the concrete inputs (no input below carries a
float). -/
def noFloats : FloatFmt := { sprint32 := fun _ => [], sprint64 := fun _ => [] }

/-- A prepared statement as `handleParseMessage` builds it: no bound
parameters yet. -/
def parsedStatement (query : Str) (parameterOIDs : List Nat) : PreparedStatement :=
  { name := "test_name".toList, query := query, parameterOIDs := parameterOIDs,
    parameters := none, binds := none }

/-- A Bind that carries the given texts, all in text format. -/
def textBind (texts : List Str) : Bind :=
  { PreparedStatement := "test_name".toList
    ParameterFormatCodes := texts.map (fun _ => 0)
    Parameters := texts.map (fun t => t.map Char.toNat) }

/-- The statement `parsedStatement query oids` after a Bind that carried the
given texts in text format. -/
def boundStatement (query : Str) (parameterOIDs : List Nat) (texts : List Str) :
    PreparedStatement :=
  { name := "test_name".toList, query := query, parameterOIDs := parameterOIDs,
    parameters := some texts, binds := some (texts.map some) }

/-- In the words of the spec: the first whitespace-delimited token of the
query, lower-cased. -/
def firstToken (query : Str) : Str :=
  (toLower (trimSpace query)).takeWhile (fun c => !isSpace c)

/-- The command tag that belongs to a lower-cased command word. -/
def tagOfCommand (command : Str) : Str :=
  if command = "insert".toList then "INSERT 0 1".toList
  else if command = "delete".toList then "DELETE 1".toList
  else if command = "update".toList then "UPDATE 1".toList
  else if command = "select".toList then "SELECT 1".toList
  else toUpper command

/-- A cursor over rows numbered by naturals whose encoder rejects every row,
as the binary encoder does on a column type it does not support
(`TestFetchCursorError`). -/
def failingCursor : Cursor Nat :=
  { name := "test".toList, query := "SELECT * FROM test".toList
    scanFunc := fun _ _ =>
      Except.error "unsupported data type for binary format: VARCHAR".toList
    rows := some [0]
    columnTypes := [{ Name := "col1".toList, DatabaseTypeName := "VARCHAR".toList }] }

/-- A cursor over rows numbered by naturals whose encoder renders the number
as text (`TestFetchCursor` has one such row). -/
def textCursor (rows : List Nat) : Cursor Nat :=
  { name := "test".toList, query := "SELECT * FROM test".toList
    scanFunc := fun r _ => Except.ok [some ((fmtNat r).map Char.toNat)]
    rows := some rows
    columnTypes := [{ Name := "col1".toList, DatabaseTypeName := "INT".toList }] }

/-- A session that has declared no cursor. -/
def freshSession : QueryExecutor Nat :=
  { mb := [], cursors := [], inTransaction := false }

/-- In the words of the spec: a non-negative integer literal, `0` or a
numeral that starts with a digit from 1 to 9. -/
def isNatLiteral : Str → Bool
  | [] => false
  | d :: rest =>
    (d == '0' && rest.isEmpty) || (decide ('1' ≤ d ∧ d ≤ '9') && rest.all isDigitClass)

/-- In the words of the spec: the concatenation of the encodings of the
messages, in order. -/
def encodeAll (encode : Message → Bytes) (msgs : List Message) : Bytes :=
  (msgs.map encode).flatten

/-- An encoding for the concrete inputs: one byte per message, its kind. -/
def kindByte : Message → Bytes
  | Message.RowDescription _ => [84]
  | Message.DataRow _ => [68]
  | Message.CommandComplete _ => [67]
  | Message.ReadyForQuery _ => [90]
  | Message.ErrorResponse _ _ _ => [69]
  | Message.EmptyQueryResponse => [73]
  | Message.ParseComplete => [49]
  | Message.BindComplete => [50]
  | Message.CloseComplete => [51]
  | Message.NoData => [110]
  | Message.ParameterDescription _ => [116]
  | Message.ParameterStatus _ _ => [83]

/-- A session whose buffer holds two messages. -/
def queuedSession : QueryExecutor Nat :=
  { mb := [Message.ParseComplete, Message.BindComplete], cursors := [], inTransaction := false }

/-- A session whose buffer holds two messages and whose socket is about to
fail once. -/
def failingSocketSession : QueryExecutor Nat :=
  { mb := [Message.ParseComplete, Message.BindComplete], cursors := [], inTransaction := false,
    conn := { written := [], script := [some "broken pipe".toList] } }

/-- Everything the session has handed to the client so far: the bytes written
to the socket followed by the encodings of the messages still queued. -/
def allBytes {ρ : Type} (encode : Message → Bytes) (qe : QueryExecutor ρ) : Bytes :=
  qe.conn.written.flatten ++ encodeAll encode qe.mb

/-- A socket on which every write to come succeeds. -/
def Socket.accepts (c : Socket) : Prop := ∀ o ∈ c.script, o = none

/-- Back ends for the concrete inputs: PGDB answers every query with the one
row `7` of a column `col1`; VDB and prepared statements are not used. -/
def testEnv : Env Nat :=
  { encode := kindByte
    pgDBName := "database".toList
    synchronizedSchemas := ["my_schema".toList]
    vdbQuery := fun _ => Except.error (DriverError.other "no vdb".toList)
    pgdbQuery := fun _ => Except.ok
      { columnTypes := Except.ok [{ Name := "col1".toList, DatabaseTypeName := "INT".toList }]
        rows := [7], err := none }
    vdbPrepare := fun _ => Except.error (DriverError.other "no vdb".toList)
    pgdbPrepare := fun _ => Except.error (DriverError.other "no prepare".toList)
    scanRowToText := fun r _ => Except.ok [some ((fmtNat r).map Char.toNat)]
    scanRowToBinary := fun _ _ =>
      Except.error "unsupported data type for binary format: INT".toList }

/-- A session that holds the open cursor `test`. -/
def cursorSession : QueryExecutor Nat :=
  { mb := [], cursors := [("test".toList, textCursor [7, 8, 9])], inTransaction := false }

/-- A prepared statement whose text is a DEALLOCATE statement. -/
def deallocateStatement : PreparedStatement := parsedStatement "DEALLOCATE foo".toList []

/-- A session in which a CloseComplete is still queued, as the case
`*pgproto3.Close` of `serveConn` leaves it. -/
def staleSession : QueryExecutor Nat :=
  { mb := [Message.CloseComplete], cursors := [], inTransaction := false }

/-- The entry `int` of `VERTICA_TO_POSTGRES_TYPE_MAPPING`. -/
def intEntry : Str × Str := ("int".toList, "bigint".toList)

/-- A statement with one column of the type `interval`. -/
def intervalTable : Str := "CREATE TABLE t (a interval)".toList

/-! ## Rewriting described without regular expressions -/

/-- A recogniser: the matched text and the rest, when the pattern is found at
the head of the text. -/
abbrev Recogniser := Str → Option (Str × Str)

/-- Scan the text from left to right: where the recogniser finds its pattern,
put `repl` of the matched text and go on after it; else keep the character. -/
def scanWith (recog : Recogniser) (repl : Str → Str) : Nat → Str → Str
  | 0, s => s
  | _ + 1, [] => []
  | n + 1, c :: t =>
    match recog (c :: t) with
    | some (m, rest) => repl m ++ scanWith recog repl n rest
    | none => c :: scanWith recog repl n t

/-- The scan of the whole text. -/
def scanAll (recog : Recogniser) (repl : Str → Str) (s : Str) : Str :=
  scanWith recog repl s.length s

/-- The text begins with the word, letter case apart. -/
def foldPrefix : Str → Str → Bool
  | [], _ => true
  | _ :: _, [] => false
  | x :: w, c :: s => foldEq x c && foldPrefix w s

/-- In the words of the spec, a cast `::<type>`: two colons and the longest
run of letters and digits after them, which is not empty. -/
def typeAt : Recogniser := fun s =>
  if "::".toList.isPrefixOf s then
    match s.drop 2 with
    | x :: t =>
      if isAlnumFold x then
        some ("::".toList ++ x :: t.takeWhile isAlnumFold, t.dropWhile isAlnumFold)
      else none
    | [] => none
  else none

/-- In the words of the spec, the end of a `CAST(expr AS <type>)`: `AS` in any
letter case, a space, the longest run of letters and digits, which is not
empty, and a closing parenthesis. -/
def castAt : Recogniser := fun s =>
  if foldPrefix "AS ".toList s then
    match s.drop 3 with
    | x :: t =>
      if isAlnumFold x then
        match t.dropWhile isAlnumFold with
        | c :: rest =>
          if c = ')' then some (s.take 3 ++ x :: t.takeWhile isAlnumFold ++ [')'], rest)
          else none
        | [] => none
      else none
    | [] => none
  else none

/-- What a cast `::<type>` is rewritten to. -/
def colonOut (matched : Str) : Str :=
  "::".toList ++ mapPostgresToVerticaType (matched.drop 2)

/-- What the end `AS <type>)` of a cast is rewritten to. -/
def castOut (matched : Str) : Str :=
  "AS ".toList ++ mapPostgresToVerticaType ((matched.drop 3).dropLast) ++ ")".toList

/-- Drop one leading quote character, if there is one. -/
def skipQuote : Str → Str
  | c :: t => if isQuoteClass c then t else c :: t
  | [] => []

/-- The text begins with the name, letter case apart: `fold x c` says that
the character `c` is the character `x` of the name, letter case apart. -/
def namePrefix (fold : Char → Char → Bool) : Str → Str → Bool
  | [], _ => true
  | _ :: _, [] => false
  | x :: w, c :: s => fold x c && namePrefix fold w s

/-- An optional quote and a dot: the text after them. -/
def afterName (t : Str) : Option Str :=
  match skipQuote t with
  | c :: rest => if c = '.' then some rest else none
  | [] => none

/-- The name in any letter case, an optional quote and a dot: the text after
them. -/
def nameAt (fold : Char → Char → Bool) (pgDBName v : Str) : Option Str :=
  if namePrefix fold pgDBName v then afterName (v.drop pgDBName.length) else none

/-- An optional quote, the name in any letter case, an optional quote and a
dot: the text after them.  A quote at the head is read as the optional quote
if the rest can be read so, and else as the first character of the name. -/
def quotedNameAt (fold : Char → Char → Bool) (pgDBName : Str) : Str → Option Str
  | [] => nameAt fold pgDBName []
  | c :: t =>
    if isQuoteClass c then
      match nameAt fold pgDBName t with
      | some rest => some rest
      | none => nameAt fold pgDBName (c :: t)
    else nameAt fold pgDBName (c :: t)

/-- Whitespace, as much of it as lets the rest be read, and then what
`quotedNameAt` reads: the text after them. -/
def afterSpace (fold : Char → Char → Bool) (pgDBName : Str) : Str → Option Str
  | [] => quotedNameAt fold pgDBName []
  | c :: t =>
    if isSpaceClass c then
      match afterSpace fold pgDBName t with
      | some rest => some rest
      | none => quotedNameAt fold pgDBName (c :: t)
    else quotedNameAt fold pgDBName (c :: t)

/-- In the words of the spec, a reference to the PGDB: `FROM` in any letter
case, one or more whitespace characters, an optional quote, the name in any
letter case, an optional quote and a dot. -/
def fromAt (fold : Char → Char → Bool) (pgDBName : Str) : Recogniser := fun s =>
  if foldPrefix "FROM".toList s then
    match s.drop 4 with
    | w :: u =>
      if isSpaceClass w then
        match afterSpace fold pgDBName u with
        | some rest => some (s.take (s.length - rest.length), rest)
        | none => none
      else none
    | [] => none
  else none

/-! ## Integers carried by a payload, lines of a query -/

/-- In the words of the spec: the big-endian integer carried by a payload,
the first byte being the most significant. -/
def beValue : Bytes → Nat
  | [] => 0
  | b :: rest => b * 256 ^ rest.length + beValue rest

/-- In the words of the spec: an unsigned 64-bit value read as a signed
two's-complement value. -/
def signed64 (v : Nat) : Int := if v < 2 ^ 63 then (v : Int) else (v : Int) - 2 ^ 64

/-- In the words of the spec: the decimal string of an integer. -/
def decimal (i : Int) : Str := (toString i).toList

/-- The lines that `normalizeQuery` drops: those whose trimmed form is empty,
`-` or `--`. -/
def droppedLine (line : Str) : Bool :=
  decide (trimSpace line = [] ∨ trimSpace line = "-".toList ∨ trimSpace line = "--".toList)

/-- The statement that drops a table of a schema. -/
def dropStatement (schema table : Str) : Str :=
  "DROP TABLE IF EXISTS ".toList ++ schema ++ ".".toList ++ table ++ ";".toList

/-- A database for the concrete inputs: it answers a query for the tables of
the VDB with `vt`, any other query with `pt`. -/
def listingDB (vt pt : List Str) (script : List (Option Str)) : SqlDB :=
  { queryIds := fun q =>
      if hasPrefix q "SELECT table_name FROM v_catalog".toList then Except.ok vt
      else Except.ok pt
    script := script }

/-- The synchronizer of the test `TestDeleteNonExistentTablesInPG`: one
database for both handles. -/
def listingSync (vt pt : List Str) (script : List (Option Str)) : SchemasSynchronizator :=
  { vdb := listingDB vt pt script, pgdb := listingDB vt pt script }

/-- In the words of the spec: the pieces of a text between the occurrences of
`old`, put together again with `new` in the place of the first `n`
occurrences and `old` in the place of the later ones. -/
def joinCapped (old new : Str) : Nat → List Str → Str
  | _, [] => []
  | _, [p] => p
  | 0, p :: q :: rest => p ++ old ++ joinCapped old new 0 (q :: rest)
  | n + 1, p :: q :: rest => p ++ new ++ joinCapped old new n (q :: rest)

/-- Back ends like `testEnv`, but the text encoder rejects the row `0`. -/
def pickyEnv : Env Nat :=
  { testEnv with
    scanRowToText := fun r _ =>
      if r = 0 then Except.error "unsupported data type".toList
      else Except.ok [some ((fmtNat r).map Char.toNat)] }

/-- A result set of one column with the given rows and no error. -/
def rowsOf (rows : List Nat) : Rows Nat :=
  { columnTypes := Except.ok [{ Name := "col1".toList, DatabaseTypeName := "INT".toList }]
    rows := rows, err := none }

/-- A session in whose buffer seventeen messages are queued, as after
seventeen Parse messages. -/
def crowdedSession : QueryExecutor Nat :=
  { mb := List.replicate 17 Message.ParseComplete, cursors := [], inTransaction := false }

/-! ## The reserved identifiers -/

/-- In the words of the spec (external interfaces, the denylist of technical
tables): the reserved identifiers of the PG catalog and of the information
schema. -/
def reservedIdentifiers : List Str :=
  ["PG_AGGREGATE", "PG_AM", "PG_AMOP", "PG_AMPROC", "PG_ATTRDEF", "PG_ATTRIBUTE",
   "PG_AUTH_MEMBERS", "PG_AUTHID", "PG_CAST", "PG_CLASS", "PG_COLLATION", "PG_CONSTRAINT",
   "PG_CONVERSION", "PG_DATABASE", "PG_ENUM", "PG_FOREIGN_DATA_WRAPPER", "PG_FOREIGN_SERVER",
   "PG_FOREIGN_TABLE", "PG_INDEX", "PG_INHERITS", "PG_LANGUAGE", "PG_LARGEOBJECT",
   "PG_LARGEOBJECT_METADATA", "PG_NAMESPACE", "PG_OPCLASS", "PG_OPERATOR", "PG_OPFAMILY",
   "PG_PLTEMPLATE", "PG_PROC", "PG_REWRITE", "PG_SHDEPEND", "PG_SHDESCRIPTION", "PG_STATISTIC",
   "PG_TABLESPACE", "PG_TRIGGER", "PG_TS_CONFIG", "PG_TS_CONFIG_MAP", "PG_TS_DICT",
   "PG_TS_PARSER", "PG_TS_TEMPLATE", "PG_TYPE", "PG_USER_MAPPING", "PG_DIST_NODE",
   "INFORMATION_SCHEMA"].map String.toList

/-! ## Placeholders of a prepared statement -/

/-- The number of places of a text at which `pat` begins. -/
def occurrences (pat : Str) : Str → Nat
  | [] => 0
  | c :: t => (if pat.isPrefixOf (c :: t) then 1 else 0) + occurrences pat t

/-- In the words of the spec: the text with the first occurrence of `pat`
replaced by `null`. -/
def nullFirst (pat : Str) : Str → Str
  | [] => []
  | c :: t =>
    if pat.isPrefixOf (c :: t) then "null".toList ++ (c :: t).drop pat.length
    else c :: nullFirst pat t

/-- In the words of the spec: for i = 1..n in turn, the first `$i` replaced by
`null`. -/
def nullDollars : Nat → Str → Str
  | 0, q => q
  | n + 1, q => nullFirst ('$' :: fmtNat (n + 1)) (nullDollars n q)

/-! ## The rewriting of a `CREATE TABLE` statement, described without regular expressions -/

/-- In the words of the spec, a type `text(n)`: `text(`, digits or none, and
`)`. -/
def textAt : Recogniser := fun s =>
  if "text(".toList.isPrefixOf s then
    match (s.drop 5).dropWhile isDigitClass with
    | c :: rest => if c = ')' then some (s.take (s.length - rest.length), rest) else none
    | [] => none
  else none

/-- The text up to the last `)` of the first line, this `)` included, and the
text after it. -/
def lastParen : Str → Option (Str × Str)
  | [] => none
  | c :: t =>
    if c = '\n' then none
    else
      match lastParen t with
      | some (m, rest) => some (c :: m, rest)
      | none => if c = ')' then some ([c], t) else none

/-- In the words of the spec, a part `PARTITION BY (...)`: `PARTITION BY (`
and the text up to the last `)` of the line. -/
def partAt : Recogniser := fun s =>
  if "PARTITION BY (".toList.isPrefixOf s then
    match lastParen (s.drop 14) with
    | some (m, rest) => some ("PARTITION BY (".toList ++ m, rest)
    | none => none
  else none

/-- What the translation makes of the column types of a text: every `int`
becomes `bigint`, every `float` becomes `double precision`, and every type
`text(n)` becomes `text`. -/
def columnTypes (p : Str) : Str :=
  scanAll textAt (fun _ => "text".toList)
    (replaceAll (replaceAll p "int".toList "bigint".toList) "float".toList
      "double precision".toList)

/-! # Theorems -/

/-! ## The classifier `isDataQuery` -/

theorem hitsTechnicalTable_iff (n : Str) (l : List Str) :
    hitsTechnicalTable n l = true ↔ ∃ t ∈ l, contains n t = true := by
  induction l with
  | nil => simp [hitsTechnicalTable]
  | cons t rest ih =>
    by_cases h : contains n t = true
    · simp [hitsTechnicalTable, h]
    · simp [hitsTechnicalTable, h, ih]

theorem schemaLoop_iff (up : Char → Char) (n : Str) (flag : Bool) (l : List Str) :
    schemaLoop up n flag l = true ↔
      flag = true ∨ ∃ s ∈ l, contains n (toUpperBy up s) = true := by
  induction l generalizing flag with
  | nil => simp [schemaLoop]
  | cons t rest ih =>
    by_cases h : contains n (toUpperBy up t) = true
    · simp [schemaLoop, h, ih]
    · simp [schemaLoop, h, ih]

set_option maxRecDepth 100000 in
/-- C1: `isDataQuery(q, S)` is true exactly when, on the upper-cased and
trimmed text of `q`, none of the reserved identifiers `PG_AGGREGATE` ...
`INFORMATION_SCHEMA` occurs, the text begins with `SELECT`, it contains `FROM`,
and it contains the upper-cased form of at least one name of `S`; this for
whatever the mapping `unicode.ToUpper` of the characters is.  With the
mapping of the ASCII letters, the four queries of the repository's test and a
query on the information schema come out as DATA or not as the test says. -/
theorem isDataQuery_iff (up : Char → Char) (q : Str) (S : List Str) :
    (isDataQuery up q S = true ↔
      ((∀ t ∈ reservedIdentifiers, contains (trimSpace (toUpperBy up q)) t = false) ∧
        hasPrefix (trimSpace (toUpperBy up q)) "SELECT".toList = true ∧
        contains (trimSpace (toUpperBy up q)) "FROM".toList = true ∧
        ∃ s ∈ S, contains (trimSpace (toUpperBy up q)) (toUpperBy up s) = true)) ∧
    isDataQuery upperChar "SELECT * FROM PG_AGGREGATE".toList ["my_schema".toList] = false ∧
    isDataQuery upperChar "SELECT * FROM my_schema.users".toList ["my_schema".toList] = true ∧
    isDataQuery upperChar "SELECT * FROM my_schema_1.users".toList ["my_schema".toList] = true ∧
    isDataQuery upperChar "SELECT 1".toList ["my_schema".toList] = false ∧
    isDataQuery upperChar "select * from my_schema.t, information_schema.tables".toList
      ["my_schema".toList] = false := by
  refine ⟨?_, by rfl, by rfl, by rfl, by rfl, by rfl⟩
  have htab : postgresTechnicalTables = reservedIdentifiers := by rfl
  have hden : (∀ t ∈ reservedIdentifiers, contains (trimSpace (toUpperBy up q)) t = false) ↔
      ¬ hitsTechnicalTable (trimSpace (toUpperBy up q)) postgresTechnicalTables = true := by
    rw [hitsTechnicalTable_iff, htab]
    constructor
    · rintro h ⟨t, ht, hc⟩
      rw [h t ht] at hc
      exact Bool.false_ne_true hc
    · intro h t ht
      cases hc : contains (trimSpace (toUpperBy up q)) t with
      | false => rfl
      | true => exact absurd ⟨t, ht, hc⟩ h
  rw [hden]
  unfold isDataQuery
  by_cases h1 : hitsTechnicalTable (trimSpace (toUpperBy up q)) postgresTechnicalTables = true
  · simp [h1]
  · by_cases h2 : hasPrefix (trimSpace (toUpperBy up q)) "SELECT".toList = true
    · simp only [h1, h2, if_true, Bool.false_eq_true, if_false, Bool.and_eq_true,
        schemaLoop_iff, false_or, not_false_eq_true, true_and]
      constructor
      · rintro ⟨a, b⟩; exact ⟨b, a⟩
      · rintro ⟨a, b⟩; exact ⟨b, a⟩
    · simp only [h1, h2, if_false, Bool.false_eq_true, not_false_eq_true, true_and, false_and]

/-! ## Facts about `cut` and `replaceFirst` -/

theorem cut_some_eq (sep : Str) : ∀ (s b a : Str), cut sep s = some (b, a) → s = b ++ sep ++ a := by
  intro s
  induction s with
  | nil =>
    intro b a h
    unfold cut at h
    split at h
    · rename_i hs
      have : sep = [] := by simpa using hs
      subst this
      simp only [Option.some.injEq, Prod.mk.injEq] at h
      obtain ⟨rfl, rfl⟩ := h
      rfl
    · exact absurd h (by simp)
  | cons c t ih =>
    intro b a h
    unfold cut at h
    split at h
    · rename_i hp
      simp only [Option.some.injEq, Prod.mk.injEq] at h
      obtain ⟨rfl, rfl⟩ := h
      have hpre : sep <+: c :: t := List.isPrefixOf_iff_prefix.mp hp
      obtain ⟨r, hr⟩ := hpre
      rw [← hr]
      simp
    · cases hc : cut sep t with
      | none => rw [hc] at h; exact absurd h (by simp)
      | some r =>
        rw [hc] at h
        simp only [Option.map_some'] at h
        obtain ⟨r1, r2⟩ := r
        simp only [Option.some.injEq, Prod.mk.injEq] at h
        obtain ⟨rfl, rfl⟩ := h
        have := ih r1 r2 hc
        rw [this]
        simp

theorem cut_none_of_head_not_mem (d : Char) (ds : Str) :
    ∀ s : Str, d ∉ s → cut (d :: ds) s = none := by
  intro s
  induction s with
  | nil => intro _; simp [cut]
  | cons c t ih =>
    intro h
    have hc : d ≠ c := fun e => h (by simp [e])
    have ht : d ∉ t := fun e => h (List.mem_cons_of_mem _ e)
    unfold cut
    have hp : (d :: ds).isPrefixOf (c :: t) = false := by
      simp [List.isPrefixOf, hc]
    simp [hp, ih ht]

theorem cut_single_first (x : Char) (pre post : Str) (h : x ∉ pre) :
    cut [x] (pre ++ x :: post) = some (pre, post) := by
  induction pre with
  | nil => simp [cut, List.isPrefixOf]
  | cons c t ih =>
    have hc : x ≠ c := fun e => h (by simp [e])
    have ht : x ∉ t := fun e => h (List.mem_cons_of_mem _ e)
    have hp : [x].isPrefixOf (c :: (t ++ x :: post)) = false := by
      simp [List.isPrefixOf, hc]
    show cut [x] (c :: (t ++ x :: post)) = some (c :: t, post)
    unfold cut
    simp [hp, ih ht]

theorem exists_first_occurrence (x : Char) :
    ∀ s : Str, x ∈ s → ∃ pre post, s = pre ++ x :: post ∧ x ∉ pre := by
  intro s
  induction s with
  | nil => intro h; exact absurd h (by simp)
  | cons c t ih =>
    intro h
    by_cases hc : x = c
    · exact ⟨[], t, by simp [hc], by simp⟩
    · have ht : x ∈ t := by
        rcases List.mem_cons.mp h with e | e
        · exact absurd e hc
        · exact e
      obtain ⟨pre, post, e, hn⟩ := ih ht
      refine ⟨c :: pre, post, by simp [e], ?_⟩
      intro hm
      rcases List.mem_cons.mp hm with e1 | e1
      · exact hc e1
      · exact hn e1

theorem replaceFirst_single_first (x : Char) (pre post new : Str) (h : x ∉ pre) :
    replaceFirst (pre ++ x :: post) [x] new = pre ++ new ++ post := by
  unfold replaceFirst
  rw [cut_single_first x pre post h]

theorem replaceFirst_of_head_not_mem (d : Char) (ds s new : Str) (h : d ∉ s) :
    replaceFirst s (d :: ds) new = s := by
  unfold replaceFirst
  rw [cut_none_of_head_not_mem d ds s h]

theorem replaceFirst_cases (s old new : Str) :
    replaceFirst s old new = s ∨ ∃ b a, s = b ++ old ++ a ∧ replaceFirst s old new = b ++ new ++ a := by
  unfold replaceFirst
  cases hc : cut old s with
  | none => exact Or.inl rfl
  | some r =>
    obtain ⟨b, a⟩ := r
    exact Or.inr ⟨b, a, cut_some_eq old s b a hc, rfl⟩

theorem not_mem_replaceFirst (x : Char) (s old new : Str) (hs : x ∉ s) (hn : x ∉ new) :
    x ∉ replaceFirst s old new := by
  rcases replaceFirst_cases s old new with e | ⟨b, a, e1, e2⟩
  · rw [e]; exact hs
  · rw [e2]
    rw [e1] at hs
    simp only [List.mem_append, not_or] at hs ⊢
    exact ⟨⟨hs.1.1, hn⟩, hs.2⟩

theorem count_replaceFirst_other (x : Char) (s old new : Str) (ho : x ∉ old) (hn : x ∉ new) :
    (replaceFirst s old new).count x = s.count x := by
  rcases replaceFirst_cases s old new with e | ⟨b, a, e1, e2⟩
  · rw [e]
  · rw [e2]
    conv_rhs => rw [e1]
    simp only [List.count_append, List.count_eq_zero_of_not_mem ho,
      List.count_eq_zero_of_not_mem hn]

theorem count_replaceFirst_single (x : Char) (s new : Str) (hn : x ∉ new) :
    (replaceFirst s [x] new).count x = s.count x - 1 := by
  by_cases hx : x ∈ s
  · obtain ⟨pre, post, e, hp⟩ := exists_first_occurrence x s hx
    rw [e, replaceFirst_single_first x pre post new hp]
    simp [List.count_append, List.count_eq_zero_of_not_mem hp,
      List.count_eq_zero_of_not_mem hn]
  · rw [replaceFirst_of_head_not_mem x [] s new hx, List.count_eq_zero_of_not_mem hx]

/-! ## Facts about `fmtNat` -/

theorem digitChar_isDigit : ∀ d : Nat, d < 10 → (Nat.digitChar d).isDigit = true := by
  decide

theorem toDigitsCore_isDigit (f : Nat) : ∀ (n : Nat) (acc : List Char),
    (∀ c ∈ acc, c.isDigit = true) → ∀ c ∈ Nat.toDigitsCore 10 f n acc, c.isDigit = true := by
  induction f with
  | zero => intro n acc h; simpa [Nat.toDigitsCore] using h
  | succ f ih =>
    intro n acc h
    have hd : (Nat.digitChar (n % 10)).isDigit = true :=
      digitChar_isDigit _ (Nat.mod_lt _ (by decide))
    have hacc : ∀ c ∈ Nat.digitChar (n % 10) :: acc, c.isDigit = true := by
      intro c hc
      rcases List.mem_cons.mp hc with e | e
      · rw [e]; exact hd
      · exact h c e
    unfold Nat.toDigitsCore
    simp only
    split
    · exact hacc
    · exact ih _ _ hacc

theorem fmtNat_isDigit (n : Nat) : ∀ c ∈ fmtNat n, c.isDigit = true :=
  toDigitsCore_isDigit (n + 1) n [] (by simp)

theorem question_not_mem_dollar (k : Nat) : '?' ∉ '$' :: fmtNat k := by
  intro h
  rcases List.mem_cons.mp h with e | e
  · exact absurd e (by decide)
  · exact absurd (fmtNat_isDigit k _ e) (by decide)

/-! ## Occurrences of a placeholder -/

theorem occurrences_cons (pat : Str) (c : Char) (t : Str) :
    occurrences pat (c :: t) =
      (if pat.isPrefixOf (c :: t) then 1 else 0) + occurrences pat t := rfl

theorem occurrences_eq_zero (pat : Str) (hp : pat ≠ []) : ∀ s : Str,
    occurrences pat s = 0 ↔ cut pat s = none := by
  intro s
  induction s with
  | nil =>
    cases pat with
    | nil => exact absurd rfl hp
    | cons x t => simp [occurrences, cut]
  | cons c t ih =>
    rw [occurrences_cons]
    unfold cut
    by_cases h : pat.isPrefixOf (c :: t) = true
    · simp [h]
    · simp only [h, Bool.false_eq_true, if_false, Nat.zero_add, Option.map_eq_none']
      exact ih

theorem occurrences_absent (pat : Str) (hp : pat ≠ []) (s : Str) (h : occurrences pat s = 0) :
    contains s pat = false := by
  unfold contains
  rw [(occurrences_eq_zero pat hp s).mp h]
  rfl

/-- Where `Y` is put for `Y'` after `b`, and each occurrence that begins in `b`
is still one with `Y'`, no occurrence is gained in `b`. -/
theorem occurrences_append_le (pat Y Y' : Str) : ∀ b : Str,
    (∀ u, u ≠ [] → u <:+ b → pat <+: u ++ Y → pat <+: u ++ Y') →
    occurrences pat (b ++ Y) + occurrences pat Y' ≤
      occurrences pat (b ++ Y') + occurrences pat Y := by
  intro b
  induction b with
  | nil => intro _; simp only [List.nil_append]; omega
  | cons c b1 ih =>
    intro h
    have hrec := ih (fun u hne hu => h u hne (hu.trans (List.suffix_cons c b1)))
    show occurrences pat (c :: (b1 ++ Y)) + _ ≤ occurrences pat (c :: (b1 ++ Y')) + _
    rw [occurrences_cons, occurrences_cons]
    by_cases h1 : pat.isPrefixOf (c :: (b1 ++ Y)) = true
    · have h2 : pat.isPrefixOf (c :: (b1 ++ Y')) = true :=
        List.isPrefixOf_iff_prefix.mpr
          (h (c :: b1) (by simp) (List.suffix_refl _) (List.isPrefixOf_iff_prefix.mp h1))
      rw [if_pos h1, if_pos h2]
      omega
    · rw [if_neg h1]
      omega

theorem occurrences_skip (d : Char) (ds a : Str) : ∀ x : Str, d ∉ x →
    occurrences (d :: ds) (x ++ a) = occurrences (d :: ds) a := by
  intro x
  induction x with
  | nil => intro _; rfl
  | cons c x1 ih =>
    intro h
    have hc : d ≠ c := fun e => h (by simp [e])
    have hx : d ∉ x1 := fun e => h (List.mem_cons_of_mem _ e)
    have hp : (d :: ds).isPrefixOf (c :: (x1 ++ a)) = false := by
      simp [List.isPrefixOf, hc]
    show occurrences (d :: ds) (c :: (x1 ++ a)) = _
    rw [occurrences_cons, hp, ih hx]
    simp

theorem occurrences_le_append (pat a : Str) : ∀ x : Str,
    occurrences pat a ≤ occurrences pat (x ++ a) := by
  intro x
  induction x with
  | nil => exact Nat.le_refl _
  | cons c x1 ih =>
    show _ ≤ occurrences pat (c :: (x1 ++ a))
    rw [occurrences_cons]
    omega

theorem occurrences_self_append (pat a : Str) (hp : pat ≠ []) :
    occurrences pat a + 1 ≤ occurrences pat (pat ++ a) := by
  cases pat with
  | nil => exact absurd rfl hp
  | cons c t =>
    have h1 : (c :: t).isPrefixOf (c :: (t ++ a)) = true :=
      List.isPrefixOf_iff_prefix.mpr (List.prefix_append (c :: t) a)
    show _ ≤ occurrences (c :: t) (c :: (t ++ a))
    rw [occurrences_cons, if_pos h1]
    have := occurrences_le_append (c :: t) a t
    omega

/-- A placeholder `$<digits>` does not reach into a text that begins with `n`. -/
theorem dollar_not_across (ds : Str) (hds : ∀ c ∈ ds, c.isDigit = true) (u R R' : Str)
    (hu : u ≠ []) (h : '$' :: ds <+: u ++ ('n' :: R)) : '$' :: ds <+: u ++ R' := by
  rcases List.prefix_or_prefix_of_prefix h (List.prefix_append u ('n' :: R)) with h1 | h1
  · exact h1.trans (List.prefix_append u R')
  · obtain ⟨k, hk⟩ := h1
    cases k with
    | nil =>
      rw [List.append_nil] at hk
      rw [← hk]
      exact List.prefix_append u R'
    | cons y k1 =>
      exfalso
      rw [← hk] at h
      have h2 : y :: k1 <+: 'n' :: R := (List.prefix_append_right_inj u).mp h
      have hy : y = 'n' := (List.cons_prefix_cons.mp h2).1
      cases u with
      | nil => exact hu rfl
      | cons x u1 =>
        have hk2 : u1 ++ y :: k1 = ds := (List.cons.inj hk).2
        have hmem : y ∈ ds := by rw [← hk2]; simp
        have := hds y hmem
        rw [hy] at this
        exact absurd this (by decide)

/-- Putting `null` for an occurrence of `old` brings up no placeholder. -/
theorem occurrences_null (ds : Str) (hds : ∀ c ∈ ds, c.isDigit = true) (b old a : Str) :
    occurrences ('$' :: ds) (b ++ ("null".toList ++ a)) + occurrences ('$' :: ds) (old ++ a) ≤
      occurrences ('$' :: ds) (b ++ (old ++ a)) + occurrences ('$' :: ds) a := by
  have h1 := occurrences_append_le ('$' :: ds) ("null".toList ++ a) (old ++ a) b
    (fun u hne _ h => dollar_not_across ds hds u _ _ hne h)
  have h2 : occurrences ('$' :: ds) ("null".toList ++ a) = occurrences ('$' :: ds) a :=
    occurrences_skip '$' ds a "null".toList (by decide)
  omega

/-- One round `strings.Replace(q, old, "null", 1)`: no placeholder is gained,
and the placeholder `old` is gone when the text held it at most once. -/
theorem null_step (ds : Str) (hds : ∀ c ∈ ds, c.isDigit = true) (old s : Str) :
    occurrences ('$' :: ds) (replaceFirst s old "null".toList) ≤ occurrences ('$' :: ds) s ∧
    ('$' :: ds = old → occurrences ('$' :: ds) s ≤ 1 →
      occurrences ('$' :: ds) (replaceFirst s old "null".toList) = 0) := by
  unfold replaceFirst
  cases hc : cut old s with
  | none =>
    refine ⟨Nat.le_refl _, ?_⟩
    intro e _
    rw [← e] at hc
    exact (occurrences_eq_zero _ (by simp) s).mpr hc
  | some r =>
    obtain ⟨b, a⟩ := r
    have hs := cut_some_eq old s b a hc
    have h1 := occurrences_null ds hds b old a
    have h2 := occurrences_le_append ('$' :: ds) a old
    show occurrences ('$' :: ds) (b ++ "null".toList ++ a) ≤ _ ∧
      (_ → _ → occurrences ('$' :: ds) (b ++ "null".toList ++ a) = 0)
    rw [hs, List.append_assoc, List.append_assoc]
    refine ⟨by omega, ?_⟩
    intro e hle
    rw [← e] at h1 hle
    have h3 := occurrences_self_append ('$' :: ds) a (by simp)
    omega

theorem count_nullDollarLoop : ∀ (todo i : Nat) (q : Str),
    (nullDollarLoop todo i q).count '?' = q.count '?' := by
  intro todo
  induction todo with
  | zero => intro i q; rfl
  | succ n ih =>
    intro i q
    show (nullDollarLoop n (i + 1) _).count '?' = _
    rw [ih, count_replaceFirst_other '?' q _ _ (question_not_mem_dollar (i + 1)) (by decide)]

theorem count_nullQuestionLoop : ∀ (todo : Nat) (q : Str),
    (nullQuestionLoop todo q).count '?' = q.count '?' - todo := by
  intro todo
  induction todo with
  | zero => intro q; rfl
  | succ n ih =>
    intro q
    show (nullQuestionLoop n (replaceFirst q ['?'] "null".toList)).count '?' = _
    rw [ih, count_replaceFirst_single '?' q "null".toList (by decide)]
    omega

theorem not_mem_substLoop_dollar : ∀ (params : List Str) (i : Nat) (q : Str),
    '$' ∉ q → (∀ p ∈ params, '$' ∉ p) → '$' ∉ substLoop i q params := by
  intro params
  induction params with
  | nil => intro i q hq _; exact hq
  | cons a rest ih =>
    intro i q hq h
    show '$' ∉ substLoop (i + 1) _ rest
    apply ih _ _ _ (fun p hp => h p (List.mem_cons_of_mem _ hp))
    apply not_mem_replaceFirst _ _ _ _ _ (by decide)
    exact not_mem_replaceFirst _ _ _ _ hq (h a (List.mem_cons_self _ _))

theorem substQuestion_of_not_mem : ∀ (s : Str) (ps : List Str), '?' ∉ s → substQuestion s ps = s := by
  intro s
  induction s with
  | nil => intro ps _; cases ps <;> rfl
  | cons c t ih =>
    intro ps h
    cases ps with
    | nil => rfl
    | cons p ps =>
      have hc : c ≠ '?' := fun e => h (by simp [e])
      have ht : '?' ∉ t := fun e => h (List.mem_cons_of_mem _ e)
      simp [substQuestion, hc, ih _ ht]

theorem substQuestion_append : ∀ (pre rest : Str) (ps : List Str), '?' ∉ pre →
    substQuestion (pre ++ rest) ps = pre ++ substQuestion rest ps := by
  intro pre
  induction pre with
  | nil => intro rest ps _; rfl
  | cons c t ih =>
    intro rest ps h
    have hc : c ≠ '?' := fun e => h (by simp [e])
    have ht : '?' ∉ t := fun e => h (List.mem_cons_of_mem _ e)
    cases ps with
    | nil =>
      have e1 : substQuestion rest [] = rest := by cases rest <;> rfl
      rw [e1]
      rfl
    | cons p ps =>
      show substQuestion (c :: (t ++ rest)) (p :: ps) = c :: (t ++ substQuestion rest (p :: ps))
      simp [substQuestion, hc, ih _ _ ht]

theorem substQuestion_first (post p : Str) (ps : List Str) :
    substQuestion ('?' :: post) (p :: ps) = p ++ substQuestion post ps := by
  simp [substQuestion]

/-- The loop of the matching branch computes the positional substitution, on
a text without `$` and with parameter texts without `?` and `$`. -/
theorem substLoop_eq : ∀ (params : List Str) (i : Nat) (pre rest : Str),
    '?' ∉ pre → '$' ∉ pre ++ rest → (∀ p ∈ params, '?' ∉ p ∧ '$' ∉ p) →
    substLoop i (pre ++ rest) params = pre ++ substQuestion rest params := by
  intro params
  induction params with
  | nil =>
    intro i pre rest _ _ _
    have e1 : substQuestion rest [] = rest := by cases rest <;> rfl
    rw [e1]; rfl
  | cons a ps ih =>
    intro i pre rest hpre hd h
    have ha := h a (List.mem_cons_self _ _)
    have hps : ∀ p ∈ ps, '?' ∉ p ∧ '$' ∉ p := fun p hp => h p (List.mem_cons_of_mem _ hp)
    show substLoop (i + 1)
      (replaceFirst (replaceFirst (pre ++ rest) "?".toList a) ('$' :: fmtNat (i + 1)) "null".toList)
      ps = _
    have hd1 : '$' ∉ replaceFirst (pre ++ rest) "?".toList a :=
      not_mem_replaceFirst _ _ _ _ hd ha.2
    rw [replaceFirst_of_head_not_mem '$' _ _ _ hd1]
    by_cases hx : '?' ∈ rest
    · obtain ⟨r1, r2, e, hr1⟩ := exists_first_occurrence '?' rest hx
      subst e
      have hpre1 : '?' ∉ pre ++ r1 := by
        simp only [List.mem_append, not_or]; exact ⟨hpre, hr1⟩
      have e2 : replaceFirst (pre ++ (r1 ++ '?' :: r2)) "?".toList a = (pre ++ r1 ++ a) ++ r2 := by
        rw [← List.append_assoc]
        exact replaceFirst_single_first '?' (pre ++ r1) r2 a hpre1
      rw [e2]
      have hpre2 : '?' ∉ pre ++ r1 ++ a := by
        simp only [List.mem_append, not_or]; exact ⟨⟨hpre, hr1⟩, ha.1⟩
      have hd2 : '$' ∉ (pre ++ r1 ++ a) ++ r2 := by
        simp only [List.mem_append, List.mem_cons, not_or] at hd ⊢
        exact ⟨⟨⟨hd.1, hd.2.1⟩, ha.2⟩, hd.2.2.2⟩
      rw [ih (i + 1) (pre ++ r1 ++ a) r2 hpre2 hd2 hps,
        substQuestion_append r1 ('?' :: r2) (a :: ps) hr1, substQuestion_first]
      simp
    · have hall : '?' ∉ pre ++ rest := by
        simp only [List.mem_append, not_or]; exact ⟨hpre, hx⟩
      rw [show "?".toList = ['?'] from rfl, replaceFirst_of_head_not_mem '?' [] _ a hall]
      rw [ih (i + 1) pre rest hpre hd hps, substQuestion_of_not_mem rest _ hx,
        substQuestion_of_not_mem rest _ hx]

/-- The second loop of the mismatch branch replaces the first `todo`
occurrences of `?` by `null`. -/
theorem nullQuestionLoop_eq : ∀ (todo : Nat) (pre rest : Str), '?' ∉ pre →
    nullQuestionLoop todo (pre ++ rest) =
      pre ++ substQuestion rest (List.replicate todo "null".toList) := by
  intro todo
  induction todo with
  | zero =>
    intro pre rest _
    have e1 : substQuestion rest [] = rest := by cases rest <;> rfl
    show pre ++ rest = pre ++ substQuestion rest []
    rw [e1]
  | succ n ih =>
    intro pre rest hpre
    show nullQuestionLoop n (replaceFirst (pre ++ rest) "?".toList "null".toList) = _
    by_cases hx : '?' ∈ rest
    · obtain ⟨r1, r2, e, hr1⟩ := exists_first_occurrence '?' rest hx
      subst e
      have hpre1 : '?' ∉ pre ++ r1 := by
        simp only [List.mem_append, not_or]; exact ⟨hpre, hr1⟩
      have e2 : replaceFirst (pre ++ (r1 ++ '?' :: r2)) "?".toList "null".toList =
          (pre ++ r1 ++ "null".toList) ++ r2 := by
        rw [← List.append_assoc]
        exact replaceFirst_single_first '?' (pre ++ r1) r2 _ hpre1
      rw [e2]
      have hpre2 : '?' ∉ pre ++ r1 ++ "null".toList := by
        simp only [List.mem_append, not_or]; exact ⟨⟨hpre, hr1⟩, by decide⟩
      rw [ih (pre ++ r1 ++ "null".toList) r2 hpre2, List.replicate_succ,
        substQuestion_append r1 ('?' :: r2) _ hr1, substQuestion_first]
      simp
    · have hall : '?' ∉ pre ++ rest := by
        simp only [List.mem_append, not_or]; exact ⟨hpre, hx⟩
      rw [show "?".toList = ['?'] from rfl, replaceFirst_of_head_not_mem '?' [] _ _ hall,
        ih pre rest hpre,
        substQuestion_of_not_mem rest _ hx, substQuestion_of_not_mem rest _ hx]

theorem addParametersLoop_length (ff : FloatFmt) (codes : List Int) (oids : List Nat) :
    ∀ (todo : List Bytes) (i : Nat) (acc params : List Str),
      addParametersLoop ff codes oids i todo acc = Except.ok params →
      params.length = acc.length + todo.length ∧ (todo ≠ [] → i + todo.length ≤ oids.length) := by
  intro todo
  induction todo with
  | nil =>
    intro i acc params h
    simp only [addParametersLoop, Except.ok.injEq] at h
    subst h
    simp
  | cons p rest ih =>
    intro i acc params h
    unfold addParametersLoop at h
    cases hc : codes.get? i with
    | none => rw [hc] at h; exact absurd h (by simp)
    | some code =>
      rw [hc] at h
      dsimp only at h
      cases ho : oids.get? i with
      | none => rw [ho] at h; exact absurd h (by simp)
      | some oid =>
        rw [ho] at h
        dsimp only at h
        cases hp : parseParameter ff code oid p with
        | error e => rw [hp] at h; exact absurd h (by simp)
        | ok parsed =>
          rw [hp] at h
          dsimp only at h
          have := ih (i + 1) (acc ++ [parsed]) params h
          have hi : i < oids.length := by
            rcases List.get?_eq_some.mp ho with ⟨hlt, _⟩
            exact hlt
          constructor
          · simp only [List.length_append, List.length_cons, List.length_nil] at this ⊢
            omega
          · intro _
            by_cases hr : rest = []
            · subst hr; simp only [List.length_cons, List.length_nil]; omega
            · have := this.2 hr
              simp only [List.length_cons]; omega

theorem addParameters_ok (ff : FloatFmt) (ps ps1 : PreparedStatement) (msg : Bind)
    (h : ps.addParameters ff msg = Except.ok ps1) :
    ∃ params : List Str, ps1 = { ps with parameters := some params, binds := some (params.map some) } ∧
      params.length = msg.Parameters.length ∧ msg.Parameters.length ≤ ps.parameterOIDs.length := by
  unfold PreparedStatement.addParameters at h
  cases hl : addParametersLoop ff msg.ParameterFormatCodes ps.parameterOIDs 0 msg.Parameters [] with
  | error e => rw [hl] at h; exact absurd h (by simp)
  | ok params =>
    rw [hl] at h
    simp only [Except.ok.injEq] at h
    have hlen := addParametersLoop_length ff _ _ _ _ _ _ hl
    refine ⟨params, h.symm, by simpa using hlen.1, ?_⟩
    by_cases hr : msg.Parameters = []
    · rw [hr]; simp
    · have := hlen.2 hr
      omega

theorem parseParameter_text (ff : FloatFmt) (oid : Nat) (p : Bytes) :
    parseParameter ff 0 oid p = Except.ok (ff.text p) := by
  simp [parseParameter]

theorem addParametersLoop_text (ff : FloatFmt) (codes : List Int) (oids : List Nat)
    (hzero : ∀ c ∈ codes, c = 0) :
    ∀ (todo : List Bytes) (i : Nat) (acc : List Str),
      i + todo.length ≤ codes.length → i + todo.length ≤ oids.length →
      addParametersLoop ff codes oids i todo acc = Except.ok (acc ++ todo.map ff.text) := by
  intro todo
  induction todo with
  | nil => intro i acc _ _; simp [addParametersLoop]
  | cons p rest ih =>
    intro i acc h1 h2
    simp only [List.length_cons] at h1 h2
    have hi1 : i < codes.length := by omega
    have hi2 : i < oids.length := by omega
    have hc : codes.get? i = some 0 := by
      rw [List.get?_eq_get hi1]
      exact congrArg some (hzero _ (List.get_mem _ _ _))
    have ho : oids.get? i = some (oids.get ⟨i, hi2⟩) := List.get?_eq_get hi2
    unfold addParametersLoop
    rw [hc, ho]
    dsimp only
    rw [parseParameter_text]
    dsimp only
    rw [ih (i + 1) (acc ++ [ff.text p]) (by omega) (by omega)]
    simp

/-- C3 (as stated, refuted).  The Bind of the repository's test
`TestAddParameters_WrongParameters` carries one parameter for a statement with
two parameter OIDs: `addParameters` succeeds and `binds` has length 1, not 2. -/
theorem binds_length_counterexample :
    ∃ ps1 b, (parsedStatement "SELECT * FROM test WHERE a = ? AND b = ?".toList
        [1, 1]).addParameters noFloats (textBind ["p1".toList]) = Except.ok ps1 ∧
      ps1.binds = some b ∧ b.length = 1 ∧ ps1.parameterOIDs.length = 2 :=
  ⟨boundStatement "SELECT * FROM test WHERE a = ? AND b = ?".toList [1, 1] ["p1".toList],
    [some "p1".toList], rfl, rfl, rfl, rfl⟩

/-- C3 (amended).  After a successful `addParameters`, for any Bind message,
bind values are present and their number equals the number of parameters the
Bind carried, which is at most the number of parameter OIDs of the statement
(the OIDs are unchanged); it equals the number of OIDs exactly when the Bind
carried that many parameters. -/
theorem binds_length_after_addParameters (ff : FloatFmt) (ps ps1 : PreparedStatement)
    (msg : Bind) (hadd : ps.addParameters ff msg = Except.ok ps1) :
    ∃ b, ps1.binds = some b ∧ b.length = msg.Parameters.length ∧
      ps1.parameterOIDs = ps.parameterOIDs ∧ b.length ≤ ps1.parameterOIDs.length ∧
      (b.length = ps1.parameterOIDs.length ↔
        msg.Parameters.length = ps.parameterOIDs.length) := by
  obtain ⟨params, e, hl, hle⟩ := addParameters_ok ff ps ps1 msg hadd
  subst e
  refine ⟨params.map some, rfl, by simpa using hl, rfl, ?_, ?_⟩
  · simp only [List.length_map]; omega
  · simp only [List.length_map]; omega

/-- Witness of C3 (amended): the Bind of `TestAddParameters_WrongParameters`. -/
theorem binds_length_after_addParameters_witness :
    ∃ b, (boundStatement "SELECT * FROM test WHERE a = ? AND b = ?".toList [1, 1]
        ["p1".toList]).binds = some b ∧
      b.length = (textBind ["p1".toList]).Parameters.length ∧
      (boundStatement "SELECT * FROM test WHERE a = ? AND b = ?".toList [1, 1]
        ["p1".toList]).parameterOIDs =
        (parsedStatement "SELECT * FROM test WHERE a = ? AND b = ?".toList [1, 1]).parameterOIDs ∧
      b.length ≤ (boundStatement "SELECT * FROM test WHERE a = ? AND b = ?".toList [1, 1]
        ["p1".toList]).parameterOIDs.length ∧
      (b.length = (boundStatement "SELECT * FROM test WHERE a = ? AND b = ?".toList [1, 1]
          ["p1".toList]).parameterOIDs.length ↔
        (textBind ["p1".toList]).Parameters.length =
          (parsedStatement "SELECT * FROM test WHERE a = ? AND b = ?".toList
            [1, 1]).parameterOIDs.length) :=
  binds_length_after_addParameters noFloats
    (parsedStatement "SELECT * FROM test WHERE a = ? AND b = ?".toList [1, 1])
    (boundStatement "SELECT * FROM test WHERE a = ? AND b = ?".toList [1, 1] ["p1".toList])
    (textBind ["p1".toList]) rfl

/-- C4 (as stated, refuted).  The query `a = ?` has one `?` and no `$`; the one
text-format parameter `$1` contains no `?`.  The positional substitution is
`a = $1`, but `getQuery()` is `a = null`: the `$1` step of the loop rewrites the
text that the `?` step has just inserted. -/
theorem getQuery_positional_counterexample :
    ∃ ps1, (parsedStatement "a = ?".toList [25]).addParameters noFloats
        (textBind ["$1".toList]) = Except.ok ps1 ∧
      substQuestion "a = ?".toList ["$1".toList] = "a = $1".toList ∧
      ps1.getQuery = "a = null".toList ∧
      ps1.getQuery ≠ substQuestion "a = ?".toList ["$1".toList] :=
  ⟨boundStatement "a = ?".toList [25] ["$1".toList], rfl, by decide, by decide, by decide⟩

/-- C4 (amended).  For every query text containing exactly N `?` and no `$`,
with N parameter OIDs and N text-format parameters none of which contains `?`
or `$`, `addParameters` succeeds and `getQuery()` afterwards equals the query
text with the i-th `?` replaced by the i-th parameter text, unquoted.  The
parameter text is the text `string(param)` of the payload (`ff.text`),
whatever the payload. -/
theorem getQuery_positional (ff : FloatFmt) (ps : PreparedStatement) (msg : Bind)
    (hoid : msg.Parameters.length = ps.parameterOIDs.length)
    (hcodes : msg.ParameterFormatCodes.length = msg.Parameters.length)
    (hzero : ∀ c ∈ msg.ParameterFormatCodes, c = 0)
    (hq : ps.query.count '?' = ps.parameterOIDs.length)
    (hd : '$' ∉ ps.query)
    (hp : ∀ p ∈ msg.Parameters, '?' ∉ ff.text p ∧ '$' ∉ ff.text p) :
    ∃ ps1, ps.addParameters ff msg = Except.ok ps1 ∧
      ps1.getQuery = substQuestion ps.query (msg.Parameters.map ff.text) := by
  have hloop := addParametersLoop_text ff msg.ParameterFormatCodes ps.parameterOIDs hzero
    msg.Parameters 0 [] (by omega) (by omega)
  refine ⟨{ ps with parameters := some (msg.Parameters.map ff.text),
                    binds := some ((msg.Parameters.map ff.text).map some) }, ?_, ?_⟩
  · unfold PreparedStatement.addParameters
    rw [hloop]
    rfl
  · by_cases h0 : ps.parameterOIDs.length = 0
    · have hnil : msg.Parameters = [] := List.length_eq_zero.mp (by omega)
      have hcnt : ps.query.count '?' = 0 := by omega
      have hno : '?' ∉ ps.query := List.count_eq_zero.mp hcnt
      simp only [PreparedStatement.getQuery, h0, if_true]
      rw [substQuestion_of_not_mem _ _ hno]
    · have hl : (msg.Parameters.map ff.text).length = ps.parameterOIDs.length := by
        simpa using hoid
      have hget : PreparedStatement.getQuery
          { ps with parameters := some (msg.Parameters.map ff.text),
                    binds := some ((msg.Parameters.map ff.text).map some) } =
          substLoop 0 ps.query (msg.Parameters.map ff.text) := by
        simp only [PreparedStatement.getQuery, h0, if_false, hl, ne_eq, not_true_eq_false]
      rw [hget]
      have hclean : ∀ p ∈ msg.Parameters.map ff.text, '?' ∉ p ∧ '$' ∉ p := by
        intro p hpm
        obtain ⟨b, hb, rfl⟩ := List.mem_map.mp hpm
        exact hp b hb
      have := substLoop_eq (msg.Parameters.map ff.text) 0 [] ps.query (by simp)
        (by simpa using hd) hclean
      simpa using this

/-- Witness of C4 (amended): the repository's test
`TestAddParameters_CorrectParameters`. -/
theorem getQuery_positional_witness :
    ∃ ps1, (parsedStatement "SELECT * FROM test WHERE a = ? AND b = ?".toList
        [1, 1]).addParameters noFloats (textBind ["p1".toList, "p2".toList]) = Except.ok ps1 ∧
      ps1.getQuery = substQuestion
        (parsedStatement "SELECT * FROM test WHERE a = ? AND b = ?".toList [1, 1]).query
        ((textBind ["p1".toList, "p2".toList]).Parameters.map noFloats.text) :=
  getQuery_positional noFloats
    (parsedStatement "SELECT * FROM test WHERE a = ? AND b = ?".toList [1, 1])
    (textBind ["p1".toList, "p2".toList])
    (by decide) (by decide) (by decide) (by decide) (by decide) (by decide)

theorem nullFirst_eq_replaceFirst (pat : Str) (hp : pat ≠ []) : ∀ s : Str,
    nullFirst pat s = replaceFirst s pat "null".toList := by
  intro s
  induction s with
  | nil =>
    cases pat with
    | nil => exact absurd rfl hp
    | cons x t => rfl
  | cons c t ih =>
    unfold nullFirst replaceFirst cut
    by_cases h : pat.isPrefixOf (c :: t) = true
    · simp only [h, if_true]
      rfl
    · simp only [h, Bool.false_eq_true, if_false]
      rw [ih]
      unfold replaceFirst
      cases cut pat t with
      | none => rfl
      | some r => rfl

theorem nullDollarLoop_succ : ∀ (todo i : Nat) (q : Str),
    nullDollarLoop (todo + 1) i q =
      replaceFirst (nullDollarLoop todo i q) ('$' :: fmtNat (i + todo + 1)) "null".toList := by
  intro todo
  induction todo with
  | zero => intro i q; rfl
  | succ n ih =>
    intro i q
    show nullDollarLoop (n + 1) (i + 1) (replaceFirst q ('$' :: fmtNat (i + 1)) "null".toList) = _
    rw [ih (i + 1)]
    have e : i + 1 + n + 1 = i + (n + 1) + 1 := by omega
    rw [e]
    rfl

/-- The first loop of the mismatch branch, in the words of the spec. -/
theorem nullDollarLoop_eq (q : Str) : ∀ n : Nat, nullDollarLoop n 0 q = nullDollars n q := by
  intro n
  induction n with
  | zero => rfl
  | succ n ih =>
    rw [nullDollarLoop_succ, ih, Nat.zero_add]
    show _ = nullFirst ('$' :: fmtNat (n + 1)) (nullDollars n q)
    rw [nullFirst_eq_replaceFirst _ (by simp)]

/-- The first loop of the mismatch branch gains no placeholder and leaves none
of `$1`..`$n` that the text held at most once. -/
theorem nullDollarLoop_occurrences (q : Str) : ∀ n : Nat,
    (∀ ds : Str, (∀ c ∈ ds, c.isDigit = true) →
      occurrences ('$' :: ds) (nullDollarLoop n 0 q) ≤ occurrences ('$' :: ds) q) ∧
    (∀ j, 1 ≤ j → j ≤ n → occurrences ('$' :: fmtNat j) q ≤ 1 →
      occurrences ('$' :: fmtNat j) (nullDollarLoop n 0 q) = 0) := by
  intro n
  induction n with
  | zero =>
    refine ⟨fun _ _ => Nat.le_refl _, ?_⟩
    intro j h1 h2 _
    omega
  | succ n ih =>
    rw [nullDollarLoop_succ, Nat.zero_add]
    constructor
    · intro ds hds
      have h1 := (null_step ds hds ('$' :: fmtNat (n + 1)) (nullDollarLoop n 0 q)).1
      have h2 := ih.1 ds hds
      omega
    · intro j hj1 hj2 hone
      have hdj := fmtNat_isDigit j
      have h0 := ih.1 (fmtNat j) hdj
      by_cases hj : j = n + 1
      · exact (null_step (fmtNat j) hdj ('$' :: fmtNat (n + 1)) (nullDollarLoop n 0 q)).2
          (by rw [hj]) (by omega)
      · have h1 := (null_step (fmtNat j) hdj ('$' :: fmtNat (n + 1)) (nullDollarLoop n 0 q)).1
        have h2 := ih.2 j hj1 (by omega) hone
        omega

theorem nullQuestionLoop_occurrences (ds : Str) (hds : ∀ c ∈ ds, c.isDigit = true) :
    ∀ (todo : Nat) (q : Str),
      occurrences ('$' :: ds) (nullQuestionLoop todo q) ≤ occurrences ('$' :: ds) q := by
  intro todo
  induction todo with
  | zero => intro q; exact Nat.le_refl _
  | succ n ih =>
    intro q
    show occurrences ('$' :: ds) (nullQuestionLoop n (replaceFirst q "?".toList "null".toList)) ≤ _
    have h1 := ih (replaceFirst q "?".toList "null".toList)
    have h2 := (null_step ds hds "?".toList q).1
    omega

/-- C5 (as stated, refuted).  With two parameter OIDs and no bound
parameters, `a = ? AND b = ? AND c = ?` keeps its third `?`: the second loop
runs N times and replaces one `?` per round.  And with one parameter OID,
`a = $1 OR b = $1` keeps its second `$1`. -/
theorem getQuery_mismatch_counterexample :
    (parsedStatement "a = ? AND b = ? AND c = ?".toList [1, 1]).parameters = none ∧
    (parsedStatement "a = ? AND b = ? AND c = ?".toList [1, 1]).getQuery =
      "a = null AND b = null AND c = ?".toList ∧
    contains (parsedStatement "a = ? AND b = ? AND c = ?".toList [1, 1]).getQuery
      "?".toList = true ∧
    (parsedStatement "a = $1 OR b = $1".toList [1]).getQuery = "a = null OR b = $1".toList :=
  ⟨rfl, by decide, by decide, by decide⟩

/-- C5 (amended).  For a prepared statement with N >= 1 parameter OIDs whose
bound parameter count differs from N (or that has no bound parameters),
`getQuery()` returns the query text in which, for i = 1..N in turn, the first
`$i` is replaced by `null`, and then the first N `?` are replaced by `null`.
No `$i` with i in 1..N is left when the query text holds each of them at most
once; the number of `?` left is the number in the query text less N, so that
no `?` is left when the query text holds at most N of them. -/
theorem getQuery_mismatch (ps : PreparedStatement)
    (hN : 1 ≤ ps.parameterOIDs.length)
    (hmis : ∀ params, ps.parameters = some params → params.length ≠ ps.parameterOIDs.length) :
    ps.getQuery =
        substQuestion (nullDollars ps.parameterOIDs.length ps.query)
          (List.replicate ps.parameterOIDs.length "null".toList) ∧
      ((∀ i, 1 ≤ i → i ≤ ps.parameterOIDs.length →
          occurrences ('$' :: fmtNat i) ps.query ≤ 1) →
        ∀ i, 1 ≤ i → i ≤ ps.parameterOIDs.length →
          contains ps.getQuery ('$' :: fmtNat i) = false) ∧
      ps.getQuery.count '?' = ps.query.count '?' - ps.parameterOIDs.length ∧
      (ps.query.count '?' ≤ ps.parameterOIDs.length → '?' ∉ ps.getQuery) := by
  have hne : ¬ ps.parameterOIDs.length = 0 := by omega
  have hget : ps.getQuery = nullQuestionLoop ps.parameterOIDs.length
      (nullDollarLoop ps.parameterOIDs.length 0 ps.query) := by
    unfold PreparedStatement.getQuery
    cases hp : ps.parameters with
    | none => simp only [hne, if_false]
    | some params =>
      have := hmis params hp
      simp only [hne, if_false, ne_eq, this, not_false_eq_true, if_true]
  have hcount : ps.getQuery.count '?' = ps.query.count '?' - ps.parameterOIDs.length := by
    rw [hget, count_nullQuestionLoop, count_nullDollarLoop]
  refine ⟨?_, ?_, hcount, ?_⟩
  · rw [hget, nullDollarLoop_eq]
    have := nullQuestionLoop_eq ps.parameterOIDs.length []
      (nullDollars ps.parameterOIDs.length ps.query) (by simp)
    simpa using this
  · intro honce i hi1 hi2
    apply occurrences_absent _ (by simp)
    rw [hget]
    have h1 := nullQuestionLoop_occurrences (fmtNat i) (fmtNat_isDigit i)
      ps.parameterOIDs.length (nullDollarLoop ps.parameterOIDs.length 0 ps.query)
    have h2 := (nullDollarLoop_occurrences ps.query ps.parameterOIDs.length).2 i hi1 hi2
      (honce i hi1 hi2)
    omega
  · intro hle
    apply List.count_eq_zero.mp
    rw [hcount]
    omega

/-- Witness of C5 (amended): the statement of the repository's test
`TestAddParameters_WrongParameters` after its Bind, and a statement with the
placeholders `$1` and `?` after a Bind without parameters, in which both come
out as `null`. -/
theorem getQuery_mismatch_witness :
    ((boundStatement "SELECT * FROM test WHERE a = ? AND b = ?".toList [1, 1]
        ["p1".toList]).getQuery =
        substQuestion (nullDollars 2 "SELECT * FROM test WHERE a = ? AND b = ?".toList)
          (List.replicate 2 "null".toList) ∧
      ((∀ i, 1 ≤ i → i ≤ 2 →
          occurrences ('$' :: fmtNat i) "SELECT * FROM test WHERE a = ? AND b = ?".toList ≤ 1) →
        ∀ i, 1 ≤ i → i ≤ 2 →
          contains (boundStatement "SELECT * FROM test WHERE a = ? AND b = ?".toList [1, 1]
            ["p1".toList]).getQuery ('$' :: fmtNat i) = false) ∧
      (boundStatement "SELECT * FROM test WHERE a = ? AND b = ?".toList [1, 1]
        ["p1".toList]).getQuery.count '?' =
        "SELECT * FROM test WHERE a = ? AND b = ?".toList.count '?' - 2 ∧
      ("SELECT * FROM test WHERE a = ? AND b = ?".toList.count '?' ≤ 2 →
        '?' ∉ (boundStatement "SELECT * FROM test WHERE a = ? AND b = ?".toList [1, 1]
          ["p1".toList]).getQuery)) ∧
    (boundStatement "SELECT * FROM test WHERE a = ? AND b = ?".toList [1, 1]
        ["p1".toList]).getQuery = "SELECT * FROM test WHERE a = null AND b = null".toList ∧
    (boundStatement "a = $1 AND b = ?".toList [1, 1] []).getQuery =
      "a = null AND b = null".toList ∧
    contains (boundStatement "a = $1 AND b = ?".toList [1, 1] []).getQuery
      ('$' :: fmtNat 1) = false :=
  ⟨getQuery_mismatch
    (boundStatement "SELECT * FROM test WHERE a = ? AND b = ?".toList [1, 1] ["p1".toList])
    (by decide) (by intro params h; cases h; decide),
   by decide,
   ((getQuery_mismatch (boundStatement "a = $1 AND b = ?".toList [1, 1] [])
    (by decide) (by intro params h; cases h; decide)).1).trans (by decide),
   (getQuery_mismatch (boundStatement "a = $1 AND b = ?".toList [1, 1] [])
    (by decide) (by intro params h; cases h; decide)).2.1
      (by intro i h1 h2; have h3 : i ≤ 2 := h2; interval_cases i <;> decide) 1 (by decide) (by decide)⟩

/-! ## Command tags -/

theorem takeWhile_ne_of_first (x : Char) : ∀ (pre post : Str), x ∉ pre →
    (pre ++ x :: post).takeWhile (fun c => c != x) = pre := by
  intro pre
  induction pre with
  | nil => intro post _; simp [List.takeWhile]
  | cons c t ih =>
    intro post h
    have hc : x ≠ c := fun e => h (by simp [e])
    have ht : x ∉ t := fun e => h (List.mem_cons_of_mem _ e)
    have hb : (c != x) = true := by simpa using fun e : c = x => hc e.symm
    show List.takeWhile _ (c :: (t ++ x :: post)) = c :: t
    rw [List.takeWhile_cons, hb]
    simp only [if_true]
    rw [ih post ht]

theorem takeWhile_ne_of_not_mem (x : Char) : ∀ s : Str, x ∉ s →
    s.takeWhile (fun c => c != x) = s := by
  intro s h
  apply List.takeWhile_eq_self_iff.mpr
  intro c hc
  simpa using fun e : c = x => h (e ▸ hc)

/-- The first element of `strings.Split(s, " ")` is the text before the
first space. -/
theorem split_space_head (s : Str) :
    (split s " ".toList).headD [] = s.takeWhile (fun c => c != ' ') := by
  by_cases hx : ' ' ∈ s
  · obtain ⟨pre, post, e, hpre⟩ := exists_first_occurrence ' ' s hx
    subst e
    rw [takeWhile_ne_of_first ' ' pre post hpre]
    unfold split
    have hlen : (pre ++ ' ' :: post).length = (pre.length + post.length) + 1 := by
      simp only [List.length_append, List.length_cons]; omega
    rw [hlen]
    show (splitFuel [' '] (pre.length + post.length + 1) (pre ++ ' ' :: post)).headD [] = pre
    unfold splitFuel
    rw [cut_single_first ' ' pre post hpre]
    rfl
  · rw [takeWhile_ne_of_not_mem ' ' s hx]
    unfold split
    have hcut : cut " ".toList s = none := cut_none_of_head_not_mem ' ' [] s hx
    cases hl : s.length with
    | zero => rfl
    | succ n =>
      unfold splitFuel
      rw [hcut]
      rfl

/-- C7 (as stated, refuted).  In `select`, a tab, `1` the first
whitespace-delimited token is `select`, but the command tag is not
`SELECT 1`: the source splits at the space character only, so the tab stays
in the command word. -/
theorem getCommandTag_counterexample :
    firstToken "select\t1".toList = "select".toList ∧
    getCommandTag "select\t1".toList = "SELECT\t1".toList ∧
    getCommandTag "select\t1".toList ≠ "SELECT 1".toList :=
  ⟨by decide, by decide, by decide⟩

/-- C7 (amended).  For every query text, `getCommandTag` is determined by the
command word, that is the trimmed, lower-cased query up to its first space
character (U+0020): `insert` gives `INSERT 0 1`, `delete` gives `DELETE 1`,
`update` gives `UPDATE 1`, `select` gives `SELECT 1`, and any other word gives
that word upper-cased.  A tab or a newline does not end the command word. -/
theorem getCommandTag_spec (q : Str) :
    getCommandTag q = tagOfCommand ((toLower (trimSpace q)).takeWhile (fun c => c != ' ')) := by
  unfold getCommandTag tagOfCommand
  simp only [split_space_head]

/-! ## The matcher and `limitRegexp` -/

theorem firstOf_isSome_right (x y : Option (Str × Caps)) (h : y.isSome = true) :
    (firstOf x y).isSome = true := by
  cases x with
  | none => exact h
  | some r => rfl

theorem firstOf_isSome_left (x y : Option (Str × Caps)) (h : x.isSome = true) :
    (firstOf x y).isSome = true := by
  cases x with
  | none => exact absurd h (by simp)
  | some r => rfl

theorem starLoop_isSome (step : MatchCont → MatchCont) (greedy : Bool) (k : MatchCont)
    (hk : ∀ s c, (k s c).isSome = true) :
    ∀ (fuel : Nat) (s : Str) (c : Caps), (starLoop step greedy k fuel s c).isSome = true := by
  intro fuel
  induction fuel with
  | zero => intro s c; exact hk s c
  | succ n _ =>
    intro s c
    unfold starLoop
    cases greedy with
    | true => exact firstOf_isSome_right _ _ (hk s c)
    | false => exact firstOf_isSome_left _ _ (hk s c)

theorem matchRe_lit (k : MatchCont) : ∀ (w s : Str) (c : Caps),
    matchRe (Regex.lit w) k s c = if w.isPrefixOf s then k (s.drop w.length) c else none := by
  intro w
  induction w with
  | nil => intro s c; simp [Regex.lit, matchRe]
  | cons x t ih =>
    intro s c
    cases t with
    | nil =>
      cases s with
      | nil => simp [Regex.lit, matchRe]
      | cons y u =>
        by_cases h : y = x
        · subst h; simp [Regex.lit, matchRe]
        · have h2 : ¬ x = y := fun e => h e.symm
          simp [Regex.lit, matchRe, h, h2]
    | cons y t1 =>
      cases s with
      | nil => simp [Regex.lit, matchRe]
      | cons z u =>
        by_cases h : z = x
        · subst h
          simp only [Regex.lit, matchRe]
          rw [ih u c]
          simp
        · have h2 : ¬ x = z := fun e => h e.symm
          simp [Regex.lit, matchRe, h, h2]

theorem findFirst_isSome_iff (r : Regex) : ∀ s : Str,
    (findFirst r s).isSome = true ↔
      ∃ pre suf, s = pre ++ suf ∧ (matchHere r suf).isSome = true := by
  intro s
  induction s with
  | nil =>
    unfold findFirst
    constructor
    · intro h
      refine ⟨[], [], rfl, ?_⟩
      cases hm : matchHere r [] with
      | none => rw [hm] at h; exact absurd h (by simp)
      | some v => rfl
    · rintro ⟨pre, suf, e, h⟩
      have hs : suf = [] := by
        have := congrArg List.length e
        simp only [List.length_nil, List.length_append] at this
        exact List.length_eq_zero.mp (by omega)
      subst hs
      cases hm : matchHere r [] with
      | none => rw [hm] at h; exact absurd h (by simp)
      | some v => obtain ⟨a, b⟩ := v; rfl
  | cons x t ih =>
    unfold findFirst
    cases hm : matchHere r (x :: t) with
    | some v =>
      obtain ⟨a, b⟩ := v
      simp only [Option.isSome_some, true_iff]
      exact ⟨[], x :: t, rfl, by rw [hm]; rfl⟩
    | none =>
      simp only
      constructor
      · intro h
        cases hf : findFirst r t with
        | none => rw [hf] at h; exact absurd h (by simp)
        | some v =>
          obtain ⟨pre, suf, e, hh⟩ := ih.mp (by rw [hf]; rfl)
          exact ⟨x :: pre, suf, by rw [e]; rfl, hh⟩
      · rintro ⟨pre, suf, e, h⟩
        cases pre with
        | nil =>
          simp only [List.nil_append] at e
          subst e
          rw [hm] at h
          exact absurd h (by simp)
        | cons y pre1 =>
          simp only [List.cons_append, List.cons.injEq] at e
          have := ih.mpr ⟨pre1, suf, e.2, h⟩
          cases hf : findFirst r t with
          | none => rw [hf] at this; exact absurd this (by simp)
          | some v => obtain ⟨a, b, c2, d⟩ := v; rfl

theorem digit_split (d : Char) :
    ('0' ≤ d ∧ d ≤ '9') ↔ d = '0' ∨ ('1' ≤ d ∧ d ≤ '9') := by
  have h0 : ∀ a b : Char, a ≤ b ↔ a.toNat ≤ b.toNat := fun a b => Iff.rfl
  have he : d = '0' ↔ d.toNat = 48 := by
    constructor
    · intro h; rw [h]; rfl
    · intro h
      apply Char.ext
      apply UInt32.ext
      exact h
  simp only [h0, he]
  have : ('0' : Char).toNat = 48 := rfl
  have : ('1' : Char).toNat = 49 := rfl
  have : ('9' : Char).toNat = 57 := rfl
  omega

theorem matchRe_seq (a b : Regex) (k : MatchCont) :
    matchRe (Regex.seq a b) k = matchRe a (matchRe b k) := rfl

theorem matchRe_alt (a b : Regex) (k : MatchCont) (s : Str) (c : Caps) :
    matchRe (Regex.alt a b) k s c = firstOf (matchRe a k s c) (matchRe b k s c) := rfl

theorem matchRe_group (i : Nat) (a : Regex) (k : MatchCont) (s : Str) (c : Caps) :
    matchRe (Regex.group i a) k s c =
      matchRe a (fun s1 c1 => k s1 ((i, s.take (s.length - s1.length)) :: c1)) s c := rfl

theorem matchRe_chr_cons (p : Char → Bool) (k : MatchCont) (x : Char) (t : Str) (c : Caps) :
    matchRe (Regex.chr p) k (x :: t) c = if p x then k t c else none := rfl

theorem matchRe_chr_nil (p : Char → Bool) (k : MatchCont) (c : Caps) :
    matchRe (Regex.chr p) k [] c = none := rfl

theorem matchRe_star (g : Bool) (a : Regex) (k : MatchCont) (s : Str) (c : Caps) :
    matchRe (Regex.star g a) k s c = starLoop (matchRe a) g k s.length s c := rfl

theorem matchRe_eps (k : MatchCont) (s : Str) (c : Caps) :
    matchRe Regex.eps k s c = k s c := rfl

theorem matchHere_limit_iff (s : Str) :
    (matchHere limitRegexp s).isSome = true ↔
      ∃ d t, s = "LIMIT ".toList ++ d :: t ∧ ('0' ≤ d ∧ d ≤ '9') := by
  unfold matchHere limitRegexp
  rw [matchRe_seq, matchRe_lit]
  by_cases hp : "LIMIT ".toList.isPrefixOf s = true
  · obtain ⟨u, hu⟩ := List.isPrefixOf_iff_prefix.mp hp
    subst hu
    simp only [hp, if_true]
    have hdrop : List.drop "LIMIT ".toList.length ("LIMIT ".toList ++ u) = u := by
      simp
    rw [hdrop, matchRe_group, matchRe_alt, matchRe_seq]
    cases u with
    | nil =>
      simp [firstOf, matchRe_chr_nil]
    | cons d t =>
      rw [matchRe_chr_cons, matchRe_chr_cons]
      have hstar : ∀ (k : MatchCont), (∀ s c, (k s c).isSome = true) →
          ∀ s c, (starLoop (matchRe (Regex.chr isDigitClass)) true k s.length s c).isSome = true :=
        fun k hk s c => starLoop_isSome _ _ k hk _ s c
      constructor
      · intro h
        refine ⟨d, t, rfl, ?_⟩
        rw [digit_split]
        by_contra hn
        simp only [not_or] at hn
        have h1 : ¬ d = '0' := hn.1
        have h2 : ¬ ('1' ≤ d ∧ d ≤ '9') := hn.2
        simp [firstOf, h1, h2] at h
      · rintro ⟨d1, t1, e, hd⟩
        simp only [List.append_cancel_left_eq, List.cons.injEq] at e
        obtain ⟨rfl, rfl⟩ := e
        rcases (digit_split d).mp hd with h1 | h2
        · apply firstOf_isSome_left
          simp [h1]
        · apply firstOf_isSome_right
          simp only [h2, and_self, decide_True, if_true]
          rw [matchRe_star]
          apply hstar
          intro s c
          rfl
  · have hp2 : "LIMIT ".toList.isPrefixOf s = false := Bool.eq_false_iff.mpr hp
    simp only [hp2, Bool.false_eq_true, if_false, Option.isSome_none, false_iff]
    rintro ⟨d, t, e, _⟩
    apply hp
    rw [e]
    exact List.isPrefixOf_iff_prefix.mpr ⟨d :: t, rfl⟩

/-- The expression `limitRegexp` matches exactly the texts that contain
`LIMIT `, one space, followed by a decimal digit. -/
theorem matchString_limit_iff (s : Str) :
    matchString limitRegexp s = true ↔
      ∃ pre d post, s = pre ++ ("LIMIT ".toList ++ d :: post) ∧ ('0' ≤ d ∧ d ≤ '9') := by
  unfold matchString
  rw [findFirst_isSome_iff]
  constructor
  · rintro ⟨pre, suf, e, h⟩
    obtain ⟨d, t, e2, hd⟩ := (matchHere_limit_iff suf).mp h
    exact ⟨pre, d, t, by rw [e, e2], hd⟩
  · rintro ⟨pre, d, post, e, hd⟩
    exact ⟨pre, _, e, (matchHere_limit_iff _).mpr ⟨d, post, rfl, hd⟩⟩

/-- C6: the normalized form of `q` matches `limitRegexp` exactly when it
contains `LIMIT `, one space, followed by a non-negative integer literal; in
that case `limitQuery(q, k)` is `q` unchanged, and otherwise `limitQuery(q, k)`
ends with ` LIMIT k`. -/
theorem limitQuery_spec (q : Str) (k : Int) :
    (matchString limitRegexp (normalizeQuery q) = true ↔
      ∃ pre num post, normalizeQuery q = pre ++ ("LIMIT ".toList ++ num ++ post) ∧
        isNatLiteral num = true) ∧
    (if matchString limitRegexp (normalizeQuery q) = true then limitQuery q k = q
     else (" LIMIT ".toList ++ fmtInt k) <:+ limitQuery q k) := by
  constructor
  · rw [matchString_limit_iff]
    constructor
    · rintro ⟨pre, d, post, e, hd⟩
      rcases (digit_split d).mp hd with h1 | h2
      · subst h1
        exact ⟨pre, ['0'], post, by rw [e]; simp, by decide⟩
      · refine ⟨pre, [d], post, by rw [e]; simp, ?_⟩
        simp [isNatLiteral, h2]
    · rintro ⟨pre, num, post, e, hn⟩
      cases num with
      | nil => exact absurd hn (by simp [isNatLiteral])
      | cons d rest =>
        refine ⟨pre, d, rest ++ post, by rw [e]; simp, ?_⟩
        rw [digit_split]
        simp only [isNatLiteral, Bool.or_eq_true, Bool.and_eq_true, beq_iff_eq,
          decide_eq_true_eq] at hn
        rcases hn with h | h
        · exact Or.inl h.1
        · exact Or.inr h.1
  · unfold limitQuery
    by_cases h : matchString limitRegexp (normalizeQuery q) = true
    · simp only [h, if_true]
    · simp only [h, if_false, Bool.false_eq_true]
      exact ⟨trim (trimSpace q) ";".toList, by simp⟩

/-! ## FETCH parsing -/

/-- C8 (the code at the failing input).  On `FETCH 1 FROM test` the optional
group `Direction` (`\w+`) takes the numeral, the group `Count` stays empty,
and `parseFetchQuery` returns the count 0. -/
theorem parseFetchQuery_count_lost :
    parseFetchQuery "FETCH 1 FROM test".toList =
      Except.ok { Direction := "1".toList, Count := 0, CursorName := "test".toList } := by
  rfl

/-! ## Cursors -/

theorem fetchLoop_ok {ρ : Type}
    (scanFunc : ρ → List ColumnType → Except Str (List (Option Bytes)))
    (cols : List ColumnType) :
    ∀ (n : Nat) (it : List ρ) (acc : List Message),
      (∀ r ∈ it.take n, ∃ row, scanFunc r cols = Except.ok row) →
      ∃ rows : List (List (Option Bytes)),
        fetchLoop scanFunc cols n it acc = (Except.ok (acc ++ rows.map Message.DataRow), it.drop n) ∧
        List.Forall₂ (fun r row => scanFunc r cols = Except.ok row) (it.take n) rows := by
  intro n
  induction n with
  | zero =>
    intro it acc _
    exact ⟨[], by simp [fetchLoop], by simp⟩
  | succ n ih =>
    intro it acc h
    cases it with
    | nil => exact ⟨[], by simp [fetchLoop], by simp⟩
    | cons r rest =>
      obtain ⟨row, hrow⟩ := h r (by simp)
      obtain ⟨rows, h1, h2⟩ := ih rest (acc ++ [Message.DataRow row])
        (fun x hx => h x (by simp [hx]))
      refine ⟨row :: rows, ?_, ?_⟩
      · simp only [fetchLoop, hrow, h1, List.drop_succ_cons, List.map_cons, List.append_assoc,
          List.singleton_append]
      · simpa using ⟨hrow, h2⟩

/-- C9 (as stated, refuted).  An open cursor with one row remaining whose
row the encoder rejects: `fetch(1)` returns the scan error and no message
list (the case of the repository's test `TestFetchCursorError`).  And an open
cursor with three rows remaining: `fetch(2^62)` does not return, the first
`make` panics before a row is read. -/
theorem fetch_counterexample :
    failingCursor.rows = some [0] ∧
    (failingCursor.fetch 1).1 =
      Except.error (Fault.error "unsupported data type for binary format: VARCHAR".toList) ∧
    (textCursor [7, 8, 9]).rows = some [7, 8, 9] ∧
    ((textCursor [7, 8, 9]).fetch (2 ^ 62)).1 =
      Except.error (Fault.panic "makeslice: cap out of range".toList) ∧
    ((textCursor [7, 8, 9]).fetch (2 ^ 62)).2.rows = some [7, 8, 9] :=
  ⟨rfl, rfl, rfl, by rfl, by rfl⟩

/-- C9 (amended).  For every open cursor with m rows remaining and every
n >= 0 for which the runtime allocates the two slices of n elements (n within
the limit of the platform), such that the first min(n, m) of these rows scan
without error, `fetch(n)` returns a message list whose first element is the
RowDescription and whose remaining elements are exactly the min(n, m) DataRows
of these rows in iterator order (length 1 + min(n, m)), and it consumes
exactly min(n, m) rows of the iterator. -/
theorem fetch_spec {ρ : Type} (c : Cursor ρ) (it : List ρ) (n : Nat)
    (hopen : c.rows = some it) (hn : n ≤ c.allocLimit)
    (hscan : ∀ r ∈ it.take n, ∃ row, c.scanFunc r c.columnTypes = Except.ok row) :
    ∃ rows : List (List (Option Bytes)),
      (c.fetch n).1 =
        Except.ok (toRowDescription c.columnTypes :: rows.map Message.DataRow) ∧
      List.Forall₂ (fun r row => c.scanFunc r c.columnTypes = Except.ok row) (it.take n) rows ∧
      rows.length = min n it.length ∧
      (toRowDescription c.columnTypes :: rows.map Message.DataRow).length = 1 + min n it.length ∧
      (c.fetch n).2.rows = some (it.drop n) ∧
      (it.drop n).length = it.length - min n it.length := by
  obtain ⟨rows, h1, h2⟩ := fetchLoop_ok c.scanFunc c.columnTypes n it [] hscan
  have hlen : rows.length = min n it.length := by
    have := h2.length_eq
    simp only [List.length_take] at this
    omega
  have hna : ¬ c.allocLimit < n := Nat.not_lt.mpr hn
  refine ⟨rows, ?_, h2, hlen, ?_, ?_, ?_⟩
  · unfold Cursor.fetch
    rw [if_neg hna, hopen]
    simp only [h1, List.nil_append, List.length_map]
    cases rows with
    | nil => simp
    | cons r rs => simp
  · simp only [List.length_cons, List.length_map]; omega
  · unfold Cursor.fetch
    rw [if_neg hna, hopen]
    simp only [h1, List.nil_append, List.length_map]
    cases rows with
    | nil => simp
    | cons r rs => simp
  · simp only [List.length_drop]; omega

/-- Witness of C9 (amended): a cursor with three rows left, `fetch(2)`. -/
theorem fetch_spec_witness :
    ∃ rows : List (List (Option Bytes)),
      ((textCursor [7, 8, 9]).fetch 2).1 =
        Except.ok (toRowDescription (textCursor [7, 8, 9]).columnTypes ::
          rows.map Message.DataRow) ∧
      List.Forall₂
        (fun r row => (textCursor [7, 8, 9]).scanFunc r (textCursor [7, 8, 9]).columnTypes =
          Except.ok row) ([7, 8, 9].take 2) rows ∧
      rows.length = min 2 [7, 8, 9].length ∧
      (toRowDescription (textCursor [7, 8, 9]).columnTypes ::
        rows.map Message.DataRow).length = 1 + min 2 [7, 8, 9].length ∧
      ((textCursor [7, 8, 9]).fetch 2).2.rows = some ([7, 8, 9].drop 2) ∧
      ([7, 8, 9].drop 2).length = [7, 8, 9].length - min 2 [7, 8, 9].length :=
  fetch_spec (textCursor [7, 8, 9]) [7, 8, 9] 2 rfl (by decide) (fun _ _ => ⟨_, rfl⟩)

/-! ## FETCH on a cursor that does not exist -/

/-- C10 (the code on a missing cursor).  When the FETCH query parses and names
a cursor that is not in the cursor map, `fetchFromCursor` enqueues the
ErrorResponse and ReadyForQuery and then, instead of returning, calls `fetch`
on the `nil` cursor and panics. -/
theorem fetchFromCursor_missing_cursor_panics {ρ : Type} (qe : QueryExecutor ρ) (q : Str)
    (fq : FetchQuery) (hparse : parseFetchQuery q = Except.ok fq)
    (hmiss : qe.cursors.lookup fq.CursorName = none) :
    qe.fetchFromCursor q =
      Outcome.panics
        (qe.queueMessages
          [getErrorResponse ("cursor ".toList ++ fq.CursorName ++ " does not exist".toList),
           Message.ReadyForQuery qe.getTransactionStatus])
        "nil pointer dereference (cursor)".toList := by
  unfold QueryExecutor.fetchFromCursor
  simp only [hparse, hmiss]

/-- Witness of C10: `FETCH 1 FROM test` in a session without cursors. -/
theorem fetchFromCursor_missing_cursor_panics_witness :
    freshSession.fetchFromCursor "FETCH 1 FROM test".toList =
      Outcome.panics
        (freshSession.queueMessages
          [getErrorResponse ("cursor ".toList ++ "test".toList ++ " does not exist".toList),
           Message.ReadyForQuery freshSession.getTransactionStatus])
        "nil pointer dereference (cursor)".toList :=
  fetchFromCursor_missing_cursor_panics freshSession "FETCH 1 FROM test".toList
    { Direction := "1".toList, Count := 0, CursorName := "test".toList } rfl rfl

/-! ## The message buffer -/

theorem encodeLoop_eq (encode : Message → Bytes) : ∀ (msgs : List Message) (buf : Bytes),
    encodeLoop encode msgs buf = buf ++ encodeAll encode msgs := by
  intro msgs
  induction msgs with
  | nil => intro buf; simp [encodeLoop, encodeAll]
  | cons m rest ih =>
    intro buf
    simp only [encodeLoop, ih, encodeAll, List.map_cons, List.flatten_cons, List.append_assoc]

theorem encodeAll_append (encode : Message → Bytes) (a b : List Message) :
    encodeAll encode (a ++ b) = encodeAll encode a ++ encodeAll encode b := by
  simp [encodeAll]

theorem write_ok (c c1 : Socket) (buf : Bytes) (h : c.write buf = (none, c1)) :
    c1.written = c.written ++ [buf] := by
  unfold Socket.write at h
  split at h
  · simp only [Prod.mk.injEq, true_and] at h
    rw [← h]
  · simp only [Prod.mk.injEq, true_and] at h
    rw [← h]
  · simp at h

theorem write_fail (c c1 : Socket) (buf : Bytes) (err : Str) (h : c.write buf = (some err, c1)) :
    c1.written = c.written := by
  unfold Socket.write at h
  split at h
  · simp at h
  · simp at h
  · simp only [Prod.mk.injEq, Option.some.injEq] at h
    rw [← h.2]

/-- C15: a successful `sendQueuedMessages` adds exactly one write to the
socket, whose bytes are the concatenation of the encodings of the queued
messages in enqueue order, and leaves `buffSize() == 0`. -/
theorem sendQueuedMessages_success {ρ : Type} (encode : Message → Bytes)
    (qe qe1 : QueryExecutor ρ) (h : qe.sendQueuedMessages encode = (qe1, none)) :
    qe1.conn.written = qe.conn.written ++ [encodeAll encode qe.mb] ∧ qe1.buffSize = 0 := by
  unfold QueryExecutor.sendQueuedMessages writeMessages at h
  rw [encodeLoop_eq] at h
  simp only [List.nil_append] at h
  cases hw : qe.conn.write (encodeAll encode qe.mb) with
  | mk r c1 =>
    rw [hw] at h
    cases r with
    | some err => simp at h
    | none =>
      simp only [Prod.mk.injEq, and_true] at h
      subst h
      exact ⟨write_ok _ _ _ hw, rfl⟩

/-- Witness of C15: two queued messages, a socket that accepts the write. -/
theorem sendQueuedMessages_success_witness :
    (queuedSession.sendQueuedMessages kindByte).1.conn.written =
      queuedSession.conn.written ++ [encodeAll kindByte queuedSession.mb] ∧
    (queuedSession.sendQueuedMessages kindByte).1.buffSize = 0 :=
  sendQueuedMessages_success kindByte queuedSession
    (queuedSession.sendQueuedMessages kindByte).1 rfl

/-- C16: when the socket write fails, `sendQueuedMessages` returns the error of
the write and leaves the queue exactly as it was. -/
theorem sendQueuedMessages_failure {ρ : Type} (encode : Message → Bytes)
    (qe : QueryExecutor ρ) (err : Str)
    (h : (writeMessages encode qe.conn qe.mb).1 = some err) :
    (qe.sendQueuedMessages encode).2 = some err ∧
      (qe.sendQueuedMessages encode).1.mb = qe.mb ∧
      (qe.sendQueuedMessages encode).1.buffSize = qe.buffSize := by
  unfold QueryExecutor.sendQueuedMessages
  cases hw : writeMessages encode qe.conn qe.mb with
  | mk r c1 =>
    rw [hw] at h
    simp only at h
    subst h
    exact ⟨rfl, rfl, rfl⟩

/-- Witness of C16: the socket fails with `broken pipe`. -/
theorem sendQueuedMessages_failure_witness :
    (failingSocketSession.sendQueuedMessages kindByte).2 = some "broken pipe".toList ∧
      (failingSocketSession.sendQueuedMessages kindByte).1.mb = failingSocketSession.mb ∧
      (failingSocketSession.sendQueuedMessages kindByte).1.buffSize =
        failingSocketSession.buffSize :=
  sendQueuedMessages_failure kindByte failingSocketSession "broken pipe".toList rfl

/-! ## CLOSE -/

theorem send_cases {ρ : Type} (encode : Message → Bytes) (qe : QueryExecutor ρ) :
    (∃ err c1, qe.sendQueuedMessages encode = ({ qe with conn := c1 }, some err) ∧
        c1.written = qe.conn.written) ∨
    (∃ c1, qe.sendQueuedMessages encode = ({ qe with conn := c1, mb := [] }, none) ∧
        c1.written = qe.conn.written ++ [encodeAll encode qe.mb]) := by
  unfold QueryExecutor.sendQueuedMessages writeMessages
  rw [encodeLoop_eq]
  simp only [List.nil_append]
  cases hw : qe.conn.write (encodeAll encode qe.mb) with
  | mk r c1 =>
    cases r with
    | some err => exact Or.inl ⟨err, c1, rfl, write_fail _ _ _ _ hw⟩
    | none => exact Or.inr ⟨c1, rfl, write_ok _ _ _ hw⟩

theorem send_cursors {ρ : Type} (encode : Message → Bytes) (qe : QueryExecutor ρ) :
    (qe.sendQueuedMessages encode).1.cursors = qe.cursors ∧
      (qe.sendQueuedMessages encode).1.inTransaction = qe.inTransaction ∧
      (qe.sendQueuedMessages encode).1.maxBufferSize = qe.maxBufferSize := by
  rcases send_cases encode qe with ⟨err, c1, h, _⟩ | ⟨c1, h, _⟩
  · rw [h]; exact ⟨rfl, rfl, rfl⟩
  · rw [h]; exact ⟨rfl, rfl, rfl⟩

theorem send_allBytes {ρ : Type} (encode : Message → Bytes) (qe : QueryExecutor ρ) :
    allBytes encode (qe.sendQueuedMessages encode).1 = allBytes encode qe := by
  rcases send_cases encode qe with ⟨err, c1, h, hw⟩ | ⟨c1, h, hw⟩
  · rw [h]
    simp only [allBytes, hw]
  · rw [h]
    simp only [allBytes, hw, List.flatten_append, List.flatten_cons, List.flatten_nil,
      List.append_nil, encodeAll, List.map_nil]

theorem setCursor_keys {ρ : Type} (m : List (Str × Cursor ρ)) (name : Str) (c : Cursor ρ) :
    (setCursor m name c).map Prod.fst = m.map Prod.fst := by
  induction m with
  | nil => rfl
  | cons e rest ih =>
    simp only [setCursor, List.map_cons, List.cons.injEq] at ih ⊢
    refine ⟨?_, ih⟩
    by_cases h : e.1 = name
    · simp [h]
    · simp [h]

theorem lookup_setCursor {ρ : Type} (name : Str) (c c0 : Cursor ρ) :
    ∀ m : List (Str × Cursor ρ), m.lookup name = some c0 →
      (setCursor m name c).lookup name = some c := by
  intro m
  induction m with
  | nil => intro h; simp [List.lookup] at h
  | cons e rest ih =>
    intro h
    obtain ⟨k, v⟩ := e
    by_cases hk : k = name
    · subst hk
      have hs : setCursor ((k, v) :: rest) k c = (k, c) :: setCursor rest k c := by
        simp [setCursor]
      rw [hs]
      simp [List.lookup]
    · have hb : (name == k) = false := by
        simpa using fun e : name = k => hk e.symm
      simp only [List.lookup, hb] at h
      have hs : setCursor ((k, v) :: rest) name c = (k, v) :: setCursor rest name c := by
        simp [setCursor, hk]
      rw [hs]
      simp only [List.lookup, hb]
      exact ih h

/-- Closing keeps every name of the cursor map. -/
theorem closeCursor_keys {ρ : Type} (qe : QueryExecutor ρ) (q : Str) :
    (qe.closeCursor q).cursors.map Prod.fst = qe.cursors.map Prod.fst := by
  unfold QueryExecutor.closeCursor
  cases parseCloseQuery q with
  | none => rfl
  | some name =>
    cases hl : qe.cursors.lookup name with
    | none => simp only [hl]
    | some c =>
      simp only [hl]
      exact setCursor_keys _ _ _

theorem handleQueryMessage_close {ρ : Type} (env : Env ρ) (qe : QueryExecutor ρ) (q : Str)
    (hdealloc : isDeallocateQuery q = false) (hclose : isCloseQuery q = true) :
    qe.handleQueryMessage env q =
      Outcome.returns
        ((((qe.closeCursor q).queueMessages
            [Message.CommandComplete (getCommandTag q),
             Message.ReadyForQuery (qe.closeCursor q).getTransactionStatus]).sendQueuedMessages
          env.encode).1,
         (((qe.closeCursor q).queueMessages
            [Message.CommandComplete (getCommandTag q),
             Message.ReadyForQuery (qe.closeCursor q).getTransactionStatus]).sendQueuedMessages
          env.encode).2) := by
  unfold QueryExecutor.handleQueryMessage
  simp only [hdealloc, hclose, Bool.false_eq_true, if_false, if_true]

/-- C11 (as stated, refuted).  After `CLOSE test` in a session that holds the
cursor `test`, the cursor map still contains `test`. -/
theorem close_counterexample :
    ∃ qe1 err, cursorSession.handleQueryMessage testEnv "CLOSE test".toList =
        Outcome.returns (qe1, err) ∧
      (cursorSession.cursors.lookup "test".toList).isSome = true ∧
      (qe1.cursors.lookup "test".toList).isSome = true :=
  ⟨_, _, rfl, rfl, rfl⟩

/-- C11 (amended).  For every session state and every query that is handled
as `CLOSE <name>`, after handling the query the cursor map holds the same
names as before: when <name> is in the map the cursor stays in the map with
its iterator closed (it is not removed), and when <name> is unknown the map is
unchanged. -/
theorem close_keeps_cursor {ρ : Type} (env : Env ρ) (qe : QueryExecutor ρ) (q name : Str)
    (hdealloc : isDeallocateQuery q = false) (hclose : isCloseQuery q = true)
    (hname : parseCloseQuery q = some name) :
    ∃ qe1 err, qe.handleQueryMessage env q = Outcome.returns (qe1, err) ∧
      qe1.cursors.map Prod.fst = qe.cursors.map Prod.fst ∧
      (∀ c, qe.cursors.lookup name = some c → qe1.cursors.lookup name = some c.close) ∧
      (qe.cursors.lookup name = none → qe1.cursors = qe.cursors) := by
  have hrun := handleQueryMessage_close env qe q hdealloc hclose
  have hcur := (send_cursors env.encode ((qe.closeCursor q).queueMessages
    [Message.CommandComplete (getCommandTag q),
     Message.ReadyForQuery (qe.closeCursor q).getTransactionStatus])).1
  have hq : ((qe.closeCursor q).queueMessages
    [Message.CommandComplete (getCommandTag q),
     Message.ReadyForQuery (qe.closeCursor q).getTransactionStatus]).cursors =
      (qe.closeCursor q).cursors := rfl
  rw [hq] at hcur
  refine ⟨_, _, hrun, ?_, ?_, ?_⟩
  · rw [hcur]
    exact closeCursor_keys qe q
  · intro c hc
    rw [hcur]
    unfold QueryExecutor.closeCursor
    simp only [hname, hc]
    exact lookup_setCursor name c.close c qe.cursors hc
  · intro hc
    rw [hcur]
    unfold QueryExecutor.closeCursor
    simp only [hname, hc]

/-- Witness of C11 (amended): `CLOSE test` in a session that holds `test`. -/
theorem close_keeps_cursor_witness :
    ∃ qe1 err, cursorSession.handleQueryMessage testEnv "CLOSE test".toList =
        Outcome.returns (qe1, err) ∧
      qe1.cursors.map Prod.fst = cursorSession.cursors.map Prod.fst ∧
      (∀ c, cursorSession.cursors.lookup "test".toList = some c →
        qe1.cursors.lookup "test".toList = some c.close) ∧
      (cursorSession.cursors.lookup "test".toList = none →
        qe1.cursors = cursorSession.cursors) :=
  close_keeps_cursor testEnv cursorSession "CLOSE test".toList "test".toList
    (by decide) (by decide) (by decide)

/-! ## Execute and ReadyForQuery -/

theorem allBytes_queue {ρ : Type} (encode : Message → Bytes) (qe : QueryExecutor ρ)
    (msgs : List Message) :
    allBytes encode (qe.queueMessages msgs) = allBytes encode qe ++ encodeAll encode msgs := by
  simp only [allBytes, QueryExecutor.queueMessages, encodeAll_append, List.append_assoc]

/-- C13 (the code on a DEALLOCATE statement).  Handling Execute for a prepared
statement whose text is a DEALLOCATE statement enqueues CommandComplete and a
ReadyForQuery; with the ReadyForQuery of the Sync that follows, the client is
handed two ReadyForQuery for one Sync. -/
theorem handleExecute_deallocate_ready {ρ : Type} (env : Env ρ) (qe : QueryExecutor ρ)
    (ps : PreparedStatement) (h : isDeallocateQuery ps.getQuery = true) :
    qe.handleExecute env ps =
        Outcome.returns
          (qe.queueMessages [Message.CommandComplete (getCommandTag ps.getQuery),
            Message.ReadyForQuery qe.getTransactionStatus], none) ∧
      allBytes env.encode
          ((qe.queueMessages [Message.CommandComplete (getCommandTag ps.getQuery),
            Message.ReadyForQuery qe.getTransactionStatus]).handleSync env).1 =
        allBytes env.encode qe ++
          encodeAll env.encode [Message.CommandComplete (getCommandTag ps.getQuery),
            Message.ReadyForQuery qe.getTransactionStatus,
            Message.ReadyForQuery qe.getTransactionStatus] := by
  constructor
  · unfold QueryExecutor.handleExecute
    simp only [h, if_true]
  · unfold QueryExecutor.handleSync
    rw [send_allBytes, allBytes_queue, allBytes_queue, List.append_assoc, ← encodeAll_append]
    rfl

/-- Witness of C13: the statement `DEALLOCATE foo`, in a fresh session. -/
theorem handleExecute_deallocate_ready_witness :
    freshSession.handleExecute testEnv deallocateStatement =
        Outcome.returns
          (freshSession.queueMessages
            [Message.CommandComplete (getCommandTag deallocateStatement.getQuery),
             Message.ReadyForQuery freshSession.getTransactionStatus], none) ∧
      allBytes testEnv.encode
          ((freshSession.queueMessages
            [Message.CommandComplete (getCommandTag deallocateStatement.getQuery),
             Message.ReadyForQuery freshSession.getTransactionStatus]).handleSync testEnv).1 =
        allBytes testEnv.encode freshSession ++
          encodeAll testEnv.encode
            [Message.CommandComplete (getCommandTag deallocateStatement.getQuery),
             Message.ReadyForQuery freshSession.getTransactionStatus,
             Message.ReadyForQuery freshSession.getTransactionStatus] :=
  handleExecute_deallocate_ready testEnv freshSession deallocateStatement (by decide)

/-! ## Writing rows -/

theorem writeRowsLoop_spec {ρ : Type} (env : Env ρ) (cols : List ColumnType) :
    ∀ (rows : List ρ) (qe : QueryExecutor ρ),
      ∃ msgs : List Message,
        allBytes env.encode (writeRowsLoop env cols rows qe).1 =
          allBytes env.encode qe ++ encodeAll env.encode msgs ∧
        (∀ m ∈ msgs, ∃ row, m = Message.DataRow row) ∧
        (writeRowsLoop env cols rows qe).1.inTransaction = qe.inTransaction := by
  intro rows
  induction rows with
  | nil =>
    intro qe
    exact ⟨[], by simp [writeRowsLoop, encodeAll], by simp, rfl⟩
  | cons r rest ih =>
    intro qe
    unfold writeRowsLoop
    cases hs : env.scanRowToText r cols with
    | error e => exact ⟨[], by simp [encodeAll], by simp, rfl⟩
    | ok row =>
      simp only
      by_cases hfull : (qe.queueMessages [Message.DataRow row]).buffSize ≥
          (qe.queueMessages [Message.DataRow row]).maxBufferSize
      · simp only [hfull, if_true]
        have hb := send_allBytes env.encode (qe.queueMessages [Message.DataRow row])
        have hc := send_cursors env.encode (qe.queueMessages [Message.DataRow row])
        cases hsend : (qe.queueMessages [Message.DataRow row]).sendQueuedMessages env.encode with
        | mk qe2 r2 =>
          rw [hsend] at hb hc
          simp only at hb hc
          cases r2 with
          | some err =>
            refine ⟨[Message.DataRow row], ?_, ?_, ?_⟩
            · simp only [hb, allBytes_queue]
            · intro m hm
              simp only [List.mem_singleton] at hm
              exact ⟨row, hm⟩
            · simp only [hc.2.1]; rfl
          | none =>
            obtain ⟨msgs, h1, h2, h3⟩ := ih qe2
            refine ⟨Message.DataRow row :: msgs, ?_, ?_, ?_⟩
            · simp only [h1, hb, allBytes_queue, List.append_assoc, ← encodeAll_append,
                List.singleton_append]
            · intro m hm
              rcases List.mem_cons.mp hm with e | e
              · exact ⟨row, e⟩
              · exact h2 m e
            · simp only [h3, hc.2.1]; rfl
      · simp only [hfull, if_false]
        obtain ⟨msgs, h1, h2, h3⟩ := ih (qe.queueMessages [Message.DataRow row])
        refine ⟨Message.DataRow row :: msgs, ?_, ?_, ?_⟩
        · simp only [h1, allBytes_queue, List.append_assoc, ← encodeAll_append,
            List.singleton_append]
        · intro m hm
          rcases List.mem_cons.mp hm with e | e
          · exact ⟨row, e⟩
          · exact h2 m e
        · simp only [h3]; rfl

theorem writeRowsInChunks_spec {ρ : Type} (env : Env ρ) (qe : QueryExecutor ρ) (rows : Rows ρ)
    (cols : List ColumnType) :
    ∃ msgs : List Message,
      allBytes env.encode (qe.writeRowsInChunks env rows cols).1 =
        allBytes env.encode qe ++ encodeAll env.encode msgs ∧
      (∀ m ∈ msgs, ∃ row, m = Message.DataRow row) ∧
      (qe.writeRowsInChunks env rows cols).1.inTransaction = qe.inTransaction := by
  unfold QueryExecutor.writeRowsInChunks
  have hb := send_allBytes env.encode qe
  have hc := send_cursors env.encode qe
  cases hsend : qe.sendQueuedMessages env.encode with
  | mk qe1 r1 =>
    rw [hsend] at hb hc
    simp only at hb hc
    cases r1 with
    | some err => exact ⟨[], by simp [hb, encodeAll], by simp, hc.2.1⟩
    | none =>
      simp only
      cases rows.err with
      | some e => exact ⟨[], by simp [hb, encodeAll], by simp, hc.2.1⟩
      | none =>
        simp only
        obtain ⟨msgs, h1, h2, h3⟩ := writeRowsLoop_spec env cols rows.rows qe1
        cases hloop : writeRowsLoop env cols rows.rows qe1 with
        | mk qe2 r2 =>
          rw [hloop] at h1 h3
          simp only at h1 h3
          cases r2 with
          | some err => exact ⟨msgs, by simp only [h1, hb], h2, by simp only [h3, hc.2.1]⟩
          | none =>
            simp only
            by_cases hpos : qe2.buffSize > 0
            · simp only [hpos, if_true]
              refine ⟨msgs, ?_, h2, ?_⟩
              · rw [send_allBytes, h1, hb]
              · rw [(send_cursors env.encode qe2).2.1, h3, hc.2.1]
            · simp only [hpos, if_false]
              exact ⟨msgs, by simp only [h1, hb], h2, by simp only [h3, hc.2.1]⟩

/-! ## The transaction flag -/

theorem hasPrefix_excl (n : Str) (a b : Char) (r1 r2 : Str) (hab : a ≠ b)
    (h : hasPrefix n (a :: r1) = true) : hasPrefix n (b :: r2) = false := by
  unfold hasPrefix at h ⊢
  cases n with
  | nil => simp [List.isPrefixOf] at h
  | cons x t =>
    simp only [List.isPrefixOf, Bool.and_eq_true, beq_iff_eq] at h
    have hx : a = x := h.1
    have hb : ¬ b = x := fun e => hab (hx.trans e.symm)
    simp [List.isPrefixOf, hb]

theorem begin_not_discard (q : Str) (h : isBeginQuery q = true) :
    queryDiscardsTransaction q = false := by
  unfold isBeginQuery at h
  unfold queryDiscardsTransaction
  have hB : "BEGIN".toList = 'B' :: "EGIN".toList := rfl
  rw [hB] at h
  have h1 : hasPrefix (normalizeQuery q) "COMMIT".toList = false :=
    hasPrefix_excl _ 'B' 'C' _ "OMMIT".toList (by decide) h
  have h2 : hasPrefix (normalizeQuery q) "ROLLBACK".toList = false :=
    hasPrefix_excl _ 'B' 'R' _ "OLLBACK".toList (by decide) h
  have h3 : hasPrefix (normalizeQuery q) "DISCARD".toList = false :=
    hasPrefix_excl _ 'B' 'D' _ "ISCARD".toList (by decide) h
  simp only [h1, h2, h3, Bool.or_self]

theorem noteTransaction_flag {ρ : Type} (qe : QueryExecutor ρ) (q : Str) :
    (isBeginQuery q = true → (qe.noteTransaction q).inTransaction = true) ∧
    (queryDiscardsTransaction q = true → (qe.noteTransaction q).inTransaction = false) ∧
    (isBeginQuery q = false → queryDiscardsTransaction q = false →
      (qe.noteTransaction q).inTransaction = qe.inTransaction) := by
  unfold QueryExecutor.noteTransaction
  refine ⟨?_, ?_, ?_⟩
  · intro hb
    simp only [hb, begin_not_discard q hb, if_true, Bool.false_eq_true, if_false]
  · intro hd
    simp only [hd, if_true]
  · intro hb hd
    simp only [hb, hd, Bool.false_eq_true, if_false]

theorem noteTransaction_allBytes {ρ : Type} (encode : Message → Bytes) (qe : QueryExecutor ρ)
    (q : Str) : allBytes encode (qe.noteTransaction q) = allBytes encode qe := by
  unfold QueryExecutor.noteTransaction
  split <;> split <;> rfl

theorem mem_ready_pair {tag : Str} {st0 st : Char}
    (h : Message.ReadyForQuery st ∈ [Message.CommandComplete tag, Message.ReadyForQuery st0]) :
    st = st0 := by
  simp only [List.mem_cons, List.mem_singleton, Message.ReadyForQuery.injEq, reduceCtorEq,
    false_or, List.not_mem_nil, or_false] at h
  exact h

theorem queue_send_spec {ρ : Type} (encode : Message → Bytes) (qe : QueryExecutor ρ)
    (ms : List Message) :
    ∃ qe1 err, (qe.queueMessages ms).sendQueuedMessages encode = (qe1, err) ∧
      allBytes encode qe1 = allBytes encode qe ++ encodeAll encode ms ∧
      qe1.inTransaction = qe.inTransaction := by
  have hb := send_allBytes encode (qe.queueMessages ms)
  have hc := (send_cursors encode (qe.queueMessages ms)).2.1
  cases hs : (qe.queueMessages ms).sendQueuedMessages encode with
  | mk qe1 err =>
    rw [hs] at hb hc
    exact ⟨qe1, err, rfl, by rw [hb, allBytes_queue], hc⟩

theorem status_congr {ρ : Type} (a b : QueryExecutor ρ) (h : a.inTransaction = b.inTransaction) :
    a.getTransactionStatus = b.getTransactionStatus := by
  unfold QueryExecutor.getTransactionStatus
  rw [h]

/-- The run of `handleQueryMessage` on a query that reaches the back end and
that the back end executes. -/
theorem handleQueryMessage_executed {ρ : Type} (env : Env ρ) (qe : QueryExecutor ρ) (q : Str)
    (rows : Rows ρ)
    (h1 : isDeallocateQuery q = false) (h2 : isCloseQuery q = false)
    (h3 : isDeclareCursorQuery q = false) (h4 : isFetchQuery q = false)
    (hrows : QueryExecutor.executeQuery env q = Except.ok rows) :
    ∃ qe1 err msgs, qe.handleQueryMessage env q = Outcome.returns (qe1, err) ∧
      allBytes env.encode qe1 = allBytes env.encode qe ++ encodeAll env.encode msgs ∧
      (∀ st, Message.ReadyForQuery st ∈ msgs → st = qe1.getTransactionStatus) ∧
      qe1.inTransaction = (qe.noteTransaction q).inTransaction := by
  unfold QueryExecutor.handleQueryMessage
  simp only [h1, h2, h3, h4, Bool.false_eq_true, if_false, hrows]
  by_cases hno : queryReturnsNoRows q = true
  · simp only [hno, if_true]
    obtain ⟨qe1, err, hs, hb, hf⟩ := queue_send_spec env.encode (qe.noteTransaction q)
      [Message.CommandComplete (getCommandTag q),
       Message.ReadyForQuery (qe.noteTransaction q).getTransactionStatus]
    rw [hs]
    refine ⟨qe1, err, [Message.CommandComplete (getCommandTag q),
       Message.ReadyForQuery (qe.noteTransaction q).getTransactionStatus], rfl, ?_, ?_, hf⟩
    · rw [hb, noteTransaction_allBytes]
    · intro st hst
      rw [mem_ready_pair hst]
      exact (status_congr _ _ hf).symm
  · simp only [hno, Bool.false_eq_true, if_false]
    by_cases hempty : queryShouldReturnEmptyResponse q = true
    · simp only [hempty, if_true]
      obtain ⟨qe1, err, hs, hb, hf⟩ := queue_send_spec env.encode (qe.noteTransaction q)
        [Message.EmptyQueryResponse, Message.CommandComplete (getCommandTag q),
         Message.ReadyForQuery (qe.noteTransaction q).getTransactionStatus]
      rw [hs]
      refine ⟨qe1, err, [Message.EmptyQueryResponse, Message.CommandComplete (getCommandTag q),
         Message.ReadyForQuery (qe.noteTransaction q).getTransactionStatus], rfl, ?_, ?_, hf⟩
      · rw [hb, noteTransaction_allBytes]
      · intro st hst
        have hst2 : Message.ReadyForQuery st ∈ [Message.CommandComplete (getCommandTag q),
            Message.ReadyForQuery (qe.noteTransaction q).getTransactionStatus] := by
          simpa using hst
        rw [mem_ready_pair hst2]
        exact (status_congr _ _ hf).symm
    · simp only [hempty, Bool.false_eq_true, if_false]
      cases hcols : rows.columnTypes with
      | error e =>
        simp only
        exact ⟨_, _, [], rfl, by simp [encodeAll, noteTransaction_allBytes], by simp, rfl⟩
      | ok cols =>
        simp only
        obtain ⟨msgs, hb, hdata, hflag⟩ := writeRowsInChunks_spec env
          ((qe.noteTransaction q).queueMessages [toRowDescription cols]) rows cols
        cases hw : ((qe.noteTransaction q).queueMessages
            [toRowDescription cols]).writeRowsInChunks env rows cols with
        | mk qe3 r3 =>
          rw [hw] at hb hflag
          simp only at hb hflag
          have hflag2 : qe3.inTransaction = (qe.noteTransaction q).inTransaction := hflag
          have hnoready : ∀ st, Message.ReadyForQuery st ∉ toRowDescription cols :: msgs := by
            intro st hst
            rcases List.mem_cons.mp hst with e | e
            · simp [toRowDescription] at e
            · obtain ⟨row, hrow⟩ := hdata _ e
              simp at hrow
          cases r3 with
          | some err =>
            simp only
            refine ⟨_, _, toRowDescription cols :: msgs, rfl, ?_, ?_, hflag2⟩
            · rw [hb, allBytes_queue, noteTransaction_allBytes, List.append_assoc,
                ← encodeAll_append]
              rfl
            · intro st hst
              exact absurd hst (hnoready st)
          | none =>
            simp only
            obtain ⟨qe4, err4, hs, hb4, hf4⟩ := queue_send_spec env.encode qe3
              [Message.CommandComplete (getCommandTag q),
               Message.ReadyForQuery qe3.getTransactionStatus]
            rw [hs]
            refine ⟨qe4, err4, toRowDescription cols :: msgs ++
              [Message.CommandComplete (getCommandTag q),
               Message.ReadyForQuery qe3.getTransactionStatus], rfl, ?_, ?_, ?_⟩
            · rw [hb4, hb, allBytes_queue, noteTransaction_allBytes,
                List.append_assoc, List.append_assoc, ← encodeAll_append, ← encodeAll_append]
              rfl
            · intro st hst
              rcases List.mem_append.mp hst with e | e
              · exact absurd e (hnoready st)
              · rw [mem_ready_pair e]
                exact (status_congr _ _ hf4).symm
            · rw [hf4]
              exact hflag2

theorem handleQueryMessage_failed {ρ : Type} (env : Env ρ) (qe : QueryExecutor ρ) (q : Str)
    (e : DriverError)
    (h1 : isDeallocateQuery q = false) (h2 : isCloseQuery q = false)
    (h3 : isDeclareCursorQuery q = false) (h4 : isFetchQuery q = false)
    (hrows : QueryExecutor.executeQuery env q = Except.error e) :
    ∃ qe1 err, qe.handleQueryMessage env q = Outcome.returns (qe1, err) ∧
      allBytes env.encode qe1 = allBytes env.encode qe ++
        encodeAll env.encode [errorResponseOf e, Message.ReadyForQuery qe.getTransactionStatus] ∧
      qe1.inTransaction = qe.inTransaction := by
  unfold QueryExecutor.handleQueryMessage
  simp only [h1, h2, h3, h4, Bool.false_eq_true, if_false, hrows]
  obtain ⟨qe1, err, hs, hb, hf⟩ := queue_send_spec env.encode qe
    [errorResponseOf e, Message.ReadyForQuery qe.getTransactionStatus]
  rw [hs]
  cases err with
  | some x => exact ⟨qe1, _, rfl, hb, hf⟩
  | none => exact ⟨qe1, _, rfl, hb, hf⟩

/-- C14: for a simple query that reaches the back end, when the back end
executes it the transaction flag afterwards is true if the normalized query
begins with BEGIN, false if it begins with COMMIT, ROLLBACK or DISCARD, and
unchanged otherwise, and every ReadyForQuery handed to the client in reply
carries `T` when the resulting flag is true and `I` when it is false; when the
back end returns an error the flag is unchanged. -/
theorem transaction_flag_spec {ρ : Type} (env : Env ρ) (qe : QueryExecutor ρ) (q : Str)
    (h1 : isDeallocateQuery q = false) (h2 : isCloseQuery q = false)
    (h3 : isDeclareCursorQuery q = false) (h4 : isFetchQuery q = false) :
    (∀ rows, QueryExecutor.executeQuery env q = Except.ok rows →
      ∃ qe1 err msgs, qe.handleQueryMessage env q = Outcome.returns (qe1, err) ∧
        allBytes env.encode qe1 = allBytes env.encode qe ++ encodeAll env.encode msgs ∧
        (∀ st, Message.ReadyForQuery st ∈ msgs →
          st = if qe1.inTransaction = true then 'T' else 'I') ∧
        (hasPrefix (normalizeQuery q) "BEGIN".toList = true → qe1.inTransaction = true) ∧
        (hasPrefix (normalizeQuery q) "COMMIT".toList = true ∨
          hasPrefix (normalizeQuery q) "ROLLBACK".toList = true ∨
          hasPrefix (normalizeQuery q) "DISCARD".toList = true → qe1.inTransaction = false) ∧
        (hasPrefix (normalizeQuery q) "BEGIN".toList = false →
          hasPrefix (normalizeQuery q) "COMMIT".toList = false →
          hasPrefix (normalizeQuery q) "ROLLBACK".toList = false →
          hasPrefix (normalizeQuery q) "DISCARD".toList = false →
          qe1.inTransaction = qe.inTransaction)) ∧
    (∀ e, QueryExecutor.executeQuery env q = Except.error e →
      ∃ qe1 err, qe.handleQueryMessage env q = Outcome.returns (qe1, err) ∧
        qe1.inTransaction = qe.inTransaction) := by
  constructor
  · intro rows hrows
    obtain ⟨qe1, err, msgs, hrun, hb, hready, hflag⟩ :=
      handleQueryMessage_executed env qe q rows h1 h2 h3 h4 hrows
    obtain ⟨hbegin, hdisc, hsame⟩ := noteTransaction_flag qe q
    refine ⟨qe1, err, msgs, hrun, hb, ?_, ?_, ?_, ?_⟩
    · intro st hst
      rw [hready st hst]
      rfl
    · intro hp
      rw [hflag]
      exact hbegin hp
    · intro hp
      rw [hflag]
      apply hdisc
      unfold queryDiscardsTransaction
      rcases hp with hp | hp | hp
      · simp only [hp, Bool.true_or]
      · simp only [hp, Bool.true_or, Bool.or_true]
      · simp only [hp, Bool.or_true]
    · intro hp1 hp2 hp3 hp4
      rw [hflag]
      apply hsame hp1
      unfold queryDiscardsTransaction
      simp only [hp2, hp3, hp4, Bool.or_self]
  · intro e hrows
    obtain ⟨qe1, err, hrun, _, hflag⟩ := handleQueryMessage_failed env qe q e h1 h2 h3 h4 hrows
    exact ⟨qe1, err, hrun, hflag⟩

/-- Witness of C14: `BEGIN` in a fresh session. -/
theorem transaction_flag_spec_witness :
    (∀ rows, QueryExecutor.executeQuery testEnv "BEGIN".toList = Except.ok rows →
      ∃ qe1 err msgs, freshSession.handleQueryMessage testEnv "BEGIN".toList =
          Outcome.returns (qe1, err) ∧
        allBytes testEnv.encode qe1 =
          allBytes testEnv.encode freshSession ++ encodeAll testEnv.encode msgs ∧
        (∀ st, Message.ReadyForQuery st ∈ msgs →
          st = if qe1.inTransaction = true then 'T' else 'I') ∧
        (hasPrefix (normalizeQuery "BEGIN".toList) "BEGIN".toList = true →
          qe1.inTransaction = true) ∧
        (hasPrefix (normalizeQuery "BEGIN".toList) "COMMIT".toList = true ∨
          hasPrefix (normalizeQuery "BEGIN".toList) "ROLLBACK".toList = true ∨
          hasPrefix (normalizeQuery "BEGIN".toList) "DISCARD".toList = true →
          qe1.inTransaction = false) ∧
        (hasPrefix (normalizeQuery "BEGIN".toList) "BEGIN".toList = false →
          hasPrefix (normalizeQuery "BEGIN".toList) "COMMIT".toList = false →
          hasPrefix (normalizeQuery "BEGIN".toList) "ROLLBACK".toList = false →
          hasPrefix (normalizeQuery "BEGIN".toList) "DISCARD".toList = false →
          qe1.inTransaction = freshSession.inTransaction)) ∧
    (∀ e, QueryExecutor.executeQuery testEnv "BEGIN".toList = Except.error e →
      ∃ qe1 err, freshSession.handleQueryMessage testEnv "BEGIN".toList =
          Outcome.returns (qe1, err) ∧
        qe1.inTransaction = freshSession.inTransaction) :=
  transaction_flag_spec testEnv freshSession "BEGIN".toList
    (by decide) (by decide) (by decide) (by decide)

/-! ## The messages of a simple query that returns rows -/

theorem write_accepts (c : Socket) (buf : Bytes) (h : c.accepts) :
    ∃ c1, c.write buf = (none, c1) ∧ c1.written = c.written ++ [buf] ∧ c1.accepts := by
  unfold Socket.write
  cases hs : c.script with
  | nil =>
    refine ⟨_, rfl, rfl, ?_⟩
    unfold Socket.accepts
    simp only [hs]
    intro o ho
    exact absurd ho (List.not_mem_nil _)
  | cons o rest =>
    have ho : o = none := h o (by rw [hs]; exact List.mem_cons_self _ _)
    subst ho
    refine ⟨_, rfl, rfl, ?_⟩
    intro o ho
    exact h o (by rw [hs]; exact List.mem_cons_of_mem _ ho)

theorem send_accepts {ρ : Type} (encode : Message → Bytes) (qe : QueryExecutor ρ)
    (h : qe.conn.accepts) :
    ∃ c1, qe.sendQueuedMessages encode = ({ qe with conn := c1, mb := [] }, none) ∧
      c1.written = qe.conn.written ++ [encodeAll encode qe.mb] ∧ c1.accepts := by
  obtain ⟨c1, hw, hwr, hacc⟩ := write_accepts qe.conn (encodeAll encode qe.mb) h
  refine ⟨c1, ?_, hwr, hacc⟩
  unfold QueryExecutor.sendQueuedMessages writeMessages
  rw [encodeLoop_eq]
  simp only [List.nil_append, hw]

theorem writeRowsLoop_accepts {ρ : Type} (env : Env ρ) (cols : List ColumnType) :
    ∀ (rows : List ρ) (qe : QueryExecutor ρ), qe.conn.accepts →
      (∀ r ∈ rows, ∃ row, env.scanRowToText r cols = Except.ok row) →
      ∃ (qe1 : QueryExecutor ρ) (datarows : List (List (Option Bytes))),
        writeRowsLoop env cols rows qe = (qe1, none) ∧
        List.Forall₂ (fun r row => env.scanRowToText r cols = Except.ok row) rows datarows ∧
        allBytes env.encode qe1 =
          allBytes env.encode qe ++ encodeAll env.encode (datarows.map Message.DataRow) ∧
        qe1.conn.accepts ∧ qe1.inTransaction = qe.inTransaction := by
  intro rows
  induction rows with
  | nil =>
    intro qe hacc _
    exact ⟨qe, [], rfl, List.Forall₂.nil, by simp [encodeAll], hacc, rfl⟩
  | cons r rest ih =>
    intro qe hacc hscan
    obtain ⟨row, hrow⟩ := hscan r (List.mem_cons_self _ _)
    have hrest : ∀ x ∈ rest, ∃ row, env.scanRowToText x cols = Except.ok row :=
      fun x hx => hscan x (List.mem_cons_of_mem _ hx)
    unfold writeRowsLoop
    simp only [hrow]
    by_cases hfull : (qe.queueMessages [Message.DataRow row]).buffSize ≥
        (qe.queueMessages [Message.DataRow row]).maxBufferSize
    · simp only [hfull, if_true]
      obtain ⟨c1, hs, hwr, hacc1⟩ := send_accepts env.encode
        (qe.queueMessages [Message.DataRow row]) hacc
      have hb := send_allBytes env.encode (qe.queueMessages [Message.DataRow row])
      rw [hs] at hb
      simp only at hb
      rw [hs]
      simp only
      obtain ⟨qe1, datarows, hl, hf2, hbytes, hacc2, hflag⟩ :=
        ih { (qe.queueMessages [Message.DataRow row]) with conn := c1, mb := [] } hacc1 hrest
      refine ⟨qe1, row :: datarows, hl, List.Forall₂.cons hrow hf2, ?_, hacc2, ?_⟩
      · rw [hbytes, hb, allBytes_queue, List.append_assoc, ← encodeAll_append]
        rfl
      · rw [hflag]
        rfl
    · simp only [hfull, if_false]
      obtain ⟨qe1, datarows, hl, hf2, hbytes, hacc2, hflag⟩ :=
        ih (qe.queueMessages [Message.DataRow row]) hacc hrest
      refine ⟨qe1, row :: datarows, hl, List.Forall₂.cons hrow hf2, ?_, hacc2, ?_⟩
      · rw [hbytes, allBytes_queue, List.append_assoc, ← encodeAll_append]
        rfl
      · rw [hflag]
        rfl

theorem writeRowsInChunks_accepts {ρ : Type} (env : Env ρ) (qe : QueryExecutor ρ)
    (rows : Rows ρ) (cols : List ColumnType) (hacc : qe.conn.accepts)
    (herr : rows.err = none)
    (hscan : ∀ r ∈ rows.rows, ∃ row, env.scanRowToText r cols = Except.ok row) :
    ∃ (qe1 : QueryExecutor ρ) (datarows : List (List (Option Bytes))),
      qe.writeRowsInChunks env rows cols = (qe1, none) ∧
      List.Forall₂ (fun r row => env.scanRowToText r cols = Except.ok row) rows.rows datarows ∧
      allBytes env.encode qe1 =
        allBytes env.encode qe ++ encodeAll env.encode (datarows.map Message.DataRow) ∧
      qe1.conn.accepts ∧ qe1.inTransaction = qe.inTransaction ∧ qe1.mb = [] := by
  unfold QueryExecutor.writeRowsInChunks
  obtain ⟨c1, hs, hwr, hacc1⟩ := send_accepts env.encode qe hacc
  have hb := send_allBytes env.encode qe
  rw [hs] at hb
  simp only at hb
  rw [hs]
  simp only [herr]
  obtain ⟨qe2, datarows, hl, hf2, hbytes, hacc2, hflag⟩ :=
    writeRowsLoop_accepts env cols rows.rows { qe with conn := c1, mb := [] } hacc1 hscan
  rw [hl]
  simp only
  by_cases hpos : qe2.buffSize > 0
  · simp only [hpos, if_true]
    obtain ⟨c3, hs3, hwr3, hacc3⟩ := send_accepts env.encode qe2 hacc2
    have hb3 := send_allBytes env.encode qe2
    rw [hs3] at hb3
    simp only at hb3
    rw [hs3]
    refine ⟨_, datarows, rfl, hf2, ?_, hacc3, ?_, rfl⟩
    · rw [hb3, hbytes, hb]
    · show qe2.inTransaction = qe.inTransaction
      rw [hflag]
  · simp only [hpos, if_false]
    refine ⟨qe2, datarows, rfl, hf2, ?_, hacc2, ?_, ?_⟩
    · rw [hbytes, hb]
    · rw [hflag]
    · unfold QueryExecutor.buffSize at hpos
      exact List.length_eq_zero.mp (by omega)

/-- C12 (as stated, refuted).  A session in which a CloseComplete is still
queued handles the simple query `SELECT 1`, which returns one row: the first
message written to the socket by `handleQueryMessage` is the CloseComplete, not
the RowDescription. -/
theorem simple_query_counterexample :
    isDeallocateQuery "SELECT 1".toList = false ∧ isCloseQuery "SELECT 1".toList = false ∧
    isDeclareCursorQuery "SELECT 1".toList = false ∧ isFetchQuery "SELECT 1".toList = false ∧
    queryReturnsNoRows "SELECT 1".toList = false ∧
    queryShouldReturnEmptyResponse "SELECT 1".toList = false ∧
    ∃ qe1, staleSession.handleQueryMessage testEnv "SELECT 1".toList =
        Outcome.returns (qe1, none) ∧
      qe1.conn.written = [[51, 84], [68], [67, 90]] ∧
      qe1.conn.written.flatten =
        encodeAll kindByte
          [Message.CloseComplete,
           toRowDescription [{ Name := "col1".toList, DatabaseTypeName := "INT".toList }],
           Message.DataRow [some [55]], Message.CommandComplete "SELECT 1".toList,
           Message.ReadyForQuery 'I'] :=
  ⟨by decide, by decide, by decide, by decide, by decide, by decide, _, rfl, by decide,
    by decide⟩

/-- C12 (amended).  For every simple-query interaction that returns rows
(message buffer empty on entry, socket accepting every write, back end
succeeding with its column types and without an iteration error, query not
DEALLOCATE/CLOSE/DECLARE/FETCH, not a no-rows or empty-response query, all rows
scanning), the bytes written to the socket by `handleQueryMessage` are the
encodings of exactly one RowDescription, then one DataRow per row of the back
end in iterator order, then exactly one CommandComplete, then exactly one
ReadyForQuery; the buffer is empty afterwards. -/
theorem simple_query_messages {ρ : Type} (env : Env ρ) (qe : QueryExecutor ρ) (q : Str)
    (rows : Rows ρ) (cols : List ColumnType)
    (hempty : qe.mb = []) (hacc : qe.conn.accepts)
    (h1 : isDeallocateQuery q = false) (h2 : isCloseQuery q = false)
    (h3 : isDeclareCursorQuery q = false) (h4 : isFetchQuery q = false)
    (h5 : queryReturnsNoRows q = false) (h6 : queryShouldReturnEmptyResponse q = false)
    (hrows : QueryExecutor.executeQuery env q = Except.ok rows)
    (hcols : rows.columnTypes = Except.ok cols) (herr : rows.err = none)
    (hscan : ∀ r ∈ rows.rows, ∃ row, env.scanRowToText r cols = Except.ok row) :
    ∃ (qe1 : QueryExecutor ρ) (datarows : List (List (Option Bytes))),
      qe.handleQueryMessage env q = Outcome.returns (qe1, none) ∧
      List.Forall₂ (fun r row => env.scanRowToText r cols = Except.ok row) rows.rows datarows ∧
      qe1.conn.written.flatten = qe.conn.written.flatten ++
        encodeAll env.encode
          (toRowDescription cols :: datarows.map Message.DataRow ++
            [Message.CommandComplete (getCommandTag q),
             Message.ReadyForQuery qe.getTransactionStatus]) ∧
      qe1.mb = [] := by
  have hnote : qe.noteTransaction q = qe := by
    unfold QueryExecutor.noteTransaction
    have h5a := h5
    unfold queryReturnsNoRows at h5a
    simp only [Bool.or_eq_false_iff] at h5a
    have hb : isBeginQuery q = false := h5a.1.1.1.1
    have hd : queryDiscardsTransaction q = false := by
      unfold queryDiscardsTransaction
      simp only [Bool.or_eq_false_iff]
      exact ⟨⟨h5a.1.1.2, h5a.1.2⟩, h5a.2⟩
    simp only [hb, hd, Bool.false_eq_true, if_false]
  unfold QueryExecutor.handleQueryMessage
  simp only [h1, h2, h3, h4, h5, h6, Bool.false_eq_true, if_false, hrows, hcols, hnote]
  obtain ⟨qe3, datarows, hw, hf2, hbytes, hacc3, hflag, hmb⟩ :=
    writeRowsInChunks_accepts env (qe.queueMessages [toRowDescription cols]) rows cols hacc
      herr hscan
  rw [hw]
  simp only
  have hacc4 : (qe3.queueMessages [Message.CommandComplete (getCommandTag q),
      Message.ReadyForQuery qe3.getTransactionStatus]).conn.accepts := hacc3
  obtain ⟨c5, hs5, hwr5, _⟩ := send_accepts env.encode _ hacc4
  have hb5 := send_allBytes env.encode (qe3.queueMessages
    [Message.CommandComplete (getCommandTag q), Message.ReadyForQuery qe3.getTransactionStatus])
  rw [hs5] at hb5
  simp only at hb5
  rw [hs5]
  have hst : qe3.getTransactionStatus = qe.getTransactionStatus :=
    status_congr _ _ hflag
  refine ⟨_, datarows, rfl, hf2, ?_, rfl⟩
  have hall : allBytes env.encode qe = qe.conn.written.flatten := by
    simp [allBytes, hempty, encodeAll]
  simp only [allBytes, encodeAll, List.map_nil, List.flatten_nil, List.append_nil] at hb5
  rw [hb5]
  have := allBytes_queue env.encode qe3 [Message.CommandComplete (getCommandTag q),
    Message.ReadyForQuery qe3.getTransactionStatus]
  simp only [allBytes, encodeAll] at this
  rw [this]
  have h7 := hbytes
  rw [allBytes_queue, hall] at h7
  simp only [allBytes, encodeAll] at h7
  rw [h7, hst]
  simp only [encodeAll, List.map_cons, List.map_append, List.flatten_cons, List.flatten_append,
    List.map_nil, List.flatten_nil, List.append_nil, List.append_assoc]

/-- Witness of C12 (amended): `SELECT 1` in a fresh session. -/
theorem simple_query_messages_witness :
    ∃ (qe1 : QueryExecutor Nat) (datarows : List (List (Option Bytes))),
      freshSession.handleQueryMessage testEnv "SELECT 1".toList = Outcome.returns (qe1, none) ∧
      List.Forall₂
        (fun r row => testEnv.scanRowToText r
          [{ Name := "col1".toList, DatabaseTypeName := "INT".toList }] = Except.ok row)
        ({ columnTypes := Except.ok [{ Name := "col1".toList, DatabaseTypeName := "INT".toList }],
           rows := [7], err := none } : Rows Nat).rows datarows ∧
      qe1.conn.written.flatten = freshSession.conn.written.flatten ++
        encodeAll testEnv.encode
          (toRowDescription [{ Name := "col1".toList, DatabaseTypeName := "INT".toList }] ::
            datarows.map Message.DataRow ++
            [Message.CommandComplete (getCommandTag "SELECT 1".toList),
             Message.ReadyForQuery freshSession.getTransactionStatus]) ∧
      qe1.mb = [] :=
  simple_query_messages testEnv freshSession "SELECT 1".toList
    { columnTypes := Except.ok [{ Name := "col1".toList, DatabaseTypeName := "INT".toList }],
      rows := [7], err := none }
    [{ Name := "col1".toList, DatabaseTypeName := "INT".toList }]
    rfl (by intro o ho; exact absurd ho (List.not_mem_nil _))
    (by decide) (by decide) (by decide) (by decide) (by decide) (by decide)
    rfl rfl rfl (fun _ _ => ⟨_, rfl⟩)

/-! ## Translation of `CREATE TABLE` statements -/

theorem typeLoop_once (s1 s2 : Str)
    (hother : ∀ e ∈ VERTICA_TO_POSTGRES_TYPE_MAPPING, e ≠ intEntry →
      replaceAll s1 e.1 e.2 = s1 ∧ replaceAll s2 e.1 e.2 = s2)
    (hint : replaceAll s1 intEntry.1 intEntry.2 = s2) :
    ∀ l : List (Str × Str), (∀ e ∈ l, e ∈ VERTICA_TO_POSTGRES_TYPE_MAPPING) → l.Nodup →
      (intEntry ∉ l → typeLoop l s1 = s1 ∧ typeLoop l s2 = s2) ∧
      (intEntry ∈ l → typeLoop l s1 = s2) := by
  intro l
  induction l with
  | nil =>
    intro _ _
    exact ⟨fun _ => ⟨rfl, rfl⟩, fun h => absurd h (List.not_mem_nil _)⟩
  | cons e rest ih =>
    intro hmem hnd
    have hnd2 := List.nodup_cons.mp hnd
    have hrest := ih (fun x hx => hmem x (List.mem_cons_of_mem _ hx)) hnd2.2
    obtain ⟨a, b⟩ := e
    by_cases he : (a, b) = intEntry
    · constructor
      · intro h0
        exact absurd (by rw [he]; exact List.mem_cons_self _ _) h0
      · intro _
        have h0 : intEntry ∉ rest := by rw [← he]; exact hnd2.1
        show typeLoop rest (replaceAll s1 a b) = s2
        have hab : replaceAll s1 a b = s2 := by
          have h2 : a = intEntry.1 ∧ b = intEntry.2 := by
            rw [← he]; exact ⟨rfl, rfl⟩
          rw [h2.1, h2.2]; exact hint
        rw [hab]
        exact (hrest.1 h0).2
    · have hno := hother (a, b) (hmem _ (List.mem_cons_self _ _)) he
      constructor
      · intro h0
        have h0r : intEntry ∉ rest := fun h => h0 (List.mem_cons_of_mem _ h)
        show typeLoop rest (replaceAll s1 a b) = s1 ∧ typeLoop rest (replaceAll s2 a b) = s2
        rw [hno.1, hno.2]
        exact hrest.1 h0r
      · intro h1
        have h1r : intEntry ∈ rest := by
          rcases List.mem_cons.mp h1 with e1 | e1
          · exact absurd e1.symm he
          · exact e1
        show typeLoop rest (replaceAll s1 a b) = s2
        rw [hno.1]
        exact hrest.2 h1r

set_option maxRecDepth 100000 in
/-- C20 (the code on a column of type `interval`).  Whatever the order in
which the entries of the type map are applied, `CREATE TABLE t (a interval)`
becomes `CREATE TABLE IF NOT EXISTS t (a biginterval)`: the replacement of
`int` by `bigint` also rewrites the `int` inside `interval`. -/
theorem translate_interval (order : List (Str × Str))
    (hperm : order.Perm VERTICA_TO_POSTGRES_TYPE_MAPPING) :
    translateCreateTableToPostgres order intervalTable =
      "CREATE TABLE IF NOT EXISTS t (a biginterval)".toList := by
  have hmem : ∀ e ∈ order, e ∈ VERTICA_TO_POSTGRES_TYPE_MAPPING :=
    fun e he => hperm.subset he
  have hnd : order.Nodup := hperm.nodup_iff.mpr (by decide)
  have hin : intEntry ∈ order := hperm.mem_iff.mpr (by decide)
  have hloop := (typeLoop_once "CREATE TABLE IF NOT EXISTS t (a interval)".toList
    "CREATE TABLE IF NOT EXISTS t (a biginterval)".toList (by decide) (by decide)
    order hmem hnd).2 hin
  have h1 : replace intervalTable "CREATE TABLE".toList "CREATE TABLE IF NOT EXISTS".toList 15 =
      "CREATE TABLE IF NOT EXISTS t (a interval)".toList := by decide
  unfold translateCreateTableToPostgres
  simp only [h1, hloop]
  decide

/-- Witness of C20: the entries taken in the order of the source text. -/
theorem translate_interval_witness :
    translateCreateTableToPostgres VERTICA_TO_POSTGRES_TYPE_MAPPING intervalTable =
      "CREATE TABLE IF NOT EXISTS t (a biginterval)".toList :=
  translate_interval VERTICA_TO_POSTGRES_TYPE_MAPPING (List.Perm.refl _)

/-! ## The matcher on runs of a character class -/

theorem firstOf_none_right (x : Option (Str × Caps)) : firstOf x none = x := by
  cases x <;> rfl

theorem starLoop_succ (step : MatchCont → MatchCont) (greedy : Bool) (k : MatchCont)
    (fuel : Nat) (s : Str) (c : Caps) :
    starLoop step greedy k (fuel + 1) s c =
      if greedy then
        firstOf (step (fun s1 c1 =>
          if s1.length < s.length then starLoop step greedy k fuel s1 c1 else none) s c) (k s c)
      else
        firstOf (k s c) (step (fun s1 c1 =>
          if s1.length < s.length then starLoop step greedy k fuel s1 c1 else none) s c) := rfl

/-- A greedy starred class takes the longest run when what follows the star
cannot begin with a character of the class. -/
theorem starLoop_chr_greedy (p : Char → Bool) (k : MatchCont)
    (hk : ∀ x t c, p x = true → k (x :: t) c = none) :
    ∀ (s : Str) (fuel : Nat) (c : Caps), s.length ≤ fuel →
      starLoop (matchRe (Regex.chr p)) true k fuel s c = k (s.dropWhile p) c := by
  intro s
  induction s with
  | nil =>
    intro fuel c _
    cases fuel with
    | zero => rfl
    | succ n =>
      rw [starLoop_succ]
      simp only [if_true, matchRe_chr_nil]
      rfl
  | cons x t ih =>
    intro fuel c hlen
    cases fuel with
    | zero => simp at hlen
    | succ n =>
      have hl : t.length ≤ n := by simpa using hlen
      rw [starLoop_succ]
      simp only [if_true, matchRe_chr_cons]
      by_cases hp : p x = true
      · simp only [hp, if_true, List.length_cons, Nat.lt_succ_self, List.dropWhile_cons_of_pos]
        rw [ih n c hl, hk x t c hp, firstOf_none_right]
      · simp only [hp, Bool.false_eq_true, if_false]
        have hd : (x :: t).dropWhile p = x :: t := by
          simp [List.dropWhile, hp]
        rw [hd]
        rfl

/-- A greedy starred class takes the longest run when what follows the star
succeeds after it. -/
theorem starLoop_chr_greedy_some (p : Char → Bool) (k : MatchCont) :
    ∀ (s : Str) (fuel : Nat) (c : Caps) (r : Str × Caps), s.length ≤ fuel →
      k (s.dropWhile p) c = some r →
      starLoop (matchRe (Regex.chr p)) true k fuel s c = some r := by
  intro s
  induction s with
  | nil =>
    intro fuel c r _ hr
    cases fuel with
    | zero => exact hr
    | succ n =>
      rw [starLoop_succ]
      simp only [if_true, matchRe_chr_nil]
      exact hr
  | cons x t ih =>
    intro fuel c r hlen hr
    cases fuel with
    | zero => simp at hlen
    | succ n =>
      have hl : t.length ≤ n := by simpa using hlen
      rw [starLoop_succ]
      simp only [if_true, matchRe_chr_cons]
      by_cases hp : p x = true
      · simp only [hp, if_true, List.length_cons, Nat.lt_succ_self]
        have hd : (x :: t).dropWhile p = t.dropWhile p := by
          simp [List.dropWhile, hp]
        rw [hd] at hr
        rw [ih n c r hl hr]
        rfl
      · simp only [hp, Bool.false_eq_true, if_false]
        have hd : (x :: t).dropWhile p = x :: t := by
          simp [List.dropWhile, hp]
        rw [hd] at hr
        rw [hr]
        rfl

theorem matchRe_plus_chr (p : Char → Bool) (k : MatchCont) (x : Char) (t : Str) (c : Caps) :
    matchRe (Regex.plus (Regex.chr p)) k (x :: t) c =
      if p x then starLoop (matchRe (Regex.chr p)) true k t.length t c else none := by
  unfold Regex.plus
  rw [matchRe_seq, matchRe_chr_cons]
  rfl

theorem matchRe_plus_chr_nil (p : Char → Bool) (k : MatchCont) (c : Caps) :
    matchRe (Regex.plus (Regex.chr p)) k [] c = none := by
  unfold Regex.plus
  rw [matchRe_seq, matchRe_chr_nil]

theorem toNat_ofNat_small (n : Nat) (h : n < 55296) : (Char.ofNat n).toNat = n := by
  have hv : n.isValidChar := Or.inl h
  unfold Char.ofNat
  rw [dif_pos hv]
  unfold Char.ofNatAux Char.toNat
  show (UInt32.toNat ⟨BitVec.ofNatLt n _⟩) = n
  rfl

theorem matchRe_litFold (k : MatchCont) : ∀ (w s : Str) (c : Caps),
    matchRe (Regex.litFold w) k s c = if foldPrefix w s then k (s.drop w.length) c else none := by
  intro w
  induction w with
  | nil => intro s c; simp [Regex.litFold, matchRe, foldPrefix]
  | cons x t ih =>
    intro s c
    cases t with
    | nil =>
      cases s with
      | nil => simp [Regex.litFold, matchRe, foldPrefix]
      | cons y u =>
        simp only [Regex.litFold, matchRe_chr_cons, foldPrefix, Bool.and_true, List.length_cons,
          List.length_nil, List.drop_succ_cons, List.drop_zero]
    | cons y t1 =>
      cases s with
      | nil => simp [Regex.litFold, matchRe, foldPrefix]
      | cons z u =>
        simp only [Regex.litFold, matchRe_seq, matchRe_chr_cons]
        rw [ih u c]
        by_cases h : foldEq x z = true
        · simp [h, foldPrefix]
        · simp [h, foldPrefix]

/-! ## Replacing all matches is a scan from left to right -/

theorem regexReplaceFuel_skip (r : Regex) (repl : Str → Str) (n : Nat) (x : Char) (t : Str)
    (h : matchHere r (x :: t) = none) :
    regexReplaceFuel r repl (n + 1) (x :: t) = x :: regexReplaceFuel r repl (n + 1) t := by
  show (match findFirst r (x :: t) with
        | none => x :: t
        | some (pre, m, rest, _) => pre ++ repl m ++ regexReplaceFuel r repl n rest) =
      x :: (match findFirst r t with
        | none => t
        | some (pre, m, rest, _) => pre ++ repl m ++ regexReplaceFuel r repl n rest)
  have hf : findFirst r (x :: t) =
      match findFirst r t with
      | some (pre, m, rest, c) => some (x :: pre, m, rest, c)
      | none => none := by
    simp only [findFirst, h]
  rw [hf]
  cases findFirst r t with
  | none => rfl
  | some q => rfl

theorem regexReplaceFuel_hit (r : Regex) (repl : Str → Str) (n : Nat) (s m rest : Str)
    (caps : Caps) (h : matchHere r s = some (rest, caps)) (hs : s = m ++ rest) (hm : m ≠ []) :
    regexReplaceFuel r repl (n + 1) s = repl m ++ regexReplaceFuel r repl n rest := by
  have hf : findFirst r s = some ([], m, rest, caps) := by
    cases s with
    | nil =>
      cases m with
      | nil => exact absurd rfl hm
      | cons a b => simp at hs
    | cons x t =>
      simp only [findFirst, h]
      have ht : (x :: t).take ((x :: t).length - rest.length) = m := by
        rw [hs]
        simp
      rw [ht]
  show (match findFirst r s with
        | none => s
        | some (pre, m, rest, _) => pre ++ repl m ++ regexReplaceFuel r repl n rest) = _
  rw [hf]
  rfl

/-- When a recogniser decides where the expression matches at the head of a
text, replacing all matches of the expression is the scan with the
recogniser. -/
theorem regexReplaceFuel_scan (r : Regex) (recog : Recogniser) (repl : Str → Str)
    (h : ∀ s, (matchHere r s = none ∧ recog s = none) ∨
      ∃ m rest caps, matchHere r s = some (rest, caps) ∧ recog s = some (m, rest) ∧
        s = m ++ rest ∧ m ≠ []) :
    ∀ (k : Nat) (s : Str), s.length ≤ k → ∀ (n n1 : Nat), s.length ≤ n → s.length ≤ n1 →
      regexReplaceFuel r repl n s = scanWith recog repl n1 s := by
  intro k
  induction k with
  | zero =>
    intro s hs n n1 _ _
    have : s = [] := List.length_eq_zero.mp (Nat.le_zero.mp hs)
    subst this
    cases n with
    | zero => cases n1 <;> rfl
    | succ n0 =>
      rcases h [] with ⟨h1, _⟩ | ⟨m, rest, caps, _, _, h3, h4⟩
      · have hf : findFirst r [] = none := by simp only [findFirst, h1]
        have : regexReplaceFuel r repl (n0 + 1) [] = [] := by
          show (match findFirst r [] with
            | none => []
            | some (pre, m, rest, _) => pre ++ repl m ++ regexReplaceFuel r repl n0 rest) = _
          rw [hf]
        rw [this]
        cases n1 <;> rfl
      · cases m with
        | nil => exact absurd rfl h4
        | cons a b => simp at h3
  | succ k ih =>
    intro s hs n n1 hn hn1
    cases s with
    | nil => exact ih [] (Nat.zero_le _) n n1 (Nat.zero_le _) (Nat.zero_le _)
    | cons x t =>
      have ht : t.length ≤ k := by simpa using hs
      cases n with
      | zero => simp at hn
      | succ n0 =>
        cases n1 with
        | zero => simp at hn1
        | succ n2 =>
          have htn : t.length ≤ n0 := by simpa using hn
          have htn1 : t.length ≤ n2 := by simpa using hn1
          rcases h (x :: t) with ⟨h1, h2⟩ | ⟨m, rest, caps, h1, h2, h3, h4⟩
          · rw [regexReplaceFuel_skip r repl n0 x t h1]
            have hsc : scanWith recog repl (n2 + 1) (x :: t) = x :: scanWith recog repl n2 t := by
              simp only [scanWith, h2]
            rw [hsc, ih t ht (n0 + 1) n2 (Nat.le_succ_of_le htn) htn1]
          · rw [regexReplaceFuel_hit r repl n0 (x :: t) m rest caps h1 h3 h4]
            have hsc : scanWith recog repl (n2 + 1) (x :: t) =
                repl m ++ scanWith recog repl n2 rest := by
              simp only [scanWith, h2]
            have hml : 0 < m.length := List.length_pos.mpr h4
            have hlen : (x :: t).length = m.length + rest.length := by
              rw [h3, List.length_append]
            have hx : (x :: t).length = t.length + 1 := rfl
            rw [hsc, ih rest (by omega) n0 n2 (by omega) (by omega)]

theorem regexReplaceAllFunc_scan (r : Regex) (recog : Recogniser) (repl : Str → Str)
    (h : ∀ s, (matchHere r s = none ∧ recog s = none) ∨
      ∃ m rest caps, matchHere r s = some (rest, caps) ∧ recog s = some (m, rest) ∧
        s = m ++ rest ∧ m ≠ [])
    (s : Str) : regexReplaceAllFunc r s repl = scanAll recog repl s :=
  regexReplaceFuel_scan r recog repl h s.length s (Nat.le_refl _) _ _ (Nat.le_refl _)
    (Nat.le_refl _)

/-- The scan only looks at the replacement of texts that the recogniser
gives. -/
theorem scanWith_congr (recog : Recogniser) (f g : Str → Str)
    (h : ∀ s m rest, recog s = some (m, rest) → f m = g m) :
    ∀ (n : Nat) (s : Str), scanWith recog f n s = scanWith recog g n s := by
  intro n
  induction n with
  | zero => intro s; rfl
  | succ n ih =>
    intro s
    cases s with
    | nil => rfl
    | cons x t =>
      cases hr : recog (x :: t) with
      | none => simp only [scanWith, hr, ih t]
      | some q =>
        obtain ⟨m, rest⟩ := q
        simp only [scanWith, hr, ih rest, h (x :: t) m rest hr]

/-- A text in which the recogniser finds nothing is left as it is. -/
theorem scanWith_none (recog : Recogniser) (f : Str → Str) :
    ∀ (n : Nat) (s : Str), (∀ t, t <:+ s → recog t = none) → scanWith recog f n s = s := by
  intro n
  induction n with
  | zero => intro s _; rfl
  | succ n ih =>
    intro s h
    cases s with
    | nil => rfl
    | cons x t =>
      have h1 : recog (x :: t) = none := h _ (List.suffix_refl _)
      have h2 : ∀ u, u <:+ t → recog u = none :=
        fun u hu => h u (hu.trans (List.suffix_cons x t))
      simp only [scanWith, h1, ih t h2]

/-! ## The two cast expressions and their recognisers -/

theorem take_sub_dropWhile (p : Char → Bool) (t : Str) :
    t.take (t.length - (t.dropWhile p).length) = t.takeWhile p := by
  have h := List.takeWhile_append_dropWhile p t
  have hl : t.length = (t.takeWhile p).length + (t.dropWhile p).length := by
    conv_lhs => rw [← h]
    rw [List.length_append]
  have hn : t.length - (t.dropWhile p).length = (t.takeWhile p).length := by omega
  rw [hn]
  have e : List.take (t.takeWhile p).length (t.takeWhile p ++ t.dropWhile p) =
      t.takeWhile p := List.take_left _ _
  rw [h] at e
  exact e

theorem take_cons_sub_dropWhile (p : Char → Bool) (x : Char) (t : Str) :
    (x :: t).take ((x :: t).length - (t.dropWhile p).length) = x :: t.takeWhile p := by
  have hle : (t.dropWhile p).length ≤ t.length := by
    have h := List.takeWhile_append_dropWhile p t
    have hl : t.length = (t.takeWhile p).length + (t.dropWhile p).length := by
      conv_lhs => rw [← h]
      rw [List.length_append]
    omega
  have hn : (x :: t).length - (t.dropWhile p).length =
      (t.length - (t.dropWhile p).length) + 1 := by
    simp only [List.length_cons]
    omega
  rw [hn, List.take_succ_cons, take_sub_dropWhile]

/-- At the head of a text `typeRegex` matches what `typeAt` describes. -/
theorem typeRegex_typeAt (s : Str) :
    (matchHere typeRegex s = none ∧ typeAt s = none) ∨
      ∃ m rest caps, matchHere typeRegex s = some (rest, caps) ∧ typeAt s = some (m, rest) ∧
        s = m ++ rest ∧ m ≠ [] := by
  unfold matchHere typeRegex typeAt
  rw [matchRe_seq, matchRe_lit]
  by_cases hp : "::".toList.isPrefixOf s = true
  · simp only [hp, if_true]
    obtain ⟨u, hu⟩ := List.isPrefixOf_iff_prefix.mp hp
    subst hu
    have hd : List.drop 2 ("::".toList ++ u) = u := rfl
    have hd2 : List.drop "::".toList.length ("::".toList ++ u) = u := rfl
    rw [hd, hd2]
    cases u with
    | nil =>
      left
      rw [matchRe_group, matchRe_plus_chr_nil]
      exact ⟨rfl, rfl⟩
    | cons x t =>
      rw [matchRe_group, matchRe_plus_chr]
      by_cases hx : isAlnumFold x = true
      · right
        refine ⟨"::".toList ++ x :: t.takeWhile isAlnumFold, t.dropWhile isAlnumFold,
          [(1, x :: t.takeWhile isAlnumFold)], ?_, ?_, ?_, ?_⟩
        · simp only [hx, if_true]
          apply starLoop_chr_greedy_some _ _ _ _ _ _ (Nat.le_refl _)
          show some (_, [(1, _)]) = _
          rw [take_cons_sub_dropWhile]
        · simp only [hx, if_true]
        · show _ = "::".toList ++ (x :: t.takeWhile isAlnumFold ++ t.dropWhile isAlnumFold)
          rw [List.cons_append, List.takeWhile_append_dropWhile]
        · exact fun e => by simp at e
      · left
        simp only [hx, Bool.false_eq_true, if_false, and_self]
  · left
    simp only [hp, Bool.false_eq_true, if_false, and_self]

theorem isAlnumFold_not_space (c : Char) (h : isAlnumFold c = true) : isSpace c = false := by
  have h0 : ∀ a b : Char, a ≤ b ↔ a.toNat ≤ b.toNat := fun a b => Iff.rfl
  have ha : ('a' : Char).toNat = 97 := rfl
  have hz : ('z' : Char).toNat = 122 := rfl
  have hA : ('A' : Char).toNat = 65 := rfl
  have hZ : ('Z' : Char).toNat = 90 := rfl
  have hd0 : ('0' : Char).toNat = 48 := rfl
  have hd9 : ('9' : Char).toNat = 57 := rfl
  unfold isAlnumFold at h
  simp only [Bool.or_eq_true, decide_eq_true_eq, beq_iff_eq, h0, ha, hz, hA, hZ, hd0, hd9] at h
  unfold isSpace
  simp only [Bool.or_eq_false_iff, Bool.and_eq_false_imp, decide_eq_true_eq, beq_eq_false_iff_ne,
    ne_eq, decide_eq_false_iff_not]
  omega

theorem dropWhile_of_all_false (p : Char → Bool) (s : Str) (h : ∀ c ∈ s, p c = false) :
    s.dropWhile p = s := by
  cases s with
  | nil => rfl
  | cons x t =>
    have hx : p x = false := h x (List.mem_cons_self _ _)
    simp [List.dropWhile, hx]

theorem trimSpace_of_alnum (s : Str) (h : ∀ c ∈ s, isAlnumFold c = true) : trimSpace s = s := by
  have h1 : ∀ c ∈ s, isSpace c = false := fun c hc => isAlnumFold_not_space c (h c hc)
  have h2 : ∀ c ∈ s.reverse, isSpace c = false := fun c hc => h1 c (List.mem_reverse.mp hc)
  unfold trimSpace trimRightFunc
  rw [dropWhile_of_all_false isSpace s h1, dropWhile_of_all_false isSpace s.reverse h2,
    List.reverse_reverse]

theorem lookup_mem_values (l : List (Str × Str)) (k v : Str) (h : l.lookup k = some v) :
    v ∈ l.map Prod.snd := by
  induction l with
  | nil => simp [List.lookup] at h
  | cons e rest ih =>
    obtain ⟨a, b⟩ := e
    by_cases hk : (k == a) = true
    · simp only [List.lookup, hk] at h
      simp only [Option.some.injEq] at h
      simp [h]
    · have hk1 : (k == a) = false := by simpa using hk
      simp only [List.lookup, hk1] at h
      simp [ih h]

/-- The mapping never gives the empty name for a name that is not empty. -/
theorem mapPostgresToVerticaType_ne_nil (ty : Str) (h : ty ≠ []) :
    mapPostgresToVerticaType ty ≠ [] := by
  unfold mapPostgresToVerticaType
  cases hl : POSTGRES_TO_VERTICA_TYPE_MAPPING.lookup (toLower ty) with
  | none =>
    simp only [hl]
    unfold toLower
    intro e
    exact h (List.map_eq_nil_iff.mp e)
  | some v =>
    simp only [hl]
    have hv := lookup_mem_values _ _ _ hl
    have hall : ∀ w ∈ POSTGRES_TO_VERTICA_TYPE_MAPPING.map Prod.snd, w ≠ [] := by decide
    exact hall v hv

theorem matchHere_typeRegex_run (x : Char) (w : Str) (hx : isAlnumFold x = true)
    (hw : ∀ c ∈ w, isAlnumFold c = true) :
    matchHere typeRegex ("::".toList ++ x :: w) = some ([], [(1, x :: w)]) := by
  rcases typeRegex_typeAt ("::".toList ++ x :: w) with ⟨_, h2⟩ | ⟨m, rest, caps, h1, h2, _, _⟩
  · unfold typeAt at h2
    have hp : "::".toList.isPrefixOf ("::".toList ++ x :: w) = true :=
      List.isPrefixOf_iff_prefix.mpr (List.prefix_append _ _)
    have hd : List.drop 2 ("::".toList ++ x :: w) = x :: w := rfl
    simp only [hp, if_true, hd, hx] at h2
    exact absurd h2 (by simp)
  · unfold matchHere typeRegex
    rw [matchRe_seq, matchRe_lit]
    have hp : "::".toList.isPrefixOf ("::".toList ++ x :: w) = true :=
      List.isPrefixOf_iff_prefix.mpr (List.prefix_append _ _)
    have hd2 : List.drop "::".toList.length ("::".toList ++ x :: w) = x :: w := rfl
    simp only [hp, if_true]
    rw [hd2, matchRe_group, matchRe_plus_chr]
    simp only [hx, if_true]
    have hdw : w.dropWhile isAlnumFold = [] := List.dropWhile_eq_nil_iff.mpr hw
    apply starLoop_chr_greedy_some _ _ _ _ _ _ (Nat.le_refl _)
    rw [hdw]
    show some (_, [(1, _)]) = _
    simp

theorem typeAt_shape (s m rest : Str) (h : typeAt s = some (m, rest)) :
    ∃ x w, m = "::".toList ++ x :: w ∧ isAlnumFold x = true ∧ ∀ c ∈ w, isAlnumFold c = true := by
  unfold typeAt at h
  by_cases hp : "::".toList.isPrefixOf s = true
  · simp only [hp, if_true] at h
    cases hu : s.drop 2 with
    | nil => simp [hu] at h
    | cons x t =>
      simp only [hu] at h
      by_cases hx : isAlnumFold x = true
      · simp only [hx, if_true, Option.some.injEq, Prod.mk.injEq] at h
        exact ⟨x, t.takeWhile isAlnumFold, h.1.symm, hx, fun c hc => (List.mem_takeWhile_imp hc)⟩
      · simp only [hx, Bool.false_eq_true, if_false, reduceCtorEq] at h
  · simp only [hp, Bool.false_eq_true, if_false, reduceCtorEq] at h

/-- On a text that `typeAt` gives, the function of the source puts the mapped
name after the two colons. -/
theorem typeRepl_eq_colonOut (s m rest : Str) (h : typeAt s = some (m, rest)) :
    typeRepl m = colonOut m := by
  obtain ⟨x, w, hm, hx, hw⟩ := typeAt_shape s m rest h
  subst hm
  have hmh := matchHere_typeRegex_run x w hx hw
  have hf : findFirst typeRegex ("::".toList ++ x :: w) =
      some ([], "::".toList ++ x :: w, [], [(1, x :: w)]) := by
    show findFirst typeRegex (':' :: (':' :: x :: w)) = _
    simp only [findFirst]
    have hmh1 : matchHere typeRegex (':' :: (':' :: x :: w)) = some ([], [(1, x :: w)]) := hmh
    rw [hmh1]
    simp
  have hrun : ∀ c ∈ x :: w, isAlnumFold c = true := by
    intro c hc
    rcases List.mem_cons.mp hc with e | e
    · rw [e]; exact hx
    · exact hw c e
  have hne := mapPostgresToVerticaType_ne_nil (x :: w) (by simp)
  unfold typeRepl findStringSubmatch colonOut
  rw [hf]
  have hd : List.drop 2 ("::".toList ++ x :: w) = x :: w := rfl
  have hcap : capture [(1, x :: w)] 1 = x :: w := rfl
  rw [hd]
  simp [hne, hcap, trimSpace_of_alnum (x :: w) hrun]

theorem isAlnumFold_ne_paren (y : Char) (h : isAlnumFold y = true) : (y == ')') = false := by
  by_contra hc
  have e : y = ')' := by simpa using hc
  rw [e] at h
  exact absurd h (by decide)

theorem typeCast_core (x : Char) (t : Str) (hx : isAlnumFold x = true) :
    matchRe (Regex.seq (Regex.group 1 (Regex.group 2 (Regex.plus (Regex.chr isAlnumFold))))
        (Regex.chr (fun c => c == ')'))) (fun s1 c1 => some (s1, c1)) (x :: t) [] =
      match t.dropWhile isAlnumFold with
      | c :: rest =>
        if (c == ')') = true then
          some (rest, [(1, x :: t.takeWhile isAlnumFold), (2, x :: t.takeWhile isAlnumFold)])
        else none
      | [] => none := by
  rw [matchRe_seq, matchRe_group, matchRe_group, matchRe_plus_chr]
  simp only [hx, if_true]
  rw [starLoop_chr_greedy isAlnumFold _ ?_ t t.length [] (Nat.le_refl _)]
  · simp only [take_cons_sub_dropWhile]
    cases t.dropWhile isAlnumFold with
    | nil => rfl
    | cons c rest => rfl
  · intro y u c hy
    simp only [matchRe_chr_cons, isAlnumFold_ne_paren y hy, Bool.false_eq_true, if_false]

/-- At the head of a text `typeCastRegex` matches what `castAt` describes. -/
theorem typeCastRegex_castAt (s : Str) :
    (matchHere typeCastRegex s = none ∧ castAt s = none) ∨
      ∃ m rest caps, matchHere typeCastRegex s = some (rest, caps) ∧
        castAt s = some (m, rest) ∧ s = m ++ rest ∧ m ≠ [] := by
  unfold matchHere typeCastRegex castAt
  rw [matchRe_seq, matchRe_litFold]
  have hlen : "AS ".toList.length = 3 := rfl
  rw [hlen]
  by_cases hp : foldPrefix "AS ".toList s = true
  · simp only [hp, if_true]
    cases hu : s.drop 3 with
    | nil =>
      left
      rw [matchRe_seq, matchRe_group, matchRe_group, matchRe_plus_chr_nil]
      exact ⟨rfl, rfl⟩
    | cons x t =>
      by_cases hx : isAlnumFold x = true
      · rw [typeCast_core x t hx]
        simp only [hx, if_true]
        cases hdw : t.dropWhile isAlnumFold with
        | nil => left; exact ⟨rfl, rfl⟩
        | cons c rest =>
          by_cases hc : c = ')'
          · right
            subst hc
            refine ⟨_, rest, _, rfl, rfl, ?_, ?_⟩
            · have h1 : s = s.take 3 ++ s.drop 3 := (List.take_append_drop 3 s).symm
              have h2 : t = t.takeWhile isAlnumFold ++ t.dropWhile isAlnumFold :=
                (List.takeWhile_append_dropWhile isAlnumFold t).symm
              rw [hu] at h1
              rw [hdw] at h2
              conv_lhs => rw [h1, h2]
              simp
            · exact fun e => by simp at e
          · left
            have hc1 : (c == ')') = false := by simpa using hc
            simp only [hc1, Bool.false_eq_true, if_false, hc, and_self]
      · left
        have hn : matchRe (Regex.seq (Regex.group 1 (Regex.group 2
            (Regex.plus (Regex.chr isAlnumFold)))) (Regex.chr (fun c => c == ')')))
            (fun s1 c1 => some (s1, c1)) (x :: t) [] = none := by
          rw [matchRe_seq, matchRe_group, matchRe_group, matchRe_plus_chr]
          simp only [hx, Bool.false_eq_true, if_false]
        rw [hn]
        simp only [hx, Bool.false_eq_true, if_false, and_self]
  · left
    simp only [hp, Bool.false_eq_true, if_false, and_self]

theorem foldPrefix_take : ∀ (w s : Str), foldPrefix w s = true →
    foldPrefix w (s.take w.length) = true ∧ (s.take w.length).length = w.length := by
  intro w
  induction w with
  | nil => intro s _; exact ⟨rfl, by simp⟩
  | cons x t ih =>
    intro s h
    cases s with
    | nil => simp [foldPrefix] at h
    | cons y u =>
      simp only [foldPrefix, Bool.and_eq_true] at h
      have h2 := ih u h.2
      simp only [List.length_cons, List.take_succ_cons, foldPrefix, Bool.and_eq_true]
      exact ⟨⟨h.1, h2.1⟩, by rw [h2.2]⟩

theorem foldPrefix_append : ∀ (w s u : Str), foldPrefix w s = true →
    foldPrefix w (s ++ u) = true := by
  intro w
  induction w with
  | nil => intro s u _; rfl
  | cons x t ih =>
    intro s u h
    cases s with
    | nil => simp [foldPrefix] at h
    | cons y v =>
      simp only [foldPrefix, Bool.and_eq_true] at h
      simp only [List.cons_append, foldPrefix, Bool.and_eq_true]
      exact ⟨h.1, ih v u h.2⟩

theorem findFirst_whole (r : Regex) (s : Str) (caps : Caps) (hs : s ≠ [])
    (h : matchHere r s = some ([], caps)) : findFirst r s = some ([], s, [], caps) := by
  cases s with
  | nil => exact absurd rfl hs
  | cons x t =>
    simp only [findFirst, h]
    simp

theorem dropWhile_run_paren (w : Str) (hw : ∀ c ∈ w, isAlnumFold c = true) :
    (w ++ [')']).dropWhile isAlnumFold = [')'] ∧ (w ++ [')']).takeWhile isAlnumFold = w := by
  induction w with
  | nil => exact ⟨rfl, rfl⟩
  | cons x t ih =>
    have hx : isAlnumFold x = true := hw x (List.mem_cons_self _ _)
    have ht := ih (fun c hc => hw c (List.mem_cons_of_mem _ hc))
    constructor
    · simp only [List.cons_append, List.dropWhile_cons, hx, if_true]
      exact ht.1
    · simp only [List.cons_append, List.takeWhile_cons, hx, if_true]
      rw [ht.2]

theorem matchHere_typeCastRegex_run (pre : Str) (x : Char) (w : Str)
    (hpre : foldPrefix "AS ".toList pre = true) (hlen : pre.length = 3)
    (hx : isAlnumFold x = true) (hw : ∀ c ∈ w, isAlnumFold c = true) :
    matchHere typeCastRegex (pre ++ x :: w ++ [')']) =
      some ([], [(1, x :: w), (2, x :: w)]) := by
  unfold matchHere typeCastRegex
  rw [matchRe_seq, matchRe_litFold]
  have hp : foldPrefix "AS ".toList (pre ++ x :: w ++ [')']) = true := by
    rw [List.append_assoc]
    exact foldPrefix_append _ _ _ hpre
  have hl3 : "AS ".toList.length = 3 := rfl
  have hd : List.drop 3 (pre ++ x :: w ++ [')']) = x :: (w ++ [')']) := by
    rw [List.append_assoc, ← hlen, List.drop_left]
    rfl
  simp only [hp, if_true]
  rw [hl3, hd, typeCast_core x _ hx]
  have hdp := dropWhile_run_paren w hw
  rw [hdp.1, hdp.2]
  rfl

theorem castAt_shape (s m rest : Str) (h : castAt s = some (m, rest)) :
    ∃ pre x w, m = pre ++ x :: w ++ [')'] ∧ foldPrefix "AS ".toList pre = true ∧
      pre.length = 3 ∧ isAlnumFold x = true ∧ ∀ c ∈ w, isAlnumFold c = true := by
  unfold castAt at h
  by_cases hp : foldPrefix "AS ".toList s = true
  · simp only [hp, if_true] at h
    cases hu : s.drop 3 with
    | nil => simp only [hu, reduceCtorEq] at h
    | cons x t =>
      simp only [hu] at h
      by_cases hx : isAlnumFold x = true
      · simp only [hx, if_true] at h
        cases hdw : t.dropWhile isAlnumFold with
        | nil => simp only [hdw, reduceCtorEq] at h
        | cons c r =>
          simp only [hdw] at h
          by_cases hc : c = ')'
          · simp only [hc, if_true, Option.some.injEq, Prod.mk.injEq] at h
            have ht := foldPrefix_take _ _ hp
            exact ⟨s.take 3, x, t.takeWhile isAlnumFold, h.1.symm, ht.1, ht.2, hx,
              fun c hc => List.mem_takeWhile_imp hc⟩
          · simp only [hc, if_false, reduceCtorEq] at h
      · simp only [hx, Bool.false_eq_true, if_false, reduceCtorEq] at h
  · simp only [hp, Bool.false_eq_true, if_false, reduceCtorEq] at h

/-- On a text that `castAt` gives, the function of the source puts `AS `, the
mapped name and the parenthesis. -/
theorem typeCastRepl_eq_castOut (s m rest : Str) (h : castAt s = some (m, rest)) :
    typeCastRepl m = castOut m := by
  obtain ⟨pre, x, w, hm, hpre, hlen, hx, hw⟩ := castAt_shape s m rest h
  subst hm
  have hmh := matchHere_typeCastRegex_run pre x w hpre hlen hx hw
  have hf := findFirst_whole typeCastRegex _ _ (by simp) hmh
  have hrun : ∀ c ∈ x :: w, isAlnumFold c = true := by
    intro c hc
    rcases List.mem_cons.mp hc with e | e
    · rw [e]; exact hx
    · exact hw c e
  have hne := mapPostgresToVerticaType_ne_nil (x :: w) (by simp)
  have hd : (List.drop 3 (pre ++ x :: w ++ [')'])).dropLast = x :: w := by
    rw [List.append_assoc, ← hlen, List.drop_left]
    show (x :: (w ++ [')'])).dropLast = x :: w
    rw [← List.cons_append, List.dropLast_concat]
  unfold typeCastRepl findStringSubmatch castOut
  rw [hf, hd]
  have hr : List.range 2 = [0, 1] := rfl
  have hcap1 : capture [(1, x :: w), (2, x :: w)] 1 = x :: w := rfl
  have hcap2 : capture [(1, x :: w), (2, x :: w)] 2 = x :: w := rfl
  simp [hne, hr, hcap1, hcap2, trimSpace_of_alnum (x :: w) hrun]

/-! ## The expression for references to the PGDB and its recogniser -/

/-- An optional quote before something that cannot begin with a quote. -/
theorem matchRe_opt_quote (K : MatchCont)
    (hK : ∀ x t c, isQuoteClass x = true → K (x :: t) c = none) (v : Str) (c : Caps) :
    matchRe (Regex.opt (Regex.chr isQuoteClass)) K v c = K (skipQuote v) c := by
  unfold Regex.opt
  rw [matchRe_alt, matchRe_eps]
  cases v with
  | nil => rfl
  | cons y t =>
    rw [matchRe_chr_cons]
    by_cases hq : isQuoteClass y = true
    · simp only [hq, if_true, skipQuote, hK y t c hq, firstOf_none_right]
    · simp only [hq, Bool.false_eq_true, if_false, skipQuote]
      rfl

theorem skipQuote_suffix (v : Str) : skipQuote v <:+ v := by
  cases v with
  | nil => exact List.suffix_refl _
  | cons y t =>
    by_cases hq : isQuoteClass y = true
    · simp only [skipQuote, hq, if_true]
      exact List.suffix_cons y t
    · simp only [skipQuote, hq, Bool.false_eq_true, if_false]
      exact List.suffix_refl _

theorem take_sub_suffix (s rest : Str) (h : rest <:+ s) :
    s = s.take (s.length - rest.length) ++ rest := by
  obtain ⟨pre, hp⟩ := h
  subst hp
  simp

theorem isQuoteClass_ne_dot (y : Char) (h : isQuoteClass y = true) : (y == '.') = false := by
  by_contra hc
  have e : y = '.' := by simpa using hc
  rw [e] at h
  exact absurd h (by decide)

theorem drop_suffix (n : Nat) (s : Str) : s.drop n <:+ s := List.drop_suffix n s

theorem dropWhile_suffix_self (p : Char → Bool) (s : Str) : s.dropWhile p <:+ s :=
  List.dropWhile_suffix p

theorem matchRe_litFoldBy (fold : Char → Char → Bool) (k : MatchCont) :
    ∀ (w s : Str) (c : Caps),
      matchRe (Regex.litFoldBy fold w) k s c =
        if namePrefix fold w s then k (s.drop w.length) c else none := by
  intro w
  induction w with
  | nil => intro s c; simp [Regex.litFoldBy, matchRe, namePrefix]
  | cons x t ih =>
    intro s c
    cases t with
    | nil =>
      cases s with
      | nil => simp [Regex.litFoldBy, matchRe, namePrefix]
      | cons y u =>
        simp only [Regex.litFoldBy, matchRe_chr_cons, namePrefix, Bool.and_true, List.length_cons,
          List.length_nil, List.drop_succ_cons, List.drop_zero]
    | cons y t1 =>
      cases s with
      | nil => simp [Regex.litFoldBy, matchRe, namePrefix]
      | cons z u =>
        simp only [Regex.litFoldBy, matchRe_seq, matchRe_chr_cons]
        rw [ih u c]
        by_cases h : fold x z = true
        · simp [h, namePrefix]
        · simp [h, namePrefix]

theorem map_fst_firstOf (x y : Option (Str × Caps)) :
    (firstOf x y).map Prod.fst =
      match x.map Prod.fst with
      | some r => some r
      | none => y.map Prod.fst := by
  cases x <;> rfl

/-- The name, an optional quote and a dot, as the expression reads them. -/
theorem matchRe_name (fold : Char → Char → Bool) (d : Str) (k : MatchCont)
    (hk : ∀ s1 c1, (k s1 c1).map Prod.fst = some s1) (w : Str) (c : Caps) :
    (matchRe (Regex.seq (Regex.litFoldBy fold d) <|
        Regex.seq (Regex.opt (Regex.chr isQuoteClass)) (Regex.chr (fun c => c == '.')))
      k w c).map Prod.fst = nameAt fold d w := by
  rw [matchRe_seq, matchRe_litFoldBy]
  unfold nameAt
  by_cases hf : namePrefix fold d w = true
  · simp only [hf, if_true]
    rw [matchRe_seq, matchRe_opt_quote _ ?_]
    · unfold afterName
      cases skipQuote (w.drop d.length) with
      | nil => rfl
      | cons c0 rest =>
        rw [matchRe_chr_cons]
        by_cases hc : c0 = '.'
        · simp [hc, hk]
        · simp [hc]
    · intro x t c1 hx
      rw [matchRe_chr_cons]
      simp only [isQuoteClass_ne_dot x hx, Bool.false_eq_true, if_false]
  · simp only [hf, Bool.false_eq_true, if_false, Option.map_none']

/-- The group of `fromDBRegexpBy`, as the expression reads it: the quote is
tried first, and the name without it when that fails. -/
theorem matchRe_quotedName (fold : Char → Char → Bool) (d : Str) (k : MatchCont)
    (hk : ∀ s1 c1, (k s1 c1).map Prod.fst = some s1) (v : Str) (c : Caps) :
    (matchRe (Regex.seq (Regex.opt (Regex.chr isQuoteClass)) <|
        Regex.seq (Regex.litFoldBy fold d) <|
        Regex.seq (Regex.opt (Regex.chr isQuoteClass)) (Regex.chr (fun c => c == '.')))
      k v c).map Prod.fst = quotedNameAt fold d v := by
  rw [matchRe_seq]
  unfold Regex.opt
  rw [matchRe_alt, matchRe_eps, map_fst_firstOf]
  cases v with
  | nil =>
    rw [matchRe_chr_nil]
    exact matchRe_name fold d k hk [] c
  | cons x t =>
    rw [matchRe_chr_cons]
    have h1 := matchRe_name fold d k hk t c
    have h2 := matchRe_name fold d k hk (x :: t) c
    unfold Regex.opt at h1 h2
    unfold quotedNameAt
    by_cases hq : isQuoteClass x = true
    · simp only [hq, if_true]
      rw [h1, h2]
    · simp only [hq, Bool.false_eq_true, if_false, Option.map_none']
      exact h2

/-- The greedy run of whitespace of `fromDBRegexpBy`, as the expression reads
it: the longest run first, and a shorter one when what follows fails. -/
theorem starLoop_afterSpace (fold : Char → Char → Bool) (d : Str) (K : MatchCont)
    (hK : ∀ v c, (K v c).map Prod.fst = quotedNameAt fold d v) :
    ∀ (u : Str) (fuel : Nat) (c : Caps), u.length ≤ fuel →
      (starLoop (matchRe (Regex.chr isSpaceClass)) true K fuel u c).map Prod.fst =
        afterSpace fold d u := by
  intro u
  induction u with
  | nil =>
    intro fuel c _
    cases fuel with
    | zero => exact hK [] c
    | succ n =>
      rw [starLoop_succ]
      simp only [if_true, matchRe_chr_nil]
      exact hK [] c
  | cons x t ih =>
    intro fuel c hlen
    cases fuel with
    | zero => simp at hlen
    | succ n =>
      have hl : t.length ≤ n := by simpa using hlen
      rw [starLoop_succ]
      simp only [if_true, matchRe_chr_cons]
      rw [map_fst_firstOf]
      unfold afterSpace
      by_cases hp : isSpaceClass x = true
      · simp only [hp, if_true, List.length_cons, Nat.lt_succ_self]
        rw [ih n c hl, hK]
      · simp only [hp, Bool.false_eq_true, if_false, Option.map_none']
        exact hK (x :: t) c

theorem afterName_suffix (t rest : Str) (h : afterName t = some rest) : rest <:+ t := by
  unfold afterName at h
  cases hz : skipQuote t with
  | nil => rw [hz] at h; exact absurd h (by simp)
  | cons c0 r =>
    rw [hz] at h
    by_cases hc : c0 = '.'
    · simp only [hc, if_true, Option.some.injEq] at h
      rw [← h]
      have h1 : c0 :: r <:+ t := by
        rw [← hz]
        exact skipQuote_suffix t
      exact (List.suffix_cons c0 r).trans h1
    · simp only [hc, if_false] at h
      exact absurd h (by simp)

theorem nameAt_suffix (fold : Char → Char → Bool) (d v rest : Str)
    (h : nameAt fold d v = some rest) : rest <:+ v := by
  unfold nameAt at h
  by_cases hf : namePrefix fold d v = true
  · simp only [hf, if_true] at h
    exact (afterName_suffix _ rest h).trans (List.drop_suffix _ _)
  · simp only [hf, Bool.false_eq_true, if_false] at h
    exact absurd h (by simp)

theorem quotedNameAt_suffix (fold : Char → Char → Bool) (d v rest : Str)
    (h : quotedNameAt fold d v = some rest) : rest <:+ v := by
  cases v with
  | nil => exact nameAt_suffix fold d [] rest h
  | cons x t =>
    unfold quotedNameAt at h
    by_cases hq : isQuoteClass x = true
    · simp only [hq, if_true] at h
      cases hn : nameAt fold d t with
      | none =>
        rw [hn] at h
        exact nameAt_suffix fold d _ rest h
      | some r =>
        rw [hn] at h
        simp only [Option.some.injEq] at h
        rw [← h]
        exact (nameAt_suffix fold d t r hn).trans (List.suffix_cons x t)
    · simp only [hq, Bool.false_eq_true, if_false] at h
      exact nameAt_suffix fold d _ rest h

theorem afterSpace_suffix (fold : Char → Char → Bool) (d : Str) : ∀ (u rest : Str),
    afterSpace fold d u = some rest → rest <:+ u := by
  intro u
  induction u with
  | nil => intro rest h; exact quotedNameAt_suffix fold d [] rest h
  | cons x t ih =>
    intro rest h
    unfold afterSpace at h
    by_cases hp : isSpaceClass x = true
    · simp only [hp, if_true] at h
      cases hn : afterSpace fold d t with
      | none =>
        rw [hn] at h
        exact quotedNameAt_suffix fold d _ rest h
      | some r =>
        rw [hn] at h
        simp only [Option.some.injEq] at h
        rw [← h]
        exact (ih r hn).trans (List.suffix_cons x t)
    · simp only [hp, Bool.false_eq_true, if_false] at h
      exact quotedNameAt_suffix fold d _ rest h

/-- At the head of a text `fromDBRegexpBy` matches what `fromAt` describes,
for every name and every case folding. -/
theorem fromDBRegexpBy_fromAt (fold : Char → Char → Bool) (d : Str) (s : Str) :
    (matchHere (fromDBRegexpBy fold d) s = none ∧ fromAt fold d s = none) ∨
      ∃ m rest caps, matchHere (fromDBRegexpBy fold d) s = some (rest, caps) ∧
        fromAt fold d s = some (m, rest) ∧ s = m ++ rest ∧ m ≠ [] := by
  have key : (matchHere (fromDBRegexpBy fold d) s).map Prod.fst =
      if foldPrefix "FROM".toList s then
        match s.drop 4 with
        | w :: u => if isSpaceClass w then afterSpace fold d u else none
        | [] => none
      else none := by
    unfold matchHere fromDBRegexpBy
    rw [matchRe_seq, matchRe_litFold]
    have hlen : "FROM".toList.length = 4 := rfl
    rw [hlen]
    by_cases hp : foldPrefix "FROM".toList s = true
    · simp only [hp, if_true]
      cases s.drop 4 with
      | nil =>
        rw [matchRe_seq, matchRe_plus_chr_nil]
        rfl
      | cons w u =>
        rw [matchRe_seq, matchRe_plus_chr]
        by_cases hw : isSpaceClass w = true
        · simp only [hw, if_true]
          apply starLoop_afterSpace fold d _ _ u u.length [] (Nat.le_refl _)
          intro v c
          rw [matchRe_group]
          exact matchRe_quotedName fold d
            (fun s1 c1 => some (s1, (1, v.take (v.length - s1.length)) :: c1))
            (fun _ _ => rfl) v c
        · simp only [hw, Bool.false_eq_true, if_false, Option.map_none']
    · simp only [hp, Bool.false_eq_true, if_false, Option.map_none']
  unfold fromAt
  by_cases hp : foldPrefix "FROM".toList s = true
  · simp only [hp, if_true] at key ⊢
    cases hu : s.drop 4 with
    | nil =>
      rw [hu] at key
      left
      refine ⟨?_, rfl⟩
      cases hm : matchHere (fromDBRegexpBy fold d) s with
      | none => rfl
      | some r => rw [hm] at key; exact absurd key (by simp)
    | cons w u =>
      rw [hu] at key
      simp only at key ⊢
      by_cases hw : isSpaceClass w = true
      · simp only [hw, if_true] at key ⊢
        cases ha : afterSpace fold d u with
        | none =>
          rw [ha] at key
          left
          refine ⟨?_, rfl⟩
          cases hm : matchHere (fromDBRegexpBy fold d) s with
          | none => rfl
          | some r => rw [hm] at key; exact absurd key (by simp)
        | some rest =>
          rw [ha] at key
          right
          cases hm : matchHere (fromDBRegexpBy fold d) s with
          | none => rw [hm] at key; exact absurd key (by simp)
          | some r =>
            obtain ⟨r1, caps⟩ := r
            rw [hm] at key
            simp only [Option.map_some', Option.some.injEq] at key
            subst key
            have hsuf : r1 <:+ u := afterSpace_suffix fold d u r1 ha
            have h2 : w :: u <:+ s := by
              rw [← hu]
              exact List.drop_suffix 4 s
            have hsuf2 : r1 <:+ s := (hsuf.trans (List.suffix_cons w u)).trans h2
            have hl1 : r1.length ≤ u.length := hsuf.length_le
            have hl2 : (w :: u).length ≤ s.length := h2.length_le
            refine ⟨_, r1, caps, rfl, rfl, take_sub_suffix s r1 hsuf2, ?_⟩
            intro e
            have hl3 := congrArg List.length e
            simp only [List.length_take, List.length_nil, List.length_cons] at hl3 hl2
            omega
      · simp only [hw, Bool.false_eq_true, if_false] at key ⊢
        left
        refine ⟨?_, trivial⟩
        cases hm : matchHere (fromDBRegexpBy fold d) s with
        | none => rfl
        | some r => rw [hm] at key; exact absurd key (by simp)
  · simp only [hp, Bool.false_eq_true, if_false] at key ⊢
    left
    refine ⟨?_, trivial⟩
    cases hm : matchHere (fromDBRegexpBy fold d) s with
    | none => rfl
    | some r => rw [hm] at key; exact absurd key (by simp)

/-! ## `rewriteQuery`: casts -/

theorem replacePostgresDataTypes_scan (q : Str) :
    replacePostgresDataTypes q = scanAll castAt typeCastRepl (scanAll typeAt typeRepl q) := by
  unfold replacePostgresDataTypes
  show regexReplaceAllFunc typeCastRegex (regexReplaceAllFunc typeRegex q typeRepl)
    typeCastRepl = _
  rw [regexReplaceAllFunc_scan typeRegex typeAt typeRepl typeRegex_typeAt,
    regexReplaceAllFunc_scan typeCastRegex castAt typeCastRepl typeCastRegex_castAt]

theorem mapPostgresToVerticaType_known (ty v : Str)
    (h : POSTGRES_TO_VERTICA_TYPE_MAPPING.lookup (toLower ty) = some v) :
    mapPostgresToVerticaType ty = v := by
  unfold mapPostgresToVerticaType
  simp only [h]

theorem mapPostgresToVerticaType_unknown (ty : Str)
    (h : POSTGRES_TO_VERTICA_TYPE_MAPPING.lookup (toLower ty) = none) (hl : toLower ty = ty) :
    mapPostgresToVerticaType ty = ty := by
  unfold mapPostgresToVerticaType
  simp only [h]
  exact hl

/-- C17, counterexample: the type names `MyType` and `money` are not in the
table, yet `rewriteQuery` changes the cast `::MyType` to `::mytype` and the
form `CAST(a as money)` to `CAST(a AS money)`. -/
theorem rewriteQuery_unknown_type_counterexample :
    POSTGRES_TO_VERTICA_TYPE_MAPPING.lookup (toLower "MyType".toList) = none ∧
    rewriteQuery "database".toList "SELECT a::MyType FROM t".toList =
      "SELECT a::mytype FROM t".toList ∧
    POSTGRES_TO_VERTICA_TYPE_MAPPING.lookup (toLower "money".toList) = none ∧
    rewriteQuery "database".toList "SELECT CAST(a as money) FROM t".toList =
      "SELECT CAST(a AS money) FROM t".toList := by
  refine ⟨by decide, by rfl, by decide, by rfl⟩

/-- C17 (amended): for every query, `rewriteQuery` scans the text from left to
right, first for casts `::<type>` and then, in the result, for the ends
`AS <type>)` of the `CAST` forms (`<type>` a run of letters and digits, `AS` in
any letter case), replaces each one found by the function of the source, and
then strips the references to the PGDB. A cast found whose type name is in the
table, letter case apart, becomes `::` and the VDB type, respectively `AS `,
the VDB type and `)`. A cast found whose type name is not in the table and is
written in lower case (and, in the `CAST` form, with `AS` in upper case) is
left untouched, character for character. -/
theorem rewriteQuery_casts (d q : Str) :
    rewriteQuery d q =
      regexReplaceAllString (fromDBRegexp d)
        (scanAll castAt typeCastRepl (scanAll typeAt typeRepl q)) "FROM ".toList ∧
    (∀ s m rest, typeAt s = some (m, rest) →
      (∀ v, POSTGRES_TO_VERTICA_TYPE_MAPPING.lookup (toLower (m.drop 2)) = some v →
        typeRepl m = "::".toList ++ v) ∧
      (POSTGRES_TO_VERTICA_TYPE_MAPPING.lookup (toLower (m.drop 2)) = none →
        toLower (m.drop 2) = m.drop 2 → typeRepl m = m)) ∧
    (∀ s m rest, castAt s = some (m, rest) →
      (∀ v, POSTGRES_TO_VERTICA_TYPE_MAPPING.lookup (toLower (m.drop 3).dropLast) = some v →
        typeCastRepl m = "AS ".toList ++ v ++ ")".toList) ∧
      (POSTGRES_TO_VERTICA_TYPE_MAPPING.lookup (toLower (m.drop 3).dropLast) = none →
        toLower (m.drop 3).dropLast = (m.drop 3).dropLast → m.take 3 = "AS ".toList →
        typeCastRepl m = m)) := by
  refine ⟨?_, ?_, ?_⟩
  · unfold rewriteQuery
    show regexReplaceAllString (fromDBRegexp d) (replacePostgresDataTypes q) "FROM ".toList = _
    rw [replacePostgresDataTypes_scan]
  · intro s m rest h
    have he := typeRepl_eq_colonOut s m rest h
    obtain ⟨x, w, hm, _, _⟩ := typeAt_shape s m rest h
    refine ⟨?_, ?_⟩
    · intro v hv
      rw [he]
      unfold colonOut
      rw [mapPostgresToVerticaType_known _ v hv]
    · intro hn hl
      rw [he]
      unfold colonOut
      rw [mapPostgresToVerticaType_unknown _ hn hl, hm]
      rfl
  · intro s m rest h
    have he := typeCastRepl_eq_castOut s m rest h
    obtain ⟨pre, x, w, hm, _, hlen, _, _⟩ := castAt_shape s m rest h
    refine ⟨?_, ?_⟩
    · intro v hv
      rw [he]
      unfold castOut
      rw [mapPostgresToVerticaType_known _ v hv]
    · intro hn hl ht
      rw [he]
      unfold castOut
      rw [mapPostgresToVerticaType_unknown _ hn hl, ← ht]
      have hd : List.drop 3 m = x :: w ++ [')'] := by
        rw [hm, List.append_assoc, ← hlen, List.drop_left]
      have hdl : (List.drop 3 m).dropLast ++ ")".toList = List.drop 3 m := by
        rw [hd]
        show (x :: w ++ [')']).dropLast ++ [')'] = _
        rw [List.dropLast_concat]
      rw [List.append_assoc, hdl, List.take_append_drop]

/-- C17, witness: the test `Test with many types` of the repository, and the
casts `::uuid` and `AS TEXT)` with a type of the table. -/
theorem rewriteQuery_casts_witness :
    rewriteQuery "database".toList "SELECT id::integer, uuid::uuid FROM users".toList =
      "SELECT id::int, uuid::varchar(50) FROM users".toList ∧
    typeAt "::uuid FROM users".toList = some ("::uuid".toList, " FROM users".toList) ∧
    typeRepl "::uuid".toList = "::".toList ++ "varchar(50)".toList ∧
    castAt "AS TEXT) AS c".toList = some ("AS TEXT)".toList, " AS c".toList) ∧
    typeCastRepl "AS TEXT)".toList = "AS ".toList ++ "varchar".toList ++ ")".toList ∧
    typeAt "::mytype)".toList = some ("::mytype".toList, ")".toList) ∧
    typeRepl "::mytype".toList = "::mytype".toList :=
  ⟨(rewriteQuery_casts "database".toList
      "SELECT id::integer, uuid::uuid FROM users".toList).1.trans (by rfl),
    by rfl,
    ((rewriteQuery_casts [] []).2.1 "::uuid FROM users".toList "::uuid".toList
      " FROM users".toList (by rfl)).1 "varchar(50)".toList (by rfl),
    by rfl,
    ((rewriteQuery_casts [] []).2.2 "AS TEXT) AS c".toList "AS TEXT)".toList
      " AS c".toList (by rfl)).1 "varchar".toList (by rfl),
    by rfl,
    ((rewriteQuery_casts [] []).2.1 "::mytype)".toList "::mytype".toList
      ")".toList (by rfl)).2 (by rfl) (by rfl)⟩

/-! ## `rewriteQuery`: references to the PGDB -/

theorem scanAll_none (recog : Recogniser) (f : Str → Str) (s : Str)
    (h : ∀ t ∈ s.tails, recog t = none) : scanAll recog f s = s :=
  scanWith_none recog f s.length s (fun t ht => h t ((List.mem_tails t s).mpr ht))

/-- C18, counterexample: the first query holds no cast and no reference to the
PGDB `database`, yet `rewriteQuery` changes its alias `Total`; and for the PGDB
name `a::integer` the reference `FROM a::integer.s.t` is not stripped. -/
theorem rewriteQuery_from_counterexample :
    contains "SELECT * FROM (SELECT 1 AS Total) t".toList "::".toList = false ∧
    contains (toUpper "SELECT * FROM (SELECT 1 AS Total) t".toList) "CAST".toList = false ∧
    contains (toUpper "SELECT * FROM (SELECT 1 AS Total) t".toList) "DATABASE".toList = false ∧
    rewriteQueryBy foldEq "database".toList "SELECT * FROM (SELECT 1 AS Total) t".toList =
      "SELECT * FROM (SELECT 1 AS total) t".toList ∧
    rewriteQueryBy foldEq "a::integer".toList "SELECT * FROM a::integer.s.t".toList =
      "SELECT * FROM a::int.s.t".toList := by
  refine ⟨by rfl, by rfl, by rfl, by rfl, by rfl⟩

/-- C18 (amended): for every PGDB name (the empty name and names that begin
with whitespace or a quote included), every case folding of its characters and
every query, `rewriteQuery` first rewrites the casts and then scans the result
from left to right and puts `FROM ` for each reference found: `FROM`, one or
more whitespace characters, an optional quote, the name, an optional quote and
a dot, `FROM` and the name in any letter case.  A query in which, at no
position, a cast `::<type>`, an end `AS <type>)` or such a reference begins is
returned unchanged.  With the folding of the ASCII letters: the references of
the repository's test and a quoted one in another letter case are stripped, a
query without reference and cast is returned as it is, and so are references
to the empty name and to a name that begins with a blank. -/
theorem rewriteQuery_from (fold : Char → Char → Bool) (d q : Str) :
    rewriteQueryBy fold d q =
      scanAll (fromAt fold d) (fun _ => "FROM ".toList) (replacePostgresDataTypes q) ∧
    ((∀ t ∈ q.tails, typeAt t = none ∧ castAt t = none ∧ fromAt fold d t = none) →
      rewriteQueryBy fold d q = q) ∧
    rewriteQueryBy foldEq "database".toList "SELECT * FROM database.schema.table".toList =
      "SELECT * FROM schema.table".toList ∧
    rewriteQueryBy foldEq "database".toList "select * from \"DataBase\".s.t".toList =
      "select * FROM s.t".toList ∧
    rewriteQueryBy foldEq "database".toList "SELECT id FROM users".toList =
      "SELECT id FROM users".toList ∧
    rewriteQueryBy foldEq [] "SELECT * FROM .s.t".toList = "SELECT * FROM s.t".toList ∧
    rewriteQueryBy foldEq " db".toList "SELECT * FROM   db.s.t".toList =
      "SELECT * FROM s.t".toList ∧
    rewriteQueryBy foldEq "'db".toList "SELECT * FROM 'db.s.t".toList =
      "SELECT * FROM s.t".toList := by
  have h1 : rewriteQueryBy fold d q =
      scanAll (fromAt fold d) (fun _ => "FROM ".toList) (replacePostgresDataTypes q) := by
    unfold rewriteQueryBy regexReplaceAllString
    exact regexReplaceAllFunc_scan _ _ _ (fromDBRegexpBy_fromAt fold d) _
  refine ⟨h1, ?_, by rfl, by rfl, by rfl, by rfl, by rfl, by rfl⟩
  intro h
  have h2 : replacePostgresDataTypes q = q := by
    rw [replacePostgresDataTypes_scan, scanAll_none typeAt typeRepl q (fun t ht => (h t ht).1),
      scanAll_none castAt typeCastRepl q (fun t ht => (h t ht).2.1)]
  rw [h1, h2]
  exact scanAll_none _ _ q (fun t ht => (h t ht).2.2)

/-- C18, witness: the test `Test replacing DB name` of the repository and the
test `Test with no type to replace`, by the scan and by the second part. -/
theorem rewriteQuery_from_witness :
    rewriteQueryBy foldEq "database".toList "SELECT * FROM database.schema.table".toList =
      "SELECT * FROM schema.table".toList ∧
    rewriteQueryBy foldEq "database".toList "SELECT id FROM users".toList =
      "SELECT id FROM users".toList :=
  ⟨(rewriteQuery_from foldEq "database".toList
      "SELECT * FROM database.schema.table".toList).1.trans (by rfl),
    (rewriteQuery_from foldEq "database".toList "SELECT id FROM users".toList).2.1
      (by decide)⟩

/-! ## Occurrences of a text and `strings.Replace` -/

theorem contains_iff_occurs (p : Str) : ∀ s : Str, contains s p = true ↔ p <:+: s := by
  intro s
  unfold contains
  induction s with
  | nil =>
    unfold cut
    cases p with
    | nil => simp
    | cons x t => simp
  | cons c t ih =>
    unfold cut
    by_cases hp : p.isPrefixOf (c :: t) = true
    · simp only [hp, if_true, Option.isSome_some, true_iff]
      exact (List.isPrefixOf_iff_prefix.mp hp).isInfix
    · have hnp : ¬ p <+: c :: t := fun h => hp (List.isPrefixOf_iff_prefix.mpr h)
      simp only [hp, Bool.false_eq_true, if_false, Option.isSome_map', List.infix_cons_iff, hnp,
        false_or]
      exact ih

theorem cut_none_iff (p s : Str) : cut p s = none ↔ ¬ p <:+: s := by
  rw [← contains_iff_occurs]
  unfold contains
  cases cut p s <;> simp

theorem cut_first (p : Str) (hp : p ≠ []) : ∀ (s b a : Str), cut p s = some (b, a) →
    ¬ p <:+: b := by
  intro s
  induction s with
  | nil =>
    intro b a h
    unfold cut at h
    cases p with
    | nil => exact absurd rfl hp
    | cons x t => simp at h
  | cons c t ih =>
    intro b a h
    have hs := cut_some_eq p (c :: t) b a h
    unfold cut at h
    by_cases hpre : p.isPrefixOf (c :: t) = true
    · simp only [hpre, if_true, Option.some.injEq, Prod.mk.injEq] at h
      rw [← h.1]
      intro hi
      exact hp (List.infix_nil.mp hi)
    · simp only [hpre, Bool.false_eq_true, if_false] at h
      cases hc : cut p t with
      | none => rw [hc] at h; simp at h
      | some r =>
        obtain ⟨r1, r2⟩ := r
        rw [hc] at h
        simp only [Option.map_some', Option.some.injEq, Prod.mk.injEq] at h
        have hb : b = c :: r1 := h.1.symm
        rw [hb]
        intro hi
        rcases List.infix_cons_iff.mp hi with h1 | h1
        · apply hpre
          apply List.isPrefixOf_iff_prefix.mpr
          rw [hs, hb, List.append_assoc]
          exact h1.trans (List.prefix_append _ _)
        · exact ih r1 r2 hc h1

/-- No occurrence of `p` comes up where a text `new` is put between two texts
without one, when `p` does not hold the first character of `new` and no end
of `new` is a beginning of `p` or begins with `p`. -/
theorem no_infix_junction (p b new R : Str) (d : Char) (new1 : Str) (hnew : new = d :: new1)
    (hd : d ∉ p)
    (hsuf : ∀ u ∈ new.tails, u ≠ [] → p.isPrefixOf u = false ∧ u.isPrefixOf p = false)
    (h1 : ¬ p <:+: b) (h2 : ¬ p <:+: R) : ¬ p <:+: b ++ new ++ R := by
  have hN : ∀ u : Str, u <:+ new → ¬ p <:+: u ++ R := by
    intro u
    induction u with
    | nil => intro _; exact h2
    | cons c u1 ih =>
      intro hu hi
      have hu1 : u1 <:+ new := (List.suffix_cons c u1).trans hu
      rcases List.infix_cons_iff.mp hi with h3 | h3
      · have hc := hsuf (c :: u1) ((List.mem_tails _ _).mpr hu) (by simp)
        have h4 : c :: u1 <+: c :: (u1 ++ R) := List.prefix_append (c :: u1) R
        rcases List.prefix_or_prefix_of_prefix h3 h4 with h5 | h5
        · have := List.isPrefixOf_iff_prefix.mpr h5
          rw [hc.1] at this
          exact absurd this (by simp)
        · have := List.isPrefixOf_iff_prefix.mpr h5
          rw [hc.2] at this
          exact absurd this (by simp)
      · exact ih hu1 h3
  have hB : ∀ b1 : Str, ¬ p <:+: b1 → ¬ p <:+: b1 ++ (new ++ R) := by
    intro b1
    induction b1 with
    | nil => intro _; exact hN new (List.suffix_refl _)
    | cons c b2 ih =>
      intro hb hi
      have hb2 : ¬ p <:+: b2 := fun h => hb (h.trans (List.suffix_cons c b2).isInfix)
      rcases List.infix_cons_iff.mp hi with h3 | h3
      · have h4 : c :: b2 <+: c :: (b2 ++ (new ++ R)) := List.prefix_append (c :: b2) _
        rcases List.prefix_or_prefix_of_prefix h3 h4 with h5 | h5
        · exact hb h5.isInfix
        · obtain ⟨p1, hp1⟩ := h5
          rw [← hp1] at h3
          have h6 : p1 <+: new ++ R := by
            have h7 : (c :: b2) ++ p1 <+: (c :: b2) ++ (new ++ R) := h3
            exact (List.prefix_append_right_inj _).mp h7
          cases p1 with
          | nil =>
            apply hb
            rw [← hp1]
            simp
          | cons y p2 =>
            rw [hnew] at h6
            have h8 : y = d := (List.cons_prefix_cons.mp h6).1
            apply hd
            rw [← hp1, h8]
            simp
      · exact ih hb2 h3
  rw [List.append_assoc]
  exact hB b h1

theorem replaceN_of_absent (old new : Str) (n : Nat) (s : Str) (h : ¬ old <:+: s) :
    replaceN old new n s = s := by
  have hc : cut old s = none := (cut_none_iff old s).mpr h
  cases n with
  | zero => rfl
  | succ k =>
    show (match cut old s with
      | none => s
      | some (b, a) => b ++ new ++ replaceN old new k a) = s
    rw [hc]

theorem replaceAll_same (s a : Str) : replaceAll s a a = s := by
  unfold replaceAll replace
  simp

theorem replaceAll_ne (s old new : Str) (h : old ≠ new) :
    replaceAll s old new = replaceN old new s.length s := by
  unfold replaceAll replace
  simp [h]

theorem replaceAll_of_absent (s old new : Str) (h : ¬ old <:+: s) :
    replaceAll s old new = s := by
  by_cases he : old = new
  · rw [he]; exact replaceAll_same s new
  · rw [replaceAll_ne s old new he, replaceN_of_absent old new _ s h]

/-- An occurrence of `p` does not come up by replacing `old` by `new`. -/
theorem replaceN_keeps_absent (old new p : Str) (d : Char) (new1 : Str)
    (hnew : new = d :: new1) (hd : d ∉ p)
    (hsuf : ∀ u ∈ new.tails, u ≠ [] → p.isPrefixOf u = false ∧ u.isPrefixOf p = false) :
    ∀ (n : Nat) (s : Str), ¬ p <:+: s → ¬ p <:+: replaceN old new n s := by
  intro n
  induction n with
  | zero => intro s h; exact h
  | succ k ih =>
    intro s h
    show ¬ p <:+: (match cut old s with
      | none => s
      | some (b, a) => b ++ new ++ replaceN old new k a)
    cases hc : cut old s with
    | none => exact h
    | some r =>
      obtain ⟨b, a⟩ := r
      have hs := cut_some_eq old s b a hc
      have hb : ¬ p <:+: b := by
        intro hi
        apply h
        rw [hs, List.append_assoc]
        exact hi.trans (List.prefix_append _ _).isInfix
      have ha : ¬ p <:+: a := by
        intro hi
        apply h
        rw [hs]
        exact hi.trans (List.suffix_append _ _).isInfix
      exact no_infix_junction p b new _ d new1 hnew hd hsuf hb (ih a ha)

/-- After all occurrences of `old` are replaced by `new` there is none left. -/
theorem replaceN_removes (old new : Str) (d : Char) (new1 : Str) (hold : old ≠ [])
    (hnew : new = d :: new1) (hd : d ∉ old)
    (hsuf : ∀ u ∈ new.tails, u ≠ [] → old.isPrefixOf u = false ∧ u.isPrefixOf old = false) :
    ∀ (n : Nat) (s : Str), s.length ≤ n → ¬ old <:+: replaceN old new n s := by
  intro n
  induction n with
  | zero =>
    intro s hl hi
    have : s = [] := List.length_eq_zero.mp (Nat.le_zero.mp hl)
    subst this
    exact hold (List.infix_nil.mp hi)
  | succ k ih =>
    intro s hl
    show ¬ old <:+: (match cut old s with
      | none => s
      | some (b, a) => b ++ new ++ replaceN old new k a)
    cases hc : cut old s with
    | none => exact (cut_none_iff old s).mp hc
    | some r =>
      obtain ⟨b, a⟩ := r
      have hs := cut_some_eq old s b a hc
      have hb := cut_first old hold s b a hc
      have hlen : a.length ≤ k := by
        have h1 : s.length = b.length + old.length + a.length := by
          rw [hs, List.length_append, List.length_append]
        have h2 : 0 < old.length := List.length_pos.mpr hold
        omega
      exact no_infix_junction old b new _ d new1 hnew hd hsuf hb (ih a hlen)

/-! ## Absence of a text after a replacement -/

theorem replace_of_absent (s old new : Str) (n : Int) (h : ¬ old <:+: s) :
    replace s old new n = s := by
  unfold replace
  by_cases h1 : old = new ∨ n = 0
  · rw [if_pos h1]
  · rw [if_neg h1]
    by_cases h2 : n < 0
    · rw [if_pos h2, replaceN_of_absent old new _ s h]
    · rw [if_neg h2, replaceN_of_absent old new _ s h]

set_option maxRecDepth 100000 in
/-- Replacing `float` by `double precision` brings up none of the texts that
the translation looks for, and leaves no `float`. -/
theorem float_step (s : Str) :
    (¬ "CREATE TABLE".toList <:+: s →
      ¬ "CREATE TABLE".toList <:+: replaceAll s "float".toList "double precision".toList) ∧
    (¬ "int".toList <:+: s →
      ¬ "int".toList <:+: replaceAll s "float".toList "double precision".toList) ∧
    (¬ "text(".toList <:+: s →
      ¬ "text(".toList <:+: replaceAll s "float".toList "double precision".toList) ∧
    (¬ "PARTITION BY (".toList <:+: s →
      ¬ "PARTITION BY (".toList <:+: replaceAll s "float".toList "double precision".toList) ∧
    ¬ "float".toList <:+: replaceAll s "float".toList "double precision".toList := by
  have hne : "float".toList ≠ "double precision".toList := by decide
  rw [replaceAll_ne s _ _ hne]
  refine ⟨?_, ?_, ?_, ?_, ?_⟩
  · exact replaceN_keeps_absent _ _ _ 'd' "ouble precision".toList rfl (by decide) (by decide) _ s
  · exact replaceN_keeps_absent _ _ _ 'd' "ouble precision".toList rfl (by decide) (by decide) _ s
  · exact replaceN_keeps_absent _ _ _ 'd' "ouble precision".toList rfl (by decide) (by decide) _ s
  · exact replaceN_keeps_absent _ _ _ 'd' "ouble precision".toList rfl (by decide) (by decide) _ s
  · exact replaceN_removes _ _ 'd' "ouble precision".toList (by decide) rfl (by decide)
      (by decide) _ s (Nat.le_refl _)

/-! ## Binary integer parameters -/

theorem fmtInt_decimal (i : Int) : fmtInt i = decimal i := by
  cases i with
  | ofNat n => rfl
  | negSucc n => rfl

theorem foldl_bigEndian (l : Bytes) : ∀ acc : Nat,
    l.foldl (fun acc x => acc * 256 + x) acc = acc * 256 ^ l.length + beValue l := by
  induction l with
  | nil => intro acc; simp [beValue]
  | cons b rest ih =>
    intro acc
    simp only [List.foldl_cons, ih, beValue, List.length_cons]
    ring

theorem bigEndian_eq_beValue (l : Bytes) : bigEndian l = beValue l := by
  unfold bigEndian
  rw [foldl_bigEndian]
  simp

theorem beValue_lt (l : Bytes) (h : ∀ b ∈ l, b < 256) : beValue l < 256 ^ l.length := by
  induction l with
  | nil => simp [beValue]
  | cons b rest ih =>
    have hb : b < 256 := h b (List.mem_cons_self _ _)
    have hr := ih (fun x hx => h x (List.mem_cons_of_mem _ hx))
    simp only [beValue, List.length_cons]
    have hpos : 0 < 256 ^ rest.length := Nat.pow_pos (by decide)
    calc b * 256 ^ rest.length + beValue rest
        < b * 256 ^ rest.length + 256 ^ rest.length := by omega
      _ = (b + 1) * 256 ^ rest.length := by ring
      _ ≤ 256 * 256 ^ rest.length := Nat.mul_le_mul_right _ (by omega)
      _ = 256 ^ (rest.length + 1) := by ring

theorem toInt64_eq_signed64 (v : Nat) (h : v < 2 ^ 64) : toInt64 v = signed64 v := by
  unfold toInt64 signed64
  rw [Nat.mod_eq_of_lt h]
  rfl

/-- C24: a binary parameter with an Int2, Int4 or Int8 OID and a payload of 2
or 4 bytes is decoded to the decimal string of the big-endian integer that
the payload carries, a payload of 8 bytes to the decimal string of that
integer read as a signed two's-complement value; and every format code other
than 0 and 1 fails with the error `unsupported format code or data type OID`,
whatever the OID and the payload. -/
theorem parseParameter_binary_int (ff : FloatFmt) :
    (∀ (oid : Nat) (param : Bytes),
      oid = Int2OID ∨ oid = Int4OID ∨ oid = Int8OID → (∀ b ∈ param, b < 256) →
      (param.length = 2 ∨ param.length = 4 →
        parseParameter ff 1 oid param = Except.ok (decimal (beValue param))) ∧
      (param.length = 8 →
        parseParameter ff 1 oid param = Except.ok (decimal (signed64 (beValue param))))) ∧
    (∀ (code : Int) (oid : Nat) (param : Bytes), code ≠ 0 → code ≠ 1 →
      parseParameter ff code oid param = Except.error (Fault.error (unsupportedMsg code oid)) ∧
      "unsupported format code or data type OID".toList <+: unsupportedMsg code oid) := by
  refine ⟨?_, ?_⟩
  · intro oid param hoid hb
    have hnb : oid ≠ BoolOID := by
      rcases hoid with h | h | h <;> rw [h] <;> decide
    refine ⟨?_, ?_⟩
    · intro hl
      unfold parseParameter
      rcases hl with h2 | h4
      · simp [hnb, hoid, h2, bigEndian_eq_beValue, ← fmtInt_decimal, fmtInt]
      · simp [hnb, hoid, h4, bigEndian_eq_beValue, ← fmtInt_decimal, fmtInt]
    · intro h8
      have hlt : beValue param < 2 ^ 64 := by
        have := beValue_lt param hb
        rw [h8] at this
        exact this
      unfold parseParameter
      simp [hnb, hoid, h8, bigEndian_eq_beValue, ← fmtInt_decimal, toInt64_eq_signed64 _ hlt]
  · intro code oid param h0 h1
    refine ⟨?_, ?_⟩
    · unfold parseParameter
      simp [h0, h1]
    · unfold unsupportedMsg
      rw [List.append_assoc, List.append_assoc]
      exact List.prefix_append _ _

/-- C24, witness: the payloads `01 02` (258), `ff ff ff ff` (4294967295) and
eight bytes `ff` (-1), and the format code 2. -/
theorem parseParameter_binary_int_witness :
    parseParameter noFloats 1 Int2OID [1, 2] = Except.ok "258".toList ∧
    parseParameter noFloats 1 Int4OID [255, 255, 255, 255] = Except.ok "4294967295".toList ∧
    parseParameter noFloats 1 Int8OID [255, 255, 255, 255, 255, 255, 255, 255] =
      Except.ok "-1".toList ∧
    parseParameter noFloats 2 Int4OID [0, 0, 0, 1] =
      Except.error (Fault.error (unsupportedMsg 2 Int4OID)) :=
  ⟨(((parseParameter_binary_int noFloats).1 Int2OID [1, 2] (Or.inl rfl) (by decide)).1
      (Or.inl rfl)).trans (by rfl),
    (((parseParameter_binary_int noFloats).1 Int4OID [255, 255, 255, 255]
      (Or.inr (Or.inl rfl)) (by decide)).1 (Or.inr rfl)).trans (by rfl),
    (((parseParameter_binary_int noFloats).1 Int8OID [255, 255, 255, 255, 255, 255, 255, 255]
      (Or.inr (Or.inr rfl)) (by decide)).2 rfl).trans (by rfl),
    ((parseParameter_binary_int noFloats).2 2 Int4OID [0, 0, 0, 1] (by decide) (by decide)).1⟩

/-! ## Panics of `parseParameter` and `addParameters` -/

/-- C29 (the code on three inputs of the claim).  A binary Bool parameter of
zero bytes makes `parseParameter` panic at `param[0]`; a Bind that carries a
parameter and no format code makes `addParameters` panic at
`msg.ParameterFormatCodes[i]`; a Bind that carries a parameter for a statement
without parameter OIDs makes it panic at `ps.parameterOIDs[i]`. -/
theorem parseParameter_addParameters_panic (ff : FloatFmt) (ps : PreparedStatement)
    (name : Str) (code : Int) (p : Bytes) (rest : List Bytes) :
    parseParameter ff 1 BoolOID [] =
      Except.error (Fault.panic "index out of range [0] with length 0".toList) ∧
    ps.addParameters ff
        { PreparedStatement := name, ParameterFormatCodes := [], Parameters := p :: rest } =
      Except.error (Fault.panic "index out of range (ParameterFormatCodes)".toList) ∧
    ({ ps with parameterOIDs := [] } : PreparedStatement).addParameters ff
        { PreparedStatement := name, ParameterFormatCodes := [code], Parameters := p :: rest } =
      Except.error (Fault.panic "index out of range (parameterOIDs)".toList) := by
  refine ⟨?_, ?_, ?_⟩
  · unfold parseParameter
    simp
  · simp [PreparedStatement.addParameters, addParametersLoop]
  · simp [PreparedStatement.addParameters, addParametersLoop]

/-! ## The lines that `normalizeQuery` keeps -/

theorem hasPrefix_dashes (t : Str) :
    hasPrefix "--".toList t = true ↔ t = [] ∨ t = "-".toList ∨ t = "--".toList := by
  unfold hasPrefix
  rw [List.isPrefixOf_iff_prefix]
  show t <+: ['-', '-'] ↔ t = [] ∨ t = ['-'] ∨ t = ['-', '-']
  cases t with
  | nil => simp
  | cons a u =>
    cases u with
    | nil => simp [List.cons_prefix_cons]
    | cons b v =>
      cases v with
      | nil => simp [List.cons_prefix_cons]
      | cons c w => simp [List.cons_prefix_cons]

/-- C26 (the code on a comment line).  In the loop of `normalizeQuery` a line
whose trimmed form begins with `--` and goes on after it is kept: the call
`strings.HasPrefix("--", trimmed)` asks whether the trimmed line is a
beginning of `--`. -/
theorem filterLines_keeps_comment (line : Str) (rest : List Str)
    (h1 : hasPrefix (trimSpace line) "--".toList = true)
    (h2 : trimSpace line ≠ "--".toList) :
    filterLines (line :: rest) = line :: filterLines rest := by
  have hn : hasPrefix "--".toList (trimSpace line) = false := by
    by_contra hc
    have hc1 : hasPrefix "--".toList (trimSpace line) = true := by simpa using hc
    unfold hasPrefix at h1
    rcases (hasPrefix_dashes _).mp hc1 with h | h | h
    · rw [h] at h1
      exact absurd h1 (by decide)
    · rw [h] at h1
      exact absurd h1 (by decide)
    · exact h2 h
  simp only [filterLines, hn, Bool.not_false, if_true]

/-- C26, witness: the comment line of the test `Test with comment line` of the
repository, and the whole test. -/
theorem filterLines_keeps_comment_witness :
    filterLines ["-- THIS IS A COMMENT".toList] = ["-- THIS IS A COMMENT".toList] ∧
    normalizeQuery "   select * from users\n-- This is a comment".toList =
      "SELECT * FROM USERS\n-- THIS IS A COMMENT".toList :=
  ⟨filterLines_keeps_comment "-- THIS IS A COMMENT".toList [] (by rfl) (by decide), by rfl⟩

theorem filterLines_eq_filter (l : List Str) :
    filterLines l = l.filter (fun x => !droppedLine x) := by
  induction l with
  | nil => rfl
  | cons line rest ih =>
    by_cases h : hasPrefix "--".toList (trimSpace line) = true
    · have hd : droppedLine line = true := by
        unfold droppedLine
        exact decide_eq_true ((hasPrefix_dashes _).mp h)
      simp only [filterLines, h, Bool.not_true, Bool.false_eq_true, if_false, List.filter, hd, ih]
    · have hd : droppedLine line = false := by
        unfold droppedLine
        exact decide_eq_false (fun hc => h ((hasPrefix_dashes _).mpr hc))
      have h0 : hasPrefix "--".toList (trimSpace line) = false := by simpa using h
      simp only [filterLines, h0, Bool.not_false, if_true, List.filter, hd, ih]

theorem splitFuel_ne_nil (sep : Str) (n : Nat) (s : Str) :
    ∃ h t, splitFuel sep n s = h :: t := by
  cases n with
  | zero => exact ⟨s, [], rfl⟩
  | succ k =>
    cases hc : cut sep s with
    | none => exact ⟨s, [], by simp only [splitFuel, hc]⟩
    | some r => exact ⟨r.1, splitFuel sep k r.2, by simp only [splitFuel, hc]⟩

theorem join_splitFuel (sep : Str) : ∀ (n : Nat) (s : Str), join (splitFuel sep n s) sep = s := by
  intro n
  induction n with
  | zero => intro s; rfl
  | succ k ih =>
    intro s
    cases hc : cut sep s with
    | none => simp only [splitFuel, hc, join]
    | some r =>
      obtain ⟨b, a⟩ := r
      obtain ⟨h, t, ht⟩ := splitFuel_ne_nil sep k a
      have hj := ih a
      simp only [splitFuel, hc]
      rw [ht] at hj ⊢
      show b ++ sep ++ join (h :: t) sep = s
      rw [hj, cut_some_eq sep s b a hc]

theorem filter_all_kept (l : List Str) (h : ∀ x ∈ l, droppedLine x = false) :
    l.filter (fun x => !droppedLine x) = l := by
  apply List.filter_eq_self.mpr
  intro x hx
  simp [h x hx]

/-- C27 (the code on the lines of a query): `normalizeQuery` does filter
lines.  It drops the lines of the trimmed, upper-cased text whose trimmed
form is empty, `-` or `--`, the texts that are a beginning of `--`, which is
what the call `strings.HasPrefix("--", trimmed)` of the source asks for, and
keeps every other line; only a query without such lines comes out as its
trimmed, upper-cased text. -/
theorem normalizeQuery_lines (q : Str) :
    normalizeQuery q =
      join ((split (trimSpace (toUpper q)) "\n".toList).filter (fun l => !droppedLine l))
        "\n".toList ∧
    ((∀ l ∈ split (trimSpace (toUpper q)) "\n".toList, droppedLine l = false) →
      normalizeQuery q = trimSpace (toUpper q)) := by
  have h1 : normalizeQuery q =
      join ((split (trimSpace (toUpper q)) "\n".toList).filter (fun l => !droppedLine l))
        "\n".toList := by
    unfold normalizeQuery
    simp only [filterLines_eq_filter]
  refine ⟨h1, ?_⟩
  intro h
  rw [h1, filter_all_kept _ h]
  exact join_splitFuel _ _ _

/-- C27, witness: a query with an empty line between its two lines, which is
dropped, so that the result is not the trimmed, upper-cased text; and the
test `Test with comment line` of the repository, in which no line is
dropped. -/
theorem normalizeQuery_lines_witness :
    normalizeQuery "select 1\n\nfrom t".toList = "SELECT 1\nFROM T".toList ∧
    trimSpace (toUpper "select 1\n\nfrom t".toList) = "SELECT 1\n\nFROM T".toList ∧
    normalizeQuery "   select * from users\n-- This is a comment".toList =
      "SELECT * FROM USERS\n-- THIS IS A COMMENT".toList :=
  ⟨(normalizeQuery_lines "select 1\n\nfrom t".toList).1.trans (by rfl), by rfl,
    ((normalizeQuery_lines "   select * from users\n-- This is a comment".toList).2
      (by decide)).trans (by rfl)⟩

/-! ## Dropping the tables that are gone from the VDB -/

theorem sliceContains_iff (l : List Str) (item : Str) :
    sliceContains l item = true ↔ item ∈ l := by
  induction l with
  | nil => simp [sliceContains]
  | cons a rest ih =>
    by_cases h : a = item
    · simp [sliceContains, h]
    · have h1 : ¬ item = a := fun e => h e.symm
      simp [sliceContains, h, h1, ih]

theorem exec_accepts (db : SqlDB) (query : Str) (h : ∀ o ∈ db.script, o = none) :
    (db.exec query).1 = none ∧ (db.exec query).2.executed = db.executed ++ [query] ∧
    (db.exec query).2.queryIds = db.queryIds ∧ ∀ o ∈ (db.exec query).2.script, o = none := by
  unfold SqlDB.exec
  cases hs : db.script with
  | nil => simp [hs]
  | cons o rest =>
    have ho : o = none := h o (by rw [hs]; exact List.mem_cons_self _ _)
    have hr : ∀ x ∈ rest, x = none := fun x hx => h x (by rw [hs]; exact List.mem_cons_of_mem _ hx)
    subst ho
    exact ⟨rfl, rfl, rfl, hr⟩

theorem dropLoop_accepts (schema : Str) (vt : List Str) :
    ∀ (pt : List Str) (s : SchemasSynchronizator), (∀ o ∈ s.pgdb.script, o = none) →
      (dropLoop schema vt pt s).1 = none ∧
      (dropLoop schema vt pt s).2.pgdb.executed =
        s.pgdb.executed ++ (pt.filter (fun t => decide (t ∉ vt))).map (dropStatement schema) ∧
      (dropLoop schema vt pt s).2.vdb.executed = s.vdb.executed := by
  intro pt
  induction pt with
  | nil => intro s _; simp [dropLoop]
  | cons t rest ih =>
    intro s h
    by_cases hc : sliceContains vt t = true
    · have hm : t ∈ vt := (sliceContains_iff vt t).mp hc
      have := ih s h
      simp only [dropLoop, hc, Bool.not_true, Bool.false_eq_true, if_false]
      simpa [List.filter, hm] using this
    · have hm : t ∉ vt := fun e => hc ((sliceContains_iff vt t).mpr e)
      have hc0 : sliceContains vt t = false := by simpa using hc
      have he := exec_accepts s.pgdb (dropStatement schema t) h
      have hd : s.dropTablePostgres schema t =
          (none, { s with pgdb := (s.pgdb.exec (dropStatement schema t)).2 }) := by
        unfold SchemasSynchronizator.dropTablePostgres
        show (match s.pgdb.exec (dropStatement schema t) with
          | (err, db) => (err, { s with pgdb := db })) = _
        rw [← he.1]
      have := ih { s with pgdb := (s.pgdb.exec (dropStatement schema t)).2 } he.2.2.2
      simp only [dropLoop, hc0, Bool.not_false, if_true, hd]
      refine ⟨this.1, ?_, this.2.2⟩
      rw [this.2.1, he.2.1]
      simp [List.filter, hm]

/-- C25, counterexample: the VDB has no table, the PGDB the tables `a` and
`b`, and the first `DROP TABLE` fails: the run ends with that error and no
`DROP TABLE` is issued for `b`. -/
theorem deleteNonExistentTablesInPG_counterexample :
    ((listingSync [] ["a".toList, "b".toList] [some "connection lost".toList]
        ).deleteNonExistentTablesInPG "s".toList).1 = some "connection lost".toList ∧
    ((listingSync [] ["a".toList, "b".toList] [some "connection lost".toList]
        ).deleteNonExistentTablesInPG "s".toList).2.pgdb.executed =
      ["DROP TABLE IF EXISTS s.a;".toList] := by
  refine ⟨by rfl, by rfl⟩

/-- C25 (amended): for every pair of table-name lists (tables in VDB, tables
in PGDB) of a schema, when every `DROP TABLE` succeeds,
`deleteNonExistentTablesInPG` returns no error and issues a `DROP TABLE` for
exactly those PGDB tables whose name does not occur in the VDB list, in PGDB
listing order, and nothing else. -/
theorem deleteNonExistentTablesInPG_spec (s : SchemasSynchronizator) (schema : Str)
    (vt pt : List Str)
    (hv : s.listTablesInSchemaVertica schema = Except.ok vt)
    (hp : s.listTablesInSchemaPostgres schema = Except.ok pt)
    (hacc : ∀ o ∈ s.pgdb.script, o = none) :
    (s.deleteNonExistentTablesInPG schema).1 = none ∧
    (s.deleteNonExistentTablesInPG schema).2.pgdb.executed =
      s.pgdb.executed ++ (pt.filter (fun t => decide (t ∉ vt))).map (dropStatement schema) ∧
    (s.deleteNonExistentTablesInPG schema).2.vdb.executed = s.vdb.executed := by
  unfold SchemasSynchronizator.deleteNonExistentTablesInPG
  rw [hv, hp]
  exact dropLoop_accepts schema vt pt s hacc

/-- C25, witness: the test `TestDeleteNonExistentTablesInPG` of the
repository. -/
theorem deleteNonExistentTablesInPG_spec_witness :
    ((listingSync ["table1".toList, "table2".toList]
        ["table1".toList, "table2".toList, "table3".toList] []
        ).deleteNonExistentTablesInPG "test_schema".toList).1 = none ∧
    ((listingSync ["table1".toList, "table2".toList]
        ["table1".toList, "table2".toList, "table3".toList] []
        ).deleteNonExistentTablesInPG "test_schema".toList).2.pgdb.executed =
      ["DROP TABLE IF EXISTS test_schema.table3;".toList] :=
  have h := deleteNonExistentTablesInPG_spec
    (listingSync ["table1".toList, "table2".toList]
      ["table1".toList, "table2".toList, "table3".toList] [])
    "test_schema".toList ["table1".toList, "table2".toList]
    ["table1".toList, "table2".toList, "table3".toList] (by rfl) (by rfl)
    (fun o ho => absurd ho (List.not_mem_nil o))
  ⟨h.1, h.2.1.trans (by rfl)⟩

/-! ## Bind for an unknown prepared statement -/

/-- C23: when the prepared-statement map has no entry for the name that a
Bind carries, `handleBindMessage` returns with an error, the one message it
adds to the queue is the ErrorResponse with the code 26000 and the message
`prepared statement "<name>" does not exist` (so no BindComplete), and the
prepared-statement map is as before. -/
theorem handleBindMessage_unknown {ρ : Type} (env : Env ρ) (ff : FloatFmt)
    (qe : QueryExecutor ρ) (bmsg : Bind)
    (h : qe.preparedStatements.lookup bmsg.PreparedStatement = none) :
    ∃ qe1 : QueryExecutor ρ,
      qe.handleBindMessage env ff bmsg =
        Outcome.returns (qe1, some ("prepared statement \"".toList ++ bmsg.PreparedStatement ++
          "\" does not exist".toList)) ∧
      qe1.mb = qe.mb ++ [Message.ErrorResponse "ERROR".toList "26000".toList
        ("prepared statement \"".toList ++ bmsg.PreparedStatement ++
          "\" does not exist".toList)] ∧
      Message.BindComplete ∉ [Message.ErrorResponse "ERROR".toList "26000".toList
        ("prepared statement \"".toList ++ bmsg.PreparedStatement ++
          "\" does not exist".toList)] ∧
      qe1.preparedStatements = qe.preparedStatements ∧
      qe1.conn = qe.conn ∧ qe1.inbox = qe.inbox := by
  refine ⟨qe.queueMessages [Message.ErrorResponse "ERROR".toList "26000".toList
    ("prepared statement \"".toList ++ bmsg.PreparedStatement ++ "\" does not exist".toList)],
    ?_, rfl, ?_, rfl, rfl, rfl⟩
  · unfold QueryExecutor.handleBindMessage
    rw [h]
  · intro hm
    rcases List.mem_singleton.mp hm with e
    exact absurd e (by simp)

/-- C23, witness: the test `PreparedStatement does not exist` of the
repository, on a session without prepared statements. -/
theorem handleBindMessage_unknown_witness :
    ∃ qe1 : QueryExecutor Nat,
      freshSession.handleBindMessage testEnv noFloats
          { PreparedStatement := "does_not_exist".toList, ParameterFormatCodes := [],
            Parameters := [] } =
        Outcome.returns (qe1, some ("prepared statement \"".toList ++ "does_not_exist".toList ++
          "\" does not exist".toList)) ∧
      qe1.mb = [] ++ [Message.ErrorResponse "ERROR".toList "26000".toList
        ("prepared statement \"".toList ++ "does_not_exist".toList ++
          "\" does not exist".toList)] ∧
      Message.BindComplete ∉ [Message.ErrorResponse "ERROR".toList "26000".toList
        ("prepared statement \"".toList ++ "does_not_exist".toList ++
          "\" does not exist".toList)] ∧
      qe1.preparedStatements = [] ∧
      qe1.conn = {} ∧ qe1.inbox = [] :=
  handleBindMessage_unknown testEnv noFloats freshSession
    { PreparedStatement := "does_not_exist".toList, ParameterFormatCodes := [],
      Parameters := [] } rfl

/-! ## The first occurrences of `CREATE TABLE` -/

theorem cut_at (sep : Str) (hsep : sep ≠ []) (a : Str) : ∀ b : Str,
    (∀ t, t ≠ [] → t <:+ b → ¬ sep <+: t ++ (sep ++ a)) →
    cut sep (b ++ (sep ++ a)) = some (b, a) := by
  intro b
  induction b with
  | nil =>
    intro _
    cases sep with
    | nil => exact absurd rfl hsep
    | cons x xs =>
      have hp : (x :: xs).isPrefixOf (x :: (xs ++ a)) = true :=
        List.isPrefixOf_iff_prefix.mpr (List.prefix_append (x :: xs) a)
      show cut (x :: xs) (x :: (xs ++ a)) = some ([], a)
      unfold cut
      rw [if_pos hp]
      have hd : List.drop (x :: xs).length (x :: (xs ++ a)) = a :=
        List.drop_left (x :: xs) a
      rw [hd]
  | cons c b1 ih =>
    intro h
    have hp : sep.isPrefixOf (c :: (b1 ++ (sep ++ a))) = false := by
      by_contra hc
      have hc1 : sep.isPrefixOf (c :: (b1 ++ (sep ++ a))) = true := by simpa using hc
      exact h (c :: b1) (by simp) (List.suffix_refl _) (List.isPrefixOf_iff_prefix.mp hc1)
    have hrec := ih (fun t htne hts => h t htne (hts.trans (List.suffix_cons c b1)))
    show cut sep (c :: (b1 ++ (sep ++ a))) = some (c :: b1, a)
    unfold cut
    rw [hp, hrec]
    rfl

/-- The first occurrence of `sep` in `b ++ sep ++ a` is the one after `b`,
when `b` holds none and no end of `sep` is a beginning of `sep`. -/
theorem cut_at_of_absent (sep b a : Str) (hsep : sep ≠ []) (hb : ¬ sep <:+: b)
    (hbord : ∀ r ∈ sep.tails, r ≠ [] → r ≠ sep → r.isPrefixOf sep = false) :
    cut sep (b ++ (sep ++ a)) = some (b, a) := by
  apply cut_at sep hsep a b
  intro t htne hts hpre
  have h4 : t <+: t ++ (sep ++ a) := List.prefix_append t _
  rcases List.prefix_or_prefix_of_prefix hpre h4 with h5 | h5
  · exact hb (h5.isInfix.trans hts.isInfix)
  · obtain ⟨r, hr⟩ := h5
    have hpre2 : t ++ r <+: t ++ (sep ++ a) := by rw [hr]; exact hpre
    have hr1 : r <+: sep ++ a := (List.prefix_append_right_inj t).mp hpre2
    have hlen : r.length ≤ sep.length := by
      rw [← hr, List.length_append]
      omega
    have hr2 : r <+: sep := List.prefix_of_prefix_length_le hr1 (List.prefix_append sep a) hlen
    have hrs : r <:+ sep := ⟨t, hr⟩
    by_cases hrn : r = []
    · apply hb
      rw [hrn, List.append_nil] at hr
      rw [← hr]
      exact hts.isInfix
    · have hne : r ≠ sep := by
        intro e
        have hl := congrArg List.length hr
        rw [List.length_append, e] at hl
        have : 0 < t.length := List.length_pos.mpr htne
        omega
      have := hbord r ((List.mem_tails r sep).mpr hrs) hrn hne
      rw [List.isPrefixOf_iff_prefix.mpr hr2] at this
      exact absurd this (by simp)

theorem joinCapped_zero (old new : Str) : ∀ l : List Str, joinCapped old new 0 l = join l old := by
  intro l
  induction l with
  | nil => rfl
  | cons p rest ih =>
    cases rest with
    | nil => rfl
    | cons q r =>
      show p ++ old ++ joinCapped old new 0 (q :: r) = p ++ old ++ join (q :: r) old
      rw [ih]

theorem joinCapped_single (old new : Str) (n : Nat) (p : Str) :
    joinCapped old new n [p] = p := by
  cases n <;> rfl

/-- Replacing at most `n` occurrences in pieces joined by `old`. -/
theorem replaceN_pieces (old new : Str) (hold : old ≠ [])
    (hbord : ∀ r ∈ old.tails, r ≠ [] → r ≠ old → r.isPrefixOf old = false) :
    ∀ (pieces : List Str) (n : Nat), pieces ≠ [] → (∀ p ∈ pieces, ¬ old <:+: p) →
      replaceN old new n (join pieces old) = joinCapped old new n pieces := by
  intro pieces
  induction pieces with
  | nil => intro n h; exact absurd rfl h
  | cons p rest ih =>
    intro n _ hp
    cases rest with
    | nil =>
      rw [joinCapped_single]
      show replaceN old new n p = p
      exact replaceN_of_absent old new n p (hp p (List.mem_cons_self _ _))
    | cons q r =>
      cases n with
      | zero =>
        rw [joinCapped_zero]
        rfl
      | succ k =>
        have hc : cut old (p ++ (old ++ join (q :: r) old)) = some (p, join (q :: r) old) :=
          cut_at_of_absent old p _ hold (hp p (List.mem_cons_self _ _)) hbord
        have hj : join (p :: q :: r) old = p ++ (old ++ join (q :: r) old) := by
          show p ++ old ++ join (q :: r) old = _
          rw [List.append_assoc]
        rw [hj]
        show (match cut old (p ++ (old ++ join (q :: r) old)) with
          | none => p ++ (old ++ join (q :: r) old)
          | some (b, a) => b ++ new ++ replaceN old new k a) = _
        rw [hc]
        show p ++ new ++ replaceN old new k (join (q :: r) old) =
          p ++ new ++ joinCapped old new k (q :: r)
        rw [ih k (by simp) (fun x hx => hp x (List.mem_cons_of_mem _ hx))]

theorem splitFuel_pieces (sep : Str) (hsep : sep ≠ []) : ∀ (n : Nat) (s : Str), s.length ≤ n →
    ∀ p ∈ splitFuel sep n s, ¬ sep <:+: p := by
  intro n
  induction n with
  | zero =>
    intro s hl p hp hi
    have hs : s = [] := List.length_eq_zero.mp (Nat.le_zero.mp hl)
    subst hs
    have : p = [] := by simpa [splitFuel] using hp
    rw [this] at hi
    exact hsep (List.infix_nil.mp hi)
  | succ k ih =>
    intro s hl p hp
    cases hc : cut sep s with
    | none =>
      have : p = s := by simpa [splitFuel, hc] using hp
      rw [this]
      exact (cut_none_iff sep s).mp hc
    | some r =>
      obtain ⟨b, a⟩ := r
      have hs := cut_some_eq sep s b a hc
      have hlen : a.length ≤ k := by
        have h1 : s.length = b.length + sep.length + a.length := by
          rw [hs, List.length_append, List.length_append]
        have h2 : 0 < sep.length := List.length_pos.mpr hsep
        omega
      simp only [splitFuel, hc, List.mem_cons] at hp
      rcases hp with e | e
      · rw [e]
        exact cut_first sep hsep s b a hc
      · exact ih a hlen p e

/-! ## `parseSetQuery` -/

theorem trimRightFunc_append (f : Char → Bool) (a b : Str) :
    trimRightFunc f (a ++ b) =
      if trimRightFunc f b = [] then trimRightFunc f a else a ++ trimRightFunc f b := by
  unfold trimRightFunc
  rw [List.reverse_append, List.dropWhile_append]
  by_cases h : b.reverse.dropWhile f = []
  · simp [h]
  · have h1 : (b.reverse.dropWhile f).isEmpty = false := by
      cases hd : b.reverse.dropWhile f with
      | nil => exact absurd hd h
      | cons x t => rfl
    have h2 : ¬ (b.reverse.dropWhile f).reverse = [] := by
      intro e
      exact h (List.reverse_eq_nil_iff.mp e)
    rw [h1, if_neg h2]
    simp

theorem trimRightFunc_begins (f : Char → Bool) (s : Str) : trimRightFunc f s <+: s := by
  unfold trimRightFunc
  have h : s.reverse.dropWhile f <:+ s.reverse := List.dropWhile_suffix f
  have h2 := List.reverse_prefix.mpr h
  rw [List.reverse_reverse] at h2
  exact h2

theorem trimRightFunc_of_last (f : Char → Bool) (a : Str) (c : Char) (hc : f c = false) :
    trimRightFunc f (a ++ [c]) = a ++ [c] := by
  unfold trimRightFunc
  rw [List.reverse_append]
  simp [List.dropWhile, hc]

theorem trimSpace_append_space (p : Str) : trimSpace (p ++ [' ']) = trimSpace p := by
  have hsp : trimRightFunc isSpace [' '] = [] := by decide
  unfold trimSpace
  rw [List.dropWhile_append]
  by_cases h : p.dropWhile isSpace = []
  · rw [h]
    decide
  · have h1 : (p.dropWhile isSpace).isEmpty = false := by
      cases hd : p.dropWhile isSpace with
      | nil => exact absurd hd h
      | cons x t => rfl
    rw [h1]
    simp only [Bool.false_eq_true, if_false]
    rw [trimRightFunc_append, if_pos hsp]

theorem trim_cons_space (v : Str) :
    trim (trimRightFunc isSpace (' ' :: v)) " '\"".toList =
      trim (trimRightFunc isSpace v) " '\"".toList := by
  have hsp : trimRightFunc isSpace [' '] = [] := by decide
  have h := trimRightFunc_append isSpace [' '] v
  rw [hsp] at h
  have h2 : [' '] ++ v = ' ' :: v := rfl
  rw [h2] at h
  rw [h]
  by_cases hv : trimRightFunc isSpace v = []
  · rw [if_pos hv, hv]
  · rw [if_neg hv]
    unfold trim
    have hc : (" '\"".toList.contains ' ') = true := by decide
    have hd : List.dropWhile (fun c => " '\"".toList.contains c)
        ([' '] ++ trimRightFunc isSpace v) =
        List.dropWhile (fun c => " '\"".toList.contains c) (trimRightFunc isSpace v) := by
      show List.dropWhile _ (' ' :: trimRightFunc isSpace v) = _
      rw [List.dropWhile_cons]
      simp only [hc, if_true]
    rw [hd]

theorem splitFuel_of_absent (sep : Str) (n : Nat) (s : Str) (h : ¬ sep <:+: s) :
    splitFuel sep n s = [s] := by
  cases n with
  | zero => rfl
  | succ k => simp only [splitFuel, (cut_none_iff sep s).mpr h]

theorem split_two (sep b a : Str) (hsep : sep ≠ []) (hb : ¬ sep <:+: b) (ha : ¬ sep <:+: a)
    (hbord : ∀ r ∈ sep.tails, r ≠ [] → r ≠ sep → r.isPrefixOf sep = false) :
    split (b ++ (sep ++ a)) sep = [b, a] := by
  unfold split
  have hl : (b ++ (sep ++ a)).length = (b.length + sep.length + a.length - 1) + 1 := by
    have : 0 < sep.length := List.length_pos.mpr hsep
    rw [List.length_append, List.length_append]
    omega
  rw [hl]
  simp only [splitFuel, cut_at_of_absent sep b a hsep hb hbord, splitFuel_of_absent sep _ a ha]

/-- The core of `parseSetQuery` on `SET <p> <sep> <v>`, given what the loop
over the separators finds. -/
theorem parseSetQuery_form (sep0 : Str) (c : Char) (p v : Str) (hc : isSpace c = false)
    (hparts : findSetParts (p ++ ' ' :: (sep0 ++ [c] ++ trimRightFunc isSpace (' ' :: v)))
      ["TO".toList, "=".toList] = some [p ++ [' '], trimRightFunc isSpace (' ' :: v)]) :
    parseSetQuery ("SET ".toList ++ (p ++ ' ' :: (sep0 ++ [c] ++ ' ' :: v))) =
      Except.ok (trimSpace p, trim (trimRightFunc isSpace v) " '\"".toList) := by
  have hE : "SET ".toList ++ (p ++ ' ' :: (sep0 ++ [c] ++ ' ' :: v)) =
      ("SET ".toList ++ (p ++ ' ' :: sep0) ++ [c]) ++ (' ' :: v) := by
    simp [List.append_assoc]
  have hdw : List.dropWhile isSpace ("SET ".toList ++ (p ++ ' ' :: (sep0 ++ [c] ++ ' ' :: v))) =
      "SET ".toList ++ (p ++ ' ' :: (sep0 ++ [c] ++ ' ' :: v)) := by
    show List.dropWhile isSpace ('S' :: _) = _
    rw [List.dropWhile_cons]
    have : isSpace 'S' = false := by decide
    simp only [this, Bool.false_eq_true, if_false]
    rfl
  have htrim : trimSpace ("SET ".toList ++ (p ++ ' ' :: (sep0 ++ [c] ++ ' ' :: v))) =
      "SET ".toList ++ (p ++ ' ' :: (sep0 ++ [c] ++ trimRightFunc isSpace (' ' :: v))) := by
    unfold trimSpace
    rw [hdw, hE, trimRightFunc_append, trimRightFunc_of_last isSpace _ c hc]
    by_cases h : trimRightFunc isSpace (' ' :: v) = []
    · rw [if_pos h, h]
      simp [List.append_assoc]
    · rw [if_neg h]
      simp [List.append_assoc]
  have hpre : hasPrefix
      ("SET ".toList ++ (p ++ ' ' :: (sep0 ++ [c] ++ trimRightFunc isSpace (' ' :: v))))
      "SET ".toList = true := by
    unfold hasPrefix
    exact List.isPrefixOf_iff_prefix.mpr (List.prefix_append _ _)
  have htp : trimPrefix
      ("SET ".toList ++ (p ++ ' ' :: (sep0 ++ [c] ++ trimRightFunc isSpace (' ' :: v))))
      "SET ".toList = p ++ ' ' :: (sep0 ++ [c] ++ trimRightFunc isSpace (' ' :: v)) := by
    unfold trimPrefix
    rw [if_pos hpre]
    exact List.drop_left "SET ".toList _
  unfold parseSetQuery
  simp only [htrim, hpre, htp, hparts, Bool.not_true, Bool.false_eq_true, if_false]
  have h0 : [p ++ [' '], trimRightFunc isSpace (' ' :: v)].getD 0 [] = p ++ [' '] := rfl
  have h1 : [p ++ [' '], trimRightFunc isSpace (' ' :: v)].getD 1 [] =
      trimRightFunc isSpace (' ' :: v) := rfl
  rw [h0, h1, trimSpace_append_space, trim_cons_space]

theorem absent_in_trimmed_value (x : Char) (xs v : Str) (hx : x ≠ ' ')
    (hv : ¬ (x :: xs) <:+: v) : ¬ (x :: xs) <:+: trimRightFunc isSpace (' ' :: v) := by
  intro hi
  have h1 : (x :: xs) <:+: ' ' :: v := hi.trans (trimRightFunc_begins isSpace _).isInfix
  rcases List.infix_cons_iff.mp h1 with h2 | h2
  · exact hx (List.cons_prefix_cons.mp h2).1
  · exact hv h2

theorem absent_before_space (sep p : Str) (hsp : ' ' ∉ sep) (hne : sep ≠ [])
    (hp : ¬ sep <:+: p) : ¬ sep <:+: p ++ [' '] := by
  have h := no_infix_junction sep p [' '] [] ' ' [] rfl hsp ?_ hp
    (fun hi => hne (List.infix_nil.mp hi))
  · rw [List.append_nil] at h
    exact h
  · intro u hu hune
    have hu1 : u = [' '] := by
      simp only [List.tails, List.mem_cons, List.mem_singleton] at hu
      rcases hu with e | e
      · exact e
      · rcases e with e | e
        · exact absurd e hune
        · exact absurd e (List.not_mem_nil _)
    rw [hu1]
    cases sep with
    | nil => exact absurd rfl hne
    | cons y ys =>
      have hy : y ≠ ' ' := fun e => hsp (by rw [e]; exact List.mem_cons_self _ _)
      have hy2 : ¬ (' ' = y) := fun e => hy e.symm
      simp [List.isPrefixOf, hy, hy2]

/-- C22, counterexample: two layers of quotes are both removed, and
whitespace before the value other than spaces is kept. -/
theorem parseSetQuery_counterexample :
    parseSetQuery "SET search_path TO ''a''".toList =
      Except.ok ("search_path".toList, "a".toList) ∧
    parseSetQuery "SET search_path = \"'a'\"".toList =
      Except.ok ("search_path".toList, "a".toList) ∧
    parseSetQuery "SET search_path TO \tpublic".toList =
      Except.ok ("search_path".toList, "\tpublic".toList) := by
  refine ⟨by rfl, by rfl, by rfl⟩

set_option maxRecDepth 100000 in
/-- C22 (amended): for every parameter name and value, neither containing `TO`
or `=`, `parseSetQuery` on `SET p TO v` and on `SET p = v` succeeds and
returns the name with surrounding whitespace removed and the value with its
trailing whitespace removed and then every leading and trailing space,
single quote and double quote removed, whatever their number and order. -/
theorem parseSetQuery_spec (p v : Str)
    (hp1 : contains p "TO".toList = false) (hp2 : contains p "=".toList = false)
    (hv1 : contains v "TO".toList = false) (hv2 : contains v "=".toList = false) :
    parseSetQuery ("SET ".toList ++ p ++ " TO ".toList ++ v) =
      Except.ok (trimSpace p, trim (trimRightFunc isSpace v) " '\"".toList) ∧
    parseSetQuery ("SET ".toList ++ p ++ " = ".toList ++ v) =
      Except.ok (trimSpace p, trim (trimRightFunc isSpace v) " '\"".toList) := by
  have conv : ∀ s q : Str, contains s q = false → ¬ q <:+: s := by
    intro s q h hi
    rw [(contains_iff_occurs q s).mpr hi] at h
    exact absurd h (by simp)
  have hpT := conv _ _ hp1
  have hpE := conv _ _ hp2
  have hvT := conv _ _ hv1
  have hvE := conv _ _ hv2
  have hTT : ¬ "TO".toList <:+: trimRightFunc isSpace (' ' :: v) :=
    absent_in_trimmed_value 'T' ['O'] v (by decide) hvT
  have hTE : ¬ "=".toList <:+: trimRightFunc isSpace (' ' :: v) :=
    absent_in_trimmed_value '=' [] v (by decide) hvE
  have hbT : ¬ "TO".toList <:+: p ++ [' '] :=
    absent_before_space _ p (by decide) (by decide) hpT
  have hbE : ¬ "=".toList <:+: p ++ [' '] :=
    absent_before_space _ p (by decide) (by decide) hpE
  refine ⟨?_, ?_⟩
  · have hform : "SET ".toList ++ p ++ " TO ".toList ++ v =
        "SET ".toList ++ (p ++ ' ' :: (['T'] ++ ['O'] ++ ' ' :: v)) := by
      simp [List.append_assoc]
    rw [hform]
    apply parseSetQuery_form ['T'] 'O' p v (by decide)
    have hX : p ++ ' ' :: (['T'] ++ ['O'] ++ trimRightFunc isSpace (' ' :: v)) =
        (p ++ [' ']) ++ ("TO".toList ++ trimRightFunc isSpace (' ' :: v)) := by
      simp [List.append_assoc]
    rw [hX]
    have hs := split_two "TO".toList (p ++ [' ']) _ (by decide) hbT hTT (by decide)
    simp only [findSetParts, hs]
    rfl
  · have hform : "SET ".toList ++ p ++ " = ".toList ++ v =
        "SET ".toList ++ (p ++ ' ' :: ([] ++ ['='] ++ ' ' :: v)) := by
      simp [List.append_assoc]
    rw [hform]
    apply parseSetQuery_form [] '=' p v (by decide)
    have hX : p ++ ' ' :: ([] ++ ['='] ++ trimRightFunc isSpace (' ' :: v)) =
        (p ++ [' ']) ++ ("=".toList ++ trimRightFunc isSpace (' ' :: v)) := by
      simp [List.append_assoc]
    rw [hX]
    have hno : ¬ "TO".toList <:+:
        (p ++ [' ']) ++ ("=".toList ++ trimRightFunc isSpace (' ' :: v)) := by
      have h := no_infix_junction "TO".toList p " =".toList
        (trimRightFunc isSpace (' ' :: v)) ' ' ['='] rfl (by decide) (by decide) hpT hTT
      have he : p ++ " =".toList ++ trimRightFunc isSpace (' ' :: v) =
          (p ++ [' ']) ++ ("=".toList ++ trimRightFunc isSpace (' ' :: v)) := by
        simp [List.append_assoc]
      rw [he] at h
      exact h
    have hs1 : split ((p ++ [' ']) ++ ("=".toList ++ trimRightFunc isSpace (' ' :: v)))
        "TO".toList = [(p ++ [' ']) ++ ("=".toList ++ trimRightFunc isSpace (' ' :: v))] :=
      splitFuel_of_absent _ _ _ hno
    have hs2 := split_two "=".toList (p ++ [' ']) _ (by decide) hbE hTE (by decide)
    simp only [findSetParts, hs1, hs2]
    rfl

/-- C22, witness: a value in one layer of quotes, with both separators. -/
theorem parseSetQuery_spec_witness :
    parseSetQuery "SET search_path TO 'public' ".toList =
      Except.ok ("search_path".toList, "public".toList) ∧
    parseSetQuery "SET search_path = 'public' ".toList =
      Except.ok ("search_path".toList, "public".toList) :=
  have h := parseSetQuery_spec "search_path".toList "'public' ".toList (by rfl) (by rfl)
    (by rfl) (by rfl)
  ⟨h.1.trans (by rfl), h.2.trans (by rfl)⟩

/-! ## Rows in chunks -/

theorem writeRowsLoop_cons {ρ : Type} (env : Env ρ) (cols : List ColumnType) (r : ρ)
    (rest : List ρ) (qe : QueryExecutor ρ) :
    writeRowsLoop env cols (r :: rest) qe =
      match env.scanRowToText r cols with
      | Except.error e => (qe, some ("scan: ".toList ++ e))
      | Except.ok row =>
        if (qe.queueMessages [Message.DataRow row]).buffSize ≥
            (qe.queueMessages [Message.DataRow row]).maxBufferSize then
          match (qe.queueMessages [Message.DataRow row]).sendQueuedMessages env.encode with
          | (qe2, some err) => (qe2, some err)
          | (qe2, none) => writeRowsLoop env cols rest qe2
        else writeRowsLoop env cols rest (qe.queueMessages [Message.DataRow row]) := rfl

theorem writeRowsLoop_append {ρ : Type} (env : Env ρ) (cols : List ColumnType)
    (post : List ρ) : ∀ (pre : List ρ) (qe q : QueryExecutor ρ),
      writeRowsLoop env cols pre qe = (q, none) →
      writeRowsLoop env cols (pre ++ post) qe = writeRowsLoop env cols post q := by
  intro pre
  induction pre with
  | nil =>
    intro qe q h
    have : q = qe := by
      have h1 : (qe, (none : Option Str)) = (q, none) := h
      exact (Prod.mk.inj h1).1.symm
    rw [this]
    rfl
  | cons r rest ih =>
    intro qe q h
    show writeRowsLoop env cols (r :: (rest ++ post)) qe = _
    rw [writeRowsLoop_cons] at h ⊢
    cases hs : env.scanRowToText r cols with
    | error e =>
      rw [hs] at h
      simp at h
    | ok row =>
      rw [hs] at h
      simp only at h ⊢
      by_cases hfull : (qe.queueMessages [Message.DataRow row]).buffSize ≥
          (qe.queueMessages [Message.DataRow row]).maxBufferSize
      · simp only [hfull, if_true] at h ⊢
        cases hsend : (qe.queueMessages [Message.DataRow row]).sendQueuedMessages env.encode with
        | mk qe2 r2 =>
          rw [hsend] at h
          cases r2 with
          | some err => simp at h
          | none =>
            simp only at h ⊢
            exact ih qe2 q h
      · simp only [hfull, if_false] at h ⊢
        exact ih _ q h

/-- The loop of `writeRowsInChunks` from a buffer with fewer than 16
messages: every flush writes exactly 16 messages, and fewer than 16 stay. -/
theorem writeRowsLoop_chunks {ρ : Type} (env : Env ρ) (cols : List ColumnType) :
    ∀ (rows : List ρ) (qe : QueryExecutor ρ), qe.conn.accepts → qe.maxBufferSize = 16 →
      qe.mb.length < 16 →
      (∀ r ∈ rows, ∃ row, env.scanRowToText r cols = Except.ok row) →
      ∃ (qe1 : QueryExecutor ρ) (vals : List (List (Option Bytes)))
        (chunks : List (List Message)),
        writeRowsLoop env cols rows qe = (qe1, none) ∧
        List.Forall₂ (fun r row => env.scanRowToText r cols = Except.ok row) rows vals ∧
        qe1.conn.written = qe.conn.written ++ chunks.map (encodeAll env.encode) ∧
        qe.mb ++ vals.map Message.DataRow = chunks.flatten ++ qe1.mb ∧
        qe1.mb.length < 16 ∧ (∀ c ∈ chunks, c.length = 16) ∧
        qe1.conn.accepts ∧ qe1.maxBufferSize = 16 := by
  intro rows
  induction rows with
  | nil =>
    intro qe hacc hmax hlen _
    exact ⟨qe, [], [], rfl, List.Forall₂.nil, by simp, by simp, hlen,
      fun c hc => absurd hc (List.not_mem_nil _), hacc, hmax⟩
  | cons r rest ih =>
    intro qe hacc hmax hlen hscan
    obtain ⟨row, hrow⟩ := hscan r (List.mem_cons_self _ _)
    have hrest : ∀ x ∈ rest, ∃ row, env.scanRowToText x cols = Except.ok row :=
      fun x hx => hscan x (List.mem_cons_of_mem _ hx)
    have hsize : (qe.queueMessages [Message.DataRow row]).buffSize = qe.mb.length + 1 := by
      simp [QueryExecutor.buffSize, QueryExecutor.queueMessages]
    have hmax1 : (qe.queueMessages [Message.DataRow row]).maxBufferSize = 16 := hmax
    unfold writeRowsLoop
    simp only [hrow]
    by_cases hfull : (qe.queueMessages [Message.DataRow row]).buffSize ≥
        (qe.queueMessages [Message.DataRow row]).maxBufferSize
    · simp only [hfull, if_true]
      have h16 : (qe.mb ++ [Message.DataRow row]).length = 16 := by
        rw [hsize, hmax1] at hfull
        simp only [List.length_append, List.length_singleton]
        omega
      obtain ⟨c1, hs, hwr, hacc1⟩ :=
        send_accepts env.encode (qe.queueMessages [Message.DataRow row]) hacc
      rw [hs]
      simp only
      obtain ⟨qe1, vals, chunks, h1, h2, h3, h4, h5, h6, h7, h8⟩ :=
        ih { (qe.queueMessages [Message.DataRow row]) with conn := c1, mb := [] } hacc1 hmax
          (by simp) hrest
      refine ⟨qe1, row :: vals, (qe.mb ++ [Message.DataRow row]) :: chunks, h1,
        List.Forall₂.cons hrow h2, ?_, ?_, h5, ?_, h7, h8⟩
      · rw [h3]
        simp only [hwr, List.map_cons, List.append_assoc, List.singleton_append]
        rfl
      · simp only [List.nil_append] at h4
        rw [List.map_cons, List.flatten_cons, h4]
        simp [List.append_assoc]
      · intro c hc
        rcases List.mem_cons.mp hc with e | e
        · rw [e]; exact h16
        · exact h6 c e
    · simp only [hfull, if_false]
      have hlt : (qe.queueMessages [Message.DataRow row]).mb.length < 16 := by
        rw [hsize, hmax1] at hfull
        have : (qe.queueMessages [Message.DataRow row]).mb.length = qe.mb.length + 1 := hsize
        omega
      obtain ⟨qe1, vals, chunks, h1, h2, h3, h4, h5, h6, h7, h8⟩ :=
        ih (qe.queueMessages [Message.DataRow row]) hacc hmax hlt hrest
      refine ⟨qe1, row :: vals, chunks, h1, List.Forall₂.cons hrow h2, h3, ?_, h5, h6, h7, h8⟩
      rw [← h4]
      simp [QueryExecutor.queueMessages]

/-- C28, counterexample: with a row that does not scan the call ends with an
error, one DataRow left in the buffer and none written; and a buffer that
holds seventeen messages on entry is written in one flush of seventeen. -/
theorem writeRowsInChunks_counterexample :
    (freshSession.writeRowsInChunks pickyEnv (rowsOf [7, 0]) []).2 =
      some "scan: unsupported data type".toList ∧
    (freshSession.writeRowsInChunks pickyEnv (rowsOf [7, 0]) []).1.mb =
      [Message.DataRow [some [55]]] ∧
    (freshSession.writeRowsInChunks pickyEnv (rowsOf [7, 0]) []).1.conn.written = [[]] ∧
    crowdedSession.buffSize = 17 ∧
    (crowdedSession.writeRowsInChunks testEnv (rowsOf [7]) []).1.conn.written =
      [List.replicate 17 49, [68]] := by
  refine ⟨by rfl, by rfl, by rfl, by rfl, by rfl⟩

/-- C28 (amended): for every finite row iterator whose rows all scan and
which reports no error, with `maxBufferSize = 16` and a socket that accepts
every write, `writeRowsInChunks` first flushes what the buffer holds on
entry; then the writes are chunks of DataRow messages, one DataRow per row in
iterator order, each chunk but the last of exactly 16 messages and the last
of 1 to 16; at the start of every pass through the loop the buffer holds
fewer than 16 messages, so never more than 16 once the row is queued; and the
call ends without error and with an empty buffer. -/
theorem writeRowsInChunks_chunks {ρ : Type} (env : Env ρ) (qe : QueryExecutor ρ)
    (rows : Rows ρ) (cols : List ColumnType) (hmax : qe.maxBufferSize = 16)
    (hacc : qe.conn.accepts) (herr : rows.err = none)
    (hscan : ∀ r ∈ rows.rows, ∃ row, env.scanRowToText r cols = Except.ok row) :
    ∃ (qe1 : QueryExecutor ρ) (vals : List (List (Option Bytes)))
      (chunks : List (List Message)),
      qe.writeRowsInChunks env rows cols = (qe1, none) ∧ qe1.mb = [] ∧
      List.Forall₂ (fun r row => env.scanRowToText r cols = Except.ok row) rows.rows vals ∧
      qe1.conn.written =
        qe.conn.written ++ [encodeAll env.encode qe.mb] ++ chunks.map (encodeAll env.encode) ∧
      chunks.flatten = vals.map Message.DataRow ∧
      (∀ c ∈ chunks, 1 ≤ c.length ∧ c.length ≤ 16) ∧
      (∀ c ∈ chunks.dropLast, c.length = 16) ∧
      (∀ pre r post, rows.rows = pre ++ r :: post →
        ∃ (q : QueryExecutor ρ) (row : List (Option Bytes)),
          writeRowsLoop env cols pre (qe.sendQueuedMessages env.encode).1 = (q, none) ∧
          writeRowsLoop env cols rows.rows (qe.sendQueuedMessages env.encode).1 =
            writeRowsLoop env cols (r :: post) q ∧
          env.scanRowToText r cols = Except.ok row ∧
          q.buffSize < 16 ∧ (q.queueMessages [Message.DataRow row]).buffSize ≤ 16) := by
  obtain ⟨c1, hs, hwr, hacc1⟩ := send_accepts env.encode qe hacc
  have hq0 : (qe.sendQueuedMessages env.encode).1 = { qe with conn := c1, mb := [] } := by
    rw [hs]
  obtain ⟨qe2, vals, chunks, h1, h2, h3, h4, h5, h6, h7, h8⟩ :=
    writeRowsLoop_chunks env cols rows.rows { qe with conn := c1, mb := [] } hacc1 hmax
      (by simp) hscan
  have hinv : ∀ pre r post, rows.rows = pre ++ r :: post →
      ∃ (q : QueryExecutor ρ) (row : List (Option Bytes)),
        writeRowsLoop env cols pre (qe.sendQueuedMessages env.encode).1 = (q, none) ∧
        writeRowsLoop env cols rows.rows (qe.sendQueuedMessages env.encode).1 =
          writeRowsLoop env cols (r :: post) q ∧
        env.scanRowToText r cols = Except.ok row ∧
        q.buffSize < 16 ∧ (q.queueMessages [Message.DataRow row]).buffSize ≤ 16 := by
    intro pre r post hsplit
    have hpre : ∀ x ∈ pre, ∃ row, env.scanRowToText x cols = Except.ok row := by
      intro x hx
      apply hscan x
      rw [hsplit]
      exact List.mem_append_left _ hx
    obtain ⟨row, hrow⟩ := hscan r (by rw [hsplit]; simp)
    obtain ⟨q, _, _, g1, _, _, _, g5, _, _, _⟩ :=
      writeRowsLoop_chunks env cols pre { qe with conn := c1, mb := [] } hacc1 hmax
        (by simp) hpre
    rw [hq0]
    refine ⟨q, row, g1, ?_, hrow, g5, ?_⟩
    · rw [hsplit]
      exact writeRowsLoop_append env cols (r :: post) pre _ q g1
    · have : (q.queueMessages [Message.DataRow row]).buffSize = q.mb.length + 1 := by
        simp [QueryExecutor.buffSize, QueryExecutor.queueMessages]
      rw [this]
      omega
  simp only [List.nil_append] at h4
  have hcall : qe.writeRowsInChunks env rows cols =
      if qe2.buffSize > 0 then qe2.sendQueuedMessages env.encode else (qe2, none) := by
    unfold QueryExecutor.writeRowsInChunks
    rw [hs]
    simp only [herr, h1]
  by_cases hpos : qe2.buffSize > 0
  · obtain ⟨c3, hs3, hwr3, _⟩ := send_accepts env.encode qe2 h7
    refine ⟨{ qe2 with conn := c3, mb := [] }, vals, chunks ++ [qe2.mb],
      by rw [hcall, if_pos hpos, hs3], rfl, h2, ?_, ?_, ?_, ?_, hinv⟩
    · simp only [hwr3, h3, hwr, List.map_append, List.map_cons, List.map_nil, List.append_assoc]
    · rw [h4]
      simp
    · intro c hc
      rcases List.mem_append.mp hc with e | e
      · rw [h6 c e]
        exact ⟨by decide, by decide⟩
      · have e1 : c = qe2.mb := by simpa using e
        rw [e1]
        exact ⟨hpos, Nat.le_of_lt h5⟩
    · intro c hc
      rw [List.dropLast_concat] at hc
      exact h6 c hc
  · have hmb : qe2.mb = [] := by
      have : qe2.mb.length = 0 := by
        have h0 : qe2.buffSize = qe2.mb.length := rfl
        omega
      exact List.length_eq_zero.mp this
    refine ⟨qe2, vals, chunks, by rw [hcall, if_neg hpos], hmb, h2, ?_, ?_, ?_, ?_, hinv⟩
    · rw [h3, hwr]
    · rw [h4, hmb]
      simp
    · intro c hc
      rw [h6 c hc]
      exact ⟨by decide, by decide⟩
    · intro c hc
      exact h6 c (List.mem_of_mem_dropLast hc)

/-- C28, witness: seventeen rows on a session with an empty buffer: the three
writes are the empty first flush, sixteen DataRow messages, and one. -/
theorem writeRowsInChunks_chunks_witness :
    (∃ (qe1 : QueryExecutor Nat) (vals : List (List (Option Bytes)))
      (chunks : List (List Message)),
      freshSession.writeRowsInChunks testEnv (rowsOf (List.range 17)) [] = (qe1, none) ∧
      qe1.mb = [] ∧
      List.Forall₂ (fun r row => testEnv.scanRowToText r [] = Except.ok row)
        (rowsOf (List.range 17)).rows vals ∧
      qe1.conn.written =
        freshSession.conn.written ++ [encodeAll testEnv.encode freshSession.mb] ++
          chunks.map (encodeAll testEnv.encode) ∧
      chunks.flatten = vals.map Message.DataRow ∧
      (∀ c ∈ chunks, 1 ≤ c.length ∧ c.length ≤ 16) ∧
      (∀ c ∈ chunks.dropLast, c.length = 16) ∧
      (∀ pre r post, (rowsOf (List.range 17)).rows = pre ++ r :: post →
        ∃ (q : QueryExecutor Nat) (row : List (Option Bytes)),
          writeRowsLoop testEnv [] pre (freshSession.sendQueuedMessages testEnv.encode).1 =
            (q, none) ∧
          writeRowsLoop testEnv [] (rowsOf (List.range 17)).rows
              (freshSession.sendQueuedMessages testEnv.encode).1 =
            writeRowsLoop testEnv [] (r :: post) q ∧
          testEnv.scanRowToText r [] = Except.ok row ∧
          q.buffSize < 16 ∧ (q.queueMessages [Message.DataRow row]).buffSize ≤ 16)) ∧
    (freshSession.writeRowsInChunks testEnv (rowsOf (List.range 17)) []).1.conn.written =
      [[], List.replicate 16 68, [68]] :=
  ⟨writeRowsInChunks_chunks testEnv freshSession (rowsOf (List.range 17)) [] rfl
      (fun o ho => absurd ho (List.not_mem_nil o)) rfl (fun _ _ => ⟨_, rfl⟩),
    by rfl⟩

/-! ## The order of the entries of the type map -/

theorem replaceN_skip (old new : Str) (n : Nat) (c : Char) (t : Str)
    (h : old.isPrefixOf (c :: t) = false) :
    replaceN old new (n + 1) (c :: t) = c :: replaceN old new (n + 1) t := by
  show (match cut old (c :: t) with
        | none => c :: t
        | some (b, a) => b ++ new ++ replaceN old new n a) =
      c :: (match cut old t with
        | none => t
        | some (b, a) => b ++ new ++ replaceN old new n a)
  have hc : cut old (c :: t) = (cut old t).map (fun r => (c :: r.1, r.2)) := by
    simp only [cut, h, Bool.false_eq_true, if_false]
  rw [hc]
  cases cut old t with
  | none => rfl
  | some r => rfl

theorem replaceN_hit (old new : Str) (hold : old ≠ []) (n : Nat) (r : Str) :
    replaceN old new (n + 1) (old ++ r) = new ++ replaceN old new n r := by
  have hc : cut old ([] ++ (old ++ r)) = some ([], r) :=
    cut_at old hold r [] (fun t htne hts => absurd (List.suffix_nil.mp hts) htne)
  show (match cut old (old ++ r) with
        | none => old ++ r
        | some (b, a) => b ++ new ++ replaceN old new n a) = _
  rw [List.nil_append] at hc
  rw [hc]
  rfl

theorem replaceN_nil (old new : Str) (hold : old ≠ []) (n : Nat) :
    replaceN old new n [] = [] := by
  cases n with
  | zero => rfl
  | succ k =>
    have hc : cut old [] = none := by
      cases old with
      | nil => exact absurd rfl hold
      | cons x t => rfl
    show (match cut old [] with
        | none => []
        | some (b, a) => b ++ new ++ replaceN old new k a) = []
    rw [hc]

/-- Enough fuel is as good as more. -/
theorem replaceN_fuel (old new : Str) (hold : old ≠ []) :
    ∀ (k : Nat) (s : Str), s.length ≤ k → ∀ n m : Nat, s.length ≤ n → s.length ≤ m →
      replaceN old new n s = replaceN old new m s := by
  intro k
  induction k with
  | zero =>
    intro s hs n m _ _
    have : s = [] := List.length_eq_zero.mp (Nat.le_zero.mp hs)
    rw [this, replaceN_nil old new hold, replaceN_nil old new hold]
  | succ k ih =>
    intro s hs n m hn hm
    cases s with
    | nil => rw [replaceN_nil old new hold, replaceN_nil old new hold]
    | cons c t =>
      have ht : t.length ≤ k := by simpa using hs
      cases n with
      | zero => simp at hn
      | succ n1 =>
        cases m with
        | zero => simp at hm
        | succ m1 =>
          have htn : t.length ≤ n1 := by simpa using hn
          have htm : t.length ≤ m1 := by simpa using hm
          by_cases hp : old.isPrefixOf (c :: t) = true
          · obtain ⟨r, hr⟩ := List.isPrefixOf_iff_prefix.mp hp
            have hlen : r.length < (c :: t).length := by
              rw [← hr, List.length_append]
              have : 0 < old.length := List.length_pos.mpr hold
              omega
            have hx : (c :: t).length = t.length + 1 := rfl
            rw [← hr, replaceN_hit old new hold, replaceN_hit old new hold,
              ih r (by omega) n1 m1 (by omega) (by omega)]
          · have hp0 : old.isPrefixOf (c :: t) = false := Bool.eq_false_iff.mpr hp
            rw [replaceN_skip old new n1 c t hp0, replaceN_skip old new m1 c t hp0,
              ih t ht (n1 + 1) (m1 + 1) (by omega) (by omega)]

theorem replaceAll_nil (old new : Str) (hold : old ≠ []) : replaceAll [] old new = [] := by
  by_cases h : old = new
  · rw [h]; exact replaceAll_same [] new
  · rw [replaceAll_ne [] old new h]
    exact replaceN_nil old new hold _

theorem replaceAll_skip (old new : Str) (hold : old ≠ []) (hne : old ≠ new) (c : Char) (t : Str)
    (h : old.isPrefixOf (c :: t) = false) :
    replaceAll (c :: t) old new = c :: replaceAll t old new := by
  rw [replaceAll_ne _ old new hne, replaceAll_ne _ old new hne]
  show replaceN old new (t.length + 1) (c :: t) = _
  rw [replaceN_skip old new t.length c t h]
  rw [replaceN_fuel old new hold t.length t (Nat.le_refl _) (t.length + 1) t.length
    (Nat.le_succ _) (Nat.le_refl _)]

theorem replaceAll_hit (old new : Str) (hold : old ≠ []) (hne : old ≠ new) (r : Str) :
    replaceAll (old ++ r) old new = new ++ replaceAll r old new := by
  rw [replaceAll_ne _ old new hne, replaceAll_ne _ old new hne]
  have hl : (old ++ r).length = (old.length + r.length - 1) + 1 := by
    have : 0 < old.length := List.length_pos.mpr hold
    rw [List.length_append]
    omega
  rw [hl, replaceN_hit old new hold]
  rw [replaceN_fuel old new hold r.length r (Nat.le_refl _) (old.length + r.length - 1) r.length
    (by have : 0 < old.length := List.length_pos.mpr hold; omega) (Nat.le_refl _)]

/-- A block in which no occurrence of `old` begins is copied. -/
theorem replaceAll_block (old new : Str) (hold : old ≠ []) (hne : old ≠ new) (X : Str) :
    ∀ w : Str, (∀ u ∈ w.tails, u ≠ [] → old.isPrefixOf u = false ∧ u.isPrefixOf old = false) →
      replaceAll (w ++ X) old new = w ++ replaceAll X old new := by
  intro w
  induction w with
  | nil => intro _; rfl
  | cons c w1 ih =>
    intro h
    have hc := h (c :: w1) (by simp) (by simp)
    have hp : old.isPrefixOf (c :: (w1 ++ X)) = false := by
      by_contra hcon
      have h1 : old <+: (c :: w1) ++ X :=
        List.isPrefixOf_iff_prefix.mp (by simpa using hcon)
      have h2 : c :: w1 <+: (c :: w1) ++ X := List.prefix_append _ _
      rcases List.prefix_or_prefix_of_prefix h1 h2 with h3 | h3
      · have := List.isPrefixOf_iff_prefix.mpr h3
        rw [hc.1] at this
        exact absurd this (by simp)
      · have := List.isPrefixOf_iff_prefix.mpr h3
        rw [hc.2] at this
        exact absurd this (by simp)
    have hrest : ∀ u ∈ w1.tails, u ≠ [] →
        old.isPrefixOf u = false ∧ u.isPrefixOf old = false := by
      intro u hu hune
      apply h u _ hune
      rw [List.mem_tails] at hu ⊢
      exact hu.trans (List.suffix_cons c w1)
    show replaceAll (c :: (w1 ++ X)) old new = c :: (w1 ++ replaceAll X old new)
    rw [replaceAll_skip old new hold hne c _ hp, ih hrest]

/-- A text that begins the result of a replacement and does not hold the
first character of `new` begins the text that was given. -/
theorem prefix_of_replaceAll (old new : Str) (hold : old ≠ []) (hne : old ≠ new) (d : Char)
    (new1 : Str) (hnew : new = d :: new1) :
    ∀ (p t : Str), d ∉ p → p <+: replaceAll t old new → p <+: t := by
  intro p
  induction p with
  | nil => intro t _ _; exact List.nil_prefix
  | cons x p1 ih =>
    intro t hd hp
    have hxd : x ≠ d := fun e => hd (by rw [e]; exact List.mem_cons_self _ _)
    have hd1 : d ∉ p1 := fun e => hd (List.mem_cons_of_mem _ e)
    cases t with
    | nil =>
      rw [replaceAll_nil old new hold] at hp
      exact hp
    | cons c t1 =>
      by_cases hpre : old.isPrefixOf (c :: t1) = true
      · obtain ⟨r, hr⟩ := List.isPrefixOf_iff_prefix.mp hpre
        rw [← hr, replaceAll_hit old new hold hne, hnew] at hp
        exact absurd (List.cons_prefix_cons.mp hp).1 hxd
      · have hp0 : old.isPrefixOf (c :: t1) = false := Bool.eq_false_iff.mpr hpre
        rw [replaceAll_skip old new hold hne c t1 hp0] at hp
        have h1 := List.cons_prefix_cons.mp hp
        rw [h1.1]
        exact List.cons_prefix_cons.mpr ⟨rfl, ih t1 hd1 h1.2⟩

set_option maxRecDepth 100000 in
/-- The two entries of the type map that change a text can be applied in
either order. -/
theorem int_float_commute : ∀ (k : Nat) (s : Str), s.length ≤ k →
    replaceAll (replaceAll s "int".toList "bigint".toList) "float".toList
        "double precision".toList =
      replaceAll (replaceAll s "float".toList "double precision".toList) "int".toList
        "bigint".toList := by
  have hi0 : "int".toList ≠ [] := by decide
  have hf0 : "float".toList ≠ [] := by decide
  have hi1 : "int".toList ≠ "bigint".toList := by decide
  have hf1 : "float".toList ≠ "double precision".toList := by decide
  intro k
  induction k with
  | zero =>
    intro s hs
    have : s = [] := List.length_eq_zero.mp (Nat.le_zero.mp hs)
    rw [this, replaceAll_nil _ _ hi0, replaceAll_nil _ _ hf0, replaceAll_nil _ _ hi0]
  | succ k ih =>
    intro s hs
    cases s with
    | nil => rw [replaceAll_nil _ _ hi0, replaceAll_nil _ _ hf0, replaceAll_nil _ _ hi0]
    | cons c t =>
      have ht : t.length ≤ k := by simpa using hs
      by_cases hi : "int".toList.isPrefixOf (c :: t) = true
      · obtain ⟨r, hr⟩ := List.isPrefixOf_iff_prefix.mp hi
        have hlen : r.length ≤ k := by
          have h1 : (c :: t).length = "int".toList.length + r.length := by
            rw [← hr, List.length_append]
          have h2 : "int".toList.length = 3 := rfl
          have h3 : (c :: t).length = t.length + 1 := rfl
          omega
        rw [← hr, replaceAll_hit _ _ hi0 hi1,
          replaceAll_block _ _ hf0 hf1 _ "bigint".toList (by decide),
          replaceAll_block _ _ hf0 hf1 r "int".toList (by decide),
          replaceAll_hit _ _ hi0 hi1, ih r hlen]
      · have hi2 : "int".toList.isPrefixOf (c :: t) = false := Bool.eq_false_iff.mpr hi
        by_cases hf : "float".toList.isPrefixOf (c :: t) = true
        · obtain ⟨r, hr⟩ := List.isPrefixOf_iff_prefix.mp hf
          have hlen : r.length ≤ k := by
            have h1 : (c :: t).length = "float".toList.length + r.length := by
              rw [← hr, List.length_append]
            have h2 : "float".toList.length = 5 := rfl
            have h3 : (c :: t).length = t.length + 1 := rfl
            omega
          rw [← hr, replaceAll_block _ _ hi0 hi1 r "float".toList (by decide),
            replaceAll_hit _ _ hf0 hf1, replaceAll_hit _ _ hf0 hf1,
            replaceAll_block _ _ hi0 hi1 _ "double precision".toList (by decide), ih r hlen]
        · have hf2 : "float".toList.isPrefixOf (c :: t) = false := Bool.eq_false_iff.mpr hf
          have hfi : "float".toList.isPrefixOf
              (c :: replaceAll t "int".toList "bigint".toList) = false := by
            apply Bool.eq_false_iff.mpr
            intro hcon
            have h1 : "float".toList <+: replaceAll (c :: t) "int".toList "bigint".toList := by
              rw [replaceAll_skip _ _ hi0 hi1 c t hi2]
              exact List.isPrefixOf_iff_prefix.mp hcon
            have h2 := prefix_of_replaceAll _ _ hi0 hi1 'b' "igint".toList rfl _ _
              (by decide) h1
            exact hf (List.isPrefixOf_iff_prefix.mpr h2)
          have hif : "int".toList.isPrefixOf
              (c :: replaceAll t "float".toList "double precision".toList) = false := by
            apply Bool.eq_false_iff.mpr
            intro hcon
            have h1 : "int".toList <+:
                replaceAll (c :: t) "float".toList "double precision".toList := by
              rw [replaceAll_skip _ _ hf0 hf1 c t hf2]
              exact List.isPrefixOf_iff_prefix.mp hcon
            have h2 := prefix_of_replaceAll _ _ hf0 hf1 'd' "ouble precision".toList rfl _ _
              (by decide) h1
            exact hi (List.isPrefixOf_iff_prefix.mpr h2)
          rw [replaceAll_skip _ _ hi0 hi1 c t hi2, replaceAll_skip _ _ hf0 hf1 c _ hfi,
            replaceAll_skip _ _ hf0 hf1 c t hf2, replaceAll_skip _ _ hi0 hi1 c _ hif, ih t ht]

set_option maxRecDepth 100000 in
/-- The loop over the type map, the entries taken in any order: the entry
`int` and then the entry `float`, as far as the list holds them. -/
theorem typeLoop_canon : ∀ l : List (Str × Str),
    (∀ e ∈ l, e ∈ VERTICA_TO_POSTGRES_TYPE_MAPPING) → l.Nodup → ∀ s : Str,
      typeLoop l s =
        (fun x => if ("float".toList, "double precision".toList) ∈ l then
            replaceAll x "float".toList "double precision".toList else x)
          (if ("int".toList, "bigint".toList) ∈ l then
            replaceAll s "int".toList "bigint".toList else s) := by
  intro l
  induction l with
  | nil => intro _ _ s; simp [typeLoop]
  | cons e rest ih =>
    intro hmem hnd s
    have hnd2 := List.nodup_cons.mp hnd
    have hrest := ih (fun x hx => hmem x (List.mem_cons_of_mem _ hx)) hnd2.2
    have hshape : ∀ x ∈ VERTICA_TO_POSTGRES_TYPE_MAPPING,
        x = ("int".toList, "bigint".toList) ∨
        x = ("float".toList, "double precision".toList) ∨
        (x.1 = x.2 ∧ x ≠ ("int".toList, "bigint".toList) ∧
          x ≠ ("float".toList, "double precision".toList)) := by decide
    have hne : ("float".toList, "double precision".toList) ≠
        (("int".toList, "bigint".toList) : Str × Str) := by decide
    obtain ⟨a, b⟩ := e
    show typeLoop rest (replaceAll s a b) = _
    rcases hshape (a, b) (hmem _ (List.mem_cons_self _ _)) with h | h | h
    · have hnot : ("int".toList, "bigint".toList) ∉ rest := by rw [← h]; exact hnd2.1
      have h2 : a = "int".toList ∧ b = "bigint".toList := Prod.mk.inj h
      rw [hrest, h2.1, h2.2]
      simp only [hnot, hne, List.mem_cons, true_or, false_or, if_true, if_false]
    · have hnot : ("float".toList, "double precision".toList) ∉ rest := by
        rw [← h]; exact hnd2.1
      have h2 : a = "float".toList ∧ b = "double precision".toList := Prod.mk.inj h
      rw [hrest, h2.1, h2.2]
      by_cases hi : ("int".toList, "bigint".toList) ∈ rest
      · simp only [hnot, hi, if_true, if_false, List.mem_cons, true_or, or_true]
        exact (int_float_commute _ s (Nat.le_refl _)).symm
      · simp only [hnot, hi, hne.symm, if_true, if_false, List.mem_cons, true_or, false_or]
    · obtain ⟨hab, hn1, hn2⟩ := h
      have hab1 : a = b := hab
      subst hab1
      have h1 : ¬ (("int".toList, "bigint".toList) : Str × Str) = (a, a) := fun e => hn1 e.symm
      have h2 : ¬ (("float".toList, "double precision".toList) : Str × Str) = (a, a) :=
        fun e => hn2 e.symm
      rw [replaceAll_same, hrest]
      simp only [List.mem_cons, h1, h2, false_or]

set_option maxRecDepth 100000 in
/-- C30: the result of `translateCreateTableToPostgres` is the same for every
order in which the entries of the type map are applied. -/
theorem translate_order (order1 order2 : List (Str × Str))
    (h1 : order1.Perm VERTICA_TO_POSTGRES_TYPE_MAPPING)
    (h2 : order2.Perm VERTICA_TO_POSTGRES_TYPE_MAPPING) (s : Str) :
    translateCreateTableToPostgres order1 s = translateCreateTableToPostgres order2 s := by
  have key : ∀ order : List (Str × Str), order.Perm VERTICA_TO_POSTGRES_TYPE_MAPPING →
      ∀ x : Str, typeLoop order x =
        replaceAll (replaceAll x "int".toList "bigint".toList) "float".toList
          "double precision".toList := by
    intro order hperm x
    have hmem : ∀ e ∈ order, e ∈ VERTICA_TO_POSTGRES_TYPE_MAPPING :=
      fun e he => hperm.subset he
    have hnd : order.Nodup := hperm.nodup_iff.mpr (by decide)
    have hi : ("int".toList, "bigint".toList) ∈ order := hperm.mem_iff.mpr (by decide)
    have hf : ("float".toList, "double precision".toList) ∈ order :=
      hperm.mem_iff.mpr (by decide)
    rw [typeLoop_canon order hmem hnd x]
    simp only [hi, hf, if_true]
  unfold translateCreateTableToPostgres
  simp only [key order1 h1, key order2 h2]

set_option maxRecDepth 100000 in
/-- C30, witness: the entries in the order of the source text and in the
reverse order. -/
theorem translate_order_witness :
    translateCreateTableToPostgres VERTICA_TO_POSTGRES_TYPE_MAPPING
        "CREATE TABLE t (a int, b float)".toList =
      translateCreateTableToPostgres VERTICA_TO_POSTGRES_TYPE_MAPPING.reverse
        "CREATE TABLE t (a int, b float)".toList ∧
    translateCreateTableToPostgres VERTICA_TO_POSTGRES_TYPE_MAPPING.reverse
        "CREATE TABLE t (a int, b float)".toList =
      "CREATE TABLE IF NOT EXISTS t (a bigint, b double precision)".toList :=
  ⟨translate_order VERTICA_TO_POSTGRES_TYPE_MAPPING VERTICA_TO_POSTGRES_TYPE_MAPPING.reverse
      (List.Perm.refl _) (List.reverse_perm _) "CREATE TABLE t (a int, b float)".toList,
    by rfl⟩

/-! ## The expressions `replaceTextRegex` and `partitionByRegex` and their recognisers -/

/-- A lazy starred class of digits before a `)`: the digits, all of them, and
the `)`. -/
theorem starLoop_digit_lazy (k : MatchCont) : ∀ (s : Str) (fuel : Nat) (c : Caps),
    s.length ≤ fuel →
    starLoop (matchRe (Regex.chr isDigitClass)) false
        (matchRe (Regex.chr (fun c => c == ')')) k) fuel s c =
      match s.dropWhile isDigitClass with
      | x :: rest => if x = ')' then k rest c else none
      | [] => none := by
  intro s
  induction s with
  | nil =>
    intro fuel c _
    cases fuel with
    | zero => rfl
    | succ n => rfl
  | cons x t ih =>
    intro fuel c hlen
    cases fuel with
    | zero => simp at hlen
    | succ n =>
      have hl : t.length ≤ n := by simpa using hlen
      rw [starLoop_succ]
      simp only [Bool.false_eq_true, if_false, matchRe_chr_cons]
      by_cases hd : isDigitClass x = true
      · have hx : x ≠ ')' := by
          intro e
          rw [e] at hd
          exact absurd hd (by decide)
        have hx2 : (x == ')') = false := by simpa using hx
        have hdw : (x :: t).dropWhile isDigitClass = t.dropWhile isDigitClass := by
          simp [List.dropWhile, hd]
        simp only [hx2, hd, Bool.false_eq_true, if_false, if_true, List.length_cons,
          Nat.lt_succ_self, hdw]
        rw [ih n c hl]
        rfl
      · have hdw : (x :: t).dropWhile isDigitClass = x :: t := by
          simp [List.dropWhile, hd]
        simp only [hd, Bool.false_eq_true, if_false, hdw, firstOf_none_right, beq_iff_eq]

/-- At the head of a text `replaceTextRegex` matches what `textAt` describes. -/
theorem replaceTextRegex_textAt (s : Str) :
    (matchHere replaceTextRegex s = none ∧ textAt s = none) ∨
      ∃ m rest caps, matchHere replaceTextRegex s = some (rest, caps) ∧
        textAt s = some (m, rest) ∧ s = m ++ rest ∧ m ≠ [] := by
  unfold matchHere replaceTextRegex textAt
  rw [matchRe_seq, matchRe_lit]
  have hlen : "text(".toList.length = 5 := rfl
  rw [hlen]
  by_cases hp : "text(".toList.isPrefixOf s = true
  · simp only [hp, if_true]
    rw [matchRe_seq, matchRe_star, starLoop_digit_lazy _ _ _ _ (Nat.le_refl _)]
    cases hz : (s.drop 5).dropWhile isDigitClass with
    | nil => left; exact ⟨rfl, rfl⟩
    | cons x rest =>
      by_cases hx : x = ')'
      · right
        simp only [hx, if_true]
        have hsuf : rest <:+ s := by
          have h1 : x :: rest <:+ s.drop 5 := by
            rw [← hz]
            exact List.dropWhile_suffix _
          exact ((List.suffix_cons x rest).trans h1).trans (List.drop_suffix 5 s)
        have hl1 : (x :: rest).length ≤ s.length := by
          have h1 : x :: rest <:+ s := by
            have h2 : x :: rest <:+ s.drop 5 := by
              rw [← hz]
              exact List.dropWhile_suffix _
            exact h2.trans (List.drop_suffix 5 s)
          exact h1.length_le
        refine ⟨_, rest, _, rfl, rfl, take_sub_suffix s rest hsuf, ?_⟩
        intro e
        have hl3 := congrArg List.length e
        simp only [List.length_take, List.length_nil, List.length_cons] at hl3 hl1
        omega
      · left
        simp only [hx, if_false, and_self]
  · left
    simp only [hp, Bool.false_eq_true, if_false, and_self]

theorem lastParen_eq : ∀ (y m rest : Str), lastParen y = some (m, rest) →
    y = m ++ rest ∧ m ≠ [] ∧ '\n' ∉ m ∧ lastParen rest = none := by
  intro y
  induction y with
  | nil => intro m rest h; exact absurd h (by simp [lastParen])
  | cons c t ih =>
    intro m rest h
    unfold lastParen at h
    by_cases hn : c = '\n'
    · simp only [hn, if_true] at h
      exact absurd h (by simp)
    · simp only [hn, if_false] at h
      cases hl : lastParen t with
      | some r =>
        obtain ⟨m1, r1⟩ := r
        rw [hl] at h
        simp only [Option.some.injEq, Prod.mk.injEq] at h
        obtain ⟨h1, h2⟩ := h
        have := ih m1 r1 hl
        subst h1
        subst h2
        refine ⟨by rw [this.1]; rfl, by simp, ?_, this.2.2.2⟩
        intro hm
        rcases List.mem_cons.mp hm with e | e
        · exact hn e.symm
        · exact this.2.2.1 e
      | none =>
        rw [hl] at h
        by_cases hc : c = ')'
        · simp only [hc, if_true, Option.some.injEq, Prod.mk.injEq] at h
          obtain ⟨h1, h2⟩ := h
          subst h1
          subst h2
          refine ⟨by rw [hc]; rfl, by simp, by simp, hl⟩
        · simp only [hc, if_false] at h
          exact absurd h (by simp)

/-- A greedy run of characters other than the newline before a `)`: the run
up to the last `)` of the line. -/
theorem starLoop_any_paren (k : MatchCont)
    (hk : ∀ s1 c1, (k s1 c1).map Prod.fst = some s1) : ∀ (s : Str) (fuel : Nat) (c : Caps),
    s.length ≤ fuel →
    (starLoop (matchRe (Regex.chr isAnyClass)) true
        (matchRe (Regex.chr (fun c => c == ')')) k) fuel s c).map Prod.fst =
      (lastParen s).map Prod.snd := by
  intro s
  induction s with
  | nil =>
    intro fuel c _
    cases fuel with
    | zero => rfl
    | succ n => rfl
  | cons x t ih =>
    intro fuel c hlen
    cases fuel with
    | zero => simp at hlen
    | succ n =>
      have hl : t.length ≤ n := by simpa using hlen
      rw [starLoop_succ]
      simp only [if_true, matchRe_chr_cons]
      rw [map_fst_firstOf]
      unfold lastParen
      by_cases hn : x = '\n'
      · subst hn
        rfl
      · have ha : isAnyClass x = true := by
          unfold isAnyClass
          simpa using hn
        simp only [ha, hn, if_true, if_false, List.length_cons, Nat.lt_succ_self]
        rw [ih n c hl]
        cases lastParen t with
        | some r => rfl
        | none =>
          by_cases hc : x = ')'
          · simp [hc, hk]
          · simp [hc]

/-- At the head of a text `partitionByRegex` matches what `partAt` describes. -/
theorem partitionByRegex_partAt (s : Str) :
    (matchHere partitionByRegex s = none ∧ partAt s = none) ∨
      ∃ m rest caps, matchHere partitionByRegex s = some (rest, caps) ∧
        partAt s = some (m, rest) ∧ s = m ++ rest ∧ m ≠ [] := by
  have key : (matchHere partitionByRegex s).map Prod.fst =
      if "PARTITION BY (".toList.isPrefixOf s then (lastParen (s.drop 14)).map Prod.snd
      else none := by
    unfold matchHere partitionByRegex
    rw [matchRe_seq, matchRe_lit]
    have hlen : "PARTITION BY (".toList.length = 14 := rfl
    rw [hlen]
    by_cases hp : "PARTITION BY (".toList.isPrefixOf s = true
    · simp only [hp, if_true]
      rw [matchRe_seq, matchRe_star]
      exact starLoop_any_paren (fun s1 c1 => some (s1, c1)) (fun _ _ => rfl) _ _ _
        (Nat.le_refl _)
    · simp only [hp, Bool.false_eq_true, if_false, Option.map_none']
  unfold partAt
  by_cases hp : "PARTITION BY (".toList.isPrefixOf s = true
  · simp only [hp, if_true] at key ⊢
    cases hl : lastParen (s.drop 14) with
    | none =>
      rw [hl] at key
      left
      refine ⟨?_, rfl⟩
      cases hm : matchHere partitionByRegex s with
      | none => rfl
      | some r => rw [hm] at key; exact absurd key (by simp)
    | some r =>
      obtain ⟨m1, rest⟩ := r
      rw [hl] at key
      right
      cases hm : matchHere partitionByRegex s with
      | none => rw [hm] at key; exact absurd key (by simp)
      | some r2 =>
        obtain ⟨r1, caps⟩ := r2
        rw [hm] at key
        simp only [Option.map_some', Option.some.injEq] at key
        subst key
        have hy := lastParen_eq _ _ _ hl
        obtain ⟨u, hu⟩ := List.isPrefixOf_iff_prefix.mp hp
        have hd : s.drop 14 = u := by
          rw [← hu]
          exact List.drop_left "PARTITION BY (".toList u
        refine ⟨_, r1, caps, rfl, rfl, ?_, by simp⟩
        rw [List.append_assoc, ← hy.1, hd, hu]
  · simp only [hp, Bool.false_eq_true, if_false] at key ⊢
    left
    refine ⟨?_, trivial⟩
    cases hm : matchHere partitionByRegex s with
    | none => rfl
    | some r => rw [hm] at key; exact absurd key (by simp)

/-! ## Facts about the scan -/

theorem textAt_eq (s m rest : Str) (h : textAt s = some (m, rest)) :
    s = m ++ rest ∧ m ≠ [] := by
  rcases replaceTextRegex_textAt s with ⟨_, h2⟩ | ⟨m1, r1, _, _, h2, h3, h4⟩
  · rw [h2] at h; exact absurd h (by simp)
  · rw [h2] at h
    simp only [Option.some.injEq, Prod.mk.injEq] at h
    rw [← h.1, ← h.2]
    exact ⟨h3, h4⟩

theorem partAt_eq (s m rest : Str) (h : partAt s = some (m, rest)) :
    s = m ++ rest ∧ m ≠ [] := by
  rcases partitionByRegex_partAt s with ⟨_, h2⟩ | ⟨m1, r1, _, _, h2, h3, h4⟩
  · rw [h2] at h; exact absurd h (by simp)
  · rw [h2] at h
    simp only [Option.some.injEq, Prod.mk.injEq] at h
    rw [← h.1, ← h.2]
    exact ⟨h3, h4⟩

theorem shorter_of_eq (s m rest : Str) (h : s = m ++ rest ∧ m ≠ []) : rest.length < s.length := by
  rw [h.1, List.length_append]
  have := List.length_pos.mpr h.2
  omega

/-- Enough fuel is as good as more, for a recogniser that takes something. -/
theorem scanWith_fuel (recog : Recogniser) (repl : Str → Str)
    (hrec : ∀ s m rest, recog s = some (m, rest) → rest.length < s.length) :
    ∀ (k : Nat) (s : Str), s.length ≤ k → ∀ n1 n2 : Nat, s.length ≤ n1 → s.length ≤ n2 →
      scanWith recog repl n1 s = scanWith recog repl n2 s := by
  intro k
  induction k with
  | zero =>
    intro s hs n1 n2 _ _
    have : s = [] := List.length_eq_zero.mp (Nat.le_zero.mp hs)
    subst this
    cases n1 <;> cases n2 <;> rfl
  | succ k ih =>
    intro s hs n1 n2 h1 h2
    cases s with
    | nil => cases n1 <;> cases n2 <;> rfl
    | cons c t =>
      have ht : t.length ≤ k := by simpa using hs
      cases n1 with
      | zero => simp at h1
      | succ a =>
        cases n2 with
        | zero => simp at h2
        | succ b =>
          have hta : t.length ≤ a := by simpa using h1
          have htb : t.length ≤ b := by simpa using h2
          cases hr : recog (c :: t) with
          | none =>
            simp only [scanWith, hr]
            rw [ih t ht a b hta htb]
          | some q =>
            obtain ⟨m, rest⟩ := q
            have hl := hrec _ _ _ hr
            simp only [List.length_cons] at hl
            simp only [scanWith, hr]
            rw [ih rest (by omega) a b (by omega) (by omega)]

theorem scanAll_nil (recog : Recogniser) (repl : Str → Str) : scanAll recog repl [] = [] := rfl

theorem scanAll_skip (recog : Recogniser) (repl : Str → Str) (c : Char) (t : Str)
    (h : recog (c :: t) = none) :
    scanAll recog repl (c :: t) = c :: scanAll recog repl t := by
  unfold scanAll
  simp only [List.length_cons, scanWith, h]

theorem scanAll_hit (recog : Recogniser) (repl : Str → Str)
    (hrec : ∀ s m rest, recog s = some (m, rest) → rest.length < s.length)
    (s m rest : Str) (h : recog s = some (m, rest)) :
    scanAll recog repl s = repl m ++ scanAll recog repl rest := by
  have hl := hrec s m rest h
  cases s with
  | nil => simp at hl
  | cons c t =>
    unfold scanAll
    simp only [List.length_cons] at hl ⊢
    simp only [scanWith, h]
    rw [scanWith_fuel recog repl hrec rest.length rest (Nat.le_refl _) t.length rest.length
      (by omega) (Nat.le_refl _)]

/-- The scan of a text begun by a block in which nothing is found. -/
theorem scanAll_block (recog : Recogniser) (repl : Str → Str) (X : Str) : ∀ w : Str,
    (∀ u, u ≠ [] → u <:+ w → recog (u ++ X) = none) →
    scanAll recog repl (w ++ X) = w ++ scanAll recog repl X := by
  intro w
  induction w with
  | nil => intro _; rfl
  | cons c w1 ih =>
    intro h
    have h1 : recog (c :: (w1 ++ X)) = none := h (c :: w1) (by simp) (List.suffix_refl _)
    show scanAll recog repl (c :: (w1 ++ X)) = c :: (w1 ++ scanAll recog repl X)
    rw [scanAll_skip recog repl c _ h1,
      ih (fun u hne hu => h u hne (hu.trans (List.suffix_cons c w1)))]

/-- The scan of two texts put together, when what is found in the first is
found as well with the second after it, and nothing else. -/
theorem scanAll_append (recog : Recogniser) (repl : Str → Str)
    (hrec : ∀ s m rest, recog s = some (m, rest) → rest.length < s.length) (Y : Str)
    (h : ∀ u, u ≠ [] → recog (u ++ Y) = (recog u).map (fun r => (r.1, r.2 ++ Y))) :
    ∀ (k : Nat) (a : Str), a.length ≤ k →
      scanAll recog repl (a ++ Y) = scanAll recog repl a ++ scanAll recog repl Y := by
  have hrecY : ∀ s m rest, recog s = some (m, rest) → rest.length < s.length := hrec
  intro k
  induction k with
  | zero =>
    intro a ha
    have : a = [] := List.length_eq_zero.mp (Nat.le_zero.mp ha)
    subst this
    rfl
  | succ k ih =>
    intro a ha
    cases a with
    | nil => rfl
    | cons c t =>
      have ht : t.length ≤ k := by simpa using ha
      have hy := h (c :: t) (by simp)
      cases hr : recog (c :: t) with
      | none =>
        rw [hr] at hy
        have hy2 : recog (c :: (t ++ Y)) = none := hy
        show scanAll recog repl (c :: (t ++ Y)) = _
        rw [scanAll_skip recog repl c _ hy2, scanAll_skip recog repl c t hr, ih t ht]
        rfl
      | some q =>
        obtain ⟨m, rest⟩ := q
        rw [hr] at hy
        have hy2 : recog ((c :: t) ++ Y) = some (m, rest ++ Y) := hy
        have hl := hrec _ _ _ hr
        simp only [List.length_cons] at hl
        rw [scanAll_hit recog repl hrec _ m _ hy2, scanAll_hit recog repl hrec _ m rest hr,
          ih rest (by omega), List.append_assoc]

/-! ## Deleting the parts `PARTITION BY (...)` twice -/

theorem lastParen_cons (c : Char) (t : Str) :
    lastParen (c :: t) =
      if c = '\n' then none
      else
        match lastParen t with
        | some (m, rest) => some (c :: m, rest)
        | none => if c = ')' then some ([c], t) else none := rfl

theorem lastParen_cons_none (c : Char) (t : Str) :
    lastParen (c :: t) = none ↔ c = '\n' ∨ (lastParen t = none ∧ c ≠ ')') := by
  rw [lastParen_cons]
  by_cases hn : c = '\n'
  · simp [hn]
  · cases hl : lastParen t with
    | some r => simp [hn]
    | none =>
      by_cases hc : c = ')'
      · simp [hn, hc]
      · simp [hn, hc]

/-- A line without `)` stays one whatever is put after its end. -/
theorem lastParen_context (Y1 Y2 : Str) (hY : lastParen Y1 ≠ none) : ∀ z : Str,
    lastParen (z ++ Y1) = none → lastParen (z ++ Y2) = none := by
  intro z
  induction z with
  | nil => intro h; exact absurd h hY
  | cons c z1 ih =>
    intro h
    have h0 : lastParen (c :: (z1 ++ Y1)) = none := h
    show lastParen (c :: (z1 ++ Y2)) = none
    rw [lastParen_cons_none] at h0 ⊢
    rcases h0 with e | ⟨e1, e2⟩
    · exact Or.inl e
    · exact Or.inr ⟨ih e1, e2⟩

theorem lastParen_drop (Y : Str) : ∀ k : Str, '\n' ∉ k → lastParen (k ++ Y) = none →
    lastParen Y = none := by
  intro k
  induction k with
  | nil => intro _ h; exact h
  | cons c k1 ih =>
    intro hk h
    have h0 : lastParen (c :: (k1 ++ Y)) = none := h
    rw [lastParen_cons_none] at h0
    rcases h0 with e | ⟨e1, _⟩
    · exact absurd (by rw [e]; exact List.mem_cons_self _ _) hk
    · exact ih (fun hm => hk (List.mem_cons_of_mem _ hm)) e1

theorem lastParen_keep (Y : Str) (hY : lastParen Y ≠ none) : ∀ k : Str, '\n' ∉ k →
    lastParen (k ++ Y) ≠ none := by
  intro k hk h
  exact hY (lastParen_drop Y k hk h)

theorem partAt_none_iff (s : Str) :
    partAt s = none ↔
      ("PARTITION BY (".toList.isPrefixOf s = false ∨ lastParen (s.drop 14) = none) := by
  unfold partAt
  by_cases hp : "PARTITION BY (".toList.isPrefixOf s = true
  · rw [if_pos hp]
    cases hl : lastParen (s.drop 14) with
    | none => exact ⟨fun _ => Or.inr rfl, fun _ => rfl⟩
    | some r =>
      obtain ⟨m, rest⟩ := r
      constructor
      · intro h
        exact absurd h (by simp)
      · rintro (e | e)
        · rw [hp] at e
          exact absurd e (by simp)
        · exact absurd e (by simp)
  · rw [if_neg hp]
    exact ⟨fun _ => Or.inl (Bool.eq_false_iff.mpr hp), fun _ => rfl⟩

theorem partAt_some (s m rest : Str) (h : partAt s = some (m, rest)) :
    lastParen s ≠ none ∧ lastParen rest = none := by
  unfold partAt at h
  by_cases hp : "PARTITION BY (".toList.isPrefixOf s = true
  · simp only [hp, if_true] at h
    cases hl : lastParen (s.drop 14) with
    | none => rw [hl] at h; exact absurd h (by simp)
    | some r =>
      obtain ⟨m1, r1⟩ := r
      rw [hl] at h
      simp only [Option.some.injEq, Prod.mk.injEq] at h
      obtain ⟨u, hu⟩ := List.isPrefixOf_iff_prefix.mp hp
      have hd : s.drop 14 = u := by
        rw [← hu]
        exact List.drop_left "PARTITION BY (".toList u
      rw [hd] at hl
      refine ⟨?_, ?_⟩
      · rw [← hu]
        exact lastParen_keep u (by rw [hl]; simp) _ (by decide)
      · rw [← h.2]
        exact (lastParen_eq _ _ _ hl).2.2.2
  · simp only [hp, Bool.false_eq_true, if_false] at h
    exact absurd h (by simp)

/-- The scan for parts `PARTITION BY (...)` brings no `)` into a line without
one. -/
theorem scan_part_line : ∀ (n : Nat) (x : Str), lastParen x = none →
    lastParen (scanWith partAt (fun _ => []) n x) = none := by
  intro n
  induction n with
  | zero => intro x h; exact h
  | succ n ih =>
    intro x h
    cases x with
    | nil => rfl
    | cons c t =>
      cases hr : partAt (c :: t) with
      | some q =>
        obtain ⟨m, rest⟩ := q
        exact absurd h (partAt_some _ _ _ hr).1
      | none =>
        simp only [scanWith, hr]
        rw [lastParen_cons_none] at h ⊢
        rcases h with e | ⟨e1, e2⟩
        · exact Or.inl e
        · exact Or.inr ⟨ih t e1, e2⟩

theorem suffix_concat_cases (p u : Str) (c : Char) (hu : u <:+ p ++ [c]) (hne : u ≠ []) :
    ∃ v, u = v ++ [c] ∧ v <:+ p := by
  obtain ⟨w, hw⟩ := hu
  rcases List.eq_nil_or_concat u with e | ⟨v, b, e⟩
  · exact absurd e hne
  · rw [List.concat_eq_append] at e
    subst e
    have h1 : (w ++ v) ++ [b] = p ++ [c] := by rw [← hw, List.append_assoc]
    have h2 := List.append_inj' h1 rfl
    have hb : b = c := by simpa using h2.2
    exact ⟨v, by rw [hb], ⟨w, h2.1⟩⟩

/-- What stands before the text finds no part in the scanned text, if it
found none in the text. -/
theorem scan_part_context : ∀ (n : Nat) (x : Str), x.length ≤ n → ∀ p : Str,
    (∀ u, u ≠ [] → u <:+ p → partAt (u ++ x) = none) →
    ∀ u, u ≠ [] → u <:+ p → partAt (u ++ scanWith partAt (fun _ => []) n x) = none := by
  intro n
  induction n with
  | zero => intro x _ p h; exact h
  | succ n ih =>
    intro x hx p h
    cases x with
    | nil => exact h
    | cons c t =>
      have ht : t.length ≤ n := by simpa using hx
      cases hr : partAt (c :: t) with
      | none =>
        intro u hne hu
        have hstep := ih t ht (p ++ [c]) (by
          intro u1 hne1 hu1
          obtain ⟨v, hv, hvp⟩ := suffix_concat_cases p u1 c hu1 hne1
          rw [hv, List.append_assoc]
          by_cases hvn : v = []
          · rw [hvn]
            exact hr
          · exact h v hvn hvp)
        have := hstep (u ++ [c]) (by simp) (by
          obtain ⟨w, hw⟩ := hu
          exact ⟨w, by rw [← hw, List.append_assoc]⟩)
        simp only [scanWith, hr]
        rw [List.append_assoc] at this
        exact this
      | some q =>
        obtain ⟨m, rest⟩ := q
        intro u hne hu
        have hY1 := (partAt_some _ _ _ hr).1
        have hY2 : lastParen (scanWith partAt (fun _ => []) n rest) = none :=
          scan_part_line n rest (partAt_some _ _ _ hr).2
        have h0 := h u hne hu
        simp only [scanWith, hr, List.nil_append]
        rw [partAt_none_iff] at h0 ⊢
        by_cases hp : "PARTITION BY (".toList.isPrefixOf
            (u ++ scanWith partAt (fun _ => []) n rest) = true
        · right
          have hpre := List.isPrefixOf_iff_prefix.mp hp
          rcases List.prefix_or_prefix_of_prefix hpre (List.prefix_append u _) with h1 | h1
          · obtain ⟨z2, hz⟩ := h1
            have hp1 : "PARTITION BY (".toList.isPrefixOf (u ++ (c :: t)) = true := by
              rw [← hz, List.append_assoc]
              exact List.isPrefixOf_iff_prefix.mpr (List.prefix_append _ _)
            rcases h0 with e | e
            · rw [hp1] at e; exact absurd e (by simp)
            · have hd1 : (u ++ (c :: t)).drop 14 = z2 ++ (c :: t) := by
                rw [← hz, List.append_assoc]
                exact List.drop_left "PARTITION BY (".toList _
              have hd2 : (u ++ scanWith partAt (fun _ => []) n rest).drop 14 =
                  z2 ++ scanWith partAt (fun _ => []) n rest := by
                rw [← hz, List.append_assoc]
                exact List.drop_left "PARTITION BY (".toList _
              rw [hd1] at e
              rw [hd2]
              exact lastParen_context _ _ hY1 z2 e
          · obtain ⟨k, hk⟩ := h1
            have hpre2 : u ++ k <+: u ++ scanWith partAt (fun _ => []) n rest := by
              rw [hk]; exact hpre
            obtain ⟨Y3, hY3⟩ := (List.prefix_append_right_inj u).mp hpre2
            have hd2 : (u ++ scanWith partAt (fun _ => []) n rest).drop 14 = Y3 := by
              rw [← hY3, ← List.append_assoc, hk]
              exact List.drop_left "PARTITION BY (".toList _
            rw [hd2]
            have hkn : '\n' ∉ k := by
              intro hm
              have : '\n' ∈ "PARTITION BY (".toList := by
                rw [← hk]
                exact List.mem_append_right _ hm
              exact absurd this (by decide)
            rw [← hY3] at hY2
            exact lastParen_drop Y3 k hkn hY2
        · left
          exact Bool.eq_false_iff.mpr hp

/-- After the scan no part `PARTITION BY (...)` begins anywhere. -/
theorem scan_part_clean : ∀ (n : Nat) (x : Str), x.length ≤ n →
    ∀ t, t <:+ scanWith partAt (fun _ => []) n x → partAt t = none := by
  intro n
  induction n with
  | zero =>
    intro x hx t ht
    have : x = [] := List.length_eq_zero.mp (Nat.le_zero.mp hx)
    subst this
    rw [List.suffix_nil.mp ht]
    rfl
  | succ n ih =>
    intro x hx t ht
    cases x with
    | nil =>
      rw [List.suffix_nil.mp ht]
      rfl
    | cons c t0 =>
      have ht0 : t0.length ≤ n := by simpa using hx
      cases hr : partAt (c :: t0) with
      | none =>
        simp only [scanWith, hr] at ht
        rcases List.suffix_cons_iff.mp ht with e | e
        · rw [e]
          have := scan_part_context n t0 ht0 [c] (by
            intro u hne hu
            rcases List.suffix_cons_iff.mp hu with e1 | e1
            · rw [e1]; exact hr
            · exact absurd (List.suffix_nil.mp e1) hne) [c] (by simp) (List.suffix_refl _)
          exact this
        · exact ih t0 ht0 t e
      | some q =>
        obtain ⟨m, rest⟩ := q
        simp only [scanWith, hr, List.nil_append] at ht
        have hl := shorter_of_eq _ _ _ (partAt_eq _ _ _ hr)
        simp only [List.length_cons] at hl
        exact ih rest (by omega) t ht

/-- Deleting the parts `PARTITION BY (...)` of a text from which they have
been deleted changes nothing. -/
theorem partition_twice (x : Str) :
    regexReplaceAllString partitionByRegex (regexReplaceAllString partitionByRegex x []) [] =
      regexReplaceAllString partitionByRegex x [] := by
  unfold regexReplaceAllString
  rw [regexReplaceAllFunc_scan partitionByRegex partAt _ partitionByRegex_partAt,
    regexReplaceAllFunc_scan partitionByRegex partAt _ partitionByRegex_partAt]
  exact scanWith_none partAt _ _ _ (scan_part_clean x.length x (Nat.le_refl _))

/-! ## The column types of the pieces of a statement -/

set_option maxRecDepth 100000 in
/-- The loop over the type map, the entries taken in any order, replaces
`int` and then `float`. -/
theorem typeLoop_perm (order : List (Str × Str))
    (hperm : order.Perm VERTICA_TO_POSTGRES_TYPE_MAPPING) (x : Str) :
    typeLoop order x =
      replaceAll (replaceAll x "int".toList "bigint".toList) "float".toList
        "double precision".toList := by
  have hmem : ∀ e ∈ order, e ∈ VERTICA_TO_POSTGRES_TYPE_MAPPING :=
    fun e he => hperm.subset he
  have hnd : order.Nodup := hperm.nodup_iff.mpr (by decide)
  have hi : ("int".toList, "bigint".toList) ∈ order := hperm.mem_iff.mpr (by decide)
  have hf : ("float".toList, "double precision".toList) ∈ order :=
    hperm.mem_iff.mpr (by decide)
  rw [typeLoop_canon order hmem hnd x]
  simp only [hi, hf, if_true]

theorem isPrefixOf_append_head (y0 : Char) (Y1 : Str) : ∀ (u w : Str), y0 ∉ w → w ≠ [] →
    w.isPrefixOf (u ++ y0 :: Y1) = w.isPrefixOf u := by
  intro u
  induction u with
  | nil =>
    intro w hy hw
    cases w with
    | nil => exact absurd rfl hw
    | cons x w1 =>
      have hx : x ≠ y0 := fun e => hy (by rw [e]; exact List.mem_cons_self _ _)
      simp [List.isPrefixOf, hx]
  | cons c u1 ih =>
    intro w hy hw
    cases w with
    | nil => exact absurd rfl hw
    | cons x w1 =>
      cases w1 with
      | nil => simp [List.isPrefixOf]
      | cons x2 w2 =>
        have h2 := ih (x2 :: w2) (fun e => hy (List.mem_cons_of_mem _ e)) (by simp)
        show ((x == c) && (x2 :: w2).isPrefixOf (u1 ++ y0 :: Y1)) =
          ((x == c) && (x2 :: w2).isPrefixOf u1)
        rw [h2]

/-- Replacing in a text followed by one that begins with a character that
`old` does not hold: the two are replaced in apart. -/
theorem replaceAll_append_head (old new : Str) (hold : old ≠ []) (hne : old ≠ new) (y0 : Char)
    (Y1 : Str) (hy : y0 ∉ old) : ∀ (k : Nat) (a : Str), a.length ≤ k →
    replaceAll (a ++ y0 :: Y1) old new =
      replaceAll a old new ++ replaceAll (y0 :: Y1) old new := by
  intro k
  induction k with
  | zero =>
    intro a ha
    have : a = [] := List.length_eq_zero.mp (Nat.le_zero.mp ha)
    rw [this, replaceAll_nil old new hold]
    rfl
  | succ k ih =>
    intro a ha
    cases a with
    | nil =>
      rw [replaceAll_nil old new hold]
      rfl
    | cons c t =>
      have ht : t.length ≤ k := by simpa using ha
      by_cases hp : old.isPrefixOf (c :: t) = true
      · obtain ⟨r, hr⟩ := List.isPrefixOf_iff_prefix.mp hp
        have hlen : r.length ≤ k := by
          have h1 : (c :: t).length = old.length + r.length := by
            rw [← hr, List.length_append]
          have h2 : 0 < old.length := List.length_pos.mpr hold
          have h3 : (c :: t).length = t.length + 1 := rfl
          omega
        rw [← hr, List.append_assoc, replaceAll_hit old new hold hne,
          replaceAll_hit old new hold hne, ih r hlen, List.append_assoc]
      · have hp0 : old.isPrefixOf (c :: t) = false := Bool.eq_false_iff.mpr hp
        have hp1 : old.isPrefixOf (c :: (t ++ y0 :: Y1)) = false := by
          have := isPrefixOf_append_head y0 Y1 (c :: t) old hy hold
          rw [hp0] at this
          exact this
        show replaceAll (c :: (t ++ y0 :: Y1)) old new = _
        rw [replaceAll_skip old new hold hne c _ hp1, replaceAll_skip old new hold hne c t hp0,
          ih t ht]
        rfl

theorem joinCapped_cons_zero (old new p q : Str) (r : List Str) :
    joinCapped old new 0 (p :: q :: r) = p ++ (old ++ joinCapped old new 0 (q :: r)) := by
  show p ++ old ++ joinCapped old new 0 (q :: r) = _
  rw [List.append_assoc]

theorem joinCapped_cons_succ (old new p q : Str) (r : List Str) (n : Nat) :
    joinCapped old new (n + 1) (p :: q :: r) = p ++ (new ++ joinCapped old new n (q :: r)) := by
  show p ++ new ++ joinCapped old new n (q :: r) = _
  rw [List.append_assoc]

/-- A rewriting that leaves `old` and `new` in their places rewrites the
pieces. -/
theorem joinCapped_map (f : Str → Str) (old new : Str)
    (hold : ∀ a X, f (a ++ (old ++ X)) = f a ++ (old ++ f X))
    (hnew : ∀ a X, f (a ++ (new ++ X)) = f a ++ (new ++ f X)) :
    ∀ (pieces : List Str) (n : Nat), pieces ≠ [] →
      f (joinCapped old new n pieces) = joinCapped old new n (pieces.map f) := by
  intro pieces
  induction pieces with
  | nil => intro n h; exact absurd rfl h
  | cons p rest ih =>
    intro n _
    cases rest with
    | nil =>
      show f (joinCapped old new n [p]) = joinCapped old new n [f p]
      rw [joinCapped_single, joinCapped_single]
    | cons q r =>
      cases n with
      | zero =>
        show f (joinCapped old new 0 (p :: q :: r)) =
          joinCapped old new 0 (f p :: f q :: r.map f)
        rw [joinCapped_cons_zero, joinCapped_cons_zero, hold, ih 0 (by simp)]
        rfl
      | succ k =>
        show f (joinCapped old new (k + 1) (p :: q :: r)) =
          joinCapped old new (k + 1) (f p :: f q :: r.map f)
        rw [joinCapped_cons_succ, joinCapped_cons_succ, hnew, ih k (by simp)]
        rfl

set_option maxRecDepth 100000 in
/-- Replacing `int` or `float` leaves `CREATE TABLE` and
`CREATE TABLE IF NOT EXISTS` in their places. -/
theorem replaceAll_joint (old new sep : Str) (hold : old ≠ []) (hne : old ≠ new)
    (hsep : sep = "CREATE TABLE".toList ∨ sep = "CREATE TABLE IF NOT EXISTS".toList)
    (ho : old = "int".toList ∨ old = "float".toList) (a X : Str) :
    replaceAll (a ++ (sep ++ X)) old new =
      replaceAll a old new ++ (sep ++ replaceAll X old new) := by
  have hC : 'C' ∉ old := by
    rcases ho with e | e <;> rw [e] <;> decide
  have hblock : ∀ u ∈ sep.tails, u ≠ [] →
      old.isPrefixOf u = false ∧ u.isPrefixOf old = false := by
    rcases hsep with e | e <;> rcases ho with e2 | e2 <;> rw [e, e2] <;> decide
  obtain ⟨s1, hs1⟩ : ∃ s1, sep = 'C' :: s1 := by
    rcases hsep with e | e
    · exact ⟨_, e⟩
    · exact ⟨_, e⟩
  have h1 : a ++ (sep ++ X) = a ++ 'C' :: (s1 ++ X) := by rw [hs1]; rfl
  rw [h1, replaceAll_append_head old new hold hne 'C' _ hC a.length a (Nat.le_refl _)]
  have h2 : 'C' :: (s1 ++ X) = sep ++ X := by rw [hs1]; rfl
  rw [h2, replaceAll_block old new hold hne X sep hblock]

theorem textAt_shorter (s m rest : Str) (h : textAt s = some (m, rest)) :
    rest.length < s.length :=
  shorter_of_eq _ _ _ (textAt_eq s m rest h)

theorem textAt_head (c : Char) (t : Str) (hc : c ≠ 't') : textAt (c :: t) = none := by
  unfold textAt
  have hp : "text(".toList.isPrefixOf (c :: t) = false := by
    have hc2 : ('t' == c) = false := by
      apply Bool.eq_false_iff.mpr
      intro e
      exact hc (beq_iff_eq.mp e).symm
    show (('t' == c) && "ext(".toList.isPrefixOf t) = false
    rw [hc2]
    rfl
  rw [hp]
  rfl

/-- A type `text(n)` does not reach into a text that begins with `C`. -/
theorem textAt_append_head (Y1 : Str) (u : Str) :
    textAt (u ++ 'C' :: Y1) = (textAt u).map (fun r => (r.1, r.2 ++ 'C' :: Y1)) := by
  unfold textAt
  rw [isPrefixOf_append_head 'C' Y1 u "text(".toList (by decide) (by decide)]
  by_cases hp : "text(".toList.isPrefixOf u = true
  · simp only [hp, if_true]
    obtain ⟨u2, hu⟩ := List.isPrefixOf_iff_prefix.mp hp
    have hd1 : u.drop 5 = u2 := by
      rw [← hu]
      exact List.drop_left "text(".toList u2
    have hd2 : (u ++ 'C' :: Y1).drop 5 = u2 ++ 'C' :: Y1 := by
      rw [← hu, List.append_assoc]
      exact List.drop_left "text(".toList _
    rw [hd1, hd2, List.dropWhile_append]
    cases hz : u2.dropWhile isDigitClass with
    | nil =>
      have hC : isDigitClass 'C' = false := by decide
      simp only [List.isEmpty_nil, if_true, List.dropWhile_cons, hC, Bool.false_eq_true,
        if_false]
      rfl
    | cons x rest =>
      simp only [List.isEmpty_cons, Bool.false_eq_true, if_false, List.cons_append]
      by_cases hx : x = ')'
      · simp only [hx, if_true, Option.map_some', Option.some.injEq, Prod.mk.injEq, and_true]
        have hsuf : x :: rest <:+ u := by
          have h1 : x :: rest <:+ u2 := by
            rw [← hz]
            exact List.dropWhile_suffix _
          have h2 : u2 <:+ u := by
            rw [← hu]
            exact List.suffix_append _ _
          exact h1.trans h2
        have hl : rest.length < u.length := by
          have := hsuf.length_le
          simp only [List.length_cons] at this
          omega
        have e1 : (u ++ 'C' :: Y1).length - (rest ++ 'C' :: Y1).length =
            u.length - rest.length := by
          simp only [List.length_append, List.length_cons]
          omega
        rw [e1, List.take_append_of_le_length (by omega)]
      · simp only [hx, if_false, Option.map_none']
  · simp only [hp, Bool.false_eq_true, if_false, Option.map_none']

set_option maxRecDepth 100000 in
/-- Rewriting the types `text(n)` leaves `CREATE TABLE` and
`CREATE TABLE IF NOT EXISTS` in their places. -/
theorem scanText_joint (sep : Str)
    (hsep : sep = "CREATE TABLE".toList ∨ sep = "CREATE TABLE IF NOT EXISTS".toList)
    (a X : Str) :
    scanAll textAt (fun _ => "text".toList) (a ++ (sep ++ X)) =
      scanAll textAt (fun _ => "text".toList) a ++
        (sep ++ scanAll textAt (fun _ => "text".toList) X) := by
  obtain ⟨s1, hs1⟩ : ∃ s1, sep = 'C' :: s1 := by
    rcases hsep with e | e
    · exact ⟨_, e⟩
    · exact ⟨_, e⟩
  have hnot : ∀ c ∈ sep, c ≠ 't' := by
    rcases hsep with e | e <;> rw [e] <;> decide
  have h1 : a ++ (sep ++ X) = a ++ 'C' :: (s1 ++ X) := by rw [hs1]; rfl
  rw [h1, scanAll_append textAt _ textAt_shorter ('C' :: (s1 ++ X))
    (fun u _ => textAt_append_head (s1 ++ X) u) a.length a (Nat.le_refl _)]
  have h2 : 'C' :: (s1 ++ X) = sep ++ X := by rw [hs1]; rfl
  rw [h2, scanAll_block textAt _ X sep (by
    intro u hne hu
    cases u with
    | nil => exact absurd rfl hne
    | cons c u1 =>
      exact textAt_head c _ (hnot c (hu.subset (List.mem_cons_self _ _))))]

theorem regexReplaceAllString_text (x : Str) :
    regexReplaceAllString replaceTextRegex x "text".toList =
      scanAll textAt (fun _ => "text".toList) x := by
  unfold regexReplaceAllString
  exact regexReplaceAllFunc_scan replaceTextRegex textAt _ replaceTextRegex_textAt x

theorem regexReplaceAllString_partition (x : Str) :
    regexReplaceAllString partitionByRegex x [] = scanAll partAt (fun _ => []) x := by
  unfold regexReplaceAllString
  exact regexReplaceAllFunc_scan partitionByRegex partAt _ partitionByRegex_partAt x

/-- A text that begins the scanned text and holds no `t` begins the text. -/
theorem prefix_of_scanText : ∀ (p t : Str), 't' ∉ p →
    p <+: scanAll textAt (fun _ => "text".toList) t → p <+: t := by
  intro p
  induction p with
  | nil => intro t _ _; exact List.nil_prefix
  | cons x p1 ih =>
    intro t hd hp
    have hxd : x ≠ 't' := fun e => hd (by rw [e]; exact List.mem_cons_self _ _)
    have hd1 : 't' ∉ p1 := fun e => hd (List.mem_cons_of_mem _ e)
    cases t with
    | nil => exact hp
    | cons c t1 =>
      cases hr : textAt (c :: t1) with
      | some q =>
        obtain ⟨m, rest⟩ := q
        rw [scanAll_hit textAt _ textAt_shorter _ m rest hr] at hp
        exact absurd (List.cons_prefix_cons.mp hp).1 hxd
      | none =>
        rw [scanAll_skip textAt _ c t1 hr] at hp
        have h1 := List.cons_prefix_cons.mp hp
        rw [h1.1]
        exact List.cons_prefix_cons.mpr ⟨rfl, ih t1 hd1 h1.2⟩

set_option maxRecDepth 100000 in
/-- Rewriting the types `text(n)` brings up no `CREATE TABLE`. -/
theorem scanText_keeps_absent : ∀ (k : Nat) (t : Str), t.length ≤ k →
    ¬ "CREATE TABLE".toList <:+: t →
    ¬ "CREATE TABLE".toList <:+: scanAll textAt (fun _ => "text".toList) t := by
  intro k
  induction k with
  | zero =>
    intro t ht h
    have : t = [] := List.length_eq_zero.mp (Nat.le_zero.mp ht)
    rw [this] at h ⊢
    exact h
  | succ k ih =>
    intro t ht h
    cases t with
    | nil => exact h
    | cons c t1 =>
      have ht1 : t1.length ≤ k := by simpa using ht
      cases hr : textAt (c :: t1) with
      | some q =>
        obtain ⟨m, rest⟩ := q
        rw [scanAll_hit textAt _ textAt_shorter _ m rest hr]
        have he := textAt_eq _ _ _ hr
        have hl := textAt_shorter _ _ _ hr
        simp only [List.length_cons] at hl
        have hrest : ¬ "CREATE TABLE".toList <:+: rest := by
          intro hi
          apply h
          rw [he.1]
          exact hi.trans (List.suffix_append _ _).isInfix
        have := no_infix_junction "CREATE TABLE".toList [] "text".toList
          (scanAll textAt (fun _ => "text".toList) rest) 't' "ext".toList rfl (by decide)
          (by decide) (by decide) (ih rest (by omega) hrest)
        exact this
      | none =>
        rw [scanAll_skip textAt _ c t1 hr]
        intro hi
        rcases List.infix_cons_iff.mp hi with h1 | h1
        · have h2 : "CREATE TABLE".toList <+: scanAll textAt (fun _ => "text".toList) (c :: t1) := by
            rw [scanAll_skip textAt _ c t1 hr]
            exact h1
          exact h (prefix_of_scanText _ _ (by decide) h2).isInfix
        · exact ih t1 ht1 (fun hi2 => h (hi2.trans (List.suffix_cons c t1).isInfix)) h1

set_option maxRecDepth 100000 in
/-- The rewriting of the column types brings up no `CREATE TABLE`. -/
theorem columnTypes_keeps_absent (p : Str) (h : contains p "CREATE TABLE".toList = false) :
    contains (columnTypes p) "CREATE TABLE".toList = false := by
  have conv : ∀ x : Str, contains x "CREATE TABLE".toList = false ↔
      ¬ "CREATE TABLE".toList <:+: x := by
    intro x
    rw [← contains_iff_occurs]
    simp
  rw [conv] at h ⊢
  unfold columnTypes
  apply scanText_keeps_absent _ _ (Nat.le_refl _)
  apply (float_step _).1
  rw [replaceAll_ne _ _ _ (by decide)]
  exact replaceN_keeps_absent _ _ _ 'b' "igint".toList rfl (by decide) (by decide) _ p h

set_option maxRecDepth 100000 in
/-- The translation up to the deletion of the parts `PARTITION BY (...)`, on
a statement given by its pieces. -/
theorem translate_pieces (order : List (Str × Str))
    (hperm : order.Perm VERTICA_TO_POSTGRES_TYPE_MAPPING) (pieces : List Str)
    (hne : pieces ≠ []) (hp : ∀ p ∈ pieces, contains p "CREATE TABLE".toList = false) :
    translateCreateTableToPostgres order (join pieces "CREATE TABLE".toList) =
      scanAll partAt (fun _ => [])
        (joinCapped "CREATE TABLE".toList "CREATE TABLE IF NOT EXISTS".toList 15
          (pieces.map columnTypes)) := by
  have conv : ∀ p : Str, contains p "CREATE TABLE".toList = false ↔
      ¬ "CREATE TABLE".toList <:+: p := by
    intro p
    rw [← contains_iff_occurs]
    simp
  have h15 : replace (join pieces "CREATE TABLE".toList) "CREATE TABLE".toList
      "CREATE TABLE IF NOT EXISTS".toList 15 =
      joinCapped "CREATE TABLE".toList "CREATE TABLE IF NOT EXISTS".toList 15 pieces := by
    unfold replace
    have hne2 : ¬ ("CREATE TABLE".toList = "CREATE TABLE IF NOT EXISTS".toList ∨
        (15 : Int) = 0) := by decide
    rw [if_neg hne2, if_neg (by decide)]
    exact replaceN_pieces _ _ (by decide) (by decide) pieces 15 hne
      (fun p hpm => (conv p).mp (hp p hpm))
  have hi := joinCapped_map (fun x => replaceAll x "int".toList "bigint".toList)
    "CREATE TABLE".toList "CREATE TABLE IF NOT EXISTS".toList
    (fun a X => replaceAll_joint _ _ _ (by decide) (by decide) (Or.inl rfl) (Or.inl rfl) a X)
    (fun a X => replaceAll_joint _ _ _ (by decide) (by decide) (Or.inr rfl) (Or.inl rfl) a X)
    pieces 15 hne
  have hf := joinCapped_map (fun x => replaceAll x "float".toList "double precision".toList)
    "CREATE TABLE".toList "CREATE TABLE IF NOT EXISTS".toList
    (fun a X => replaceAll_joint _ _ _ (by decide) (by decide) (Or.inl rfl) (Or.inr rfl) a X)
    (fun a X => replaceAll_joint _ _ _ (by decide) (by decide) (Or.inr rfl) (Or.inr rfl) a X)
    (pieces.map (fun x => replaceAll x "int".toList "bigint".toList)) 15 (by simpa using hne)
  have ht := joinCapped_map (fun x => scanAll textAt (fun _ => "text".toList) x)
    "CREATE TABLE".toList "CREATE TABLE IF NOT EXISTS".toList
    (fun a X => scanText_joint _ (Or.inl rfl) a X)
    (fun a X => scanText_joint _ (Or.inr rfl) a X)
    ((pieces.map (fun x => replaceAll x "int".toList "bigint".toList)).map
      (fun x => replaceAll x "float".toList "double precision".toList)) 15
    (by simpa using hne)
  have hmap : ((pieces.map (fun x => replaceAll x "int".toList "bigint".toList)).map
      (fun x => replaceAll x "float".toList "double precision".toList)).map
      (fun x => scanAll textAt (fun _ => "text".toList) x) = pieces.map columnTypes := by
    rw [List.map_map, List.map_map]
    rfl
  unfold translateCreateTableToPostgres
  simp only [h15, typeLoop_perm order hperm, regexReplaceAllString_text,
    regexReplaceAllString_partition]
  simp only at hi hf ht
  rw [hi, hf, ht, hmap]

/-! ## Translating a statement twice -/

theorem regexReplaceAllString_of_none (r : Regex) (s repl : Str) (h : findFirst r s = none) :
    regexReplaceAllString r s repl = s := by
  unfold regexReplaceAllString regexReplaceAllFunc
  cases s.length with
  | zero => rfl
  | succ k =>
    show (match findFirst r s with
      | none => s
      | some (pre, m, rest, _) => pre ++ repl ++ regexReplaceFuel _ _ k rest) = s
    rw [h]

set_option maxRecDepth 100000 in
/-- C19, counterexample: four statements without `CREATE TABLE` that the
second translation changes again. -/
theorem translate_twice_counterexample :
    contains "ALTER TABLE t ADD COLUMN a int".toList "CREATE TABLE".toList = false ∧
    translateCreateTableToPostgres VERTICA_TO_POSTGRES_TYPE_MAPPING
      "ALTER TABLE t ADD COLUMN a int".toList = "ALTER TABLE t ADD COLUMN a bigint".toList ∧
    translateCreateTableToPostgres VERTICA_TO_POSTGRES_TYPE_MAPPING
      "ALTER TABLE t ADD COLUMN a bigint".toList =
      "ALTER TABLE t ADD COLUMN a bigbigint".toList ∧
    contains "ALTER TABLE t ADD COLUMN a text(2)(1)".toList "CREATE TABLE".toList = false ∧
    translateCreateTableToPostgres VERTICA_TO_POSTGRES_TYPE_MAPPING
      "ALTER TABLE t ADD COLUMN a text(2)(1)".toList =
      "ALTER TABLE t ADD COLUMN a text(1)".toList ∧
    translateCreateTableToPostgres VERTICA_TO_POSTGRES_TYPE_MAPPING
      "ALTER TABLE t ADD COLUMN a text(1)".toList = "ALTER TABLE t ADD COLUMN a text".toList ∧
    contains "CREATE PARTITION BY (x)TABLE t".toList "CREATE TABLE".toList = false ∧
    translateCreateTableToPostgres VERTICA_TO_POSTGRES_TYPE_MAPPING
      "CREATE PARTITION BY (x)TABLE t".toList = "CREATE TABLE t".toList ∧
    translateCreateTableToPostgres VERTICA_TO_POSTGRES_TYPE_MAPPING
      "CREATE TABLE t".toList = "CREATE TABLE IF NOT EXISTS t".toList ∧
    contains "ALTER TABLE t ADD COLUMN a floPARTITION BY (x)at".toList
      "CREATE TABLE".toList = false ∧
    translateCreateTableToPostgres VERTICA_TO_POSTGRES_TYPE_MAPPING
      "ALTER TABLE t ADD COLUMN a floPARTITION BY (x)at".toList =
      "ALTER TABLE t ADD COLUMN a float".toList ∧
    translateCreateTableToPostgres VERTICA_TO_POSTGRES_TYPE_MAPPING
      "ALTER TABLE t ADD COLUMN a float".toList =
      "ALTER TABLE t ADD COLUMN a double precision".toList := by
  refine ⟨by rfl, by rfl, by rfl, by rfl, by rfl, by rfl, by rfl, by rfl, by rfl, by rfl,
    by rfl, by rfl⟩

set_option maxRecDepth 100000 in
/-- C19 (amended): for every statement that contains no occurrence of
`CREATE TABLE` and whose translation holds no occurrence of `CREATE TABLE`, of
`int` and of `float` and no type `text(n)` (`text(`, digits or none, `)`), and
whatever the orders in which the two runs take the entries of the type map,
translating the statement twice gives the same text as translating it once.
The parts `PARTITION BY (...)` need no premise: none is left in a
translation. -/
theorem translate_twice (order1 order2 : List (Str × Str))
    (_h1 : order1.Perm VERTICA_TO_POSTGRES_TYPE_MAPPING)
    (h2 : order2.Perm VERTICA_TO_POSTGRES_TYPE_MAPPING) (s : Str)
    (_hc : contains s "CREATE TABLE".toList = false)
    (hC : contains (translateCreateTableToPostgres order1 s) "CREATE TABLE".toList = false)
    (hI : contains (translateCreateTableToPostgres order1 s) "int".toList = false)
    (hF : contains (translateCreateTableToPostgres order1 s) "float".toList = false)
    (hT : ∀ z ∈ (translateCreateTableToPostgres order1 s).tails, textAt z = none) :
    translateCreateTableToPostgres order2 (translateCreateTableToPostgres order1 s) =
      translateCreateTableToPostgres order1 s := by
  have conv : ∀ x p : Str, contains x p = false → ¬ p <:+: x := by
    intro x p h hi
    rw [(contains_iff_occurs p x).mpr hi] at h
    exact absurd h (by simp)
  have hpart : ∃ x, translateCreateTableToPostgres order1 s =
      regexReplaceAllString partitionByRegex x [] := ⟨_, rfl⟩
  obtain ⟨x, hx⟩ := hpart
  generalize translateCreateTableToPostgres order1 s = t at hC hI hF hT hx ⊢
  have e1 : replace t "CREATE TABLE".toList "CREATE TABLE IF NOT EXISTS".toList 15 = t :=
    replace_of_absent t _ _ 15 (conv _ _ hC)
  have e2 : typeLoop order2 t = t := by
    rw [typeLoop_perm order2 h2, replaceAll_of_absent _ _ _ (conv _ _ hI),
      replaceAll_of_absent _ _ _ (conv _ _ hF)]
  have e3 : regexReplaceAllString replaceTextRegex t "text".toList = t := by
    rw [regexReplaceAllString_text]
    exact scanAll_none textAt _ t hT
  have e4 : regexReplaceAllString partitionByRegex t [] = t := by
    rw [hx]
    exact partition_twice x
  unfold translateCreateTableToPostgres
  simp only [e1, e2, e3, e4]

set_option maxRecDepth 100000 in
/-- C19, witness: a statement with a column of the type `text(10)`, one of
the type `float` and a part `PARTITION BY (a)`, the entries taken in the order
of the source text and in the reverse order. -/
theorem translate_twice_witness :
    translateCreateTableToPostgres VERTICA_TO_POSTGRES_TYPE_MAPPING
      "ALTER TABLE t ADD COLUMN a text(10), b float PARTITION BY (a)".toList =
      "ALTER TABLE t ADD COLUMN a text, b double precision ".toList ∧
    translateCreateTableToPostgres VERTICA_TO_POSTGRES_TYPE_MAPPING.reverse
      (translateCreateTableToPostgres VERTICA_TO_POSTGRES_TYPE_MAPPING
        "ALTER TABLE t ADD COLUMN a text(10), b float PARTITION BY (a)".toList) =
      translateCreateTableToPostgres VERTICA_TO_POSTGRES_TYPE_MAPPING
        "ALTER TABLE t ADD COLUMN a text(10), b float PARTITION BY (a)".toList :=
  ⟨by rfl, translate_twice VERTICA_TO_POSTGRES_TYPE_MAPPING
    VERTICA_TO_POSTGRES_TYPE_MAPPING.reverse
    (List.Perm.refl _) (List.reverse_perm _)
    "ALTER TABLE t ADD COLUMN a text(10), b float PARTITION BY (a)".toList
    (by rfl) (by rfl) (by rfl) (by rfl) (by decide)⟩

/-! ## The first occurrences of `CREATE TABLE` in the result -/

set_option maxRecDepth 100000 in
/-- C21, counterexample: the statement holds `CREATE TABLE` twice; the second
occurrence stands after `PARTITION BY (` and before the last `)` of the line,
and is deleted with this part: in the result it is neither replaced nor
left. -/
theorem translate_create_table_counterexample :
    occurrences "CREATE TABLE".toList
      "CREATE TABLE a (x date) PARTITION BY (x); CREATE TABLE b (y date);".toList = 2 ∧
    translateCreateTableToPostgres VERTICA_TO_POSTGRES_TYPE_MAPPING
        "CREATE TABLE a (x date) PARTITION BY (x); CREATE TABLE b (y date);".toList =
      "CREATE TABLE IF NOT EXISTS a (x date) ;".toList ∧
    occurrences "CREATE TABLE".toList "CREATE TABLE IF NOT EXISTS a (x date) ;".toList = 1 := by
  refine ⟨by rfl, by rfl, by rfl⟩

set_option maxRecDepth 100000 in
/-- C21 (amended): `translateCreateTableToPostgres` replaces the first 15
occurrences of `CREATE TABLE`, from left to right, by
`CREATE TABLE IF NOT EXISTS` and leaves the 16th and the later ones as they
are, in the text from which it then deletes the parts `PARTITION BY (...)`.
For a statement given as the pieces between its occurrences of `CREATE TABLE`
(every statement is given so), the result is the scan that deletes each part
`PARTITION BY (` ... `)`, up to the last `)` of the line, in the pieces with
their column types rewritten, which hold no `CREATE TABLE`, put together again
with `CREATE TABLE IF NOT EXISTS` in the first 15 places and `CREATE TABLE` in
the others; where the scan finds no such part, the result is this text. -/
theorem translate_create_table (order : List (Str × Str))
    (hperm : order.Perm VERTICA_TO_POSTGRES_TYPE_MAPPING) :
    (∀ pieces : List Str, pieces ≠ [] →
      (∀ p ∈ pieces, contains p "CREATE TABLE".toList = false) →
      translateCreateTableToPostgres order (join pieces "CREATE TABLE".toList) =
        scanAll partAt (fun _ => [])
          (joinCapped "CREATE TABLE".toList "CREATE TABLE IF NOT EXISTS".toList 15
            (pieces.map columnTypes)) ∧
      (∀ p ∈ pieces.map columnTypes, contains p "CREATE TABLE".toList = false) ∧
      ((∀ t ∈ (joinCapped "CREATE TABLE".toList "CREATE TABLE IF NOT EXISTS".toList 15
            (pieces.map columnTypes)).tails, partAt t = none) →
        translateCreateTableToPostgres order (join pieces "CREATE TABLE".toList) =
          joinCapped "CREATE TABLE".toList "CREATE TABLE IF NOT EXISTS".toList 15
            (pieces.map columnTypes))) ∧
    (∀ s : Str, ∃ pieces : List Str, pieces ≠ [] ∧
      (∀ p ∈ pieces, contains p "CREATE TABLE".toList = false) ∧
      join pieces "CREATE TABLE".toList = s) := by
  have conv : ∀ p : Str, contains p "CREATE TABLE".toList = false ↔
      ¬ "CREATE TABLE".toList <:+: p := by
    intro p
    rw [← contains_iff_occurs]
    simp
  refine ⟨?_, ?_⟩
  · intro pieces hne hp
    have h1 := translate_pieces order hperm pieces hne hp
    refine ⟨h1, ?_, ?_⟩
    · intro p hpm
      obtain ⟨p0, hp0, e⟩ := List.mem_map.mp hpm
      rw [← e]
      exact columnTypes_keeps_absent p0 (hp p0 hp0)
    · intro h
      rw [h1]
      exact scanAll_none partAt _ _ h
  · intro s
    obtain ⟨h, t, ht⟩ := splitFuel_ne_nil "CREATE TABLE".toList s.length s
    refine ⟨split s "CREATE TABLE".toList, ?_, ?_, join_splitFuel _ _ _⟩
    · unfold split
      rw [ht]
      simp
    · intro p hp
      exact (conv p).mpr (splitFuel_pieces _ (by decide) s.length s (Nat.le_refl _) p hp)

set_option maxRecDepth 100000 in
/-- C21, witness: a statement with two occurrences, one with seventeen, of
which the last two stay, and one with a part `PARTITION BY (x)` at the end of
its line. -/
theorem translate_create_table_witness :
    translateCreateTableToPostgres VERTICA_TO_POSTGRES_TYPE_MAPPING
        "CREATE TABLE a (x date);CREATE TABLE b (y date);".toList =
      "CREATE TABLE IF NOT EXISTS a (x date);CREATE TABLE IF NOT EXISTS b (y date);".toList ∧
    translateCreateTableToPostgres VERTICA_TO_POSTGRES_TYPE_MAPPING
        (join ([] :: List.replicate 17 " t;".toList) "CREATE TABLE".toList) =
      join (List.replicate 15 "CREATE TABLE IF NOT EXISTS t;".toList ++
        List.replicate 2 "CREATE TABLE t;".toList) [] ∧
    translateCreateTableToPostgres VERTICA_TO_POSTGRES_TYPE_MAPPING
        "CREATE TABLE a (x int) PARTITION BY (x)\nCREATE TABLE b (y float)".toList =
      "CREATE TABLE IF NOT EXISTS a (x bigint) \nCREATE TABLE IF NOT EXISTS b (y double precision)".toList :=
  ⟨(((translate_create_table VERTICA_TO_POSTGRES_TYPE_MAPPING (List.Perm.refl _)).1
      [[], " a (x date);".toList, " b (y date);".toList] (by simp) (by decide)).2.2
        (by decide)).trans (by rfl),
    (((translate_create_table VERTICA_TO_POSTGRES_TYPE_MAPPING (List.Perm.refl _)).1
      ([] :: List.replicate 17 " t;".toList) (by simp) (by decide)).2.2
        (by decide)).trans (by rfl),
    ((translate_create_table VERTICA_TO_POSTGRES_TYPE_MAPPING (List.Perm.refl _)).1
      [[], " a (x int) PARTITION BY (x)\n".toList, " b (y float)".toList] (by simp)
        (by decide)).1.trans (by rfl)⟩

end PgVertica
